import Mathlib

/-! SubdomainRouter (src/modules/helpers/helperSubdomainRouter.js)

A shallow embedding of the router of BienUtils: the properties parser
(`#parseProperties`), the configuration loader (`#loadConfig`, `init`),
the host splitter (`#domainSplit`) and `navigate`.  The later sections
embed `BienUtils.importer` (src/BienUtils.js), `helperSentinel`, the
validators (src/modules/validators) and the handlers
(src/modules/handlers).

JavaScript strings are lists of characters.  Plain objects used as
dictionaries are lists of own properties kept in creation order; reading
them goes through the prototype chain (`Object.prototype`), and
enumerating them (`Object.values`) follows the own-property order of
ECMAScript: array-index keys first, ascending, then the other keys in
creation order.  The class body is strict-mode code.
-/

namespace SubdomainRouter

deriving instance DecidableEq for Except

/-- A JavaScript string, as the list of its characters. -/
abbrev Str := List Char

/-! ## String primitives -/

/-- The characters removed by `String.prototype.trim`: WhiteSpace and
LineTerminator of ECMAScript. -/
def isWhiteSpace (c : Char) : Bool :=
  c.toNat == 0x09 || c.toNat == 0x0A || c.toNat == 0x0B || c.toNat == 0x0C ||
  c.toNat == 0x0D || c.toNat == 0x20 || c.toNat == 0xA0 || c.toNat == 0x1680 ||
  (0x2000 ≤ c.toNat && c.toNat ≤ 0x200A) ||
  c.toNat == 0x2028 || c.toNat == 0x2029 || c.toNat == 0x202F ||
  c.toNat == 0x205F || c.toNat == 0x3000 || c.toNat == 0xFEFF

/-- The method `trimStart`. -/
def trimStart (s : Str) : Str := s.dropWhile isWhiteSpace

/-- The method `trim`: white space removed at both ends. -/
def trim (s : Str) : Str := (trimStart (trimStart s).reverse).reverse

/-- Helper of `split`: the piece before the first separator, and the
pieces after it. -/
def splitAux (sep : Char) : Str → Str × List Str
  | [] => ([], [])
  | c :: cs =>
    if c = sep then ([], (splitAux sep cs).1 :: (splitAux sep cs).2)
    else (c :: (splitAux sep cs).1, (splitAux sep cs).2)

/-- The call `s.split(sep)` for a one-character separator: every
occurrence of the separator cuts, so there is always at least one piece. -/
def split (sep : Char) (s : Str) : List Str :=
  (splitAux sep s).1 :: (splitAux sep s).2

/-- Helper of `splitLines`: the first line and the lines after it.  A
carriage return directly followed by a line feed belongs to the separator. -/
def splitLinesAux : Str → Str × List Str
  | [] => ([], [])
  | c :: cs =>
    if c = '\n' then ([], (splitLinesAux cs).1 :: (splitLinesAux cs).2)
    else if c = '\r' ∧ cs.head? = some '\n' then splitLinesAux cs
    else (c :: (splitLinesAux cs).1, (splitLinesAux cs).2)

/-- The call `text.split(/\r?\n/)`. -/
def splitLines (text : Str) : List Str :=
  (splitLinesAux text).1 :: (splitLinesAux text).2

/-- The filter of line 109: `line.trim() && !line.trim().startsWith("#")`. -/
def keepLine (line : Str) : Bool :=
  trim line != [] && (trim line).head? != some '#'

/-! ## Plain objects -/

/-- The property key `__proto__`. -/
def protoKey : Str := "__proto__".toList

/-- The property key `component`. -/
def componentKey : Str := "component".toList

/-- The property key `routes`. -/
def routesKey : Str := "routes".toList

/-- The property key `undefined`: what `undefined` becomes as a key or in a
template literal. -/
def undefinedKey : Str := "undefined".toList

/-- The property key `baseURL`. -/
def baseURLKey : Str := "baseURL".toList

/-- The property key `container`. -/
def containerKey : Str := "container".toList

/-- The own properties of a plain object, in creation order. -/
abbrev Props (α : Type) := List (Str × α)

/-- The own property `k`, if there is one. -/
def getOwn {α : Type} : Props α → Str → Option α
  | [], _ => none
  | (k', v) :: rest, k => if k' = k then some v else getOwn rest k

/-- Assigning the own data property `k`: an existing property keeps its
place, a new one is created last. -/
def setOwn {α : Type} : Props α → Str → α → Props α
  | [], k, v => [(k, v)]
  | (k', v') :: rest, k, v =>
    if k' = k then (k', v) :: rest else (k', v') :: setOwn rest k v

/-- The numeric value of a string of decimal digits. -/
def digitsValue (k : Str) : Nat :=
  k.foldl (fun n c => 10 * n + (c.toNat - 48)) 0

/-- The array index a property key denotes, if any: a canonical numeric
string (decimal digits, no leading zero except "0" itself) whose value is
at most 2^32 - 2. -/
def arrayIndex? (k : Str) : Option Nat :=
  if k ≠ [] ∧ k.all Char.isDigit = true ∧ (k.head? ≠ some '0' ∨ k.length = 1)
      ∧ digitsValue k < 2 ^ 32 - 1
  then some (digitsValue k) else none

/-- The order of two array-index properties. -/
def indexLE {α : Type} (p q : Str × α) : Prop :=
  (arrayIndex? p.1).getD 0 ≤ (arrayIndex? q.1).getD 0

instance {α : Type} : DecidableRel (indexLE (α := α)) :=
  fun _ _ => inferInstanceAs (Decidable (_ ≤ _))

/-- The own properties in the order of `OrdinaryOwnPropertyKeys`, the
order `Object.values` and `Object.keys` follow: array indices ascending,
then the other keys in creation order. -/
def ownEntries {α : Type} (o : Props α) : Props α :=
  (o.filter (fun p => (arrayIndex? p.1).isSome)).insertionSort indexLE ++
    o.filter (fun p => (arrayIndex? p.1).isNone)

/-- The call `Object.values(o)`. -/
def objectValues {α : Type} (o : Props α) : List α :=
  (ownEntries o).map Prod.snd

/-- The methods every plain object inherits from `Object.prototype`:
function objects, hence truthy. -/
def objectPrototypeMethods : List Str :=
  ["constructor".toList, "__defineGetter__".toList, "__defineSetter__".toList,
   "hasOwnProperty".toList, "__lookupGetter__".toList, "__lookupSetter__".toList,
   "isPrototypeOf".toList, "propertyIsEnumerable".toList, "toString".toList,
   "valueOf".toList, "toLocaleString".toList]

/-! ## The built-in objects a key can reach

The dictionaries of the parser are plain objects indexed with segments of
the keys, so a read can end on `Object.prototype`, on one of its methods,
or on what an earlier line has assigned there; a string found that way
leads on to `String.prototype`.  What is assigned to these objects stays
for the rest of the run. -/

/-- A value the parser stores in a property of a built-in object or of an
object below one: a string, or a plain object with its own properties in
creation order. -/
inductive Value where
  | str (s : Str)
  | obj (props : List (Str × Value))
  deriving Repr

mutual
/-- Deciding the equality of two values. -/
def Value.decEq : (a b : Value) → Decidable (a = b)
  | .str a, .str b =>
    if h : a = b then isTrue (by rw [h]) else isFalse (fun e => h (Value.str.inj e))
  | .obj a, .obj b =>
    match Value.decEqProps a b with
    | isTrue h => isTrue (by rw [h])
    | isFalse h => isFalse (fun e => h (Value.obj.inj e))
  | .str _, .obj _ => isFalse (fun e => Value.noConfusion e)
  | .obj _, .str _ => isFalse (fun e => Value.noConfusion e)
/-- Deciding the equality of two lists of properties. -/
def Value.decEqProps : (a b : List (Str × Value)) → Decidable (a = b)
  | [], [] => isTrue rfl
  | [], _ :: _ => isFalse (fun e => List.noConfusion e)
  | _ :: _, [] => isFalse (fun e => List.noConfusion e)
  | (k, v) :: a, (k2, v2) :: b =>
    if hk : k = k2 then
      match Value.decEq v v2 with
      | isTrue hv =>
        match Value.decEqProps a b with
        | isTrue hl => isTrue (by rw [hk, hv, hl])
        | isFalse hl => isFalse (fun e => hl (List.cons.inj e).2)
      | isFalse hv => isFalse (fun e => hv (Prod.mk.inj (List.cons.inj e).1).2)
    else isFalse (fun e => hk (Prod.mk.inj (List.cons.inj e).1).1)
end

instance : DecidableEq Value := Value.decEq

/-- The methods of `String.prototype` (ECMAScript 2024, Annex B
included), `constructor` too: function objects. -/
def stringPrototypeMethods : List Str :=
  ["constructor", "anchor", "at", "big", "blink", "bold", "charAt", "charCodeAt",
   "codePointAt", "concat", "endsWith", "fontcolor", "fontsize", "fixed", "includes",
   "indexOf", "isWellFormed", "italics", "lastIndexOf", "link", "localeCompare", "match",
   "matchAll", "normalize", "padEnd", "padStart", "repeat", "replace", "replaceAll",
   "search", "slice", "small", "split", "strike", "sub", "substr", "substring", "sup",
   "startsWith", "toString", "toWellFormed", "trim", "trimStart", "trimLeft", "trimEnd",
   "trimRight", "toLocaleLowerCase", "toLocaleUpperCase", "toLowerCase", "toUpperCase",
   "valueOf"].map String.toList

/-- The built-in objects a key of the text can reach. -/
inductive Builtin where
  /-- the object `Object.prototype` -/
  | objectPrototype
  /-- the object `String.prototype` -/
  | stringPrototype
  /-- the function `Object.prototype[name]`; for `constructor` it is `Object` -/
  | objectMethod (name : Str)
  /-- the function `String.prototype[name]`; for `constructor` it is `String` -/
  | stringMethod (name : Str)
  deriving DecidableEq, Repr

/-- The properties that assignments have put on the built-in objects: those
created, and those that took the place of a standard member.  The standard
members themselves are not listed. -/
structure Realm where
  objectPrototype : Props Value
  stringPrototype : Props Value
  /-- by the name of the method -/
  objectMethods : Props (Props Value)
  /-- by the name of the method -/
  stringMethods : Props (Props Value)
  deriving DecidableEq, Repr

/-- The built-in objects of a page in which nothing has been assigned to them. -/
def Realm.initial : Realm :=
  { objectPrototype := [], stringPrototype := [], objectMethods := [], stringMethods := [] }

/-- The properties assigned on a built-in object. -/
def Realm.props (rl : Realm) : Builtin → Props Value
  | .objectPrototype => rl.objectPrototype
  | .stringPrototype => rl.stringPrototype
  | .objectMethod name => (getOwn rl.objectMethods name).getD []
  | .stringMethod name => (getOwn rl.stringMethods name).getD []

/-- The realm with other assigned properties on one built-in object. -/
def Realm.setProps (rl : Realm) (b : Builtin) (props : Props Value) : Realm :=
  match b with
  | .objectPrototype => { rl with objectPrototype := props }
  | .stringPrototype => { rl with stringPrototype := props }
  | .objectMethod name => { rl with objectMethods := setOwn rl.objectMethods name props }
  | .stringMethod name => { rl with stringMethods := setOwn rl.stringMethods name props }

/-- The own properties of the object found by following `path` from a list
of own properties, if every step of the path is an object. -/
def objectAt : Props Value → List Str → Option (Props Value)
  | props, [] => some props
  | props, k :: path =>
    match getOwn props k with
    | some (.obj inner) => objectAt inner path
    | _ => none

/-- Assigning the own property `k` of the object at `path`. -/
def assignAt : Props Value → List Str → Str → Value → Props Value
  | props, [], k, v => setOwn props k v
  | props, p :: path, k, v =>
    match getOwn props p with
    | some (.obj inner) => setOwn props p (.obj (assignAt inner path k v))
    | _ => props

/-- What a property read yields.  The objects of the parser's own (the
entries of `tempSubs`, their dictionaries `_routes` and the records in
them) are named by `α`. -/
inductive Target (α : Type) where
  /-- the value `undefined` -/
  | undefined
  /-- a string -/
  | str (s : Str)
  /-- the length of a string or one of its code units -/
  | primitive (truthy : Bool)
  /-- an object of the parser's own -/
  | own (a : α)
  /-- a built-in object (empty path) or the object at `path` below it -/
  | place (b : Builtin) (path : List Str)
  deriving DecidableEq, Repr

/-- Truthiness, ToBoolean. -/
def Target.truthy {α : Type} : Target α → Bool
  | .undefined => false
  | .str s => s != []
  | .primitive truthy => truthy
  | _ => true

/-- The property key `_routes`. -/
def routesField : Str := "_routes".toList

/-- The property key `constructor`. -/
def constructorKey : Str := "constructor".toList

/-- The property key `values`. -/
def valuesKey : Str := "values".toList

/-- The read of property `k` once the lookup has come to `Object.prototype`.
The accessor `__proto__` yields `proto`, the prototype of the value the read
started from. -/
def fromObjectPrototype {α : Type} (rl : Realm) (proto : Target α) (k : Str) : Target α :=
  if k = protoKey then proto
  else
    match getOwn rl.objectPrototype k with
    | some (.str s) => .str s
    | some (.obj _) => .place .objectPrototype [k]
    | none =>
      if k ∈ objectPrototypeMethods then .place (.objectMethod k) [] else .undefined

/-- The read `o[k]` where `o` is a built-in object or an object below one:
an assigned property, or else what `Object.prototype` gives.  On a built-in
object itself the parser reads `_routes` only, which no standard member is
called. -/
def readStored {α : Type} (rl : Realm) (b : Builtin) (path : List Str) (k : Str) : Target α :=
  match (objectAt (rl.props b) path).bind fun props => getOwn props k with
  | some (.str s) => .str s
  | some (.obj _) => .place b (path ++ [k])
  | none => fromObjectPrototype rl (.place .objectPrototype []) k

/-- The length of a string in UTF-16 code units. -/
def utf16Length (s : Str) : Nat :=
  (s.map fun c => if c.toNat < 0x10000 then 1 else 2).sum

/-- The read `s[k]` on a string: its length and its code units, then
`String.prototype`, then `Object.prototype`. -/
def readString {α : Type} (rl : Realm) (s : Str) (k : Str) : Target α :=
  if k = "length".toList then .primitive (s != [])
  else if (arrayIndex? k).any (fun i => i < utf16Length s) then .primitive true
  else
    match getOwn rl.stringPrototype k with
    | some (.str v) => .str v
    | some (.obj _) => .place .stringPrototype [k]
    | none =>
      if k ∈ stringPrototypeMethods then .place (.stringMethod k) []
      else fromObjectPrototype rl (.place .stringPrototype []) k

/-- How a run of the parser ends when it does not return. -/
inductive Fault where
  /-- a TypeError is thrown -/
  | typeError
  deriving DecidableEq, Repr

/-- The read `t[k]`; `own` answers for the own properties of an object of
the parser.  Reading a property of `undefined` throws. -/
def readFrom {α β : Type} (rl : Realm) (t : Target α) (k : Str)
    (own : α → Option (Target β)) : Except Fault (Target β) :=
  match t with
  | .undefined => .error .typeError
  | .str s => .ok (readString rl s k)
  | .primitive _ => .ok (fromObjectPrototype rl (.place .objectPrototype []) k)
  | .own a => .ok ((own a).getD (fromObjectPrototype rl (.place .objectPrototype []) k))
  | .place b path => .ok (readStored rl b path k)

/-! ## The properties parser -/

/-- A route record, `tempSubs[s]._routes[routeId]`: field names to values. -/
abbrev RouteRecord := Props Str

/-- An element of a sequence `routes`. -/
inductive RouteValue where
  /-- an object with its own properties -/
  | object (props : Props Value)
  /-- a string -/
  | text (s : Str)
  /-- a string of one code unit that is half of a surrogate pair -/
  | surrogate (unit : Nat)
  deriving DecidableEq, Repr

/-- A route record as an element of `routes`. -/
def RouteValue.ofRecord (r : RouteRecord) : RouteValue :=
  .object (r.map fun p => (p.1, .str p.2))

/-- A stored value as an element of `routes`. -/
def RouteValue.ofValue : Value → RouteValue
  | .str s => .text s
  | .obj props => .object props

/-- The call `Object.values(s)` on a string: its code units, each a string. -/
def codeUnits (s : Str) : List RouteValue :=
  s.flatMap fun c =>
    if c.toNat < 0x10000 then [.text [c]]
    else [.surrogate (0xD800 + (c.toNat - 0x10000) / 0x400),
          .surrogate (0xDC00 + (c.toNat - 0x10000) % 0x400)]

/-- An entry of `tempSubs`: the literal `{ subdomain, routes: [] }` of
line 120, with the properties `component` and `_routes` once assigned. -/
structure TempSub where
  subdomain : Str
  routes : List RouteValue
  component : Option Str
  _routes : Option (Props RouteRecord)
  deriving DecidableEq, Repr

/-- The state of the loop of lines 112-130: the top-level fields of `obj`,
the dictionary `tempSubs`, and what the run has assigned on built-in
objects. -/
structure Acc where
  baseURL : Option Str
  container : Option Str
  tempSubs : Props TempSub
  realm : Realm
  deriving DecidableEq, Repr

/-- Lines 113-116: `let [key, value] = line.split('=')`, the test
`!key || !value`, then both trimmed.  `none` is `continue`. -/
def keyValue (line : Str) : Option (Str × Str) :=
  match split '=' line with
  | key :: value :: _ =>
    if key = [] ∨ value = [] then none else some (trim key, trim value)
  | _ => none

/-- The properties of a built-in object that an assignment cannot change,
so that in strict code it throws a TypeError: `name` and `length` of a
function (read-only), `caller` and `arguments` (accessors of
`Function.prototype` that throw), `prototype` of the constructors `Object`
and `String` (read-only), and `length` of `String.prototype`. -/
def readOnlyOfBuiltin (b : Builtin) (k : Str) : Bool :=
  match b with
  | .objectPrototype => false
  | .stringPrototype => k = "length".toList
  | .objectMethod name | .stringMethod name =>
    k = "name".toList || k = "length".toList || k = "caller".toList ||
      k = "arguments".toList || (name = constructorKey && k = "prototype".toList)

/-- The assignment `o[k] = v` where `o` is a built-in object (empty path)
or the object at `path` below it, for a key other than `__proto__`. -/
def assignStored (rl : Realm) (b : Builtin) (path : List Str) (k : Str) (v : Value) :
    Except Fault Realm :=
  if path = [] ∧ readOnlyOfBuiltin b k = true then .error .typeError
  else .ok (rl.setProps b (assignAt (rl.props b) path k v))

/-- The assignment `t[k] = v` in strict code; `own` gives the state after
the assignment for an object of the parser.  On `undefined` it throws.
The key `__proto__` calls the setter of `Object.prototype`, which ignores a
string (the parser assigns an object only under `_routes` and under a key
that reads as falsy, which `__proto__` never does).  A primitive takes no
property: a TypeError. -/
def assignTo {α : Type} (acc : Acc) (t : Target α) (k : Str) (v : Value) (own : α → Acc) :
    Except Fault Acc :=
  match t with
  | .undefined => .error .typeError
  | .str _ => if k = protoKey then .ok acc else .error .typeError
  | .primitive _ => if k = protoKey then .ok acc else .error .typeError
  | .own a => if k = protoKey then .ok acc else .ok (own a)
  | .place b path =>
    if k = protoKey then .ok acc
    else
      match assignStored acc.realm b path k v with
      | .ok rl => .ok { acc with realm := rl }
      | .error e => .error e

/-- The state with the entry `tempSubs[s]` changed by `f`. -/
def Acc.mapEntry (acc : Acc) (s : Str) (f : TempSub → TempSub) : Acc :=
  match getOwn acc.tempSubs s with
  | some sub => { acc with tempSubs := setOwn acc.tempSubs s (f sub) }
  | none => acc

/-- The expression `tempSubs[subdomain]`: an entry, or what the plain
object `tempSubs` inherits. -/
def readSub (acc : Acc) (subdomain : Str) : Target Str :=
  match getOwn acc.tempSubs subdomain with
  | some _ => .own subdomain
  | none => fromObjectPrototype acc.realm (.place .objectPrototype []) subdomain

/-- The expression `tempSubs[subdomain]._routes`; `own s` is the dictionary
of the entry `s`. -/
def readRoutes (acc : Acc) (subdomain : Str) : Except Fault (Target Str) :=
  readFrom acc.realm (readSub acc subdomain) routesField fun s =>
    ((getOwn acc.tempSubs s).bind fun sub => sub._routes).map fun _ => .own s

/-- The expression `tempSubs[subdomain]._routes[routeId]`; `own (s, r)` is
the record `r` of the entry `s`. -/
def readRoute (acc : Acc) (subdomain routeId : Str) : Except Fault (Target (Str × Str)) :=
  match readRoutes acc subdomain with
  | .error e => .error e
  | .ok routes =>
    readFrom acc.realm routes routeId fun s =>
      (((getOwn acc.tempSubs s).bind fun sub => sub._routes).bind fun d =>
        getOwn d routeId).map fun _ => .own (s, routeId)

/-- The read `rest[i]`: an element of the array, or else what
`Object.prototype` has under the index (an array inherits from it through
`Array.prototype`, which has no index property); `key` is the index as a
property key.  `none` is `undefined`. -/
def restAt (rl : Realm) (rest : List Str) (i : Nat) (key : Str) : Option Str :=
  match rest.get? i with
  | some s => some s
  | none =>
    match getOwn rl.objectPrototype key with
    | some (.str s) => some s
    | some (.obj _) => some "[object Object]".toList
    | none => none

/-- The assignment `tempSubs[subdomain].component = value` of line 121. -/
def setComponent (acc : Acc) (subdomain value : Str) : Except Fault Acc :=
  assignTo acc (readSub acc subdomain) componentKey (.str value) fun s =>
    acc.mapEntry s fun sub => { sub with component := some value }

/-- The assignment `tempSubs[subdomain]._routes = {}` of line 124. -/
def createRoutes (acc : Acc) (subdomain : Str) : Except Fault Acc :=
  assignTo acc (readSub acc subdomain) routesField (.obj []) fun s =>
    acc.mapEntry s fun sub => { sub with _routes := some [] }

/-- The assignment `tempSubs[subdomain]._routes[routeId] = {}` of line 125. -/
def createRoute (acc : Acc) (subdomain routeId : Str) : Except Fault Acc :=
  match readRoutes acc subdomain with
  | .error e => .error e
  | .ok routes =>
    assignTo acc routes routeId (.obj []) fun s =>
      acc.mapEntry s fun sub => { sub with _routes := sub._routes.map fun d => setOwn d routeId [] }

/-- The assignment `tempSubs[subdomain]._routes[routeId][field] = value` of
line 127. -/
def setField (acc : Acc) (subdomain routeId field value : Str) : Except Fault Acc :=
  match readRoute acc subdomain routeId with
  | .error e => .error e
  | .ok route =>
    assignTo acc route field (.str value) fun a =>
      acc.mapEntry a.1 fun sub =>
        { sub with _routes := sub._routes.map fun d =>
            match getOwn d a.2 with
            | some record => setOwn d a.2 (setOwn record field value)
            | none => d }

/-- Lines 123-127: the body of `if (rest[0] === "routes")`. -/
def assignRoute (acc : Acc) (subdomain : Str) (rest : List Str) (value : Str) :
    Except Fault Acc :=
  -- const routeId = rest[1];
  let routeId := (restAt acc.realm rest 1 "1".toList).getD undefinedKey
  -- if (!tempSubs[subdomain]._routes) tempSubs[subdomain]._routes = {};
  match readRoutes acc subdomain with
  | .error e => .error e
  | .ok routes =>
    match (if routes.truthy then .ok acc else createRoutes acc subdomain) with
    | .error e => .error e
    | .ok acc1 =>
      -- if (!tempSubs[subdomain]._routes[routeId]) tempSubs[subdomain]._routes[routeId] = {};
      match readRoute acc1 subdomain routeId with
      | .error e => .error e
      | .ok route =>
        match (if route.truthy then .ok acc1 else createRoute acc1 subdomain routeId) with
        | .error e => .error e
        | .ok acc2 =>
          -- const field = rest[2];
          let field := (restAt acc2.realm rest 2 "2".toList).getD undefinedKey
          -- tempSubs[subdomain]._routes[routeId][field] = value;
          setField acc2 subdomain routeId field value

/-- Lines 119-128, for a key other than `baseURL` and `container`. -/
def assignKey (acc : Acc) (key value : Str) : Except Fault Acc :=
  -- const [subdomain, ...rest] = key.split('.');
  let subdomain := (splitAux '.' key).1
  let rest := (splitAux '.' key).2
  -- if (!tempSubs[subdomain]) tempSubs[subdomain] = { subdomain, routes: [] };
  let acc1 :=
    if (readSub acc subdomain).truthy then acc
    else
      { acc with
        tempSubs := setOwn acc.tempSubs subdomain
          { subdomain := subdomain, routes := [], component := none, _routes := none } }
  -- if (rest[0] === "component" && rest.length === 1) tempSubs[subdomain].component = value;
  match (if restAt acc1.realm rest 0 "0".toList = some componentKey ∧ rest.length = 1
         then setComponent acc1 subdomain value else .ok acc1) with
  | .error e => .error e
  | .ok acc2 =>
    -- if (rest[0] === "routes") { ... }
    if restAt acc2.realm rest 0 "0".toList = some routesKey then
      assignRoute acc2 subdomain rest value
    else .ok acc2

/-- Whether `s.trim` can be called: `String.prototype.trim` has not been
assigned (the parser assigns strings and `{}` only). -/
def Realm.trimCallable (rl : Realm) : Bool :=
  (getOwn rl.stringPrototype "trim".toList).isNone

/-- Whether `s.split` can be called. -/
def Realm.splitCallable (rl : Realm) : Bool :=
  (getOwn rl.stringPrototype "split".toList).isNone

/-- Whether `Object.values` can be called. -/
def Realm.valuesCallable (rl : Realm) : Bool :=
  (getOwn (rl.props (.objectMethod constructorKey)) valuesKey).isNone

/-- Lines 115-129: what an accepted line does; `key` and `value` are the
two sides once trimmed.  The calls of `trim` throw a TypeError when
`String.prototype.trim` has been replaced. -/
def assign (acc : Acc) (key value : Str) : Except Fault Acc :=
  -- key = key.trim(); value = value.trim();
  if !acc.realm.trimCallable then .error .typeError
  -- if (key === "baseURL" || key === "container") obj[key] = value;
  else if key = baseURLKey then .ok { acc with baseURL := some value }
  else if key = containerKey then .ok { acc with container := some value }
  else assignKey acc key value

/-- One turn of the loop of lines 112-130, once `line.split` of line 113
has been found callable (see `runLines`). -/
def step (acc : Acc) (line : Str) : Except Fault Acc :=
  match keyValue line with
  | none => .ok acc
  | some (key, value) => assign acc key value

/-- The loop of lines 112-130.  Each turn starts with the call
`line.split('=')`, which throws a TypeError when `String.prototype.split`
has been replaced. -/
def runLines : Acc → List Str → Except Fault Acc
  | acc, [] => .ok acc
  | acc, line :: lines =>
    if !acc.realm.splitCallable then .error .typeError
    else
      match step acc line with
      | .ok acc1 => runLines acc1 lines
      | .error e => .error e

/-- A subdomain of the parsed configuration, by its own properties. -/
structure Subdomain where
  subdomain : Str
  component : Option Str
  routes : List RouteValue
  deriving DecidableEq, Repr

/-- The configuration `parseProperties` returns: `obj`, by its own
properties. -/
structure Config where
  baseURL : Option Str
  container : Option Str
  subdomains : List Subdomain
  deriving DecidableEq, Repr

/-- Lines 132-135 on an entry: `if (sub._routes) { sub.routes =
Object.values(sub._routes); delete sub._routes }`.  An entry without a
dictionary of its own reads `_routes` from `Object.prototype`. -/
def finishEntry (rl : Realm) (sub : TempSub) : TempSub :=
  match sub._routes with
  | some d => { sub with routes := (objectValues d).map RouteValue.ofRecord, _routes := none }
  | none =>
    match getOwn rl.objectPrototype routesField with
    | some (.str s) => if s = [] then sub else { sub with routes := codeUnits s }
    | some (.obj d) => { sub with routes := (objectValues d).map RouteValue.ofValue }
    | none => sub

/-- An entry as a subdomain of the configuration. -/
def Subdomain.ofEntry (sub : TempSub) : Subdomain :=
  { subdomain := sub.subdomain, component := sub.component, routes := sub.routes }

/-- The entries pushed by the loop of lines 131-137, in the order of
`Object.values(tempSubs)`. -/
def finishedEntries (acc : Acc) : List TempSub :=
  (objectValues acc.tempSubs).map (finishEntry acc.realm)

/-- Lines 131-138.  The call `Object.values` throws a TypeError when that
property of `Object` has been replaced. -/
def finish (acc : Acc) : Except Fault Config :=
  if !acc.realm.valuesCallable then .error .typeError
  else
    .ok { baseURL := acc.baseURL, container := acc.container,
          subdomains := (finishedEntries acc).map Subdomain.ofEntry }

/-- The lines the loop sees (line 109). -/
def keptLines (text : Str) : List Str := (splitLines text).filter keepLine

/-- The state before the loop: `obj = { subdomains: [] }`, `tempSubs = {}`,
in a page whose built-in objects are as the platform made them. -/
def Acc.init : Acc :=
  { baseURL := none, container := none, tempSubs := [], realm := Realm.initial }

/-- Lines 110-138, on the lines the filter keeps. -/
def parseLines (lines : List Str) : Except Fault Config :=
  match runLines Acc.init lines with
  | .ok acc => finish acc
  | .error e => .error e

/-- The method `#parseProperties`. -/
def parseProperties (text : Str) : Except Fault Config :=
  parseLines (keptLines text)

/-- The example resource of section 6 of the specification. -/
def exampleText : Str :=
  ("baseURL=https://example.com\n" ++ "container=app-root\n" ++
   "@.component=shell/Main\n" ++ "@.routes.home.route=\n" ++
   "@.routes.home.component=views/Home\n" ++ "@.routes.404.route=404\n" ++
   "@.routes.404.component=views/NotFound\n").toList

/-! ## The router: host, settings and state -/

/-- A URL object, as far as the router reads it. -/
structure URL where
  href : Str
  hostname : Str
  pathname : Str
  deriving DecidableEq, Repr

/-- What calling `x.default()` does, for a component or module `x`. -/
inductive Render where
  /-- the property `default` is not a function -/
  | notCallable
  /-- the call throws, or its promise is rejected -/
  | throws
  /-- the call yields a DOM node with this name -/
  | node (name : Str)
  deriving DecidableEq, Repr

/-- A DOM node: its name and its children. -/
inductive Node where
  | mk (name : Str) (children : List Node)
  deriving Repr

/-- The method `appendChild`. -/
def Node.appendChild : Node → Node → Node
  | .mk name children, child => .mk name (children ++ [child])

/-- The value of a `component` property. -/
inductive ComponentValue where
  /-- the values `undefined` and `null`: reading a property of them throws -/
  | undefined
  /-- a string: a module path -/
  | string (path : Str)
  /-- an object or a function; `text` is what a template literal makes of it -/
  | object (render : Render) (text : Str)
  deriving DecidableEq, Repr

/-- An entry of `routes`. -/
structure Route where
  /-- the property `route`, when it is a string -/
  route : Option Str
  component : ComponentValue
  deriving DecidableEq, Repr

/-- An entry of `subdomains`. -/
structure SubdomainEntry where
  /-- the property `subdomain`, when it is a string -/
  subdomain : Option Str
  component : ComponentValue
  routes : List Route
  deriving DecidableEq, Repr

/-- The value of `baseURL`. -/
inductive BaseURL where
  | url (u : URL)
  | string (s : Str)
  | undefined
  deriving DecidableEq, Repr

/-- The value of `container`. -/
inductive Container where
  /-- a string: the id of the element -/
  | string (id : Str)
  /-- an element of the document -/
  | element (e : Nat)
  /-- the values `null` and `undefined` -/
  | missing
  deriving DecidableEq, Repr

/-- The configuration the router works with: `#settings`. -/
structure Settings where
  baseURL : BaseURL
  container : Container
  subdomains : List SubdomainEntry
  deriving DecidableEq, Repr

/-- The text a template literal makes of a stored value; for an object,
what the standard `toString` gives. -/
def Value.text : Value → Str
  | .str s => s
  | .obj _ => "[object Object]".toList

/-- The read `o[k]` the router makes on the configuration, for a key that
names no standard member of a prototype (`baseURL`, `container`,
`component`, `route`): the own property `own`, or else what has been
assigned on `Object.prototype`. -/
def readData (rl : Realm) (own : Option Value) (k : Str) : Option Value :=
  match own with
  | some v => some v
  | none => getOwn rl.objectPrototype k

/-- The read `r[k]` on an element of `routes`, for such a key: a string
inherits from `String.prototype` first. -/
def RouteValue.read (rl : Realm) (r : RouteValue) (k : Str) : Option Value :=
  match r with
  | .object props => readData rl (getOwn props k) k
  | .text _ => readData rl (getOwn rl.stringPrototype k) k
  | .surrogate _ => readData rl (getOwn rl.stringPrototype k) k

/-- A value read as `component`.  The parser stores strings and plain
objects only, so an object found there has no callable `default`. -/
def componentOfValue : Option Value → ComponentValue
  | none => .undefined
  | some (.str p) => .string p
  | some (.obj _) => .object .notCallable "[object Object]".toList

/-- A value read as `route`. -/
def routeOfValue : Option Value → Option Str
  | some (.str s) => some s
  | _ => none

/-- The object `parseProperties` returns, as the router reads it in the
page the parser leaves behind: a property that the object lacks is read
from the prototypes.  (An object under `baseURL` or `container` would make
`new URL` or the container fail; the parser puts none there, see
`Realm.routesOnly`.) -/
def Config.toSettingsIn (rl : Realm) (c : Config) : Settings :=
  { baseURL := match readData rl (c.baseURL.map .str) baseURLKey with
      | some v => .string v.text
      | none => .undefined,
    container := match readData rl (c.container.map .str) containerKey with
      | some (.str s) => .string s
      | _ => .missing,
    subdomains := c.subdomains.map fun s =>
      { subdomain := some s.subdomain,
        component := componentOfValue (readData rl (s.component.map .str) componentKey),
        routes := s.routes.map fun r =>
          { route := routeOfValue (r.read rl "route".toList),
            component := componentOfValue (r.read rl componentKey) } } }

/-- The object `parseProperties` returns, as the router reads it when
nothing has been assigned on the prototypes. -/
def Config.toSettings (c : Config) : Settings := c.toSettingsIn Realm.initial

/-- The values a caller may pass as `config` or `input`. -/
inductive JsValue where
  | undefined
  | null
  | boolean (b : Bool)
  | number (n : Nat)
  | string (s : Str)
  | url (u : URL)
  /-- a plain configuration object -/
  | object (o : Settings)
  deriving DecidableEq, Repr

/-- The test `typeof v === "object"`. -/
def JsValue.typeofObject : JsValue → Bool
  | .null => true
  | .url _ => true
  | .object _ => true
  | _ => false

/-- The test `typeof v === "string"`. -/
def JsValue.typeofString : JsValue → Bool
  | .string _ => true
  | _ => false

/-- The test `v instanceof URL`. -/
def JsValue.instanceofURL : JsValue → Bool
  | .url _ => true
  | _ => false

/-- Truthiness, ToBoolean. -/
def JsValue.truthy : JsValue → Bool
  | .undefined => false
  | .null => false
  | .boolean b => b
  | .number n => n != 0
  | .string s => s != []
  | .url _ => true
  | .object _ => true

/-- The operator `!`: its result is a boolean. -/
def JsValue.not (v : JsValue) : JsValue := .boolean (!v.truthy)

/-- A value kept as `#settings`: a configuration object as it is; any
other value has none of the properties of a configuration. -/
def JsValue.asSettings : JsValue → Settings
  | .object o => o
  | _ => { baseURL := .undefined, container := .missing, subdomains := [] }

/-- The response of `fetch`. -/
structure Response where
  ok : Bool
  text : Str
  deriving DecidableEq, Repr

/-- What `document.querySelector` answers. -/
inductive Query where
  /-- the selector is not valid: a SyntaxError is thrown -/
  | invalid
  | null
  | element (e : Nat)
  deriving DecidableEq, Repr

/-- What a navigation state argument is. -/
inductive StateValue where
  /-- an object, named by a tag -/
  | object (tag : Nat)
  | null
  /-- a value whose `typeof` is not `"object"` -/
  | primitive
  deriving DecidableEq, Repr

/-- The test `typeof state !== "object"`. -/
def StateValue.typeofObject : StateValue → Bool
  | .primitive => false
  | _ => true

/-- The platform around the router. -/
structure Host where
  /-- the value of `location.protocol` -/
  protocol : Str
  /-- the value of `location.hostname` -/
  hostname : Str
  /-- the constructor `new URL(s)`; `none` when it throws -/
  newURL : Str → Option URL
  /-- the call `fetch(target)` by the text of the target; `none` when it is rejected -/
  fetch : Str → Option Response
  /-- the call `document.querySelector(selector)` -/
  querySelector : Str → Query
  /-- the dynamic `import(path)`: what the module default does; `none` when rejected -/
  importModule : Str → Option Render
  /-- whether `history.pushState` takes the state: it throws a DataCloneError
  for a state that cannot be serialised -/
  pushStateAccepts : StateValue → Bool

/-- The errors of `init` and `navigate`. -/
inductive RouterError where
  /-- line 40 -/
  | notReady
  /-- line 43 -/
  | invalidArguments
  /-- line 49 -/
  | invalidInput
  /-- line 78 -/
  | containerNotFound
  /-- line 91 -/
  | viewNotFound
  /-- line 102 -/
  | fetchNotOk
  /-- line 106 -/
  | invalidConfig
  /-- a rejected `fetch` or `import`, or a component that throws -/
  | rejected
  /-- a TypeError or SyntaxError raised by the platform -/
  | typeError
  /-- the nesting of calls exceeds what the host allows -/
  | nestingExhausted
  deriving DecidableEq, Repr

/-- The private fields of a router. -/
structure Router where
  /-- the field `#subdomain`, `none` while undefined -/
  subdomain : Option Str
  /-- the field `#settings`, `none` while undefined -/
  settings : Option Settings
  /-- the field `#ready` -/
  ready : Bool
  deriving DecidableEq, Repr

/-- A router after `new SubdomainRouter()`. -/
def Router.fresh : Router := { subdomain := none, settings := none, ready := false }

/-- The method `getReady`. -/
def getReady (r : Router) : Bool := r.ready

/-- The method `getSubdomain`. -/
def getSubdomain (r : Router) : Option Str := r.subdomain

/-! ## Loading the configuration -/

/-- The text a `fetch` target stands for. -/
def fetchTarget : JsValue → Str
  | .string s => s
  | .url u => u.href
  | _ => []

/-- The method `#parseProperties` with the state the loop leaves: the
configuration, and what has been assigned on the built-in objects.  Like
`parseProperties`, it starts in a page whose built-in objects are as the
platform made them (`Acc.init`). -/
def parseState (text : Str) : Except Fault (Config × Realm) :=
  match runLines Acc.init (keptLines text) with
  | .ok acc =>
    match finish acc with
    | .ok c => .ok (c, acc.realm)
    | .error e => .error e
  | .error e => .error e

/-- The method `#loadConfig`, lines 98-107.  The result carries the
targets fetched.  What `parseProperties` returns is kept as it is read in
the page the parser leaves behind. -/
def loadConfig (host : Host) (config : JsValue) : List Str × Except RouterError Settings :=
  -- if (typeof config === "object" && !config instanceof URL) return config;
  if config.typeofObject && (config.not).instanceofURL then ([], .ok config.asSettings)
  -- else if (typeof config === "string" || config instanceof URL)
  else if config.typeofString || config.instanceofURL then
    match host.fetch (fetchTarget config) with
    | none => ([fetchTarget config], .error .rejected)
    | some rs =>
      if !rs.ok then ([fetchTarget config], .error .fetchNotOk)
      else
        match parseState rs.text with
        | .ok (c, rl) => ([fetchTarget config], .ok (c.toSettingsIn rl))
        | .error .typeError => ([fetchTarget config], .error .typeError)
  else ([], .error .invalidConfig)

/-- The outcome of `init`: the targets fetched, the error if any, and the
router afterwards. -/
structure InitResult where
  fetched : List Str
  error : Option RouterError
  router : Router
  deriving DecidableEq, Repr

/-- The method `init`, lines 34-37. -/
def init (host : Host) (r : Router) (config : JsValue) : InitResult :=
  match loadConfig host config with
  | (fetched, .ok settings) =>
    { fetched := fetched, error := none,
      router := { r with settings := some settings, ready := true } }
  | (fetched, .error e) => { fetched := fetched, error := some e, router := r }

/-! ## Navigation -/

/-- The call `s.startsWith(p)`. -/
def startsWith (s p : Str) : Bool := s.take p.length == p

/-- The call `parts.join(sep)`. -/
def join (sep : Char) (parts : List Str) : Str := [sep].intercalate parts

/-- The labels of the host of `baseURL`, line 68. -/
def domainParts (host : Host) (baseURL : BaseURL) : Option (List Str) :=
  match baseURL with
  | .url u => some (split '.' u.hostname)
  | .string s => (host.newURL s).map fun u => split '.' u.hostname
  | .undefined => (host.newURL undefinedKey).map fun u => split '.' u.hostname

/-- The method `#domainSplit`, lines 67-74: the pair of `subdomain` and
`path`, or `none` when `new URL` throws. -/
def domainSplit (host : Host) (settings : Settings) (input : URL) : Option (Str × Str) :=
  match domainParts host settings.baseURL with
  | none => none
  | some domainParts =>
    let inputParts := split '.' input.hostname
    let subdomain :=
      if inputParts.length > domainParts.length then
        join '.' (inputParts.take (inputParts.length - domainParts.length))
      else "@".toList
    -- input.pathname.replace(/^\/+/, "")
    let path := input.pathname.dropWhile (· == '/')
    some (subdomain, path)

/-- What the router changes outside itself. -/
structure World where
  /-- the children of each element of the document -/
  children : Nat → List Node
  /-- the values assigned to `location.href`, latest last -/
  location : List Str
  /-- the calls of `history.pushState`: state and URL, latest last -/
  history : List (StateValue × Str)

/-- The result of `navigate` or `#loadContainer`. -/
structure NavResult where
  error : Option RouterError
  router : Router
  world : World

/-- The spinner of lines 41-42. -/
def spinner : Node := .mk "div.spinner".toList []

/-- The text of `baseURL` in a template literal. -/
def BaseURL.text : BaseURL → Str
  | .url u => u.href
  | .string s => s
  | .undefined => undefinedKey

/-- The text of a component in a template literal. -/
def ComponentValue.text : ComponentValue → Str
  | .undefined => undefinedKey
  | .string p => p
  | .object _ t => t

/-- The path of lines 86 and 92. -/
def modulePath (settings : Settings) (component : ComponentValue) : Str :=
  settings.baseURL.text ++ "/".toList ++ component.text ++ ".js".toList

/-- Replacing the children of an element. -/
def World.setChildren (w : World) (e : Nat) (nodes : List Node) : World :=
  { w with children := fun x => if x = e then nodes else w.children x }

/-- The call `container.lastChild.appendChild(node)`; `none` when there
is no last child. -/
def appendToLastChild (children : List Node) (node : Node) : Option (List Node) :=
  match children.getLast? with
  | none => none
  | some last => some (children.dropLast ++ [last.appendChild node])

/-- Lines 90-93: the view is found, resolved and appended to the shell. -/
def mountView (host : Host) (settings : Settings) (r : Router) (w : World) (e : Nat)
    (config : SubdomainEntry) (path : Str) : NavResult :=
  -- config.routes.find(r => r.route === path) ?? config.routes.find(r => r.route === "404")
  let view :=
    match config.routes.find? (fun x => x.route == some path) with
    | some v => some v
    | none => config.routes.find? (fun x => x.route == some "404".toList)
  match view with
  | none => { error := some .viewNotFound, router := r, world := w }
  | some view =>
    let viewComponent : Except RouterError Render :=
      match view.component with
      | .undefined => .error .typeError
      | .object (.node n) _ => .ok (.node n)
      | .object .throws _ => .ok .throws
      | c =>
        match host.importModule (modulePath settings c) with
        | none => .error .rejected
        | some m => .ok m
    match viewComponent with
    | .error err => { error := some err, router := r, world := w }
    | .ok .notCallable => { error := some .typeError, router := r, world := w }
    | .ok .throws => { error := some .rejected, router := r, world := w }
    | .ok (.node n) =>
      match appendToLastChild (w.children e) (.mk n []) with
      | none => { error := some .typeError, router := r, world := w }
      | some children => { error := none, router := r, world := w.setChildren e children }

/-- The method `#loadContainer`, lines 75-95.  `config` is `none` when
the caller passes `undefined`. -/
def loadContainer (host : Host) (r : Router) (w : World) (config : Option SubdomainEntry)
    (path : Str) : NavResult :=
  match r.settings with
  | none => { error := some .typeError, router := r, world := w }
  | some settings =>
    -- lines 76-79
    let resolved : Except RouterError Nat × Settings :=
      match settings.container with
      | .string id =>
        match host.querySelector ("#".toList ++ id) with
        | .invalid => (.error .typeError, settings)
        | .null => (.error .containerNotFound, { settings with container := .missing })
        | .element e => (.ok e, { settings with container := .element e })
      | .element e => (.ok e, settings)
      | .missing => (.error .typeError, settings)
    let settings := resolved.2
    let r := { r with settings := some settings }
    match resolved.1 with
    | .error err => { error := some err, router := r, world := w }
    | .ok e =>
      -- lines 80-81
      let w := w.setChildren e [spinner]
      match config with
      | none => { error := some .typeError, router := r, world := w }
      | some config =>
        match config.component with
        | .undefined => { error := some .typeError, router := r, world := w }
        -- lines 82-84
        | .object (.node n) _ =>
          { error := none, router := r, world := w.setChildren e [.mk n []] }
        | .object .throws _ =>
          { error := some .rejected, router := r, world := w.setChildren e [] }
        | .object .notCallable _ => { error := none, router := r, world := w }
        -- lines 85-93
        | .string p =>
          match host.importModule (modulePath settings (.string p)) with
          | none => { error := some .rejected, router := r, world := w }
          | some .notCallable =>
            { error := some .typeError, router := r, world := w.setChildren e [] }
          | some .throws => { error := some .rejected, router := r, world := w.setChildren e [] }
          | some (.node n) =>
            mountView host settings r (w.setChildren e [.mk n []]) e config path

/-- The URL `navigate` works with, lines 43-50. -/
def normalizeInput (host : Host) (input : JsValue) (state : StateValue) :
    Except RouterError URL :=
  if !(input.typeofString || input.instanceofURL) || !state.typeofObject then
    .error .invalidArguments
  else
    match input with
    | .string s =>
      if startsWith s "/".toList then
        match host.newURL (host.protocol ++ "//".toList ++ host.hostname ++ "/".toList ++ s) with
        | some u => .ok u
        | none => .error .typeError
      else if startsWith s "http".toList then
        match host.newURL s with
        | some u => .ok u
        | none => .error .typeError
      else .error .invalidInput
    | .url u => .ok u
    | _ => .error .invalidArguments

/-- The method `navigate`, lines 39-66.  `depth` is the nesting of calls
the host still allows below this one. -/
def navigate (host : Host) : Nat → Router → World → JsValue → StateValue → NavResult
  | depth, r, w, input, state =>
    -- line 40
    if !r.ready then { error := some .notReady, router := r, world := w }
    else
      match normalizeInput host input state with
      | .error err => { error := some err, router := r, world := w }
      | .ok url =>
        match r.settings with
        | none => { error := some .typeError, router := r, world := w }
        | some settings =>
          -- line 51
          match domainSplit host settings url with
          | none => { error := some .typeError, router := r, world := w }
          | some (subdomain, path) =>
            -- line 52
            let w :=
              match r.subdomain with
              | some active =>
                if active != [] && active != subdomain then
                  { w with location := w.location ++ [url.href] }
                else w
              | none => w
            -- line 53
            let r := { r with subdomain := some subdomain }
            -- line 55
            let subdomainConfig :=
              settings.subdomains.find? (fun s => s.subdomain == some subdomain)
            -- lines 56-59
            let nested : NavResult :=
              match subdomainConfig with
              | some _ => { error := none, router := r, world := w }
              | none =>
                match depth with
                | 0 => { error := some .nestingExhausted, router := r, world := w }
                | depth + 1 => navigate host depth r w (.string "/404".toList) state
            match nested.error with
            | some err => { error := some err, router := nested.router, world := nested.world }
            | none =>
              -- line 61
              let mounted := loadContainer host nested.router nested.world subdomainConfig path
              match mounted.error with
              | some err => { error := some err, router := mounted.router, world := mounted.world }
              | none =>
                -- line 63
                if host.pushStateAccepts state then
                  { error := none, router := mounted.router,
                    world := { mounted.world with
                      history := mounted.world.history ++ [(state, "/".toList ++ path)] } }
                else { error := some .typeError, router := mounted.router, world := mounted.world }

/-- The router `new SubdomainRouter()` followed by `init(config)`. -/
def initFresh (host : Host) (config : JsValue) : InitResult := init host Router.fresh config

/-! ## The grouping of the accepted lines

The result of the parser stated on the list of accepted lines: keys in
first-seen order, values by last assignment. -/

/-- An accepted line: the trimmed key and the trimmed value. -/
abbrev KV := Str × Str

/-- The accepted lines of a list of lines. -/
def acceptedOf (lines : List Str) : List KV := lines.filterMap keyValue

/-- The accepted lines of a text. -/
def acceptedLines (text : Str) : List KV := acceptedOf (keptLines text)

/-- The key is `baseURL` or `container`. -/
def isTopLevel (kv : KV) : Bool := kv.1 == baseURLKey || kv.1 == containerKey

/-- The first dot segment of the key. -/
def subdomainOf (kv : KV) : Str := (splitAux '.' kv.1).1

/-- The dot segments of the key after the first. -/
def restOf (kv : KV) : List Str := (splitAux '.' kv.1).2

/-- The third segment of the key, `undefined` as a property key when absent. -/
def routeIdOf (kv : KV) : Str := ((restOf kv).get? 1).getD undefinedKey

/-- The fourth segment of the key, `undefined` as a property key when absent. -/
def fieldOf (kv : KV) : Str := ((restOf kv).get? 2).getD undefinedKey

/-- The key is `<subdomain>.component`. -/
def isComponentLine (kv : KV) : Bool := restOf kv == [componentKey]

/-- The second segment of the key is `routes`. -/
def isRouteLine (kv : KV) : Bool := (restOf kv).head? == some routesKey

/-- The names every plain object inherits from `Object.prototype`. -/
def inheritedNames : List Str := protoKey :: objectPrototypeMethods

/-- The elements of a list in the order of their first occurrence. -/
def firstSeen : List Str → List Str
  | [] => []
  | x :: xs => x :: (firstSeen xs).filter (fun y => y != x)

/-- The value of the last line of a list. -/
def lastValue (lines : List KV) : Option Str := lines.getLast?.map Prod.snd

/-- The route record the route lines of one route id build. -/
def groupRecord (lines : List KV) : RouteRecord :=
  (firstSeen ((lines.filter fun kv => fieldOf kv != protoKey).map fieldOf)).map
    fun f => (f, (lastValue (lines.filter fun kv => fieldOf kv == f)).getD [])

/-- The route ids of the route lines of one subdomain, in first-seen order. -/
def routeIdsOf (lines : List KV) : List Str :=
  firstSeen ((lines.filter fun kv => !inheritedNames.contains (routeIdOf kv)).map routeIdOf)

/-- The dictionary `_routes` the route lines of one subdomain build. -/
def groupRoutes (lines : List KV) : Props RouteRecord :=
  (routeIdsOf lines).map fun r => (r, groupRecord (lines.filter fun kv => routeIdOf kv == r))

/-- The entry of `tempSubs` the lines of one subdomain build. -/
def groupEntry (s : Str) (lines : List KV) : TempSub :=
  { subdomain := s, routes := [],
    component := lastValue (lines.filter isComponentLine),
    _routes :=
      if lines.any isRouteLine then some (groupRoutes (lines.filter isRouteLine)) else none }

/-- The lines of subdomain `s`. -/
def linesOf (s : Str) (lines : List KV) : List KV :=
  lines.filter fun kv => !isTopLevel kv && subdomainOf kv == s

/-- The subdomain identifiers that get an entry, in order of appearance. -/
def subdomainIds (lines : List KV) : List Str :=
  (lines.filter fun kv => !isTopLevel kv && !inheritedNames.contains (subdomainOf kv)).map
    subdomainOf

/-- The state of the loop after the accepted lines, when they leave the
built-in objects as they were. -/
def groupAcc (lines : List KV) : Acc :=
  { baseURL := lastValue (lines.filter fun kv => kv.1 == baseURLKey),
    container := lastValue (lines.filter fun kv => kv.1 == containerKey),
    tempSubs := (firstSeen (subdomainIds lines)).map fun s => (s, groupEntry s (linesOf s lines)),
    realm := Realm.initial }

/-- Property keys in the order `Object.keys` lists them. -/
def ownKeyOrder (keys : List Str) : List Str :=
  (ownEntries (keys.map fun k => (k, ()))).map Prod.fst

/-- The route lines of subdomain `s`. -/
def routeLinesOf (s : Str) (lines : List KV) : List KV := (linesOf s lines).filter isRouteLine

/-- The two-level grouping of the accepted lines: subdomains, and for each
its component and its route records. -/
def groupConfig (lines : List KV) : Config :=
  { baseURL := lastValue (lines.filter fun kv => kv.1 == baseURLKey),
    container := lastValue (lines.filter fun kv => kv.1 == containerKey),
    subdomains := (ownKeyOrder (firstSeen (subdomainIds lines))).map fun s =>
      { subdomain := s,
        component := lastValue ((linesOf s lines).filter isComponentLine),
        routes := (ownKeyOrder (routeIdsOf (routeLinesOf s lines))).map fun r =>
          RouteValue.ofRecord
            (groupRecord ((routeLinesOf s lines).filter fun kv => routeIdOf kv == r)) } }

/-- The accepted line assigns a property of a prototype object: its key
is `__proto__.component` or starts with `__proto__.routes`, or it has the
second segment `routes`, the third `__proto__` and a fourth other than
`__proto__` (the object addressed is `Object.prototype`, or
`String.prototype` when `_routes` holds a string). -/
def writesPrototype (kv : KV) : Bool :=
  !isTopLevel kv &&
    ((subdomainOf kv == protoKey && (isComponentLine kv || isRouteLine kv)) ||
     (isRouteLine kv && routeIdOf kv == protoKey && fieldOf kv != protoKey))

/-- The accepted line assigns a property of a method of `Object.prototype`
that cannot be changed (see `readOnlyOfBuiltin`), or the property `values`
of `Object`. -/
def breaksMethod (kv : KV) : Bool :=
  !isTopLevel kv && isRouteLine kv && objectPrototypeMethods.contains (routeIdOf kv) &&
    (readOnlyOfBuiltin (.objectMethod (routeIdOf kv)) (fieldOf kv) ||
     (routeIdOf kv == constructorKey && fieldOf kv == valuesKey))

/-- The accepted line assigns the property `_routes` of a method of
`Object.prototype`. -/
def storesRoutes (kv : KV) : Bool :=
  !isTopLevel kv && isRouteLine kv && objectPrototypeMethods.contains (routeIdOf kv) &&
    fieldOf kv == routesField

/-- A target that is neither an object of the parser's own nor
`Object.prototype` or an object below it. -/
def Target.foreign {α : Type} : Target α → Bool
  | .own _ => false
  | .place .objectPrototype _ => false
  | _ => true

/-- Two states with the same top-level fields, the same entries, and the
same properties assigned on `Object.prototype`. -/
def Acc.agrees (a a2 : Acc) : Prop :=
  a2.baseURL = a.baseURL ∧ a2.container = a.container ∧ a2.tempSubs = a.tempSubs ∧
    a2.realm.objectPrototype = a.realm.objectPrototype

/-- The state of the loop is the grouping of the accepted lines `L`, and
nothing is assigned on `Object.prototype`. -/
def Acc.Groups (acc : Acc) (L : List KV) : Prop :=
  acc.baseURL = (groupAcc L).baseURL ∧ acc.container = (groupAcc L).container ∧
    acc.tempSubs = (groupAcc L).tempSubs ∧ acc.realm.objectPrototype = []

/-- The accepted line assigns a property of a method of `Object.prototype`
that cannot be changed: the assignment throws. -/
def throwsAt (kv : KV) : Bool :=
  !isTopLevel kv && isRouteLine kv && objectPrototypeMethods.contains (routeIdOf kv) &&
    readOnlyOfBuiltin (.objectMethod (routeIdOf kv)) (fieldOf kv)

/-- The accepted line assigns the property `values` of `Object`. -/
def replacesValues (kv : KV) : Bool :=
  !isTopLevel kv && isRouteLine kv && routeIdOf kv == constructorKey &&
    fieldOf kv == valuesKey

/-- What has been assigned on the methods of `Object.prototype` leaves
their `_routes` absent, or an object whose properties are objects under
names that `Object.prototype` does not have. -/
def Realm.methodsKept (rl : Realm) : Prop :=
  ∀ name, getOwn (rl.props (.objectMethod name)) routesField = none ∨
    ∃ d, getOwn (rl.props (.objectMethod name)) routesField = some (.obj d) ∧
      ∀ r x, getOwn d r = some x → (∃ p, x = .obj p) ∧ r ∉ inheritedNames

/-- The state of the loop after accepted lines `L` that assign no property
of a prototype object and no `_routes` of a method. -/
def Acc.Kept (acc : Acc) (L : List KV) : Prop :=
  acc.Groups L ∧ acc.realm.stringPrototype = [] ∧ acc.realm.methodsKept ∧
    acc.realm.valuesCallable = !L.any replacesValues

/-- The only property of `Object.prototype` that holds an object put
there by an assignment is `_routes`. -/
def Realm.routesOnly (rl : Realm) : Prop :=
  ∀ k p, getOwn rl.objectPrototype k = some (.obj p) → k = routesField

/-- The property of the configuration that an accepted line assigns. -/
inductive Assigned where
  /-- the top-level `baseURL` -/
  | baseURL
  /-- the top-level `container` -/
  | container
  /-- the component of subdomain `s` -/
  | component (s : Str)
  /-- the field `f` of the record of route id `r` of subdomain `s` -/
  | field (s r f : Str)
  deriving DecidableEq, Repr

/-- The property an accepted line assigns, if it assigns one. -/
def assignedOf (kv : KV) : Option Assigned :=
  if kv.1 = baseURLKey then some .baseURL
  else if kv.1 = containerKey then some .container
  else if subdomainOf kv ∈ inheritedNames then none
  else if isComponentLine kv = true then some (.component (subdomainOf kv))
  else if isRouteLine kv = true ∧ routeIdOf kv ∉ inheritedNames ∧ fieldOf kv ≠ protoKey then
    some (.field (subdomainOf kv) (routeIdOf kv) (fieldOf kv))
  else none

/-- The configuration holds the value `v` at a target.  For a field, the
routes of the subdomain are read as the values of a dictionary whose keys
are the route ids of the subdomain in first-seen order. -/
def Holds (cfg : Config) (lines : List KV) : Assigned → Str → Prop
  | .baseURL, v => cfg.baseURL = some v
  | .container, v => cfg.container = some v
  | .component s, v => ∃ e ∈ cfg.subdomains, e.subdomain = s ∧ e.component = some v
  | .field s r f, v =>
    ∃ e ∈ cfg.subdomains, e.subdomain = s ∧
      ∃ records : Props RouteRecord,
        records.map Prod.fst = routeIdsOf (routeLinesOf s lines) ∧
        e.routes = (objectValues records).map RouteValue.ofRecord ∧
        ∃ record, getOwn records r = some record ∧ getOwn record f = some v

/-- A function of an accepted line that looks at the key only. -/
def KeyOnly {β : Type} (f : KV → β) : Prop := ∀ a b : KV, a.1 = b.1 → f a = f b

/-- Two lists of accepted lines that are equal, or differ in the value of
one line that is followed by a line with the same key. -/
def Shadowed (L L2 : List KV) : Prop :=
  L = L2 ∨ ∃ A M P k v1 v3 v2,
    L = A ++ (k, v1) :: (M ++ (k, v2) :: P) ∧ L2 = A ++ (k, v3) :: (M ++ (k, v2) :: P)

/-- A host for the examples: the location is `https://example.com`. -/
def exampleHost : Host :=
  { protocol := "https:".toList, hostname := "example.com".toList,
    newURL := fun s =>
      if s = "https://example.com".toList then
        some ⟨"https://example.com/".toList, "example.com".toList, "/".toList⟩
      else none,
    fetch := fun _ => none,
    querySelector := fun _ => .null,
    importModule := fun _ => none,
    pushStateAccepts := fun _ => true }

/-- A document whose elements are empty, nothing assigned or pushed. -/
def World.empty : World := { children := fun _ => [], location := [], history := [] }

/-- The URL object of `https://example.com`. -/
def exampleBase : URL :=
  ⟨"https://example.com/".toList, "example.com".toList, "/".toList⟩

/-- The URL object of `https://shop.example.com/a/b`. -/
def shopURL : URL :=
  ⟨"https://shop.example.com/a/b".toList, "shop.example.com".toList, "/a/b".toList⟩

/-- The URL object of `https://example.com/a`. -/
def plainURL : URL :=
  ⟨"https://example.com/a".toList, "example.com".toList, "/a".toList⟩

/-- The text of a line before its first `=`. -/
def keyPiece (line : Str) : Str := line.takeWhile (fun c => c != '=')

/-- The text of a line between its first and its second `=`, or up to the
end of the line when there is no second `=`; empty when there is no `=`. -/
def valuePiece (line : Str) : Str :=
  ((line.dropWhile (fun c => c != '=')).drop 1).takeWhile (fun c => c != '=')

/-- The record of route id `home` in the example of section 6. -/
def homeRecord : RouteRecord := [(componentKey, "views/Home".toList)]

/-- The record of route id `404` in the example of section 6. -/
def notFoundRecord : RouteRecord :=
  [("route".toList, "404".toList), (componentKey, "views/NotFound".toList)]

/-- The configuration the parser returns for the example of section 6. -/
def exampleConfig : Config :=
  { baseURL := some "https://example.com".toList,
    container := some "app-root".toList,
    subdomains :=
      [{ subdomain := "@".toList, component := some "shell/Main".toList,
         routes := [RouteValue.ofRecord notFoundRecord, RouteValue.ofRecord homeRecord] }] }

/-! ## Navigation: the steps of `navigate` by name -/

/-- Line 52: the world after `if (this.#subdomain && this.#subdomain !==
subdomain) location.href = input`. -/
def afterLocation (r : Router) (w : World) (subdomain : Str) (url : URL) : World :=
  match r.subdomain with
  | some active =>
    if active != [] && active != subdomain then
      { w with location := w.location ++ [url.href] }
    else w
  | none => w

/-- Line 55: `this.#settings.subdomains.find(s => s.subdomain === subdomain)`. -/
def findEntry (settings : Settings) (subdomain : Str) : Option SubdomainEntry :=
  settings.subdomains.find? (fun s => s.subdomain == some subdomain)

/-- Lines 61-63: the container is loaded and the state pushed. -/
def mountAndPush (host : Host) (r : Router) (w : World) (config : Option SubdomainEntry)
    (path : Str) (state : StateValue) : NavResult :=
  let mounted := loadContainer host r w config path
  match mounted.error with
  | some err => { error := some err, router := mounted.router, world := mounted.world }
  | none =>
    if host.pushStateAccepts state then
      { error := none, router := mounted.router,
        world := { mounted.world with
          history := mounted.world.history ++ [(state, "/".toList ++ path)] } }
    else { error := some .typeError, router := mounted.router, world := mounted.world }

/-- The route of a path, in the words of section 4.2: the first route
whose `route` equals the path, and when there is none the first route
whose `route` is `404`. -/
def selectRoute (routes : List Route) (path : Str) : Option Route :=
  match routes.find? (fun x => x.route == some path) with
  | some v => some v
  | none => routes.find? (fun x => x.route == some "404".toList)

/-- A component renders the node `m`: it exposes a callable default that
yields it, or it is a module path whose module does. -/
def Renders (host : Host) (settings : Settings) (c : ComponentValue) (m : Str) : Prop :=
  (∃ t, c = .object (.node m) t) ∨
  (∃ p, c = .string p ∧ host.importModule (modulePath settings (.string p)) = some (.node m))

/-- The container resolves to the element `e`: it is that element, or an
id that `querySelector` finds. -/
def ResolvesTo (host : Host) (settings : Settings) (e : Nat) : Prop :=
  settings.container = .element e ∨
  (∃ id, settings.container = .string id ∧ host.querySelector ("#".toList ++ id) = .element e)

/-! ## Examples for the router -/

/-- The URL object of `https://example.com//a/b`, what `navigate` builds
for the input `/a/b`. -/
def pathURL : URL :=
  ⟨"https://example.com//a/b".toList, "example.com".toList, "//a/b".toList⟩

/-- The URL object of `https://example.com//404`, what `navigate` builds
for the fallback `/404`. -/
def fallbackURL : URL :=
  ⟨"https://example.com//404".toList, "example.com".toList, "//404".toList⟩

/-- The URL object of `HTTPS://example.com/a`: the parser of URLs takes
the scheme in any letter case. -/
def upperURL : URL :=
  ⟨"https://example.com/a".toList, "example.com".toList, "/a".toList⟩

/-- A host at `https://example.com` that serves the example of section 6
as `router.properties` and its three modules, and whose document has the
element `app-root`. -/
def demoHost : Host :=
  { protocol := "https:".toList, hostname := "example.com".toList,
    newURL := fun s =>
      if s = "https://example.com".toList then some exampleBase
      else if s = "https://example.com//a/b".toList then some pathURL
      else if s = "https://example.com//404".toList then some fallbackURL
      else if s = "HTTPS://example.com/a".toList then some upperURL
      else if s = "https://shop.example.com/a/b".toList then some shopURL
      else none,
    fetch := fun t =>
      if t = "https://example.com/router.properties".toList then some ⟨true, exampleText⟩
      else if t = "https://example.com/bad.properties".toList then
        some ⟨true, "a.routes.constructor.name=x".toList⟩
      else if t = "https://example.com/gone.properties".toList then some ⟨false, []⟩
      else none,
    querySelector := fun sel => if sel = "#app-root".toList then .element 0 else .null,
    importModule := fun p =>
      if p = "https://example.com/shell/Main.js".toList then some (.node "main".toList)
      else if p = "https://example.com/views/Home.js".toList then some (.node "home".toList)
      else if p = "https://example.com/views/NotFound.js".toList then
        some (.node "notfound".toList)
      else none,
    pushStateAccepts := fun _ => true }

/-- The settings `init` stores for the example of section 6. -/
def demoSettings : Settings := exampleConfig.toSettings

/-- The route `404` of the example, as the router reads it. -/
def notFoundRoute : Route :=
  { route := some "404".toList, component := .string "views/NotFound".toList }

/-- The entry of the subdomain `@` of the example, as the router reads it. -/
def demoEntry : SubdomainEntry :=
  { subdomain := some "@".toList, component := .string "shell/Main".toList,
    routes := [notFoundRoute, { route := none, component := .string "views/Home".toList }] }

/-- A ready router with the settings of the example, no subdomain active. -/
def demoRouter : Router := { subdomain := none, settings := some demoSettings, ready := true }

/-- The same router while the subdomain `shop` is active. -/
def shopRouter : Router :=
  { subdomain := some "shop".toList, settings := some demoSettings, ready := true }

/-- A ready router whose settings have no subdomain at all. -/
def emptyRouter : Router :=
  { subdomain := none,
    settings := some { baseURL := .string "https://example.com".toList,
                       container := .string "app-root".toList, subdomains := [] },
    ready := true }

/-! ## BienUtils.importer (src/BienUtils.js, src/data) -/

/-- The object `Directories` of src/data/Directories.js. -/
def Directories : Props Str :=
  [("create".toList, "creators".toList), ("fill".toList, "fillers".toList),
   ("handle".toList, "handlers".toList), ("helper".toList, "helpers".toList),
   ("validate".toList, "validators".toList)]

/-- The object `Version.content` of src/data/Version.js. -/
def versionContent : Props (List Str) :=
  [("creators".toList,
      ["createCompoundInput".toList, "createContainer".toList, "createInput".toList]),
   ("fillers".toList, ["fillSelectableGroup".toList]),
   ("handlers".toList,
      ["handleAlphaNumeric".toList, "handleDecimal".toList, "handleEmailString".toList,
       "handleInt".toList, "handleString".toList, "handleTel".toList]),
   ("helpers".toList, ["helperSentinel".toList, "helperSubdomainRouter".toList]),
   ("validators".toList,
      ["validateAlphaNumeric".toList, "validateNumber".toList, "validateString".toList])]

/-- The call `Object.keys(o)`. -/
def objectKeys {α : Type} (o : Props α) : List Str := (ownEntries o).map Prod.fst

/-- The private fields of the class `BienUtils` that `importer` reads. -/
structure BienUtils where
  /-- the field `#origin` -/
  origin : Str
  /-- the field `#Directories`, `none` while undefined -/
  Directories : Option (Props Str)

/-- The instance after `new BienUtils()`. -/
def BienUtils.fresh : BienUtils :=
  { origin := "http://localhost:8081".toList, Directories := none }

/-- The instance after `init()` has loaded the data modules. -/
def BienUtils.loaded : BienUtils :=
  { origin := "http://localhost:8081".toList, Directories := some SubdomainRouter.Directories }

/-- The errors of `importer`. -/
inductive ImporterError where
  /-- line 209 -/
  | notAString
  /-- line 213 -/
  | noKey
  /-- line 225: the wrapped error of a failed import -/
  | importFailed
  /-- a TypeError raised by the platform -/
  | typeError
  deriving DecidableEq, Repr

/-- The outcome of `importer`: the paths passed to `import`, and the
value the promise resolves to or the error. -/
structure ImporterResult (α : Type) where
  imported : List Str
  outcome : Except ImporterError α

/-- The key `importer` finds, line 211. -/
def keyFound (dirs : Props Str) (module : Str) : Option Str :=
  (objectKeys dirs).find? (fun k => startsWith module k)

/-- The path of line 215. -/
def importPath (origin : Str) (dirs : Props Str) (key module : Str) : Str :=
  origin ++ "/modules/".toList ++ (getOwn dirs key).getD undefinedKey ++ "/".toList
    ++ module ++ ".js".toList

/-- The method `importer`, lines 207-227.  `importModule` is the dynamic
`import`: the default export of the module, or `none` when it fails. -/
def importer {α : Type} (app : BienUtils) (importModule : Str → Option α) (module : JsValue) :
    ImporterResult α :=
  match module with
  | .string m =>
    match app.Directories with
    | none => { imported := [], outcome := .error .typeError }
    | some dirs =>
      -- const keyFound = Object.keys(this.#Directories).find(k => module.startsWith(k));
      match keyFound dirs m with
      | none => { imported := [], outcome := .error .noKey }
      | some key =>
        -- if (!keyFound)
        if key = [] then { imported := [], outcome := .error .noKey }
        else
          match importModule (importPath app.origin dirs key m) with
          | some d => { imported := [importPath app.origin dirs key m], outcome := .ok d }
          | none =>
            { imported := [importPath app.origin dirs key m], outcome := .error .importFailed }
  -- if (typeof module !== "string")
  | _ => { imported := [], outcome := .error .notAString }

/-! ## helperSentinel (src/modules/helpers/helperSentinel.js) -/

/-- The operator `typeof`. -/
def typeOf : JsValue → Str
  | .undefined => "undefined".toList
  | .null => "object".toList
  | .boolean _ => "boolean".toList
  | .number _ => "number".toList
  | .string _ => "string".toList
  | .url _ => "object".toList
  | .object _ => "object".toList

/-- The comparison `v === "s"` with a string literal. -/
def strictEqString (v : JsValue) (s : Str) : Bool := decide (v = .string s)

/-- The body of the request to the sanitization service. -/
structure SentinelRequest where
  input : JsValue
  profile : JsValue
  encoding : JsValue
  deriving DecidableEq, Repr

/-- The object the service answers with, as far as the validators read
it: `value`, and whether `hostility` is truthy. -/
structure Sentinel where
  value : Str
  hostility : Bool
  deriving DecidableEq, Repr

/-- What `fetch` and `rs.json()` give for a request. -/
inductive SentinelReply where
  /-- the promise of `fetch` is rejected -/
  | rejected
  /-- the response is not ok -/
  | notOk
  /-- the promise of `rs.json()` is rejected -/
  | badJson
  /-- the parsed body; `none` for a falsy one (`null`, `false`, `0`, `""`) -/
  | json (body : Option Sentinel)
  deriving DecidableEq, Repr

/-- The errors of `helperSentinel`. -/
inductive SentinelError where
  /-- line 89 -/
  | validation
  /-- line 102 -/
  | notOk
  /-- a rejected `fetch` or `rs.json()` -/
  | rejected
  deriving DecidableEq, Repr

/-- The outcome of `helperSentinel`: the requests sent, and the value the
promise resolves to or the error. -/
structure SentinelResult where
  requests : List SentinelRequest
  outcome : Except SentinelError (Option Sentinel)
  deriving DecidableEq, Repr

/-- The function `helperSentinel`, lines 84-105. -/
def helperSentinel (service : SentinelRequest → SentinelReply)
    (input profile encoding : JsValue) : SentinelResult :=
  if
    -- !typeof input === "string": the operator `!` applies to `typeof input`
    strictEqString (JsValue.string (typeOf input)).not "string".toList ||
    !(strictEqString profile "alnum".toList || strictEqString profile "numeric+dot".toList ||
      strictEqString profile "any".toList) ||
    !(strictEqString encoding "HTML".toList || strictEqString encoding "UNICODE".toList ||
      strictEqString encoding "ASCII".toList)
  then { requests := [], outcome := .error .validation }
  else
    match service ⟨input, profile, encoding⟩ with
    | .rejected => { requests := [⟨input, profile, encoding⟩], outcome := .error .rejected }
    | .notOk => { requests := [⟨input, profile, encoding⟩], outcome := .error .notOk }
    | .badJson => { requests := [⟨input, profile, encoding⟩], outcome := .error .rejected }
    | .json body => { requests := [⟨input, profile, encoding⟩], outcome := .ok body }

/-! ## The validators (src/modules/validators) -/

/-- An input element, as far as the validators and handlers touch it. -/
structure InputElement where
  value : Str
  /-- the classes of `classList`, in order -/
  classList : List Str
  /-- the attribute `data-value` (`dataset.value`), `none` while absent -/
  dataValue : Option Str
  deriving DecidableEq, Repr

/-- An event, as far as the validators and handlers read it. -/
structure Event where
  type : Str
  /-- the property `key` of a keyboard event, `none` when undefined -/
  key : Option Str
  target : InputElement
  deriving DecidableEq, Repr

/-- The outcome of a validator: the requests sent, whether it throws
(lines 26-27), and the target afterwards. -/
structure ValidatorResult where
  requests : List SentinelRequest
  failed : Bool
  target : InputElement
  deriving DecidableEq, Repr

/-- Lines 29-33 of both validators: `if (rs) { if (rs.hostility)
e.target.dataset.value = "hostil" }`. -/
def markHostility (target : InputElement) (rs : Option Sentinel) : InputElement :=
  match rs with
  | none => target
  | some rs => if rs.hostility then { target with dataValue := some "hostil".toList } else target

/-- The function `validateString`, lines 18-34. -/
def validateString (service : SentinelRequest → SentinelReply) (e : Event) : ValidatorResult :=
  -- if (e.type === "keydown") { if (e.key !== "Enter") return; }
  if e.type = "keydown".toList ∧ e.key ≠ some "Enter".toList then
    { requests := [], failed := false, target := e.target }
  -- if (e.target.value === "") return;
  else if e.target.value = [] then { requests := [], failed := false, target := e.target }
  else
    match (helperSentinel service (.string e.target.value) (.string "any".toList)
        (.string "HTML".toList)).outcome with
    | .error _ =>
      { requests := (helperSentinel service (.string e.target.value) (.string "any".toList)
          (.string "HTML".toList)).requests,
        failed := true, target := e.target }
    | .ok rs =>
      { requests := (helperSentinel service (.string e.target.value) (.string "any".toList)
          (.string "HTML".toList)).requests,
        failed := false, target := markHostility e.target rs }

/-- The function `validateNumber`, lines 18-33. -/
def validateNumber (service : SentinelRequest → SentinelReply) (e : Event) : ValidatorResult :=
  if e.type = "keydown".toList ∧ e.key ≠ some "Enter".toList then
    { requests := [], failed := false, target := e.target }
  else
    match (helperSentinel service (.string e.target.value) (.string "numeric+dot".toList)
        (.string "HTML".toList)).outcome with
    | .error _ =>
      { requests := (helperSentinel service (.string e.target.value)
          (.string "numeric+dot".toList) (.string "HTML".toList)).requests,
        failed := true, target := e.target }
    | .ok rs =>
      { requests := (helperSentinel service (.string e.target.value)
          (.string "numeric+dot".toList) (.string "HTML".toList)).requests,
        failed := false, target := markHostility e.target rs }

/-! ## The handlers (src/modules/handlers) -/

/-- The string starts with the pattern, letters compared without regard
to case (flag `i`); the pattern is given in lower case.  Without the flag
`u` only the letters `A`-`Z` are equal to their lower-case letters. -/
def startsWithCI (s p : Str) : Bool := (s.take p.length).map Char.toLower == p

/-- The alternatives `\sOR\s` and `\sAND\s`: a white-space character, the
keyword, a white-space character. -/
def keywordAt (s w : Str) : Bool :=
  match s with
  | [] => false
  | c :: cs =>
    isWhiteSpace c && startsWithCI cs w &&
      match cs.drop w.length with
      | [] => false
      | d :: _ => isWhiteSpace d

/-- A character of the class `["']`. -/
def isQuote (c : Char) : Bool := c == '"' || c == '\''

/-- A character of the class `[\u0000-\u001F]`. -/
def isControl (c : Char) : Bool := c.toNat ≤ 0x1F

/-- The length of the match of `regex` (line 14 of handleString.js) that
starts at the head of the string, `0` when there is none: the
alternatives are tried in the order in which they are written. -/
def regexMatch (s : Str) : Nat :=
  if startsWithCI s "--".toList then 2
  else if startsWithCI s ";".toList then 1
  else if keywordAt s "or".toList then 4
  else if keywordAt s "and".toList then 5
  else if startsWithCI s "<script>".toList then 8
  else if startsWithCI s "</script>".toList then 9
  else if startsWithCI s "onerror=".toList then 8
  else if startsWithCI s "onclick=".toList then 8
  else
    match s with
    | [] => 0
    | c :: _ => if isQuote c then 1 else if isControl c then 1 else 0

/-- The call `value.replace(regex, '')` with the flag `g`: the string is
scanned from the left, every match is left out and the scan goes on
behind it.  The first argument counts the characters of the current
match still to leave out. -/
def replaceRegex : Nat → Str → Str
  | _, [] => []
  | n + 1, _ :: cs => replaceRegex n cs
  | 0, c :: cs =>
    match regexMatch (c :: cs) with
    | 0 => c :: replaceRegex 0 cs
    | n + 1 => replaceRegex n cs

/-- The function `handleString`: the target afterwards. -/
def handleString (e : Event) : InputElement :=
  { e.target with value := replaceRegex 0 e.target.value }

/-- The characters the class `[^0-9.]` of handleDecimal.js leaves. -/
def decimalChars : List Char := "0123456789.".toList

/-- The function `handleDecimal`: the target afterwards. -/
def handleDecimal (e : Event) : InputElement :=
  -- const sanitized = raw.replace(/[^0-9.]/g, '');
  let sanitized := e.target.value.filter (fun c => decimalChars.contains c)
  if sanitized ≠ e.target.value then { e.target with value := sanitized } else e.target

/-- The characters the class `[^0-9()+-]` of handleTel.js leaves. -/
def telChars : List Char := "0123456789()+-".toList

/-- The digits, the parentheses and `+`: the characters the documentation
of handleTel.js names. -/
def phoneChars : List Char := "0123456789()+".toList

/-- The function `handleTel`: the target afterwards. -/
def handleTel (e : Event) : InputElement :=
  handleString
    { e with target :=
        { e.target with value := e.target.value.filter (fun c => telChars.contains c) } }

/-- A character of the class `[^\s@]`. -/
def emailChar (c : Char) : Bool := !isWhiteSpace c && c != '@'

/-- The call `emailRegex.test(value)` for `/^[^\s@]+@[^\s@]+\.[^\s@]+$/`:
the characters up to the first `@` or white space are the local part; an
`@` follows; what follows it has neither `@` nor white space and has a
dot that is neither its first nor its last character. -/
def emailRegexTest (value : Str) : Bool :=
  match value.dropWhile emailChar with
  | '@' :: d =>
    value.takeWhile emailChar != [] && d.all emailChar && (d.drop 1).dropLast.contains '.'
  | _ => false

/-- The call `classList.add(c)`. -/
def classListAdd (classes : List Str) (c : Str) : List Str :=
  if c ∈ classes then classes else classes ++ [c]

/-- The call `classList.remove(c)`. -/
def classListRemove (classes : List Str) (c : Str) : List Str :=
  classes.filter (fun x => x != c)

/-- The function `handleEmailString`: the target afterwards. -/
def handleEmailString (e : Event) : InputElement :=
  handleString
    { e with target :=
        { e.target with classList :=
            if !emailRegexTest e.target.value then
              classListAdd e.target.classList "invalid-value".toList
            else classListRemove e.target.classList "invalid-value".toList } }

/-- An input event on an element with the given value, without classes
and without `data-value`. -/
def inputEvent (value : Str) : Event :=
  { type := "input".toList, key := none,
    target := { value := value, classList := [], dataValue := none } }

/-- The value is of the form `local@domain.tld`: three non-empty parts
without white space or `@`. -/
def EmailForm (value : Str) : Prop :=
  ∃ l d t : Str, value = l ++ '@' :: (d ++ '.' :: t) ∧ l ≠ [] ∧ d ≠ [] ∧ t ≠ [] ∧
    (∀ c ∈ l, emailChar c = true) ∧ (∀ c ∈ d, emailChar c = true) ∧
    (∀ c ∈ t, emailChar c = true)

/-- A service that answers every request with the text `clean`, not hostile. -/
def cleanService : SentinelRequest → SentinelReply :=
  fun _ => .json (some { value := "clean".toList, hostility := false })

/-- A service that answers every request with the text `clean`, hostile. -/
def hostileService : SentinelRequest → SentinelReply :=
  fun _ => .json (some { value := "clean".toList, hostility := true })

/-! ## The states a router reaches -/

/-- The states a router can be in: the state after `new SubdomainRouter()`,
and the state after a call of `init` or of `navigate` on such a state,
whatever the platform answers and whether the call fails or not.  The
calls are those `init` and `navigate` describe: the parser starts with the
built-in objects as the platform made them. -/
inductive Reachable : Router → Prop where
  | fresh : Reachable Router.fresh
  | init (host : Host) (r : Router) (config : JsValue) :
      Reachable r → Reachable (init host r config).router
  | navigate (host : Host) (depth : Nat) (r : Router) (w : World) (input : JsValue)
      (state : StateValue) :
      Reachable r → Reachable (navigate host depth r w input state).router

/-- The shell component of every entry is a module path, or the entry has
none. -/
def Settings.pathShells (st : Settings) : Prop :=
  ∀ e ∈ st.subdomains, e.component = .undefined ∨ ∃ p, e.component = .string p

/-- A resource like the example of section 6 without the route `404`. -/
def bareText : Str :=
  ("baseURL=https://example.com\n" ++ "container=app-root\n" ++
   "@.component=shell/Main\n" ++ "@.routes.home.route=home\n" ++
   "@.routes.home.component=views/Home\n").toList

/-- The host of the examples, serving `bareText` as `bare.properties`. -/
def bareHost : Host :=
  { demoHost with
    fetch := fun t =>
      if t = "https://example.com/bare.properties".toList then some ⟨true, bareText⟩
      else none }

/-- The entry of the subdomain `@` that `init` stores for `bareText`. -/
def bareEntry : SubdomainEntry :=
  { subdomain := some "@".toList, component := .string "shell/Main".toList,
    routes := [{ route := some "home".toList, component := .string "views/Home".toList }] }

/-- The settings `init` stores for `bareText`. -/
def bareSettings : Settings :=
  { baseURL := .string "https://example.com".toList,
    container := .string "app-root".toList, subdomains := [bareEntry] }

/-! ## What the routes of the result rest on

The parser reads `_routes` and, for a key with too few segments, `rest[0]`,
`rest[1]` and `rest[2]` through the prototype chain.  A line that assigns
one of these names on `Object.prototype` changes what later lines and the
final loop find there. -/

/-- The names whose assignment on `Object.prototype` the routes depend on:
`_routes`, and the indices `0`, `1`, `2` of `rest`. -/
def seedKeys : List Str := [routesField, "0".toList, "1".toList, "2".toList]

/-- The accepted line assigns one of `seedKeys` on `Object.prototype`: its
key starts with `__proto__.routes` (line 124 creates `_routes` there), or
it has the second segment `routes`, the third `__proto__` and as fourth one
of `seedKeys`. -/
def seedsRoutes (kv : KV) : Bool :=
  !isTopLevel kv && isRouteLine kv &&
    (subdomainOf kv == protoKey ||
     (routeIdOf kv == protoKey && seedKeys.contains (fieldOf kv)))

/-- What is assigned on `Object.prototype` are strings, none under a name
of `seedKeys`. -/
def Realm.unseeded (rl : Realm) : Prop :=
  ∀ k v, getOwn rl.objectPrototype k = some v → (∃ s, v = .str s) ∧ k ∉ seedKeys

/-- An entry of `tempSubs` under the key `k` during the loop, after the
accepted lines `L`: its subdomain is `k`, its routes are still empty, and
its dictionary `_routes`, if any, has distinct keys, each the route id of
a route line of `k`. -/
def TempSub.Sound (L : List KV) (k : Str) (e : TempSub) : Prop :=
  e.subdomain = k ∧ e.routes = [] ∧
  ∀ d, e._routes = some d → (d.map Prod.fst).Nodup ∧
    ∀ r ∈ d.map Prod.fst, ∃ kv ∈ routeLinesOf k L, routeIdOf kv = r

/-- The state of the loop after the accepted lines `L`, none of which
assigns a name of `seedKeys` on `Object.prototype`. -/
def Acc.Sound (acc : Acc) (L : List KV) : Prop :=
  acc.realm.unseeded ∧ (acc.tempSubs.map Prod.fst).Nodup ∧
  ∀ k e, getOwn acc.tempSubs k = some e → TempSub.Sound L k e

/-! ## Plain objects: reading and assigning -/

theorem getOwn_map_keys {β : Type} (keys : List Str) (g : Str → β) (s : Str) :
    getOwn (keys.map fun k => (k, g k)) s = if s ∈ keys then some (g s) else none := by
  induction keys with
  | nil => simp [getOwn]
  | cons k ks ih =>
    by_cases h : k = s
    · subst h; simp [getOwn]
    · have h2 : ¬ s = k := fun e => h e.symm
      simp [getOwn, h, h2, ih]

theorem setOwn_map_of_not_mem {β : Type} (keys : List Str) (g : Str → β) (s : Str) (v : β)
    (hs : s ∉ keys) :
    setOwn (keys.map fun k => (k, g k)) s v = (keys.map fun k => (k, g k)) ++ [(s, v)] := by
  induction keys with
  | nil => simp [setOwn]
  | cons k ks ih =>
    have h1 : ¬ k = s := fun e => hs (by simp [e])
    have h2 : s ∉ ks := fun e => hs (by simp [e])
    simp [setOwn, h1, ih h2]

theorem setOwn_map_of_mem {β : Type} (keys : List Str) (g g2 : Str → β) (s : Str) (v : β)
    (hn : keys.Nodup) (hs : s ∈ keys) (hv : g2 s = v) (hg : ∀ k ∈ keys, k ≠ s → g2 k = g k) :
    setOwn (keys.map fun k => (k, g k)) s v = keys.map fun k => (k, g2 k) := by
  induction keys with
  | nil => simp at hs
  | cons k ks ih =>
    rw [List.nodup_cons] at hn
    by_cases h : k = s
    · subst h
      have : ∀ x ∈ ks, g2 x = g x := fun x hx => hg x (by simp [hx]) (fun e => hn.1 (e ▸ hx))
      simp only [List.map_cons, setOwn, if_true, hv]
      congr 1
      exact List.map_congr_left (fun x hx => by rw [this x hx])
    · have hs2 : s ∈ ks := by
        rcases List.mem_cons.1 hs with e | e
        · exact absurd e.symm h
        · exact e
      simp only [List.map_cons, setOwn, if_neg h]
      rw [ih hn.2 hs2 (fun x hx hne => hg x (by simp [hx]) hne), hg k (by simp) h]

/-! ## First-seen order and last values -/

theorem mem_firstSeen (l : List Str) (x : Str) : x ∈ firstSeen l ↔ x ∈ l := by
  induction l with
  | nil => simp [firstSeen]
  | cons a l ih =>
    by_cases h : x = a
    · simp [firstSeen, h]
    · simp [firstSeen, h, List.mem_filter, ih]

theorem nodup_firstSeen (l : List Str) : (firstSeen l).Nodup := by
  induction l with
  | nil => simp [firstSeen]
  | cons a l ih =>
    simp only [firstSeen, List.nodup_cons]
    exact ⟨by simp [List.mem_filter], ih.filter _⟩

theorem firstSeen_concat (l : List Str) (x : Str) :
    firstSeen (l ++ [x]) = if x ∈ l then firstSeen l else firstSeen l ++ [x] := by
  induction l with
  | nil => simp [firstSeen]
  | cons a l ih =>
    rw [List.cons_append, firstSeen, ih, firstSeen]
    by_cases h : x = a
    · subst h
      by_cases h2 : x ∈ l <;> simp [h2, List.filter_append]
    · have h3 : ¬ a = x := fun e => h e.symm
      by_cases h2 : x ∈ l <;> simp [h2, h, h3, List.filter_append]

theorem lastValue_concat (l : List KV) (kv : KV) : lastValue (l ++ [kv]) = some kv.2 := by
  simp [lastValue]

theorem filter_concat {α : Type} (p : α → Bool) (l : List α) (a : α) :
    (l ++ [a]).filter p = if p a then l.filter p ++ [a] else l.filter p := by
  by_cases h : p a <;> simp [List.filter_append, h]

/-! ## Grouped dictionaries -/

theorem setOwn_setOwn {β : Type} (o : Props β) (k : Str) (v w : β) :
    setOwn (setOwn o k v) k w = setOwn o k w := by
  induction o with
  | nil => simp [setOwn]
  | cons p o ih =>
    obtain ⟨k2, v2⟩ := p
    by_cases h : k2 = k
    · simp [setOwn, h]
    · simp [setOwn, h, ih]

theorem getOwn_setOwn {β : Type} (o : Props β) (k : Str) (v : β) :
    getOwn (setOwn o k v) k = some v := by
  induction o with
  | nil => simp [setOwn, getOwn]
  | cons p o ih =>
    obtain ⟨k2, v2⟩ := p
    by_cases h : k2 = k
    · simp [setOwn, getOwn, h]
    · simp [setOwn, getOwn, h, ih]

/-- Adding a line that creates or updates its key. -/
theorem setOwn_grouped {β : Type} (key : KV → Str) (p : KV → Bool) (sel : Str → KV → Bool)
    (G : Str → List KV → β) (Q : List KV) (kv : KV) (hp : p kv = true)
    (h1 : sel (key kv) kv = true) (h2 : ∀ k, k ≠ key kv → sel k kv = false) :
    setOwn ((firstSeen ((Q.filter p).map key)).map fun k => (k, G k (Q.filter (sel k))))
        (key kv) (G (key kv) (Q.filter (sel (key kv)) ++ [kv]))
      = (firstSeen (((Q ++ [kv]).filter p).map key)).map
          fun k => (k, G k ((Q ++ [kv]).filter (sel k))) := by
  have hkeys : ((Q ++ [kv]).filter p).map key = (Q.filter p).map key ++ [key kv] := by
    simp [filter_concat, hp]
  rw [hkeys, firstSeen_concat]
  have hsame : ∀ k, k ≠ key kv → (Q ++ [kv]).filter (sel k) = Q.filter (sel k) := by
    intro k hk
    simp [filter_concat, h2 k hk]
  have hnew : (Q ++ [kv]).filter (sel (key kv)) = Q.filter (sel (key kv)) ++ [kv] := by
    simp [filter_concat, h1]
  by_cases hm : key kv ∈ (Q.filter p).map key
  · rw [if_pos hm]
    apply setOwn_map_of_mem _ _ _ _ _ (nodup_firstSeen _) ((mem_firstSeen _ _).2 hm)
    · simp only [hnew]
    · intro k _ hk
      simp only [hsame k hk]
  · rw [if_neg hm, setOwn_map_of_not_mem _ _ _ _ (fun h => hm ((mem_firstSeen _ _).1 h))]
    rw [List.map_append, List.map_singleton, hnew]
    congr 1
    apply List.map_congr_left
    intro k hk
    have hk2 : k ≠ key kv := fun e => hm (e ▸ (mem_firstSeen _ _).1 hk)
    rw [hsame k hk2]

/-- Adding a line that neither creates nor updates a key. -/
theorem grouped_concat_skip {β : Type} (key : KV → Str) (p : KV → Bool) (sel : Str → KV → Bool)
    (G : Str → List KV → β) (Q : List KV) (kv : KV) (hp : p kv = false)
    (h2 : ∀ q ∈ Q, p q = true → sel (key q) kv = false) :
    ((firstSeen (((Q ++ [kv]).filter p).map key)).map
        fun k => (k, G k ((Q ++ [kv]).filter (sel k))))
      = (firstSeen ((Q.filter p).map key)).map fun k => (k, G k (Q.filter (sel k))) := by
  have hkeys : ((Q ++ [kv]).filter p).map key = (Q.filter p).map key := by
    simp [filter_concat, hp]
  rw [hkeys]
  apply List.map_congr_left
  intro k hk
  have hk2 := (mem_firstSeen _ _).1 hk
  obtain ⟨q, hq, rfl⟩ := List.mem_map.1 hk2
  rw [List.mem_filter] at hq
  simp [filter_concat, h2 q hq.1 hq.2]
theorem mem_inheritedNames (s : Str) :
    s ∈ inheritedNames ↔ s = protoKey ∨ s ∈ objectPrototypeMethods := by
  simp [inheritedNames]

/-! ## The loop computes the grouping -/

theorem groupRecord_concat (Q : List KV) (kv : KV) :
    groupRecord (Q ++ [kv]) =
      if fieldOf kv = protoKey then groupRecord Q
      else setOwn (groupRecord Q) (fieldOf kv) kv.2 := by
  unfold groupRecord
  by_cases h : fieldOf kv = protoKey
  · rw [if_pos h]
    apply grouped_concat_skip fieldOf (fun kv => fieldOf kv != protoKey)
      (fun f kv => fieldOf kv == f) (fun _ lines => (lastValue lines).getD [])
    · simp [h]
    · intro q _ hq
      simp only [bne_iff_ne, ne_eq] at hq
      simp only [beq_eq_false_iff_ne, ne_eq, h]
      exact fun e => hq e.symm
  · rw [if_neg h]
    have := setOwn_grouped fieldOf (fun kv => fieldOf kv != protoKey)
      (fun f kv => fieldOf kv == f) (fun _ lines => (lastValue lines).getD []) Q kv
      (by simp [h]) (by simp) (by
        intro k hk
        simp only [beq_eq_false_iff_ne, ne_eq]
        exact fun e => hk e.symm)
    simp only [lastValue_concat, Option.getD_some] at this
    exact this.symm

theorem groupRoutes_nil : groupRoutes [] = [] := by
  simp [groupRoutes, routeIdsOf, firstSeen]

theorem groupRecord_nil : groupRecord [] = [] := by
  simp [groupRecord, firstSeen]

theorem not_mem_routeIdsOf (R : List KV) (r : Str) (hr : r ∈ inheritedNames) :
    r ∉ routeIdsOf R := by
  intro hm
  rw [routeIdsOf, mem_firstSeen, List.mem_map] at hm
  obtain ⟨q, hq, rfl⟩ := hm
  rw [List.mem_filter] at hq
  simp [hr] at hq

/-- The lines of a route id that has no record yet. -/
theorem filter_routeId_eq_nil (R : List KV) (r : Str) (hr : r ∉ inheritedNames)
    (hm : r ∉ routeIdsOf R) : (R.filter fun kv => routeIdOf kv == r) = [] := by
  rw [List.filter_eq_nil_iff]
  intro q hq hqr
  apply hm
  have hqr2 : routeIdOf q = r := by simpa using hqr
  rw [routeIdsOf, mem_firstSeen, List.mem_map]
  refine ⟨q, ?_, hqr2⟩
  rw [List.mem_filter]
  refine ⟨hq, ?_⟩
  simp [hqr2, hr]

theorem groupRoutes_concat_of_own (R : List KV) (kv : KV) (hr : routeIdOf kv ∉ inheritedNames) :
    groupRoutes (R ++ [kv]) =
      setOwn (groupRoutes R) (routeIdOf kv)
        (groupRecord ((R.filter fun q => routeIdOf q == routeIdOf kv) ++ [kv])) := by
  have := setOwn_grouped routeIdOf (fun kv => !inheritedNames.contains (routeIdOf kv))
      (fun r kv => routeIdOf kv == r) (fun _ lines => groupRecord lines) R kv
      (by simp [hr]) (by simp) (by
        intro k hk
        simp only [beq_eq_false_iff_ne, ne_eq]
        exact fun e => hk e.symm)
  exact this.symm

theorem groupRoutes_concat_of_inherited (R : List KV) (kv : KV)
    (hr : routeIdOf kv ∈ inheritedNames) :
    groupRoutes (R ++ [kv]) = groupRoutes R := by
  apply grouped_concat_skip routeIdOf (fun kv => !inheritedNames.contains (routeIdOf kv))
      (fun r kv => routeIdOf kv == r) (fun _ lines => groupRecord lines)
  · simp [hr]
  · intro q _ hq
    simp only [beq_eq_false_iff_ne, ne_eq]
    intro e
    rw [e] at hr
    simp [hr] at hq

theorem routesKey_ne_componentKey : routesKey ≠ componentKey := by decide

theorem not_isComponentLine_of_isRouteLine (kv : KV) (h : isRouteLine kv = true) :
    isComponentLine kv = false := by
  unfold isRouteLine at h
  unfold isComponentLine
  rw [beq_eq_false_iff_ne]
  intro e
  rw [e] at h
  have h2 : componentKey = routesKey := by simpa using h
  exact routesKey_ne_componentKey h2.symm

theorem getD_routes_groupEntry (s : Str) (S : List KV) :
    (groupEntry s S)._routes.getD [] = groupRoutes (S.filter isRouteLine) := by
  unfold groupEntry
  by_cases h : S.any isRouteLine = true
  · simp [h]
  · have h2 : S.filter isRouteLine = [] := by
      rw [List.filter_eq_nil_iff]
      intro q hq hq2
      exact h (List.any_eq_true.2 ⟨q, hq, hq2⟩)
    simp [h, h2, groupRoutes_nil]

theorem not_mem_subdomainIds (L : List KV) (s : Str) (hs : s ∈ inheritedNames) :
    s ∉ firstSeen (subdomainIds L) := by
  intro hm
  rw [subdomainIds, mem_firstSeen, List.mem_map] at hm
  obtain ⟨q, hq, rfl⟩ := hm
  rw [List.mem_filter] at hq
  simp [hs] at hq

/-- The lines of a subdomain that has no entry yet. -/
theorem linesOf_eq_nil (L : List KV) (s : Str) (hs : s ∉ inheritedNames)
    (hm : s ∉ firstSeen (subdomainIds L)) : linesOf s L = [] := by
  unfold linesOf
  rw [List.filter_eq_nil_iff]
  intro q hq hqs
  apply hm
  have h1 : isTopLevel q = false ∧ subdomainOf q = s := by simpa using hqs
  rw [subdomainIds, mem_firstSeen, List.mem_map]
  refine ⟨q, ?_, h1.2⟩
  rw [List.mem_filter]
  refine ⟨hq, ?_⟩
  simp [h1.1, h1.2, hs]

theorem tempSubs_concat_of_own (L : List KV) (kv : KV) (ht : isTopLevel kv = false)
    (hs : subdomainOf kv ∉ inheritedNames) :
    (groupAcc (L ++ [kv])).tempSubs =
      setOwn (groupAcc L).tempSubs (subdomainOf kv)
        (groupEntry (subdomainOf kv) (linesOf (subdomainOf kv) L ++ [kv])) := by
  have := setOwn_grouped subdomainOf
      (fun kv => !isTopLevel kv && !inheritedNames.contains (subdomainOf kv))
      (fun s kv => !isTopLevel kv && subdomainOf kv == s) groupEntry L kv
      (by simp [ht, hs]) (by simp [ht]) (by
        intro k hk
        have : ¬ subdomainOf kv = k := fun e => hk e.symm
        simp [this])
  exact this.symm

theorem tempSubs_concat_of_skip (L : List KV) (kv : KV)
    (h : isTopLevel kv = true ∨ subdomainOf kv ∈ inheritedNames) :
    (groupAcc (L ++ [kv])).tempSubs = (groupAcc L).tempSubs := by
  apply grouped_concat_skip subdomainOf
      (fun kv => !isTopLevel kv && !inheritedNames.contains (subdomainOf kv))
      (fun s kv => !isTopLevel kv && subdomainOf kv == s) groupEntry
  · rcases h with h | h <;> simp [h]
  · intro q _ hq
    rcases h with h | h
    · simp [h]
    · have hq2 : isTopLevel q = false ∧ subdomainOf q ∉ inheritedNames := by simpa using hq
      have : ¬ subdomainOf kv = subdomainOf q := fun e => hq2.2 (e ▸ h)
      simp [this]

theorem baseURLKey_ne_containerKey : baseURLKey ≠ containerKey := by decide

theorem groupAcc_nil : groupAcc [] = Acc.init := by
  simp [groupAcc, Acc.init, lastValue, subdomainIds, firstSeen]
/-! ## The order of `Object.values` -/

theorem ownEntries_map {α β : Type} (o : Props α) (f : Str × α → β) :
    ownEntries (o.map fun p => (p.1, f p)) = (ownEntries o).map fun p => (p.1, f p) := by
  unfold ownEntries
  rw [List.map_append, List.filter_map, List.filter_map]
  congr 1
  rw [List.map_insertionSort indexLE indexLE]
  · rfl
  · intro a _ b _
    rfl

theorem objectValues_map_keys {β : Type} (keys : List Str) (g : Str → β) :
    objectValues (keys.map fun k => (k, g k)) = (ownKeyOrder keys).map g := by
  have h := ownEntries_map (keys.map fun k => (k, ())) (fun p => g p.1)
  simp only [List.map_map] at h
  unfold objectValues ownKeyOrder
  have h2 : (keys.map fun k => (k, g k)) =
      List.map ((fun p : Str × Unit => (p.1, g p.1)) ∘ fun k => (k, ())) keys := by
    apply List.map_congr_left
    intro k _
    rfl
  rw [h2, h, List.map_map, List.map_map]
  apply List.map_congr_left
  intro p _
  rfl

/-! ## Reading and assigning while `Object.prototype` is as the platform made it -/

theorem getOwn_setOwn_ne {β : Type} (o : Props β) (k k2 : Str) (v : β) (h : k ≠ k2) :
    getOwn (setOwn o k v) k2 = getOwn o k2 := by
  induction o with
  | nil => simp [setOwn, getOwn, h]
  | cons p o ih =>
    obtain ⟨k3, v3⟩ := p
    by_cases h3 : k3 = k
    · subst h3
      simp [setOwn, getOwn, h]
    · by_cases h4 : k3 = k2
      · subst h4
        simp [setOwn, getOwn, h3]
      · simp [setOwn, getOwn, h3, h4, ih]

theorem setOwn_self {β : Type} (o : Props β) (k : Str) (v : β) (h : getOwn o k = some v) :
    setOwn o k v = o := by
  induction o with
  | nil => simp [getOwn] at h
  | cons p o ih =>
    obtain ⟨k3, v3⟩ := p
    by_cases h3 : k3 = k
    · simp only [getOwn, if_pos h3, Option.some.injEq] at h
      simp [setOwn, h3, h]
    · simp only [getOwn, if_neg h3] at h
      simp [setOwn, h3, ih h]

theorem fromObjectPrototype_pristine {α : Type} (rl : Realm) (proto : Target α) (k : Str)
    (h : rl.objectPrototype = []) :
    fromObjectPrototype rl proto k =
      if k = protoKey then proto
      else if k ∈ objectPrototypeMethods then .place (.objectMethod k) [] else .undefined := by
  simp [fromObjectPrototype, h, getOwn]

theorem restAt_pristine (rl : Realm) (rest : List Str) (i : Nat) (key : Str)
    (h : rl.objectPrototype = []) : restAt rl rest i key = rest.get? i := by
  unfold restAt
  cases rest.get? i <;> simp [h, getOwn]

theorem routesField_not_inherited : routesField ∉ inheritedNames := by decide

theorem readSub_entry (b c : Option Str) (T : Props TempSub) (s : Str) (e : TempSub)
    (rl : Realm) :
    readSub ⟨b, c, setOwn T s e, rl⟩ s = .own s := by
  simp [readSub, getOwn_setOwn]

theorem mapEntry_entry (b c : Option Str) (T : Props TempSub) (s : Str) (e : TempSub)
    (rl : Realm) (f : TempSub → TempSub) :
    Acc.mapEntry ⟨b, c, setOwn T s e, rl⟩ s f = ⟨b, c, setOwn T s (f e), rl⟩ := by
  simp [Acc.mapEntry, getOwn_setOwn, setOwn_setOwn]

theorem readRoutes_entry (b c : Option Str) (T : Props TempSub) (s : Str) (e : TempSub)
    (rl : Realm) (hP : rl.objectPrototype = []) :
    readRoutes ⟨b, c, setOwn T s e, rl⟩ s =
      .ok (match e._routes with
        | some _ => .own s
        | none => .undefined) := by
  have h := fromObjectPrototype_pristine rl (.place .objectPrototype [] : Target Str)
    routesField hP
  have h1 : routesField ≠ protoKey := by decide
  have h2 : routesField ∉ objectPrototypeMethods := by decide
  rw [if_neg h1, if_neg h2] at h
  unfold readRoutes
  rw [readSub_entry]
  simp only [readFrom, getOwn_setOwn, Option.bind_some, h]
  cases he : e._routes <;> simp [he]

theorem readRoute_entry (b c : Option Str) (T : Props TempSub) (s : Str) (e : TempSub)
    (rl : Realm) (hP : rl.objectPrototype = []) (d : Props RouteRecord)
    (he : e._routes = some d) (r : Str) :
    readRoute ⟨b, c, setOwn T s e, rl⟩ s r =
      .ok (match getOwn d r with
        | some _ => .own (s, r)
        | none => fromObjectPrototype rl (.place .objectPrototype []) r) := by
  unfold readRoute
  rw [readRoutes_entry b c T s e rl hP, he]
  simp only [readFrom, getOwn_setOwn, Option.bind_some, he]
  cases hg : getOwn d r <;> simp [he, hg]

/-- Lines 123-127 on an entry of the parser's own. -/
theorem assignRoute_entry (b c : Option Str) (T : Props TempSub) (s : Str) (e : TempSub)
    (rl : Realm) (rest : List Str) (v : Str) (hP : rl.objectPrototype = [])
    (r f : Str) (d : Props RouteRecord)
    (hr : (rest.get? 1).getD undefinedKey = r) (hf : (rest.get? 2).getD undefinedKey = f)
    (hd : e._routes.getD [] = d)
    (hw : ¬ (r = protoKey ∧ f ≠ protoKey)) :
    assignRoute ⟨b, c, setOwn T s e, rl⟩ s rest v =
      match getOwn d r with
      | some record =>
        .ok ⟨b, c, setOwn T s ⟨e.subdomain, e.routes, e.component,
          some (if f = protoKey then d else setOwn d r (setOwn record f v))⟩, rl⟩
      | none =>
        if r ∈ inheritedNames then
          if f = protoKey then
            .ok ⟨b, c, setOwn T s ⟨e.subdomain, e.routes, e.component, some d⟩, rl⟩
          else if readOnlyOfBuiltin (.objectMethod r) f = true then .error .typeError
          else
            .ok ⟨b, c, setOwn T s ⟨e.subdomain, e.routes, e.component, some d⟩,
              rl.setProps (.objectMethod r) (setOwn (rl.props (.objectMethod r)) f (.str v))⟩
        else
          .ok ⟨b, c, setOwn T s ⟨e.subdomain, e.routes, e.component,
            some (setOwn d r (if f = protoKey then [] else [(f, v)]))⟩, rl⟩ := by
  obtain ⟨sd, ro, co, rts⟩ := e
  have hd2 : rts.getD [] = d := hd
  have hproto : protoKey ∈ inheritedNames := by decide
  have e1 : ∀ (T2 : Props TempSub) (rl2 : Realm), rl2.objectPrototype = [] →
      readRoute ⟨b, c, setOwn T2 s ⟨sd, ro, co, some d⟩, rl2⟩ s r =
        .ok (match getOwn d r with
          | some _ => .own (s, r)
          | none => fromObjectPrototype rl2 (.place .objectPrototype []) r) :=
    fun T2 rl2 h2 => readRoute_entry b c T2 s _ rl2 h2 d rfl r
  have e2 : ∀ (T2 : Props TempSub) (d2 : Props RouteRecord) (rl2 : Realm),
      rl2.objectPrototype = [] →
      readRoutes ⟨b, c, setOwn T2 s ⟨sd, ro, co, some d2⟩, rl2⟩ s = .ok (.own s) :=
    fun T2 d2 rl2 h2 => readRoutes_entry b c T2 s _ rl2 h2
  -- line 124
  have h124 : ∀ k : Acc → Except Fault Acc,
      (match readRoutes ⟨b, c, setOwn T s ⟨sd, ro, co, rts⟩, rl⟩ s with
       | .error x => .error x
       | .ok routes =>
         match (if routes.truthy then .ok ⟨b, c, setOwn T s ⟨sd, ro, co, rts⟩, rl⟩
          else createRoutes ⟨b, c, setOwn T s ⟨sd, ro, co, rts⟩, rl⟩ s) with
         | .error x => .error x
         | .ok acc1 => k acc1) =
        k ⟨b, c, setOwn T s ⟨sd, ro, co, some d⟩, rl⟩ := by
    intro k
    rw [readRoutes_entry b c T s _ rl hP]
    cases rts with
    | none =>
      simp only [Target.truthy, Bool.false_eq_true, if_false, createRoutes, readSub_entry,
        assignTo, mapEntry_entry]
      rw [if_neg (by decide)]
      simp at hd2
      simp [hd2]
    | some d2 =>
      simp at hd2
      subst hd2
      simp only [Target.truthy, if_true]
  unfold assignRoute
  simp only [restAt_pristine _ _ _ _ hP, hr, hf]
  rw [h124, e1 T rl hP]
  cases hg : getOwn d r with
  | some record =>
    simp only [Target.truthy, if_true, restAt_pristine _ _ _ _ hP, hf, setField, e1 T rl hP, hg,
      assignTo, mapEntry_entry]
    by_cases hfp : f = protoKey
    · simp [hfp, setOwn_self _ _ _ hg]
    · simp [hfp, hg]
  | none =>
    simp only [fromObjectPrototype_pristine _ _ _ hP]
    by_cases hrp : r = protoKey
    · have hfp : f = protoKey := by
        by_contra hfp
        exact hw ⟨hrp, hfp⟩
      subst hrp
      simp only [if_true, Target.truthy, restAt_pristine _ _ _ _ hP, hf, setField, e1 T rl hP,
        hg, fromObjectPrototype_pristine _ _ _ hP, assignTo, hfp, if_pos hproto]
    · by_cases hrm : r ∈ objectPrototypeMethods
      · have hri : r ∈ inheritedNames := by simp [inheritedNames, hrm]
        simp only [if_neg hrp, if_pos hrm, if_pos hri, Target.truthy, if_true,
          restAt_pristine _ _ _ _ hP, hf, setField, e1 T rl hP, hg,
          fromObjectPrototype_pristine _ _ _ hP, assignTo, assignStored, true_and, assignAt]
        by_cases hfp : f = protoKey
        · simp [hfp]
        · by_cases hro : readOnlyOfBuiltin (.objectMethod r) f = true
          · simp [hfp, hro]
          · simp [hfp, hro]
      · have hri : r ∉ inheritedNames := by simp [inheritedNames, hrm, hrp]
        have e3 : readRoute ⟨b, c, setOwn T s ⟨sd, ro, co, some (setOwn d r [])⟩, rl⟩ s r =
            .ok (.own (s, r)) := by
          rw [readRoute_entry b c T s _ rl hP (setOwn d r []) rfl r, getOwn_setOwn]
        simp only [if_neg hrp, if_neg hrm, if_neg hri, Target.truthy, Bool.false_eq_true,
          if_false, createRoute, e2 T d rl hP, assignTo, if_neg hrp, mapEntry_entry,
          Option.map_some', restAt_pristine _ _ _ _ hP, hf, setField, e3]
        by_cases hfp : f = protoKey
        · simp [hfp]
        · simp [hfp, getOwn_setOwn, setOwn_setOwn, setOwn]

theorem getOwn_groupRoutes (R : List KV) (r : Str) :
    getOwn (groupRoutes R) r =
      if r ∈ routeIdsOf R then some (groupRecord (R.filter fun q => routeIdOf q == r))
      else none :=
  getOwn_map_keys (routeIdsOf R) (fun r => groupRecord (R.filter fun q => routeIdOf q == r)) r

/-- What one more route line does to the grouped dictionary. -/
theorem groupRoutes_step (R : List KV) (kv : KV) :
    groupRoutes (R ++ [kv]) =
      if routeIdOf kv ∈ inheritedNames then groupRoutes R
      else setOwn (groupRoutes R) (routeIdOf kv)
        (if fieldOf kv = protoKey then (getOwn (groupRoutes R) (routeIdOf kv)).getD []
         else setOwn ((getOwn (groupRoutes R) (routeIdOf kv)).getD []) (fieldOf kv) kv.2) := by
  by_cases hr : routeIdOf kv ∈ inheritedNames
  · rw [if_pos hr, groupRoutes_concat_of_inherited R kv hr]
  · rw [if_neg hr, groupRoutes_concat_of_own R kv hr, groupRecord_concat, getOwn_groupRoutes]
    by_cases hm : routeIdOf kv ∈ routeIdsOf R
    · simp [hm]
    · have hnil := filter_routeId_eq_nil R (routeIdOf kv) hr hm
      simp [hm, hnil, groupRecord_nil]

theorem getOwn_tempSubs (L : List KV) (s : Str) :
    getOwn (groupAcc L).tempSubs s =
      if s ∈ firstSeen (subdomainIds L) then some (groupEntry s (linesOf s L)) else none :=
  getOwn_map_keys (firstSeen (subdomainIds L)) (fun s => groupEntry s (linesOf s L)) s

theorem isComponentLine_iff (kv : KV) :
    isComponentLine kv = true ↔
      ((restOf kv).get? 0 = some componentKey ∧ (restOf kv).length = 1) := by
  unfold isComponentLine
  rw [beq_iff_eq]
  constructor
  · intro h
    rw [h]
    exact ⟨rfl, rfl⟩
  · intro h
    match hrest : restOf kv, h with
    | [x], h =>
      simp at h
      rw [h]
    | [], h => simp at h
    | _ :: _ :: _, h => simp at h

theorem isRouteLine_iff (kv : KV) :
    isRouteLine kv = true ↔ (restOf kv).get? 0 = some routesKey := by
  unfold isRouteLine
  rw [beq_iff_eq]
  cases restOf kv <;> simp

/-- Lines 119-128 for a subdomain identifier that names no inherited
property, while `Object.prototype` is as the platform made it. -/
theorem assignKey_own (b c : Option Str) (rl : Realm) (L : List KV) (kv : KV)
    (hP : rl.objectPrototype = []) (ht : isTopLevel kv = false)
    (hs : subdomainOf kv ∉ inheritedNames) (hw : writesPrototype kv = false) :
    assignKey ⟨b, c, (groupAcc L).tempSubs, rl⟩ kv.1 kv.2 =
      if isRouteLine kv = true ∧ routeIdOf kv ∈ objectPrototypeMethods
          ∧ fieldOf kv ≠ protoKey then
        if readOnlyOfBuiltin (.objectMethod (routeIdOf kv)) (fieldOf kv) = true then
          .error .typeError
        else
          .ok ⟨b, c, (groupAcc (L ++ [kv])).tempSubs,
            rl.setProps (.objectMethod (routeIdOf kv))
              (setOwn (rl.props (.objectMethod (routeIdOf kv))) (fieldOf kv) (.str kv.2))⟩
      else .ok ⟨b, c, (groupAcc (L ++ [kv])).tempSubs, rl⟩ := by
  have hs2 : subdomainOf kv ≠ protoKey ∧ subdomainOf kv ∉ objectPrototypeMethods := by
    constructor
    · intro h
      exact hs (by simp [inheritedNames, h])
    · intro h
      exact hs (by simp [inheritedNames, h])
  have hnew := tempSubs_concat_of_own L kv ht hs
  -- line 120
  have h120 : (if (readSub ⟨b, c, (groupAcc L).tempSubs, rl⟩ (subdomainOf kv)).truthy then
        (⟨b, c, (groupAcc L).tempSubs, rl⟩ : Acc)
      else ⟨b, c, setOwn (groupAcc L).tempSubs (subdomainOf kv)
        ⟨subdomainOf kv, [], none, none⟩, rl⟩) =
      ⟨b, c, setOwn (groupAcc L).tempSubs (subdomainOf kv)
        (groupEntry (subdomainOf kv) (linesOf (subdomainOf kv) L)), rl⟩ := by
    unfold readSub
    simp only []
    rw [getOwn_tempSubs]
    by_cases hm : subdomainOf kv ∈ firstSeen (subdomainIds L)
    · have hself := setOwn_self (groupAcc L).tempSubs (subdomainOf kv)
        (groupEntry (subdomainOf kv) (linesOf (subdomainOf kv) L))
        (by rw [getOwn_tempSubs, if_pos hm])
      simp only [if_pos hm, Target.truthy, if_true, hself]
    · have hnil := linesOf_eq_nil L (subdomainOf kv) hs hm
      simp only [if_neg hm, fromObjectPrototype_pristine _ _ _ hP, if_neg hs2.1, if_neg hs2.2,
        Target.truthy, Bool.false_eq_true, if_false, hnil]
      simp [groupEntry, lastValue]
  have hsd : (splitAux '.' kv.1).1 = subdomainOf kv := rfl
  have hrs : (splitAux '.' kv.1).2 = restOf kv := rfl
  unfold assignKey
  dsimp only
  rw [hsd, hrs, h120]
  dsimp only
  rw [restAt_pristine _ _ _ _ hP]
  by_cases hc : isComponentLine kv = true
  · -- line 121
    have hc2 := (isComponentLine_iff kv).1 hc
    have hr : isRouteLine kv = false := by
      cases hr : isRouteLine kv
      · rfl
      · rw [not_isComponentLine_of_isRouteLine kv hr] at hc
        exact absurd hc (by decide)
    have hr2 : ¬ (restOf kv).get? 0 = some routesKey := by
      rw [← isRouteLine_iff, hr]
      decide
    rw [if_pos hc2]
    simp only [setComponent, readSub_entry, assignTo, mapEntry_entry]
    rw [if_neg (by decide)]
    dsimp only
    rw [restAt_pristine _ _ _ _ hP, if_neg hr2, if_neg (by simp [hr]), hnew]
    simp only [groupEntry, filter_concat, hr, hc, lastValue_concat, List.any_append,
      List.any_cons, List.any_nil, Bool.or_false, if_true, Bool.false_eq_true, if_false]
  · have hc2 : ¬ ((restOf kv).get? 0 = some componentKey ∧ (restOf kv).length = 1) := by
      rw [← isComponentLine_iff]
      exact hc
    have hc3 : isComponentLine kv = false := by simpa using hc
    rw [if_neg hc2]
    dsimp only
    rw [restAt_pristine _ _ _ _ hP]
    by_cases hr : isRouteLine kv = true
    · -- lines 122-128
      have hr2 := (isRouteLine_iff kv).1 hr
      rw [if_pos hr2]
      have hwp : ¬ (routeIdOf kv = protoKey ∧ fieldOf kv ≠ protoKey) := by
        intro h
        simp [writesPrototype, ht, hr, h.1, h.2] at hw
      have hE := assignRoute_entry b c (groupAcc L).tempSubs (subdomainOf kv)
        (groupEntry (subdomainOf kv) (linesOf (subdomainOf kv) L)) rl (restOf kv) kv.2 hP
        (routeIdOf kv) (fieldOf kv) (groupRoutes ((linesOf (subdomainOf kv) L).filter isRouteLine))
        rfl rfl (getD_routes_groupEntry _ _) hwp
      rw [hE, hnew]
      have hstep := groupRoutes_step ((linesOf (subdomainOf kv) L).filter isRouteLine) kv
      have hG : ∀ d, groupRoutes ((linesOf (subdomainOf kv) L).filter isRouteLine ++ [kv]) = d →
          groupEntry (subdomainOf kv) (linesOf (subdomainOf kv) L ++ [kv]) =
            ⟨(groupEntry (subdomainOf kv) (linesOf (subdomainOf kv) L)).subdomain,
             (groupEntry (subdomainOf kv) (linesOf (subdomainOf kv) L)).routes,
             (groupEntry (subdomainOf kv) (linesOf (subdomainOf kv) L)).component, some d⟩ := by
        intro d hd
        simp only [groupEntry, filter_concat, hr, hc3, List.any_append,
          List.any_cons, List.any_nil, Bool.or_false, Bool.or_true, if_true, Bool.false_eq_true,
          if_false, hd]
      rw [getOwn_groupRoutes] at hstep ⊢
      by_cases hm : routeIdOf kv ∈ routeIdsOf ((linesOf (subdomainOf kv) L).filter isRouteLine)
      · have hri : routeIdOf kv ∉ inheritedNames := fun h => not_mem_routeIdsOf _ _ h hm
        have hrm : routeIdOf kv ∉ objectPrototypeMethods := fun h =>
          hri (by simp [inheritedNames, h])
        rw [if_pos hm] at hstep ⊢
        rw [if_neg hri] at hstep
        dsimp only
        have hneg : ¬ (isRouteLine kv = true ∧ routeIdOf kv ∈ objectPrototypeMethods
            ∧ fieldOf kv ≠ protoKey) := fun h => hrm h.2.1
        rw [if_neg hneg]
        by_cases hfp : fieldOf kv = protoKey
        · rw [if_pos hfp] at hstep ⊢
          simp only [Option.getD_some] at hstep
          rw [setOwn_self _ _ _ (by rw [getOwn_groupRoutes, if_pos hm])] at hstep
          rw [hG _ hstep]
        · rw [if_neg hfp] at hstep ⊢
          simp only [Option.getD_some] at hstep
          rw [hG _ hstep]
      · rw [if_neg hm] at hstep ⊢
        dsimp only
        by_cases hri : routeIdOf kv ∈ inheritedNames
        · rw [if_pos hri] at hstep ⊢
          have hrm : routeIdOf kv = protoKey ∨ routeIdOf kv ∈ objectPrototypeMethods :=
            (mem_inheritedNames _).1 hri
          by_cases hfp : fieldOf kv = protoKey
          · have hneg : ¬ (isRouteLine kv = true ∧ routeIdOf kv ∈ objectPrototypeMethods
                ∧ fieldOf kv ≠ protoKey) := fun h => h.2.2 hfp
            rw [if_pos hfp, if_neg hneg, hG _ hstep]
          · have hrp : routeIdOf kv ≠ protoKey := fun h => hwp ⟨h, hfp⟩
            have hrm2 : routeIdOf kv ∈ objectPrototypeMethods := hrm.resolve_left hrp
            have hpos : isRouteLine kv = true ∧ routeIdOf kv ∈ objectPrototypeMethods
                ∧ fieldOf kv ≠ protoKey := ⟨hr, hrm2, hfp⟩
            rw [if_neg hfp, if_pos hpos, hG _ hstep]
        · rw [if_neg hri] at hstep ⊢
          have hrm : routeIdOf kv ∉ objectPrototypeMethods := fun h =>
            hri (by simp [inheritedNames, h])
          have hneg : ¬ (isRouteLine kv = true ∧ routeIdOf kv ∈ objectPrototypeMethods
              ∧ fieldOf kv ≠ protoKey) := fun h => hrm h.2.1
          rw [if_neg hneg]
          by_cases hfp : fieldOf kv = protoKey
          · rw [if_pos hfp] at hstep ⊢
            simp only [Option.getD_none] at hstep
            rw [hG _ hstep]
          · rw [if_neg hfp] at hstep ⊢
            simp only [Option.getD_none, setOwn] at hstep
            rw [hG _ hstep]
    · have hr2 : ¬ (restOf kv).get? 0 = some routesKey := by
        rw [← isRouteLine_iff]
        exact hr
      have hr3 : isRouteLine kv = false := by simpa using hr
      have hneg : ¬ (isRouteLine kv = true ∧ routeIdOf kv ∈ objectPrototypeMethods
          ∧ fieldOf kv ≠ protoKey) := fun h => hr h.1
      rw [if_neg hr2, if_neg hneg, hnew]
      simp only [groupEntry, filter_concat, hr3, hc3, List.any_append,
        List.any_cons, List.any_nil, Bool.or_false, Bool.false_eq_true, if_false]

/-! ## Lines that address a method of `Object.prototype` -/

theorem readSub_congr (acc acc2 : Acc) (s : Str) (h1 : acc2.tempSubs = acc.tempSubs)
    (h2 : acc2.realm.objectPrototype = acc.realm.objectPrototype) :
    readSub acc2 s = readSub acc s := by
  simp [readSub, fromObjectPrototype, h1, h2]

theorem setProps_objectPrototype (rl : Realm) (b : Builtin) (p : Props Value)
    (hb : b ≠ .objectPrototype) : (rl.setProps b p).objectPrototype = rl.objectPrototype := by
  cases b <;> first | rfl | exact absurd rfl hb

/-- An assignment to a foreign target, or under the key `__proto__`,
changes at most what is assigned on the built-in objects other than
`Object.prototype`. -/
theorem assignTo_foreign {α : Type} (acc acc2 : Acc) (t : Target α) (k : Str) (v : Value)
    (own : α → Acc) (h : assignTo acc t k v own = .ok acc2)
    (ht : t.foreign = true ∨ k = protoKey) :
    acc2.baseURL = acc.baseURL ∧ acc2.container = acc.container ∧
      acc2.tempSubs = acc.tempSubs ∧
      acc2.realm.objectPrototype = acc.realm.objectPrototype := by
  unfold assignTo at h
  by_cases hk : k = protoKey
  · cases t <;> simp [hk] at h <;> subst h <;> exact ⟨rfl, rfl, rfl, rfl⟩
  · have ht2 := ht.resolve_right hk
    cases t with
    | undefined => simp at h
    | str s => simp [hk] at h
    | primitive p => simp [hk] at h
    | own a => simp [Target.foreign] at ht2
    | place b path =>
      have hb : b ≠ .objectPrototype := by
        intro e
        subst e
        simp [Target.foreign] at ht2
      simp only [if_neg hk] at h
      cases hA : assignStored acc.realm b path k v with
      | error x => simp [hA] at h
      | ok rl2 =>
        simp only [hA, Except.ok.injEq] at h
        subst h
        unfold assignStored at hA
        split at hA
        · simp at hA
        · simp only [Except.ok.injEq] at hA
          subst hA
          exact ⟨rfl, rfl, rfl, setProps_objectPrototype _ _ _ hb⟩

/-- A read from a foreign target gives a foreign target, the accessor
`__proto__` aside. -/
theorem readFrom_foreign {α β : Type} (rl : Realm) (t : Target α) (k : Str)
    (own : α → Option (Target β)) (t2 : Target β) (hP : rl.objectPrototype = [])
    (ht : t.foreign = true) (h : readFrom rl t k own = .ok t2) :
    t2.foreign = true ∨ k = protoKey := by
  by_cases hk : k = protoKey
  · exact Or.inr hk
  · left
    have hfo : ∀ proto : Target β,
        (fromObjectPrototype rl proto k).foreign = true := by
      intro proto
      rw [fromObjectPrototype_pristine rl proto k hP, if_neg hk]
      split <;> rfl
    cases t with
    | undefined => simp [readFrom] at h
    | own a => simp [Target.foreign] at ht
    | primitive p =>
      simp only [readFrom, Except.ok.injEq] at h
      rw [← h]
      exact hfo _
    | str s =>
      simp only [readFrom, Except.ok.injEq] at h
      rw [← h]
      unfold readString
      split
      · rfl
      · split
        · rfl
        · split
          · rfl
          · rfl
          · split
            · rfl
            · exact hfo _
    | place b path =>
      have hb : b ≠ .objectPrototype := by
        intro e
        subst e
        simp [Target.foreign] at ht
      simp only [readFrom, Except.ok.injEq] at h
      rw [← h]
      unfold readStored
      split
      · rfl
      · cases b <;> first | rfl | exact absurd rfl hb
      · exact hfo _

theorem agrees_refl (a : Acc) : a.agrees a := ⟨rfl, rfl, rfl, rfl⟩

theorem agrees_trans {a b c : Acc} (h1 : a.agrees b) (h2 : b.agrees c) : a.agrees c :=
  ⟨h2.1.trans h1.1, h2.2.1.trans h1.2.1, h2.2.2.1.trans h1.2.2.1, h2.2.2.2.trans h1.2.2.2⟩

theorem readSub_agrees {a a2 : Acc} (h : a.agrees a2) (s : Str) : readSub a2 s = readSub a s :=
  readSub_congr a a2 s h.2.2.1 h.2.2.2

theorem readRoutes_foreign (acc : Acc) (s : Str) (t : Target Str)
    (hP : acc.realm.objectPrototype = []) (hs : (readSub acc s).foreign = true)
    (h : readRoutes acc s = .ok t) : t.foreign = true :=
  (readFrom_foreign acc.realm _ routesField _ t hP hs h).resolve_right (by decide)

theorem readRoute_foreign (acc : Acc) (s r : Str) (t : Target (Str × Str))
    (hP : acc.realm.objectPrototype = []) (hs : (readSub acc s).foreign = true)
    (h : readRoute acc s r = .ok t) : t.foreign = true ∨ r = protoKey := by
  unfold readRoute at h
  cases h2 : readRoutes acc s with
  | error x =>
    rw [h2] at h
    cases h
  | ok t2 =>
    simp only [h2] at h
    exact readFrom_foreign acc.realm t2 r _ t hP (readRoutes_foreign acc s t2 hP hs h2) h

/-- Lines 123-127 when `tempSubs[subdomain]` is a foreign target. -/
theorem assignRoute_foreign (acc acc2 : Acc) (s : Str) (rest : List Str) (v : Str)
    (hP : acc.realm.objectPrototype = []) (hs : (readSub acc s).foreign = true)
    (hw : ¬ ((rest.get? 1).getD undefinedKey = protoKey
      ∧ (rest.get? 2).getD undefinedKey ≠ protoKey))
    (h : assignRoute acc s rest v = .ok acc2) : acc.agrees acc2 := by
  unfold assignRoute at h
  dsimp only at h
  rw [restAt_pristine _ _ _ _ hP] at h
  generalize (rest.get? 1).getD undefinedKey = r at h hw
  -- line 124
  cases h1 : readRoutes acc s with
  | error x =>
    rw [h1] at h
    cases h
  | ok t2 =>
    simp only [h1] at h
    have ht2 := readRoutes_foreign acc s t2 hP hs h1
    cases h2 : (if t2.truthy = true then Except.ok acc else createRoutes acc s) with
    | error x =>
      rw [h2] at h
      cases h
    | ok acc1 =>
      simp only [h2] at h
      have ha1 : acc.agrees acc1 := by
        by_cases htr : t2.truthy = true
        · simp only [if_pos htr, Except.ok.injEq] at h2
          subst h2
          exact agrees_refl _
        · simp only [if_neg htr] at h2
          exact assignTo_foreign _ _ _ _ _ _ h2 (Or.inl hs)
      have hP1 : acc1.realm.objectPrototype = [] := ha1.2.2.2.trans hP
      have hs1 : (readSub acc1 s).foreign = true := by rw [readSub_agrees ha1]; exact hs
      -- line 125
      cases h3 : readRoute acc1 s r with
      | error x =>
        rw [h3] at h
        cases h
      | ok t3 =>
        simp only [h3] at h
        cases h4 : (if t3.truthy = true then Except.ok acc1 else createRoute acc1 s r) with
        | error x =>
          rw [h4] at h
          cases h
        | ok acc3 =>
          simp only [h4] at h
          have ha3 : acc1.agrees acc3 := by
            by_cases htr : t3.truthy = true
            · simp only [if_pos htr, Except.ok.injEq] at h4
              subst h4
              exact agrees_refl _
            · simp only [if_neg htr] at h4
              unfold createRoute at h4
              cases h5 : readRoutes acc1 s with
              | error x =>
                rw [h5] at h4
                cases h4
              | ok t5 =>
                simp only [h5] at h4
                exact assignTo_foreign _ _ _ _ _ _ h4
                  (Or.inl (readRoutes_foreign acc1 s t5 hP1 hs1 h5))
          have hP3 : acc3.realm.objectPrototype = [] := ha3.2.2.2.trans hP1
          have hs3 : (readSub acc3 s).foreign = true := by rw [readSub_agrees ha3]; exact hs1
          -- lines 126-127
          rw [restAt_pristine _ _ _ _ hP3] at h
          unfold setField at h
          cases h6 : readRoute acc3 s r with
          | error x =>
            rw [h6] at h
            cases h
          | ok t6 =>
            simp only [h6] at h
            have ht6 := readRoute_foreign acc3 s _ t6 hP3 hs3 h6
            have ha : acc3.agrees acc2 := by
              apply assignTo_foreign _ _ _ _ _ _ h
              rcases ht6 with ht6 | ht6
              · exact Or.inl ht6
              · right
                by_contra hf
                exact hw ⟨ht6, hf⟩
            exact agrees_trans ha1 (agrees_trans ha3 ha)

/-- Lines 119-128 for a subdomain identifier that names an inherited
property, on a line that assigns no property of a prototype object. -/
theorem assignKey_inherited (acc acc2 : Acc) (kv : KV)
    (hP : acc.realm.objectPrototype = []) (hn : getOwn acc.tempSubs (subdomainOf kv) = none)
    (ht : isTopLevel kv = false) (hs : subdomainOf kv ∈ inheritedNames)
    (hw : writesPrototype kv = false) (h : assignKey acc kv.1 kv.2 = .ok acc2) :
    acc.agrees acc2 := by
  have hsd : (splitAux '.' kv.1).1 = subdomainOf kv := rfl
  have hrs : (splitAux '.' kv.1).2 = restOf kv := rfl
  have hread : readSub acc (subdomainOf kv) =
      if subdomainOf kv = protoKey then .place .objectPrototype []
      else .place (.objectMethod (subdomainOf kv)) [] := by
    unfold readSub
    rw [hn]
    simp only []
    rw [fromObjectPrototype_pristine _ _ _ hP]
    by_cases hp : subdomainOf kv = protoKey
    · simp [hp]
    · have hm : subdomainOf kv ∈ objectPrototypeMethods :=
        ((mem_inheritedNames _).1 hs).resolve_left hp
      simp [hp, hm]
  have htruthy : (readSub acc (subdomainOf kv)).truthy = true := by
    rw [hread]
    split <;> rfl
  unfold assignKey at h
  dsimp only at h
  rw [hsd, hrs, if_pos htruthy, restAt_pristine _ _ _ _ hP] at h
  by_cases hp : subdomainOf kv = protoKey
  · -- the line names `Object.prototype` and is neither a component line nor a route line
    have hcr : isComponentLine kv = false ∧ isRouteLine kv = false := by
      have := hw
      simp only [writesPrototype, ht, hp, Bool.not_false, beq_self_eq_true, Bool.true_and,
        Bool.or_eq_false_iff] at this
      exact this.1
    have hc2 : ¬ ((restOf kv).get? 0 = some componentKey ∧ (restOf kv).length = 1) := by
      rw [← isComponentLine_iff, hcr.1]
      decide
    have hr2 : ¬ (restOf kv).get? 0 = some routesKey := by
      rw [← isRouteLine_iff, hcr.2]
      decide
    rw [if_neg hc2] at h
    dsimp only at h
    rw [restAt_pristine _ _ _ _ hP, if_neg hr2] at h
    simp only [Except.ok.injEq] at h
    subst h
    exact agrees_refl _
  · have hfor : (readSub acc (subdomainOf kv)).foreign = true := by
      rw [hread, if_neg hp]
      rfl
    cases h1 : (if (restOf kv).get? 0 = some componentKey ∧ (restOf kv).length = 1 then
        setComponent acc (subdomainOf kv) kv.2 else Except.ok acc) with
    | error x =>
      rw [h1] at h
      cases h
    | ok acc1 =>
      simp only [h1] at h
      have ha1 : acc.agrees acc1 := by
        by_cases hc : (restOf kv).get? 0 = some componentKey ∧ (restOf kv).length = 1
        · simp only [if_pos hc] at h1
          exact assignTo_foreign _ _ _ _ _ _ h1 (Or.inl hfor)
        · simp only [if_neg hc, Except.ok.injEq] at h1
          subst h1
          exact agrees_refl _
      have hP1 : acc1.realm.objectPrototype = [] := ha1.2.2.2.trans hP
      have hs1 : (readSub acc1 (subdomainOf kv)).foreign = true := by
        rw [readSub_agrees ha1]
        exact hfor
      rw [restAt_pristine _ _ _ _ hP1] at h
      by_cases hr : (restOf kv).get? 0 = some routesKey
      · rw [if_pos hr] at h
        have hr2 : isRouteLine kv = true := (isRouteLine_iff kv).2 hr
        have hwp : ¬ (routeIdOf kv = protoKey ∧ fieldOf kv ≠ protoKey) := by
          intro hh
          simp [writesPrototype, ht, hr2, hh.1, hh.2] at hw
        exact agrees_trans ha1 (assignRoute_foreign acc1 acc2 _ _ _ hP1 hs1 hwp h)
      · rw [if_neg hr] at h
        simp only [Except.ok.injEq] at h
        subst h
        exact ha1

/-! ## The loop computes the grouping -/

theorem groupAcc_concat_top (L : List KV) (kv : KV) (ht : isTopLevel kv = false) :
    (groupAcc (L ++ [kv])).baseURL = (groupAcc L).baseURL ∧
      (groupAcc (L ++ [kv])).container = (groupAcc L).container := by
  have h : kv.1 ≠ baseURLKey ∧ kv.1 ≠ containerKey := by
    simpa [isTopLevel] using ht
  simp [groupAcc, filter_concat, h.1, h.2]

/-- What an accepted line that assigns no property of a prototype object
does to the grouped state, when the turn does not throw. -/
theorem assign_groups (acc acc2 : Acc) (L : List KV) (kv : KV) (hG : acc.Groups L)
    (hw : writesPrototype kv = false) (h : assign acc kv.1 kv.2 = .ok acc2) :
    acc2.Groups (L ++ [kv]) := by
  obtain ⟨b, c, T, rl⟩ := acc
  obtain ⟨hb, hc, hT, hP⟩ := hG
  simp only at hb hc hT hP
  unfold assign at h
  split at h
  · cases h
  · by_cases hkb : kv.1 = baseURLKey
    · have ht : isTopLevel kv = true := by simp [isTopLevel, hkb]
      have hne : ¬ baseURLKey = containerKey := baseURLKey_ne_containerKey
      rw [if_pos hkb] at h
      simp only [Except.ok.injEq] at h
      subst h
      refine ⟨?_, ?_, ?_, hP⟩
      · simp [groupAcc, filter_concat, hkb, lastValue_concat]
      · simp [groupAcc, filter_concat, hkb, hne, hc]
      · simp only [hT]
        exact (tempSubs_concat_of_skip L kv (Or.inl ht)).symm
    · by_cases hkc : kv.1 = containerKey
      · have ht : isTopLevel kv = true := by simp [isTopLevel, hkc]
        have hne : ¬ containerKey = baseURLKey := fun e => baseURLKey_ne_containerKey e.symm
        rw [if_neg hkb, if_pos hkc] at h
        simp only [Except.ok.injEq] at h
        subst h
        refine ⟨?_, ?_, ?_, hP⟩
        · simp [groupAcc, filter_concat, hkc, hne, hb]
        · simp [groupAcc, filter_concat, hkc, lastValue_concat]
        · simp only [hT]
          exact (tempSubs_concat_of_skip L kv (Or.inl ht)).symm
      · have ht : isTopLevel kv = false := by simp [isTopLevel, hkb, hkc]
        have htop := groupAcc_concat_top L kv ht
        rw [if_neg hkb, if_neg hkc] at h
        by_cases hs : subdomainOf kv ∈ inheritedNames
        · have hn : getOwn T (subdomainOf kv) = none := by
            rw [hT, getOwn_tempSubs, if_neg (not_mem_subdomainIds L _ hs)]
          have ha := assignKey_inherited ⟨b, c, T, rl⟩ acc2 kv hP hn ht hs hw h
          obtain ⟨h1, h2, h3, h4⟩ := ha
          simp only at h1 h2 h3 h4
          refine ⟨?_, ?_, ?_, h4.trans hP⟩
          · rw [h1, hb, htop.1]
          · rw [h2, hc, htop.2]
          · rw [h3, hT, tempSubs_concat_of_skip L kv (Or.inr hs)]
        · subst hT
          rw [assignKey_own b c rl L kv hP ht hs hw] at h
          split at h
          · split at h
            · cases h
            · simp only [Except.ok.injEq] at h
              subst h
              refine ⟨?_, ?_, rfl, ?_⟩
              · simp only [hb, htop.1]
              · simp only [hc, htop.2]
              · simp only []
                rw [setProps_objectPrototype _ _ _ (by simp), hP]
          · simp only [Except.ok.injEq] at h
            subst h
            exact ⟨by simp only [hb, htop.1], by simp only [hc, htop.2], rfl, hP⟩

/-- The loop on lines none of which assigns a property of a prototype
object, when it does not throw. -/
theorem runLines_groups (lines : List Str) (acc acc2 : Acc) (L : List KV) (hG : acc.Groups L)
    (hw : ∀ kv ∈ acceptedOf lines, writesPrototype kv = false)
    (h : runLines acc lines = .ok acc2) : acc2.Groups (L ++ acceptedOf lines) := by
  induction lines generalizing acc L with
  | nil =>
    simp only [runLines, Except.ok.injEq] at h
    subst h
    simpa [acceptedOf] using hG
  | cons line lines ih =>
    unfold runLines at h
    split at h
    · cases h
    · unfold step at h
      cases hk : keyValue line with
      | none =>
        have hacc : acceptedOf (line :: lines) = acceptedOf lines := by
          simp [acceptedOf, List.filterMap_cons, hk]
        rw [hacc] at hw ⊢
        simp only [hk] at h
        exact ih acc L hG hw h
      | some kv =>
        have hacc : acceptedOf (line :: lines) = kv :: acceptedOf lines := by
          simp [acceptedOf, List.filterMap_cons, hk]
        rw [hacc] at hw ⊢
        simp only [hk] at h
        cases ha : assign acc kv.1 kv.2 with
        | error x =>
          rw [ha] at h
          cases h
        | ok acc1 =>
          rw [ha] at h
          have h1 := assign_groups acc acc1 L kv hG (hw kv (by simp)) ha
          have h2 := ih acc1 (L ++ [kv]) h1 (fun q hq => hw q (by simp [hq])) h
          simpa using h2

theorem finishEntry_pristine (rl : Realm) (hP : rl.objectPrototype = []) (s : Str)
    (S : List KV) :
    Subdomain.ofEntry (finishEntry rl (groupEntry s S)) =
      { subdomain := s, component := lastValue (S.filter isComponentLine),
        routes := (ownKeyOrder (routeIdsOf (S.filter isRouteLine))).map fun r =>
          RouteValue.ofRecord
            (groupRecord ((S.filter isRouteLine).filter fun kv => routeIdOf kv == r)) } := by
  unfold finishEntry groupEntry Subdomain.ofEntry
  by_cases h : S.any isRouteLine = true
  · simp only [h, if_true]
    rw [groupRoutes, objectValues_map_keys, List.map_map]
    rfl
  · have h2 : S.filter isRouteLine = [] := by
      rw [List.filter_eq_nil_iff]
      intro q hq hq2
      exact h (List.any_eq_true.2 ⟨q, hq, hq2⟩)
    simp [h, h2, hP, getOwn, routeIdsOf, firstSeen, ownKeyOrder, ownEntries]

/-- The final loop on a grouped state gives the grouped configuration,
when `Object.values` can be called. -/
theorem finish_groups (acc : Acc) (L : List KV) (hG : acc.Groups L) :
    finish acc = if acc.realm.valuesCallable then .ok (groupConfig L) else .error .typeError := by
  obtain ⟨hb, hc, hT, hP⟩ := hG
  unfold finish
  by_cases hv : acc.realm.valuesCallable = true
  · simp only [hv, Bool.not_true, Bool.false_eq_true, if_false, if_true, Except.ok.injEq]
    unfold finishedEntries groupConfig
    rw [hT, hb, hc]
    have h : (groupAcc L).tempSubs =
        (firstSeen (subdomainIds L)).map fun s => (s, groupEntry s (linesOf s L)) := rfl
    rw [h, objectValues_map_keys, List.map_map, List.map_map]
    simp only [groupAcc, Config.mk.injEq, true_and]
    apply List.map_congr_left
    intro s _
    simp only [Function.comp, finishEntry_pristine _ hP, routeLinesOf]
  · simp [hv]

/-- On a text none of whose accepted lines assigns a property of a
prototype object, the parser returns the grouping of the accepted lines if
it returns at all. -/
theorem parseLines_groups (lines : List Str) (cfg : Config)
    (hw : ∀ kv ∈ acceptedOf lines, writesPrototype kv = false)
    (h : parseLines lines = .ok cfg) : cfg = groupConfig (acceptedOf lines) := by
  unfold parseLines at h
  cases hr : runLines Acc.init lines with
  | error x =>
    rw [hr] at h
    cases h
  | ok acc =>
    rw [hr] at h
    have hG : Acc.init.Groups [] := by
      rw [← groupAcc_nil]
      exact ⟨rfl, rfl, rfl, rfl⟩
    have h2 := runLines_groups lines Acc.init acc [] hG hw hr
    dsimp only at h
    rw [finish_groups acc _ h2] at h
    split at h
    · simp only [List.nil_append, Except.ok.injEq] at h
      exact h.symm
    · cases h

/-! ## Lines that address a method: what they assign -/

theorem props_setProps_same (rl : Realm) (b : Builtin) (p : Props Value) :
    (rl.setProps b p).props b = p := by
  cases b <;> simp [Realm.setProps, Realm.props, getOwn_setOwn]

theorem props_setProps_ne (rl : Realm) (b b2 : Builtin) (p : Props Value) (h : b ≠ b2) :
    (rl.setProps b p).props b2 = rl.props b2 := by
  cases b <;> cases b2 <;> simp [Realm.setProps, Realm.props] <;>
    first
    | exact absurd rfl h
    | (rw [getOwn_setOwn_ne]
       intro e
       exact h (by rw [e]))

theorem setProps_stringPrototype (rl : Realm) (name : Str) (p : Props Value) :
    (rl.setProps (.objectMethod name) p).stringPrototype = rl.stringPrototype := rfl

theorem readOnly_protoKey (b : Builtin) : readOnlyOfBuiltin b protoKey = false := by
  cases b <;> simp [readOnlyOfBuiltin, protoKey]

theorem readOnly_routesField (name : Str) :
    readOnlyOfBuiltin (.objectMethod name) routesField = false := by
  simp [readOnlyOfBuiltin, routesField]

theorem readOnly_componentKey (name : Str) :
    readOnlyOfBuiltin (.objectMethod name) componentKey = false := by
  simp [readOnlyOfBuiltin, componentKey]

theorem readOnly_valuesKey (name : Str) :
    readOnlyOfBuiltin (.objectMethod name) valuesKey = false := by
  simp [readOnlyOfBuiltin, valuesKey]

/-- Assigning a property other than `_routes` on a method. -/
theorem methodsKept_set (rl : Realm) (name k : Str) (x : Value) (hK : rl.methodsKept)
    (hk : k ≠ routesField) :
    (rl.setProps (.objectMethod name)
      (setOwn (rl.props (.objectMethod name)) k x)).methodsKept := by
  intro n
  by_cases hn : n = name
  · subst hn
    rw [props_setProps_same, getOwn_setOwn_ne _ _ _ _ hk]
    exact hK n
  · rw [props_setProps_ne _ _ _ _ (fun e => hn (Builtin.objectMethod.inj e).symm)]
    exact hK n

/-- Assigning `_routes` on a method. -/
theorem methodsKept_routes (rl : Realm) (name : Str) (d : Props Value) (hK : rl.methodsKept)
    (hd : ∀ r x, getOwn d r = some x → (∃ p, x = .obj p) ∧ r ∉ inheritedNames) :
    (rl.setProps (.objectMethod name)
      (setOwn (rl.props (.objectMethod name)) routesField (.obj d))).methodsKept := by
  intro n
  by_cases hn : n = name
  · subst hn
    rw [props_setProps_same, getOwn_setOwn]
    exact Or.inr ⟨d, rfl, hd⟩
  · rw [props_setProps_ne _ _ _ _ (fun e => hn (Builtin.objectMethod.inj e).symm)]
    exact hK n

theorem valuesCallable_set (rl : Realm) (name k : Str) (x : Value) :
    (rl.setProps (.objectMethod name)
      (setOwn (rl.props (.objectMethod name)) k x)).valuesCallable =
      (rl.valuesCallable && !(name == constructorKey && k == valuesKey)) := by
  unfold Realm.valuesCallable
  by_cases hn : name = constructorKey
  · subst hn
    rw [props_setProps_same]
    by_cases hk : k = valuesKey
    · subst hk
      simp [getOwn_setOwn]
    · rw [getOwn_setOwn_ne _ _ _ _ hk]
      simp [hk]
  · rw [props_setProps_ne _ _ _ _ (fun e => hn (Builtin.objectMethod.inj e))]
    simp [hn]

theorem setProps_method_objectPrototype (rl : Realm) (name : Str) (p : Props Value) :
    (rl.setProps (.objectMethod name) p).objectPrototype = rl.objectPrototype := rfl

theorem protoKey_not_method : protoKey ∉ objectPrototypeMethods := by decide

theorem readSub_method (b c : Option Str) (T : Props TempSub) (rl : Realm) (s : Str)
    (hP : rl.objectPrototype = []) (hn : getOwn T s = none)
    (hs : s ∈ objectPrototypeMethods) :
    readSub ⟨b, c, T, rl⟩ s = .place (.objectMethod s) [] := by
  have hp : s ≠ protoKey := fun e => protoKey_not_method (e ▸ hs)
  unfold readSub
  simp only [hn]
  rw [fromObjectPrototype_pristine _ _ _ hP, if_neg hp, if_pos hs]

theorem readStored_root {α : Type} (rl : Realm) (b : Builtin) (k : Str) :
    (readStored rl b [] k : Target α) =
      match getOwn (rl.props b) k with
      | some (.str s) => .str s
      | some (.obj _) => .place b [k]
      | none => fromObjectPrototype rl (.place .objectPrototype []) k := by
  simp [readStored, objectAt]

theorem readStored_routes {α : Type} (rl : Realm) (b : Builtin) (d : Props Value) (k : Str)
    (hd : getOwn (rl.props b) routesField = some (.obj d)) :
    (readStored rl b [routesField] k : Target α) =
      match getOwn d k with
      | some (.str s) => .str s
      | some (.obj _) => .place b [routesField, k]
      | none => fromObjectPrototype rl (.place .objectPrototype []) k := by
  simp [readStored, objectAt, hd]

theorem assignStored_root (rl : Realm) (b : Builtin) (k : Str) (x : Value)
    (h : readOnlyOfBuiltin b k = false) :
    assignStored rl b [] k x = .ok (rl.setProps b (setOwn (rl.props b) k x)) := by
  simp [assignStored, h, assignAt]

theorem assignStored_routes (rl : Realm) (b : Builtin) (d : Props Value) (k : Str) (x : Value)
    (hd : getOwn (rl.props b) routesField = some (.obj d)) :
    assignStored rl b [routesField] k x =
      .ok (rl.setProps b (setOwn (rl.props b) routesField (.obj (setOwn d k x)))) := by
  simp [assignStored, assignAt, hd]

theorem assignStored_route (rl : Realm) (b : Builtin) (d p : Props Value) (r k : Str)
    (x : Value) (hd : getOwn (rl.props b) routesField = some (.obj d))
    (hp : getOwn d r = some (.obj p)) :
    assignStored rl b [routesField, r] k x =
      .ok (rl.setProps b (setOwn (rl.props b) routesField
        (.obj (setOwn d r (.obj (setOwn p k x)))))) := by
  simp [assignStored, assignAt, hd, hp]

/-- The properties of a dictionary kept under a method stay objects under
names that `Object.prototype` does not have when one of them is assigned
an object. -/
theorem kept_setOwn (d : Props Value) (r : Str) (p : Props Value)
    (hd : ∀ r x, getOwn d r = some x → (∃ p, x = .obj p) ∧ r ∉ inheritedNames)
    (hr : r ∉ inheritedNames) :
    ∀ r2 x, getOwn (setOwn d r (.obj p)) r2 = some x →
      (∃ p, x = .obj p) ∧ r2 ∉ inheritedNames := by
  intro r2 x hx
  by_cases e : r = r2
  · subst e
    rw [getOwn_setOwn] at hx
    simp only [Option.some.injEq] at hx
    exact ⟨⟨p, hx.symm⟩, hr⟩
  · rw [getOwn_setOwn_ne _ _ _ _ e] at hx
    exact hd r2 x hx

theorem readRoutes_method (b c : Option Str) (T : Props TempSub) (rl : Realm) (s : Str)
    (hP : rl.objectPrototype = []) (hn : getOwn T s = none)
    (hs : s ∈ objectPrototypeMethods) :
    readRoutes ⟨b, c, T, rl⟩ s =
      .ok (match getOwn (rl.props (.objectMethod s)) routesField with
        | some (.str x) => .str x
        | some (.obj _) => .place (.objectMethod s) [routesField]
        | none => .undefined) := by
  have h := fromObjectPrototype_pristine rl (.place .objectPrototype [] : Target Str)
    routesField hP
  have h1 : routesField ≠ protoKey := by decide
  have h2 : routesField ∉ objectPrototypeMethods := by decide
  rw [if_neg h1, if_neg h2] at h
  unfold readRoutes
  rw [readSub_method b c T rl s hP hn hs]
  simp only [readFrom, readStored_root, h]

theorem readRoute_method (b c : Option Str) (T : Props TempSub) (rl : Realm) (s r : Str)
    (d : Props Value) (hP : rl.objectPrototype = []) (hn : getOwn T s = none)
    (hs : s ∈ objectPrototypeMethods)
    (hd : getOwn (rl.props (.objectMethod s)) routesField = some (.obj d)) :
    readRoute ⟨b, c, T, rl⟩ s r =
      .ok (match getOwn d r with
        | some (.str x) => .str x
        | some (.obj _) => .place (.objectMethod s) [routesField, r]
        | none => fromObjectPrototype rl (.place .objectPrototype []) r) := by
  unfold readRoute
  rw [readRoutes_method b c T rl s hP hn hs, hd]
  simp only [readFrom, readStored_routes rl _ d r hd]

theorem kept_nil :
    ∀ r x, getOwn ([] : Props Value) r = some x → (∃ p, x = .obj p) ∧ r ∉ inheritedNames :=
  fun _ _ h => Option.noConfusion h

/-- Lines 123-127 when `tempSubs[subdomain]` is a method of
`Object.prototype`, on a line that assigns no property of a prototype
object and no `_routes` of a method. -/
theorem assignRoute_method (b c : Option Str) (T : Props TempSub) (rl : Realm) (s : Str)
    (rest : List Str) (v : Str) (r f : Str)
    (hP : rl.objectPrototype = []) (hn : getOwn T s = none)
    (hs : s ∈ objectPrototypeMethods) (hK : rl.methodsKept)
    (hr : (rest.get? 1).getD undefinedKey = r) (hf : (rest.get? 2).getD undefinedKey = f)
    (hw : ¬ (r = protoKey ∧ f ≠ protoKey))
    (h3 : ¬ (r ∈ objectPrototypeMethods ∧ f = routesField)) :
    ∃ rl2, rl2.objectPrototype = [] ∧ rl2.stringPrototype = rl.stringPrototype ∧
      rl2.methodsKept ∧
      rl2.valuesCallable = (rl.valuesCallable && !(r == constructorKey && f == valuesKey)) ∧
      assignRoute ⟨b, c, T, rl⟩ s rest v =
        if r ∈ objectPrototypeMethods ∧ readOnlyOfBuiltin (.objectMethod r) f = true then
          .error .typeError
        else .ok ⟨b, c, T, rl2⟩ := by
  have hrf : routesField ≠ protoKey := by decide
  have hrv : (routesField == valuesKey) = false := by decide
  have hcm : constructorKey ∈ objectPrototypeMethods := by decide
  -- line 124
  have h124 : ∃ rl1 d1, rl1.objectPrototype = [] ∧ rl1.stringPrototype = rl.stringPrototype ∧
      rl1.methodsKept ∧ rl1.valuesCallable = rl.valuesCallable ∧
      getOwn (rl1.props (.objectMethod s)) routesField = some (.obj d1) ∧
      (∀ r x, getOwn d1 r = some x → (∃ p, x = .obj p) ∧ r ∉ inheritedNames) ∧
      ∀ k : Acc → Except Fault Acc,
        (match readRoutes ⟨b, c, T, rl⟩ s with
         | .error x => .error x
         | .ok routes =>
           match (if routes.truthy then .ok ⟨b, c, T, rl⟩
            else createRoutes ⟨b, c, T, rl⟩ s) with
           | .error x => .error x
           | .ok acc1 => k acc1) = k ⟨b, c, T, rl1⟩ := by
    rcases hK s with h0 | ⟨d, h0, hd⟩
    · refine ⟨rl.setProps (.objectMethod s)
          (setOwn (rl.props (.objectMethod s)) routesField (.obj [])), [],
        (setProps_method_objectPrototype rl s _).trans hP,
        rfl, methodsKept_routes rl s [] hK kept_nil, ?_, ?_, kept_nil, ?_⟩
      · rw [valuesCallable_set, hrv]
        simp
      · rw [props_setProps_same, getOwn_setOwn]
      · intro k
        rw [readRoutes_method b c T rl s hP hn hs, h0]
        simp only [Target.truthy, Bool.false_eq_true, if_false, createRoutes,
          readSub_method b c T rl s hP hn hs, assignTo, if_neg hrf,
          assignStored_root rl _ _ _ (readOnly_routesField s)]
    · refine ⟨rl, d, hP, rfl, hK, rfl, h0, hd, ?_⟩
      intro k
      rw [readRoutes_method b c T rl s hP hn hs, h0]
      simp only [Target.truthy, if_true]
  obtain ⟨rl1, d1, hP1, hS1, hK1, hV1, h0, hd, h124⟩ := h124
  unfold assignRoute
  dsimp only
  rw [restAt_pristine _ _ _ _ hP, hr, h124]
  rw [readRoute_method b c T rl1 s r d1 hP1 hn hs h0]
  have hRT := readRoute_method b c T rl1 s r d1 hP1 hn hs h0
  have hRS := readSub_method b c T rl1 s hP1 hn hs
  cases hg : getOwn d1 r with
  | some x =>
    obtain ⟨⟨p, hx⟩, hri⟩ := hd r x hg
    subst hx
    have hrm : r ∉ objectPrototypeMethods := fun h => hri (by simp [inheritedNames, h])
    have hrc : (r == constructorKey) = false := by
      rw [beq_eq_false_iff_ne]
      intro e
      exact hrm (e ▸ hcm)
    have hcond : ¬ (r ∈ objectPrototypeMethods
        ∧ readOnlyOfBuiltin (.objectMethod r) f = true) := fun h => hrm h.1
    simp only [if_neg hcond]
    simp only [Target.truthy, if_true]
    rw [restAt_pristine _ _ _ _ hP1, hf]
    unfold setField
    rw [hRT, hg]
    by_cases hfp : f = protoKey
    · refine ⟨rl1, hP1, hS1, hK1, by simp [hV1, hrc], ?_⟩
      simp only [assignTo, if_pos hfp]
    · refine ⟨rl1.setProps (.objectMethod s) (setOwn (rl1.props (.objectMethod s)) routesField
          (.obj (setOwn d1 r (.obj (setOwn p f (.str v)))))),
        (setProps_method_objectPrototype rl1 s _).trans hP1,
        hS1, methodsKept_routes rl1 s _ hK1 (kept_setOwn d1 r _ hd hri), ?_, ?_⟩
      · rw [valuesCallable_set, hrv, hV1]
        simp [hrc]
      · simp only [assignTo, if_neg hfp, assignStored_route rl1 _ d1 p r f _ h0 hg]
  | none =>
    simp only []
    rw [fromObjectPrototype_pristine _ _ _ hP1]
    by_cases hrp : r = protoKey
    · have hfp : f = protoKey := by
        by_contra hfp
        exact hw ⟨hrp, hfp⟩
      have hrm : r ∉ objectPrototypeMethods := fun h => protoKey_not_method (hrp ▸ h)
      have hrc : (r == constructorKey) = false := by
        rw [beq_eq_false_iff_ne]
        intro e
        exact hrm (e ▸ hcm)
      have hcond : ¬ (r ∈ objectPrototypeMethods
          ∧ readOnlyOfBuiltin (.objectMethod r) f = true) := fun h => hrm h.1
      simp only [if_neg hcond]
      rw [if_pos hrp]
      simp only [Target.truthy, if_true]
      rw [restAt_pristine _ _ _ _ hP1, hf]
      unfold setField
      rw [hRT, hg]
      refine ⟨rl1, hP1, hS1, hK1, by simp [hV1, hrc], ?_⟩
      simp only [assignTo, if_pos hfp, fromObjectPrototype_pristine _ _ _ hP1, if_pos hrp]
    · rw [if_neg hrp]
      by_cases hrm : r ∈ objectPrototypeMethods
      · rw [if_pos hrm]
        simp only [Target.truthy, if_true]
        rw [restAt_pristine _ _ _ _ hP1, hf]
        unfold setField
        rw [hRT, hg]
        simp only [fromObjectPrototype_pristine _ _ _ hP1, if_neg hrp, if_pos hrm]
        by_cases hfp : f = protoKey
        · have hcond : ¬ (r ∈ objectPrototypeMethods
              ∧ readOnlyOfBuiltin (.objectMethod r) f = true) := by
            intro h
            rw [hfp, readOnly_protoKey] at h
            exact absurd h.2 (by decide)
          have hfv : (f == valuesKey) = false := by
            rw [hfp]
            decide
          simp only [if_neg hcond]
          refine ⟨rl1, hP1, hS1, hK1, by simp [hV1, hfv], ?_⟩
          simp only [assignTo, if_pos hfp]
        · by_cases hro : readOnlyOfBuiltin (.objectMethod r) f = true
          · have hcond : r ∈ objectPrototypeMethods
                ∧ readOnlyOfBuiltin (.objectMethod r) f = true := ⟨hrm, hro⟩
            have hfv : (f == valuesKey) = false := by
              rw [beq_eq_false_iff_ne]
              intro e
              rw [e, readOnly_valuesKey] at hro
              exact absurd hro (by decide)
            simp only [if_pos hcond]
            refine ⟨rl1, hP1, hS1, hK1, by simp [hV1, hfv], ?_⟩
            simp only [assignTo, if_neg hfp, assignStored, hro, and_self, if_true]
          · have hcond : ¬ (r ∈ objectPrototypeMethods
                ∧ readOnlyOfBuiltin (.objectMethod r) f = true) := fun h => hro h.2
            have hro2 : readOnlyOfBuiltin (.objectMethod r) f = false := by
              simpa using hro
            have hfr : f ≠ routesField := fun e => h3 ⟨hrm, e⟩
            simp only [if_neg hcond]
            refine ⟨rl1.setProps (.objectMethod r)
                (setOwn (rl1.props (.objectMethod r)) f (.str v)),
              (setProps_method_objectPrototype rl1 r _).trans hP1,
              hS1, methodsKept_set rl1 r f _ hK1 hfr, ?_, ?_⟩
            · rw [valuesCallable_set, hV1]
            · simp only [assignTo, if_neg hfp, assignStored_root rl1 _ f _ hro2]
      · have hri : r ∉ inheritedNames := by simp [inheritedNames, hrp, hrm]
        have hrc : (r == constructorKey) = false := by
          rw [beq_eq_false_iff_ne]
          intro e
          exact hrm (e ▸ hcm)
        have hcond : ¬ (r ∈ objectPrototypeMethods
            ∧ readOnlyOfBuiltin (.objectMethod r) f = true) := fun h => hrm h.1
        simp only [if_neg hcond]
        rw [if_neg hrm]
        simp only [Target.truthy, Bool.false_eq_true, if_false]
        -- line 125 creates the record
        have hP2 := (setProps_method_objectPrototype rl1 s
          (setOwn (rl1.props (.objectMethod s)) routesField
            (.obj (setOwn d1 r (.obj []))))).trans hP1
        have hK2 := methodsKept_routes rl1 s _ hK1 (kept_setOwn d1 r [] hd hri)
        have hd2 := kept_setOwn d1 r [] hd hri
        have h02 : getOwn ((rl1.setProps (.objectMethod s)
            (setOwn (rl1.props (.objectMethod s)) routesField
              (.obj (setOwn d1 r (.obj []))))).props (.objectMethod s)) routesField =
            some (.obj (setOwn d1 r (.obj []))) := by
          rw [props_setProps_same, getOwn_setOwn]
        have hV2 : (rl1.setProps (.objectMethod s)
            (setOwn (rl1.props (.objectMethod s)) routesField
              (.obj (setOwn d1 r (.obj []))))).valuesCallable = rl.valuesCallable := by
          rw [valuesCallable_set, hrv, hV1]
          simp
        generalize hrl2 : rl1.setProps (.objectMethod s)
            (setOwn (rl1.props (.objectMethod s)) routesField
              (.obj (setOwn d1 r (.obj [])))) = rl2 at hP2 hK2 h02 hV2
        unfold createRoute
        rw [readRoutes_method b c T rl1 s hP1 hn hs, h0]
        simp only [assignTo, if_neg hrp, assignStored_routes rl1 _ d1 r _ h0, hrl2]
        rw [restAt_pristine _ _ _ _ hP2, hf]
        unfold setField
        rw [readRoute_method b c T rl2 s r _ hP2 hn hs h02, getOwn_setOwn]
        have hS2 : rl2.stringPrototype = rl.stringPrototype := by
          rw [← hrl2]
          exact hS1
        by_cases hfp : f = protoKey
        · refine ⟨rl2, hP2, hS2, hK2, by simp [hV2, hrc], ?_⟩
          simp only [assignTo, if_pos hfp]
        · refine ⟨rl2.setProps (.objectMethod s) (setOwn (rl2.props (.objectMethod s))
              routesField (.obj (setOwn (setOwn d1 r (.obj [])) r
                (.obj (setOwn [] f (.str v)))))),
            (setProps_method_objectPrototype rl2 s _).trans hP2,
            hS2, methodsKept_routes rl2 s _ hK2 (kept_setOwn _ r _ hd2 hri), ?_, ?_⟩
          · rw [valuesCallable_set, hrv, hV2]
            simp [hrc]
          · simp only [assignTo, if_neg hfp,
              assignStored_route rl2 _ _ [] r f _ h02 (getOwn_setOwn _ _ _)]

theorem componentKey_ne_valuesKey : (componentKey == valuesKey) = false := by decide

theorem componentKey_ne_routesField : componentKey ≠ routesField := by decide

/-- Lines 119-128 on a grouped state, for a line that assigns no property
of a prototype object and no `_routes` of a method: the turn throws
exactly when the line assigns a property of a method that cannot be
changed. -/
theorem assignKey_kept (b c : Option Str) (rl : Realm) (L : List KV) (kv : KV)
    (hP : rl.objectPrototype = []) (hK : rl.methodsKept) (ht : isTopLevel kv = false)
    (hw : writesPrototype kv = false) (h3 : storesRoutes kv = false) :
    ∃ acc2 : Acc, acc2.realm.stringPrototype = rl.stringPrototype ∧ acc2.realm.methodsKept ∧
      acc2.realm.valuesCallable = (rl.valuesCallable && !replacesValues kv) ∧
      assignKey ⟨b, c, (groupAcc L).tempSubs, rl⟩ kv.1 kv.2 =
        if throwsAt kv = true then .error .typeError else .ok acc2 := by
  have hcm : constructorKey ∈ objectPrototypeMethods := by decide
  have hwp : isRouteLine kv = true →
      ¬ (routeIdOf kv = protoKey ∧ fieldOf kv ≠ protoKey) := by
    intro hr hh
    simp [writesPrototype, ht, hr, hh.1, hh.2] at hw
  have h3p : isRouteLine kv = true →
      ¬ (routeIdOf kv ∈ objectPrototypeMethods ∧ fieldOf kv = routesField) := by
    intro hr hh
    simp [storesRoutes, ht, hr, hh.1, hh.2] at h3
  have hthrows : throwsAt kv = true ↔ (isRouteLine kv = true ∧
      routeIdOf kv ∈ objectPrototypeMethods ∧
      readOnlyOfBuiltin (.objectMethod (routeIdOf kv)) (fieldOf kv) = true) := by
    simp [throwsAt, ht, and_assoc]
  have hvalues : replacesValues kv =
      (isRouteLine kv && (routeIdOf kv == constructorKey && fieldOf kv == valuesKey)) := by
    simp [replacesValues, ht, Bool.and_assoc]
  by_cases hs : subdomainOf kv ∈ inheritedNames
  · have hn : getOwn (groupAcc L).tempSubs (subdomainOf kv) = none := by
      rw [getOwn_tempSubs, if_neg (not_mem_subdomainIds L _ hs)]
    have hsd : (splitAux '.' kv.1).1 = subdomainOf kv := rfl
    have hrs : (splitAux '.' kv.1).2 = restOf kv := rfl
    by_cases hp : subdomainOf kv = protoKey
    · -- the line names `Object.prototype` and assigns nothing
      have hcr : isComponentLine kv = false ∧ isRouteLine kv = false := by
        have := hw
        simp only [writesPrototype, ht, hp, Bool.not_false, beq_self_eq_true, Bool.true_and,
          Bool.or_eq_false_iff] at this
        exact this.1
      have hc2 : ¬ ((restOf kv).get? 0 = some componentKey ∧ (restOf kv).length = 1) := by
        rw [← isComponentLine_iff, hcr.1]
        decide
      have hr2 : ¬ (restOf kv).get? 0 = some routesKey := by
        rw [← isRouteLine_iff, hcr.2]
        decide
      have hth : ¬ throwsAt kv = true := fun h => by
        rw [hthrows, hcr.2] at h
        exact absurd h.1 (by decide)
      refine ⟨⟨b, c, (groupAcc L).tempSubs, rl⟩, rfl, hK, ?_, ?_⟩
      · simp [hvalues, hcr.2]
      · have htruthy : (readSub ⟨b, c, (groupAcc L).tempSubs, rl⟩ (subdomainOf kv)).truthy
            = true := by
          unfold readSub
          simp only [hn]
          rw [fromObjectPrototype_pristine _ _ _ hP, if_pos hp]
          rfl
        unfold assignKey
        dsimp only
        rw [hsd, hrs, if_pos htruthy, restAt_pristine _ _ _ _ hP, if_neg hc2]
        dsimp only
        rw [restAt_pristine _ _ _ _ hP, if_neg hr2, if_neg hth]
    · have hm : subdomainOf kv ∈ objectPrototypeMethods :=
        ((mem_inheritedNames _).1 hs).resolve_left hp
      have hRS := readSub_method b c (groupAcc L).tempSubs rl (subdomainOf kv) hP hn hm
      have htruthy : (readSub ⟨b, c, (groupAcc L).tempSubs, rl⟩ (subdomainOf kv)).truthy
          = true := by
        rw [hRS]
        rfl
      by_cases hc : isComponentLine kv = true
      · -- line 121 assigns `component` on the method
        have hc2 := (isComponentLine_iff kv).1 hc
        have hr : isRouteLine kv = false := by
          cases hr : isRouteLine kv
          · rfl
          · rw [not_isComponentLine_of_isRouteLine kv hr] at hc
            exact absurd hc (by decide)
        have hr2 : ¬ (restOf kv).get? 0 = some routesKey := by
          rw [← isRouteLine_iff, hr]
          decide
        have hth : ¬ throwsAt kv = true := fun h => by
          rw [hthrows, hr] at h
          exact absurd h.1 (by decide)
        refine ⟨⟨b, c, (groupAcc L).tempSubs, rl.setProps (.objectMethod (subdomainOf kv))
            (setOwn (rl.props (.objectMethod (subdomainOf kv))) componentKey (.str kv.2))⟩,
          rfl, methodsKept_set rl _ _ _ hK componentKey_ne_routesField, ?_, ?_⟩
        · dsimp only
          rw [valuesCallable_set, componentKey_ne_valuesKey]
          simp [hvalues, hr]
        · unfold assignKey
          dsimp only
          rw [hsd, hrs, if_pos htruthy, restAt_pristine _ _ _ _ hP, if_pos hc2]
          simp only [setComponent, hRS, assignTo]
          rw [if_neg (by decide), assignStored_root rl _ _ _ (readOnly_componentKey _)]
          dsimp only
          rw [restAt_pristine _ _ _ _ (setProps_method_objectPrototype rl _ _ |>.trans hP),
            if_neg hr2, if_neg hth]
      · have hc2 : ¬ ((restOf kv).get? 0 = some componentKey ∧ (restOf kv).length = 1) := by
          rw [← isComponentLine_iff]
          exact hc
        by_cases hr : isRouteLine kv = true
        · have hr2 := (isRouteLine_iff kv).1 hr
          obtain ⟨rl2, _, hS2, hK2, hV2, hE⟩ := assignRoute_method b c (groupAcc L).tempSubs rl
            (subdomainOf kv) (restOf kv) kv.2 (routeIdOf kv) (fieldOf kv) hP hn hm hK rfl rfl
            (hwp hr) (h3p hr)
          refine ⟨⟨b, c, (groupAcc L).tempSubs, rl2⟩, hS2, hK2, ?_, ?_⟩
          · dsimp only
            rw [hV2, hvalues, hr]
            simp
          · unfold assignKey
            dsimp only
            rw [hsd, hrs, if_pos htruthy, restAt_pristine _ _ _ _ hP, if_neg hc2]
            dsimp only
            rw [restAt_pristine _ _ _ _ hP, if_pos hr2, hE]
            by_cases hth : throwsAt kv = true
            · rw [if_pos hth, if_pos ((hthrows.1 hth).2)]
            · have hneg : ¬ (routeIdOf kv ∈ objectPrototypeMethods ∧
                  readOnlyOfBuiltin (.objectMethod (routeIdOf kv)) (fieldOf kv) = true) :=
                fun h => hth (hthrows.2 ⟨hr, h⟩)
              rw [if_neg hth, if_neg hneg]
        · have hr2 : ¬ (restOf kv).get? 0 = some routesKey := by
            rw [← isRouteLine_iff]
            exact hr
          have hr3 : isRouteLine kv = false := by simpa using hr
          have hth : ¬ throwsAt kv = true := fun h => hr (hthrows.1 h).1
          refine ⟨⟨b, c, (groupAcc L).tempSubs, rl⟩, rfl, hK, ?_, ?_⟩
          · simp [hvalues, hr3]
          · unfold assignKey
            dsimp only
            rw [hsd, hrs, if_pos htruthy, restAt_pristine _ _ _ _ hP, if_neg hc2]
            dsimp only
            rw [restAt_pristine _ _ _ _ hP, if_neg hr2, if_neg hth]
  · -- an entry of the parser's own
    rw [assignKey_own b c rl L kv hP ht hs hw]
    by_cases hcond : isRouteLine kv = true ∧ routeIdOf kv ∈ objectPrototypeMethods
        ∧ fieldOf kv ≠ protoKey
    · by_cases hro : readOnlyOfBuiltin (.objectMethod (routeIdOf kv)) (fieldOf kv) = true
      · have hth : throwsAt kv = true := hthrows.2 ⟨hcond.1, hcond.2.1, hro⟩
        refine ⟨⟨b, c, (groupAcc L).tempSubs, rl⟩, rfl, hK, ?_, ?_⟩
        · have hfv : (fieldOf kv == valuesKey) = false := by
            rw [beq_eq_false_iff_ne]
            intro e
            rw [e, readOnly_valuesKey] at hro
            exact absurd hro (by decide)
          simp [hvalues, hfv]
        · rw [if_pos hcond, if_pos hro, if_pos hth]
      · have hth : ¬ throwsAt kv = true := fun h => hro (hthrows.1 h).2.2
        have hfr : fieldOf kv ≠ routesField := fun e => h3p hcond.1 ⟨hcond.2.1, e⟩
        refine ⟨⟨b, c, (groupAcc (L ++ [kv])).tempSubs,
            rl.setProps (.objectMethod (routeIdOf kv))
              (setOwn (rl.props (.objectMethod (routeIdOf kv))) (fieldOf kv) (.str kv.2))⟩,
          rfl, methodsKept_set rl _ _ _ hK hfr, ?_, ?_⟩
        · dsimp only
          rw [valuesCallable_set, hvalues, hcond.1]
          simp
        · rw [if_pos hcond, if_neg hro, if_neg hth]
    · have hth : ¬ throwsAt kv = true := by
        intro h
        have h2 := hthrows.1 h
        apply hcond
        refine ⟨h2.1, h2.2.1, ?_⟩
        intro e
        rw [e, readOnly_protoKey] at h2
        exact absurd h2.2.2 (by decide)
      refine ⟨⟨b, c, (groupAcc (L ++ [kv])).tempSubs, rl⟩, rfl, hK, ?_, ?_⟩
      · dsimp only
        rw [hvalues]
        by_cases hr : isRouteLine kv = true
        · by_cases hrc : routeIdOf kv = constructorKey
          · have hfp : fieldOf kv = protoKey := by
              by_contra hfp
              exact hcond ⟨hr, hrc ▸ hcm, hfp⟩
            have hfv : (fieldOf kv == valuesKey) = false := by
              rw [hfp]
              decide
            simp [hfv]
          · simp [hrc]
        · have hr3 : isRouteLine kv = false := by simpa using hr
          simp [hr3]
      · rw [if_neg hcond, if_neg hth]

theorem any_or {α : Type} (p q : α → Bool) (l : List α) :
    l.any (fun a => p a || q a) = (l.any p || l.any q) := by
  induction l with
  | nil => rfl
  | cons a l ih =>
    simp only [List.any_cons, ih]
    cases p a <;> cases q a <;> cases l.any p <;> cases l.any q <;> rfl

theorem breaksMethod_eq (kv : KV) : breaksMethod kv = (throwsAt kv || replacesValues kv) := by
  have hcm : constructorKey ∈ objectPrototypeMethods := by decide
  unfold breaksMethod throwsAt replacesValues
  by_cases ht : isTopLevel kv = true
  · simp [ht]
  · by_cases hr : isRouteLine kv = true
    · by_cases hrc : routeIdOf kv = constructorKey
      · simp [ht, hr, hrc, hcm]
      · have hrc2 : (routeIdOf kv == constructorKey) = false := by simpa using hrc
        simp [ht, hr, hrc2]
    · simp [ht, hr]

/-- One accepted line on a kept state. -/
theorem assign_kept (acc : Acc) (L : List KV) (kv : KV) (hG : acc.Kept L)
    (hw : writesPrototype kv = false) (h3 : storesRoutes kv = false) :
    ∃ acc2 : Acc,
      assign acc kv.1 kv.2 = (if throwsAt kv = true then .error .typeError else .ok acc2) ∧
      (throwsAt kv = false → acc2.Kept (L ++ [kv])) := by
  obtain ⟨hGr, hS, hK, hV⟩ := hG
  have htrim : acc.realm.trimCallable = true := by
    simp [Realm.trimCallable, hS, getOwn]
  by_cases ht : isTopLevel kv = true
  · have hth : ¬ throwsAt kv = true := by simp [throwsAt, ht]
    have hrv : replacesValues kv = false := by simp [replacesValues, ht]
    have hres : ∃ acc2, assign acc kv.1 kv.2 = .ok acc2 ∧
        acc2.realm = acc.realm := by
      unfold assign
      simp only [htrim, Bool.not_true, Bool.false_eq_true, if_false]
      by_cases hb : kv.1 = baseURLKey
      · exact ⟨{ acc with baseURL := some kv.2 }, by rw [if_pos hb], rfl⟩
      · have hc : kv.1 = containerKey := by
          simpa [isTopLevel, hb] using ht
        exact ⟨{ acc with container := some kv.2 }, by rw [if_neg hb, if_pos hc], rfl⟩
    obtain ⟨acc2, h2, hrl⟩ := hres
    refine ⟨acc2, by rw [if_neg hth, h2], fun _ => ⟨assign_groups acc acc2 L kv hGr hw h2, ?_, ?_, ?_⟩⟩
    · rw [hrl, hS]
    · rw [hrl]
      exact hK
    · rw [hrl, hV]
      simp [hrv]
  · have ht2 : isTopLevel kv = false := by simpa using ht
    have hkb : kv.1 ≠ baseURLKey ∧ kv.1 ≠ containerKey := by
      simpa [isTopLevel] using ht2
    obtain ⟨b, c, T, rl⟩ := acc
    obtain ⟨hb, hc, hT, hP⟩ := hGr
    simp only at hb hc hT hP hS hK hV htrim
    subst hT
    obtain ⟨acc2, hS2, hK2, hV2, hE⟩ := assignKey_kept b c rl L kv hP hK ht2 hw h3
    have hassign : assign ⟨b, c, (groupAcc L).tempSubs, rl⟩ kv.1 kv.2 =
        if throwsAt kv = true then .error .typeError else .ok acc2 := by
      unfold assign
      simp only [htrim, Bool.not_true, Bool.false_eq_true, if_false]
      rw [if_neg hkb.1, if_neg hkb.2, hE]
    refine ⟨acc2, hassign, fun hth => ?_⟩
    rw [hth] at hassign
    simp only [Bool.false_eq_true, if_false] at hassign
    refine ⟨assign_groups ⟨b, c, (groupAcc L).tempSubs, rl⟩ acc2 L kv ⟨hb, hc, rfl, hP⟩ hw
      hassign, ?_, hK2, ?_⟩
    · rw [hS2, hS]
    · rw [hV2, hV]
      simp [List.any_append, Bool.not_or]

/-- The loop on a kept state, over lines that assign no property of a
prototype object and no `_routes` of a method: it throws exactly when a
line assigns a property of a method that cannot be changed. -/
theorem runLines_kept (lines : List Str) (acc : Acc) (L : List KV) (hG : acc.Kept L)
    (hw : ∀ kv ∈ acceptedOf lines, writesPrototype kv = false ∧ storesRoutes kv = false) :
    ∃ acc2 : Acc,
      runLines acc lines =
        (if (acceptedOf lines).any throwsAt = true then .error .typeError else .ok acc2) ∧
      ((acceptedOf lines).any throwsAt = false → acc2.Kept (L ++ acceptedOf lines)) := by
  induction lines generalizing acc L with
  | nil =>
    refine ⟨acc, by simp [runLines, acceptedOf], fun _ => ?_⟩
    simpa [acceptedOf] using hG
  | cons line lines ih =>
    have hsplit : acc.realm.splitCallable = true := by
      simp [Realm.splitCallable, hG.2.1, getOwn]
    unfold runLines step
    simp only [hsplit, Bool.not_true, Bool.false_eq_true, if_false]
    cases hk : keyValue line with
    | none =>
      have hacc : acceptedOf (line :: lines) = acceptedOf lines := by
        simp [acceptedOf, List.filterMap_cons, hk]
      rw [hacc] at hw ⊢
      exact ih acc L hG hw
    | some kv =>
      have hacc : acceptedOf (line :: lines) = kv :: acceptedOf lines := by
        simp [acceptedOf, List.filterMap_cons, hk]
      rw [hacc] at hw ⊢
      obtain ⟨acc1, h1, hK1⟩ := assign_kept acc L kv hG (hw kv (by simp)).1 (hw kv (by simp)).2
      simp only []
      rw [h1]
      by_cases hth : throwsAt kv = true
      · refine ⟨acc, ?_, ?_⟩
        · simp [hth]
        · intro h
          simp [hth] at h
      · have hth2 : throwsAt kv = false := by simpa using hth
        obtain ⟨acc2, h2, hK2⟩ := ih acc1 (L ++ [kv]) (hK1 hth2)
          (fun q hq => hw q (by simp [hq]))
        refine ⟨acc2, ?_, ?_⟩
        · simp only [hth2, Bool.false_eq_true, if_false, h2, List.any_cons, Bool.false_or]
        · intro h
          simp only [List.any_cons, hth2, Bool.false_or] at h
          simpa using hK2 h

/-- The result of the parser on a list of kept lines none of which assigns
a property of a prototype object or `_routes` of a method of
`Object.prototype`: a TypeError when a line assigns a property of a method
that cannot be changed or `values` of `Object`, and else the grouping of
the accepted lines. -/
theorem parseLines_eq (lines : List Str)
    (hw : ∀ kv ∈ acceptedOf lines, writesPrototype kv = false ∧ storesRoutes kv = false) :
    parseLines lines =
      if (acceptedOf lines).any breaksMethod = true then .error .typeError
      else .ok (groupConfig (acceptedOf lines)) := by
  have hG : Acc.init.Kept [] := by
    refine ⟨?_, rfl, fun name => Or.inl rfl, rfl⟩
    rw [← groupAcc_nil]
    exact ⟨rfl, rfl, rfl, rfl⟩
  obtain ⟨acc, h1, hK⟩ := runLines_kept lines Acc.init [] hG hw
  have hany : (acceptedOf lines).any breaksMethod =
      ((acceptedOf lines).any throwsAt || (acceptedOf lines).any replacesValues) := by
    rw [← any_or]
    congr 1
    funext kv
    exact breaksMethod_eq kv
  unfold parseLines
  rw [h1, hany]
  by_cases hth : (acceptedOf lines).any throwsAt = true
  · simp [hth]
  · have hth2 : (acceptedOf lines).any throwsAt = false := by simpa using hth
    obtain ⟨hGr, _, _, hV⟩ := hK hth2
    simp only [hth2, Bool.false_eq_true, if_false, Bool.false_or]
    rw [finish_groups acc _ hGr, hV]
    simp only [List.nil_append]
    cases (acceptedOf lines).any replacesValues <;> simp

/-! ## What the parser can leave on `Object.prototype`, for every text -/

theorem routesOnly_setOwn (st : Props Value) (k : Str) (v : Value)
    (h : ∀ k p, getOwn st k = some (.obj p) → k = routesField)
    (hv : (∃ s, v = .str s) ∨ k = routesField) :
    ∀ k2 p, getOwn (setOwn st k v) k2 = some (.obj p) → k2 = routesField := by
  intro k2 p hp
  by_cases e : k = k2
  · subst e
    rw [getOwn_setOwn] at hp
    rcases hv with ⟨s, hs⟩ | hk
    · rw [hs] at hp
      cases hp
    · exact hk
  · rw [getOwn_setOwn_ne _ _ _ _ e] at hp
    exact h k2 p hp

theorem routesOnly_assignAt (st : Props Value) (path : List Str) (k : Str) (v : Value)
    (h : ∀ k p, getOwn st k = some (.obj p) → k = routesField)
    (hv : (∃ s, v = .str s) ∨ k = routesField ∨ path ≠ []) :
    ∀ k2 p, getOwn (assignAt st path k v) k2 = some (.obj p) → k2 = routesField := by
  cases path with
  | nil =>
    apply routesOnly_setOwn st k v h
    rcases hv with hv | hv | hv
    · exact Or.inl hv
    · exact Or.inr hv
    · exact absurd rfl hv
  | cons q path =>
    unfold assignAt
    cases hq : getOwn st q with
    | none => exact h
    | some x =>
      cases x with
      | str s => exact h
      | obj inner =>
        simp only []
        exact routesOnly_setOwn st q _ h (Or.inr (h q inner hq))

theorem assignStored_routesOnly (rl rl2 : Realm) (b : Builtin) (path : List Str) (k : Str)
    (v : Value) (hI : rl.routesOnly) (hv : (∃ s, v = .str s) ∨ k = routesField ∨ path ≠ [])
    (h : assignStored rl b path k v = .ok rl2) : rl2.routesOnly := by
  unfold assignStored at h
  split at h
  · cases h
  · simp only [Except.ok.injEq] at h
    subst h
    cases b with
    | objectPrototype => exact routesOnly_assignAt _ path k v hI hv
    | stringPrototype => exact hI
    | objectMethod name => exact hI
    | stringMethod name => exact hI

theorem assignTo_routesOnly {α : Type} (acc acc2 : Acc) (t : Target α) (k : Str) (v : Value)
    (own : α → Acc) (hI : acc.realm.routesOnly) (hown : ∀ a, (own a).realm = acc.realm)
    (hv : (∃ s, v = .str s) ∨ k = routesField ∨ ∀ b, t ≠ .place b [])
    (h : assignTo acc t k v own = .ok acc2) : acc2.realm.routesOnly := by
  by_cases hk : k = protoKey
  · cases t <;> simp only [assignTo, if_pos hk] at h <;> cases h <;> exact hI
  · cases t with
    | undefined => cases h
    | str s =>
      simp only [assignTo, if_neg hk] at h
      cases h
    | primitive p =>
      simp only [assignTo, if_neg hk] at h
      cases h
    | own a =>
      simp only [assignTo, if_neg hk, Except.ok.injEq] at h
      rw [← h, hown a]
      exact hI
    | place b path =>
      simp only [assignTo, if_neg hk] at h
      cases hA : assignStored acc.realm b path k v with
      | error x =>
        rw [hA] at h
        cases h
      | ok rl2 =>
        rw [hA] at h
        simp only [Except.ok.injEq] at h
        rw [← h]
        apply assignStored_routesOnly acc.realm rl2 b path k v hI _ hA
        rcases hv with hv | hv | hv
        · exact Or.inl hv
        · exact Or.inr (Or.inl hv)
        · right
          right
          intro e
          exact hv b (by rw [e])

theorem mapEntry_realm (acc : Acc) (s : Str) (f : TempSub → TempSub) :
    (acc.mapEntry s f).realm = acc.realm := by
  unfold Acc.mapEntry
  split <;> rfl

/-- The expression `tempSubs[subdomain]._routes` never yields a built-in
object itself. -/
theorem readRoutes_path (acc : Acc) (s : Str) (b : Builtin) (path : List Str)
    (h : readRoutes acc s = .ok (.place b path)) : path ≠ [] := by
  have h1 : routesField ≠ protoKey := by decide
  have h2 : routesField ∉ objectPrototypeMethods := by decide
  have h3 : routesField ∉ stringPrototypeMethods := by decide
  have h4 : routesField ≠ "length".toList := by decide
  have h5 : arrayIndex? routesField = none := by decide
  have hfo : ∀ proto : Target Str,
      fromObjectPrototype acc.realm proto routesField = .place b path → path ≠ [] := by
    intro proto hp
    unfold fromObjectPrototype at hp
    rw [if_neg h1] at hp
    split at hp
    · cases hp
    · cases hp
      simp
    · rw [if_neg h2] at hp
      cases hp
  unfold readRoutes readFrom at h
  split at h
  · cases h
  · simp only [Except.ok.injEq] at h
    unfold readString at h
    rw [if_neg h4, h5] at h
    simp only [Option.any_none, Bool.false_eq_true, if_false] at h
    split at h
    · cases h
    · cases h
      simp
    · rw [if_neg h3] at h
      exact hfo _ h
  · simp only [Except.ok.injEq] at h
    exact hfo _ h
  · simp only [Except.ok.injEq] at h
    rename_i a _
    cases ho : (Option.map (fun _ => (Target.own a : Target Str))
        ((getOwn acc.tempSubs a).bind fun sub => sub._routes)) with
    | none =>
      rw [ho] at h
      exact hfo _ h
    | some t =>
      rw [ho] at h
      simp only [Option.getD_some] at h
      cases hx : ((getOwn acc.tempSubs a).bind fun sub => sub._routes) with
      | none => simp [hx] at ho
      | some d =>
        simp only [hx, Option.map_some', Option.some.injEq] at ho
        rw [← ho] at h
        cases h
  · simp only [Except.ok.injEq] at h
    unfold readStored at h
    split at h
    · cases h
    · cases h
      simp
    · exact hfo _ h

theorem setComponent_routesOnly (acc acc2 : Acc) (s v : Str) (hI : acc.realm.routesOnly)
    (h : setComponent acc s v = .ok acc2) : acc2.realm.routesOnly :=
  assignTo_routesOnly acc acc2 _ _ _ _ hI (fun _ => mapEntry_realm _ _ _)
    (Or.inl ⟨v, rfl⟩) h

theorem createRoutes_routesOnly (acc acc2 : Acc) (s : Str) (hI : acc.realm.routesOnly)
    (h : createRoutes acc s = .ok acc2) : acc2.realm.routesOnly :=
  assignTo_routesOnly acc acc2 _ _ _ _ hI (fun _ => mapEntry_realm _ _ _)
    (Or.inr (Or.inl rfl)) h

theorem createRoute_routesOnly (acc acc2 : Acc) (s r : Str) (hI : acc.realm.routesOnly)
    (h : createRoute acc s r = .ok acc2) : acc2.realm.routesOnly := by
  unfold createRoute at h
  cases h1 : readRoutes acc s with
  | error x =>
    rw [h1] at h
    cases h
  | ok t =>
    rw [h1] at h
    apply assignTo_routesOnly acc acc2 _ _ _ _ hI (fun _ => mapEntry_realm _ _ _) _ h
    right
    right
    intro b e
    rw [e] at h1
    exact readRoutes_path acc s b [] h1 rfl

theorem setField_routesOnly (acc acc2 : Acc) (s r f v : Str) (hI : acc.realm.routesOnly)
    (h : setField acc s r f v = .ok acc2) : acc2.realm.routesOnly := by
  unfold setField at h
  cases h1 : readRoute acc s r with
  | error x =>
    rw [h1] at h
    cases h
  | ok t =>
    rw [h1] at h
    exact assignTo_routesOnly acc acc2 _ _ _ _ hI (fun _ => mapEntry_realm _ _ _)
      (Or.inl ⟨v, rfl⟩) h

theorem assignRoute_routesOnly (acc acc2 : Acc) (s : Str) (rest : List Str) (v : Str)
    (hI : acc.realm.routesOnly) (h : assignRoute acc s rest v = .ok acc2) :
    acc2.realm.routesOnly := by
  unfold assignRoute at h
  dsimp only at h
  generalize (restAt acc.realm rest 1 "1".toList).getD undefinedKey = r at h
  cases h1 : readRoutes acc s with
  | error x =>
    rw [h1] at h
    cases h
  | ok t2 =>
    rw [h1] at h
    dsimp only at h
    cases h2 : (if t2.truthy = true then Except.ok acc else createRoutes acc s) with
    | error x =>
      rw [h2] at h
      cases h
    | ok acc1 =>
      rw [h2] at h
      dsimp only at h
      have hI1 : acc1.realm.routesOnly := by
        by_cases htr : t2.truthy = true
        · rw [if_pos htr] at h2
          cases h2
          exact hI
        · rw [if_neg htr] at h2
          exact createRoutes_routesOnly acc acc1 s hI h2
      cases h3 : readRoute acc1 s r with
      | error x =>
        rw [h3] at h
        cases h
      | ok t3 =>
        rw [h3] at h
        dsimp only at h
        cases h4 : (if t3.truthy = true then Except.ok acc1 else createRoute acc1 s r) with
        | error x =>
          rw [h4] at h
          cases h
        | ok acc3 =>
          rw [h4] at h
          dsimp only at h
          have hI3 : acc3.realm.routesOnly := by
            by_cases htr : t3.truthy = true
            · rw [if_pos htr] at h4
              cases h4
              exact hI1
            · rw [if_neg htr] at h4
              exact createRoute_routesOnly acc1 acc3 s r hI1 h4
          exact setField_routesOnly acc3 acc2 s r _ v hI3 h

theorem assign_routesOnly (acc acc2 : Acc) (key value : Str) (hI : acc.realm.routesOnly)
    (h : assign acc key value = .ok acc2) : acc2.realm.routesOnly := by
  unfold assign at h
  split at h
  · cases h
  · split at h
    · cases h
      exact hI
    · split at h
      · cases h
        exact hI
      · unfold assignKey at h
        dsimp only at h
        generalize hacc1 : (if (readSub acc (splitAux '.' key).1).truthy = true then acc
          else (⟨acc.baseURL, acc.container, setOwn acc.tempSubs (splitAux '.' key).1
            ⟨(splitAux '.' key).1, [], none, none⟩, acc.realm⟩ : Acc)) = acc1 at h
        have hI1 : acc1.realm.routesOnly := by
          rw [← hacc1]
          split
          · exact hI
          · exact hI
        cases h1 : (if restAt acc1.realm (splitAux '.' key).2 0 "0".toList = some componentKey
            ∧ (splitAux '.' key).2.length = 1
            then setComponent acc1 (splitAux '.' key).1 value else Except.ok acc1) with
        | error x =>
          rw [h1] at h
          cases h
        | ok acc3 =>
          rw [h1] at h
          dsimp only at h
          have hI3 : acc3.realm.routesOnly := by
            split at h1
            · exact setComponent_routesOnly acc1 acc3 _ _ hI1 h1
            · cases h1
              exact hI1
          split at h
          · exact assignRoute_routesOnly acc3 acc2 _ _ _ hI3 h
          · cases h
            exact hI3

/-- Whatever the lines are, the loop leaves objects on `Object.prototype`
under `_routes` only. -/
theorem runLines_routesOnly (lines : List Str) (acc acc2 : Acc) (hI : acc.realm.routesOnly)
    (h : runLines acc lines = .ok acc2) : acc2.realm.routesOnly := by
  induction lines generalizing acc with
  | nil =>
    simp only [runLines, Except.ok.injEq] at h
    rw [← h]
    exact hI
  | cons line lines ih =>
    unfold runLines at h
    split at h
    · cases h
    · cases hs : step acc line with
      | error x =>
        rw [hs] at h
        cases h
      | ok acc1 =>
        rw [hs] at h
        apply ih acc1 _ h
        unfold step at hs
        split at hs
        · cases hs
          exact hI
        · exact assign_routesOnly acc acc1 _ _ hI hs

/-! ## Splitting a line -/

theorem splitAux_fst (sep : Char) (s : Str) :
    (splitAux sep s).1 = s.takeWhile (fun c => c != sep) := by
  induction s with
  | nil => rfl
  | cons c cs ih =>
    by_cases h : c = sep
    · simp [splitAux, h, List.takeWhile_cons]
    · simp [splitAux, h, List.takeWhile_cons, ih]

theorem splitAux_snd_head (sep : Char) (s : Str) :
    (splitAux sep s).2.head? =
      if sep ∈ s then
        some (((s.dropWhile (fun c => c != sep)).drop 1).takeWhile (fun c => c != sep))
      else none := by
  induction s with
  | nil => rfl
  | cons c cs ih =>
    by_cases h : c = sep
    · simp [splitAux, h, List.dropWhile_cons, splitAux_fst]
    · have h2 : ¬ sep = c := fun e => h e.symm
      simp [splitAux, h, h2, List.dropWhile_cons, ih]

theorem valuePiece_of_not_mem (line : Str) (h : '=' ∉ line) : valuePiece line = [] := by
  have : line.dropWhile (fun c => c != '=') = [] := by
    rw [List.dropWhile_eq_nil_iff]
    intro c hc
    have : c ≠ '=' := fun e => h (e ▸ hc)
    simpa using this
  simp [valuePiece, this]

/-- Lines 113-116 in terms of the two pieces of the line. -/
theorem keyValue_eq (line : Str) :
    keyValue line =
      if keyPiece line = [] ∨ valuePiece line = [] then none
      else some (trim (keyPiece line), trim (valuePiece line)) := by
  have h1 := splitAux_fst '=' line
  have h2 := splitAux_snd_head '=' line
  unfold keyValue split
  cases hs : (splitAux '=' line).2 with
  | nil =>
    rw [hs] at h2
    have hm : '=' ∉ line := by
      intro hm
      rw [if_pos hm] at h2
      simp at h2
    simp [valuePiece_of_not_mem line hm]
  | cons value rest =>
    rw [hs] at h2
    have hm : '=' ∈ line := by
      by_contra hm
      rw [if_neg hm] at h2
      simp at h2
    rw [if_pos hm] at h2
    have hv : value = valuePiece line := by
      simpa [valuePiece] using h2
    simp only [h1, hv]
    rfl

/-! ## Claims on `init` and `navigate` -/

/-- Claim C1, which the code does not meet.  In `#loadConfig` the test
`!config instanceof URL` applies `instanceof` to the boolean `!config`, so
it is false for every value and the branch that returns the object is
never taken: `init` with a plain configuration object makes no fetch,
fails with the error of line 106, and leaves the router as it was, so
`getReady()` stays false on a fresh router. -/
theorem init_object_rejected (host : Host) (r : Router) (o : Settings) :
    (JsValue.object o).not.instanceofURL = false ∧
    init host r (.object o) = { fetched := [], error := some .invalidConfig, router := r } ∧
    getReady (initFresh host (.object o)).router = false := by
  refine ⟨rfl, rfl, rfl⟩

/-- An `init` that fails leaves the router as it was. -/
theorem init_error_router (host : Host) (r : Router) (config : JsValue)
    (h : (init host r config).error ≠ none) : (init host r config).router = r := by
  unfold init at h ⊢
  rcases hc : loadConfig host config with ⟨fetched, settings | e⟩
  · rfl
  · rw [hc] at h
    exact absurd rfl h

/-- Claim C10: `navigate` on a router that is not ready (a fresh router,
or one whose `init` failed, as that leaves the router unchanged) fails
with the error of line 40 and changes nothing: the router, so the active
subdomain, and the world (container, location, history) are as before,
whatever the input, the state and the nesting allowed. -/
theorem navigate_not_ready (host : Host) (depth : Nat) (r : Router) (w : World)
    (input : JsValue) (state : StateValue) (h : getReady r = false) :
    (navigate host depth r w input state).error = some .notReady ∧
    (navigate host depth r w input state).router = r ∧
    (navigate host depth r w input state).world = w ∧
    (∀ config, (init host r config).error ≠ none →
      getReady (init host r config).router = false) := by
  have h2 : r.ready = false := h
  refine ⟨?_, ?_, ?_, ?_⟩
  · cases depth <;> simp [navigate, h2]
  · cases depth <;> simp [navigate, h2]
  · cases depth <;> simp [navigate, h2]
  · intro config hc
    rw [init_error_router host r config hc]
    exact h

/-- Witness of `navigate_not_ready`: a fresh router. -/
theorem navigate_not_ready_witness :
    getReady Router.fresh = false ∧
    (navigate exampleHost 3 Router.fresh World.empty (.string "/a".toList) (.object 0)).error
      = some .notReady ∧
    (navigate exampleHost 3 Router.fresh World.empty (.string "/a".toList) (.object 0)).router
      = Router.fresh ∧
    (navigate exampleHost 3 Router.fresh World.empty (.string "/a".toList) (.object 0)).world
      = World.empty :=
  ⟨rfl, (navigate_not_ready exampleHost 3 Router.fresh World.empty (.string "/a".toList)
    (.object 0) rfl).1,
    (navigate_not_ready exampleHost 3 Router.fresh World.empty (.string "/a".toList)
    (.object 0) rfl).2.1,
    (navigate_not_ready exampleHost 3 Router.fresh World.empty (.string "/a".toList)
    (.object 0) rfl).2.2.1⟩

/-! ## Host labels -/

theorem join_singleton (sep : Char) (p : Str) : join sep [p] = p := by
  simp [join, List.intercalate, List.intersperse]

theorem join_cons_cons (sep : Char) (p q : Str) (ps : List Str) :
    join sep (p :: q :: ps) = p ++ sep :: join sep (q :: ps) := by
  simp [join, List.intercalate, List.intersperse]

theorem join_append (sep : Char) (a b : List Str) (ha : a ≠ []) (hb : b ≠ []) :
    join sep (a ++ b) = join sep a ++ sep :: join sep b := by
  induction a with
  | nil => exact absurd rfl ha
  | cons p ps ih =>
    cases ps with
    | nil =>
      cases b with
      | nil => exact absurd rfl hb
      | cons q qs => simp [join_cons_cons, join_singleton]
    | cons p2 ps2 =>
      have := ih (by simp)
      simp only [List.cons_append] at this ⊢
      rw [join_cons_cons, this, join_cons_cons]
      simp

/-- Joining the pieces of a split gives the string back. -/
theorem join_split (sep : Char) (s : Str) : join sep (split sep s) = s := by
  induction s with
  | nil => simp [split, splitAux, join_singleton]
  | cons c cs ih =>
    unfold split at ih ⊢
    by_cases h : c = sep
    · simp only [splitAux, h, if_true]
      rw [join_cons_cons, ih]
      rfl
    · simp only [splitAux, h, if_false]
      cases hr : (splitAux sep cs).2 with
      | nil =>
        rw [hr] at ih
        rw [join_singleton] at ih ⊢
        rw [ih]
      | cons q qs =>
        rw [hr] at ih
        rw [join_cons_cons] at ih ⊢
        rw [List.cons_append, ih]

theorem dropWhile_slash (s : Str) :
    (s.dropWhile (fun c => c == '/')).head? ≠ some '/' ∧
    ∃ n, s = List.replicate n '/' ++ s.dropWhile (fun c => c == '/') := by
  induction s with
  | nil => exact ⟨by simp, 0, rfl⟩
  | cons c cs ih =>
    by_cases h : c = '/'
    · obtain ⟨h1, n, h2⟩ := ih
      refine ⟨by simpa [List.dropWhile_cons, h] using h1, n + 1, ?_⟩
      simp only [List.dropWhile_cons, h, beq_self_eq_true, if_true, List.replicate_succ,
        List.cons_append]
      rw [← h2]
    · refine ⟨by simp [List.dropWhile_cons, h], 0, by simp [List.dropWhile_cons, h]⟩

/-- Claim C9: with `m` the number of labels of the host of `baseURL` and
`n` that of the host of the input, `domainSplit` returns as subdomain the
first `n - m` labels of the input joined by dots when `n > m` (the host of
the input is then that subdomain, a dot, and the remaining `m` labels) and
`@` when `n <= m`; the path is the pathname without its leading slashes,
so it never starts with a slash. -/
theorem domainSplit_spec (host : Host) (settings : Settings) (input base : URL)
    (hbase : settings.baseURL = .url base ∨
      ∃ s, settings.baseURL = .string s ∧ host.newURL s = some base) :
    ∃ subdomain path, domainSplit host settings input = some (subdomain, path) ∧
      ((split '.' input.hostname).length > (split '.' base.hostname).length →
        subdomain = join '.' ((split '.' input.hostname).take
            ((split '.' input.hostname).length - (split '.' base.hostname).length)) ∧
        input.hostname = subdomain ++ '.' :: join '.' ((split '.' input.hostname).drop
            ((split '.' input.hostname).length - (split '.' base.hostname).length)) ∧
        ((split '.' input.hostname).drop
            ((split '.' input.hostname).length - (split '.' base.hostname).length)).length
          = (split '.' base.hostname).length) ∧
      ((split '.' input.hostname).length ≤ (split '.' base.hostname).length →
        subdomain = "@".toList) ∧
      path = input.pathname.dropWhile (fun c => c == '/') ∧
      path.head? ≠ some '/' ∧
      ∃ n, input.pathname = List.replicate n '/' ++ path := by
  have hparts : domainParts host settings.baseURL = some (split '.' base.hostname) := by
    rcases hbase with h | ⟨s, h, h2⟩
    · simp [domainParts, h]
    · simp [domainParts, h, h2]
  have hpath := dropWhile_slash input.pathname
  have hm : 0 < (split '.' base.hostname).length := by simp [split]
  by_cases hn : (split '.' input.hostname).length > (split '.' base.hostname).length
  · refine ⟨_, _, by simp only [domainSplit, hparts, if_pos hn]; rfl, ?_, ?_, rfl, hpath.1, hpath.2⟩
    · intro _
      refine ⟨rfl, ?_, by simp; omega⟩
      have h1 := join_split '.' input.hostname
      rw [← List.take_append_drop ((split '.' input.hostname).length
        - (split '.' base.hostname).length) (split '.' input.hostname)] at h1
      rw [join_append] at h1
      · exact h1.symm
      · intro e
        have := congrArg List.length e
        simp at this
        omega
      · intro e
        have := congrArg List.length e
        simp at this
        omega
    · intro h
      omega
  · refine ⟨_, _, by simp only [domainSplit, hparts, if_neg hn]; rfl, ?_, ?_, rfl, hpath.1, hpath.2⟩
    · intro h
      exact absurd h hn
    · intro _
      rfl

/-- Witness of `domainSplit_spec`, with the examples of the claim: for
the base `https://example.com`, the input `https://shop.example.com/a/b`
gives `shop` and `a/b`, and the input `https://example.com/a` gives `@`
and `a`. -/
theorem domainSplit_spec_witness :
    domainSplit exampleHost ⟨.string "https://example.com".toList, .missing, []⟩ shopURL
      = some ("shop".toList, "a/b".toList) ∧
    domainSplit exampleHost ⟨.string "https://example.com".toList, .missing, []⟩ plainURL
      = some ("@".toList, "a".toList) ∧
    domainSplit exampleHost ⟨.url exampleBase, .missing, []⟩ shopURL
      = some ("shop".toList, "a/b".toList) ∧
    ∃ subdomain path,
      domainSplit exampleHost ⟨.string "https://example.com".toList, .missing, []⟩ shopURL
        = some (subdomain, path) ∧ path.head? ≠ some '/' := by
  refine ⟨by decide, by decide, by decide, ?_⟩
  obtain ⟨subdomain, path, h1, _, _, _, h5, _⟩ :=
    domainSplit_spec exampleHost ⟨.string "https://example.com".toList, .missing, []⟩ shopURL
      exampleBase (Or.inr ⟨"https://example.com".toList, rfl, by decide⟩)
  exact ⟨subdomain, path, h1, h5⟩

/-! ## Claims on the properties parser -/

theorem ownKeyOrder_eq (keys : List Str) :
    ownKeyOrder keys =
      (keys.filter fun k => (arrayIndex? k).isSome).insertionSort
          (fun a b => (arrayIndex? a).getD 0 ≤ (arrayIndex? b).getD 0)
        ++ keys.filter fun k => (arrayIndex? k).isNone := by
  unfold ownKeyOrder ownEntries
  rw [List.map_append, List.filter_map, List.filter_map, List.map_map]
  congr 1
  · rw [List.map_insertionSort (r := indexLE)
      (s := fun a b : Str => (arrayIndex? a).getD 0 ≤ (arrayIndex? b).getD 0) Prod.fst]
    · rw [List.map_map]
      congr 1
      exact List.map_id _
    · intro a _ b _
      rfl
  · exact List.map_id _

/-- The result of the parser on a text in which no accepted line assigns
a property of a prototype object, when it returns: the grouping of the
accepted lines. -/
theorem parseProperties_groups (text : Str) (cfg : Config)
    (hw : ∀ kv ∈ acceptedLines text, writesPrototype kv = false)
    (h : parseProperties text = .ok cfg) : cfg = groupConfig (acceptedLines text) :=
  parseLines_groups (keptLines text) cfg hw h

/-- The parser on a text in which no accepted line assigns a property of a
prototype object or the property `_routes` of a method of
`Object.prototype`: a TypeError when some accepted line assigns a property
of such a method that cannot be changed, or `Object.values`, and the
grouping of the accepted lines otherwise. -/
theorem parseProperties_cases (text : Str)
    (hw : ∀ kv ∈ acceptedLines text, writesPrototype kv = false ∧ storesRoutes kv = false) :
    parseProperties text =
      if (acceptedLines text).any breaksMethod = true then .error .typeError
      else .ok (groupConfig (acceptedLines text)) :=
  parseLines_eq (keptLines text) hw

/-- Counterexample to claim C2: for the example resource of section 6,
whose route ids appear in the order `home`, `404`, the parser returns the
record of `404` before the record of `home`.  A subdomain identifier that
names a member of `Object.prototype` (`constructor`) gets no entry.  And
after a line that assigns a property of a prototype object the order of
the identifiers no longer describes the result: after
`__proto__.routes.r.f=1` the subdomain `a`, which has no route id, comes
with the record `{f: "1"}`; after `__proto__.component=x` the identifier
`component` gets no entry, and after `a.routes.__proto__.f=1` the
identifier `f` gets none. -/
theorem parseProperties_example_routes :
    parseProperties exampleText = .ok exampleConfig ∧
    exampleConfig.subdomains.map (fun e => e.routes)
      = [[RouteValue.ofRecord notFoundRecord, RouteValue.ofRecord homeRecord]] ∧
    exampleConfig.subdomains.map (fun e => e.routes)
      ≠ [[RouteValue.ofRecord homeRecord, RouteValue.ofRecord notFoundRecord]] ∧
    parseProperties "constructor.component=x".toList = .ok ⟨none, none, []⟩ ∧
    parseProperties "__proto__.routes.r.f=1\na.component=c".toList
      = .ok ⟨none, none,
          [⟨"a".toList, some "c".toList, [.object [("f".toList, .str "1".toList)]]⟩]⟩ ∧
    routeLinesOf "a".toList (acceptedLines "__proto__.routes.r.f=1\na.component=c".toList) = [] ∧
    parseProperties "__proto__.component=x\ncomponent.x=1".toList = .ok ⟨none, none, []⟩ ∧
    firstSeen (subdomainIds (acceptedLines "__proto__.component=x\ncomponent.x=1".toList))
      = [componentKey] ∧
    parseProperties "a.routes.__proto__.f=1\nf.x=2".toList
      = .ok ⟨none, none, [⟨"a".toList, none, []⟩]⟩ ∧
    firstSeen (subdomainIds (acceptedLines "a.routes.__proto__.f=1\nf.x=2".toList))
      = ["a".toList, "f".toList] := by
  refine ⟨rfl, by decide, by decide, by decide, by decide, by decide, by decide, by decide,
    by decide, by decide⟩

/-- Claim C2 as amended: on a text in which no accepted line assigns a
property of a prototype object (see `writesPrototype`), when the parser
returns, the subdomains come in the order `Object.values` gives the
identifiers that got an entry, taken in order of first appearance: those
that are array indices first, by ascending value, then the others in
order of first appearance; and the routes of each subdomain are the
records of its route ids, in that same order of the route ids. -/
theorem parseProperties_order (text : Str) (cfg : Config)
    (hw : ∀ kv ∈ acceptedLines text, writesPrototype kv = false)
    (h : parseProperties text = .ok cfg) :
    cfg.subdomains.map (fun e => e.subdomain)
      = ownKeyOrder (firstSeen (subdomainIds (acceptedLines text))) ∧
    (∀ e ∈ cfg.subdomains,
      e.routes = (ownKeyOrder (routeIdsOf (routeLinesOf e.subdomain (acceptedLines text)))).map
        fun r => RouteValue.ofRecord (groupRecord
          ((routeLinesOf e.subdomain (acceptedLines text)).filter fun kv => routeIdOf kv == r))) ∧
    (∀ keys : List Str, ownKeyOrder keys =
      (keys.filter fun k => (arrayIndex? k).isSome).insertionSort
          (fun a b => (arrayIndex? a).getD 0 ≤ (arrayIndex? b).getD 0)
        ++ keys.filter fun k => (arrayIndex? k).isNone) := by
  obtain rfl := parseProperties_groups text cfg hw h
  refine ⟨?_, ?_, ownKeyOrder_eq⟩
  · simp only [groupConfig, List.map_map]
    exact List.map_id _
  · intro e he
    simp only [groupConfig, List.mem_map] at he
    obtain ⟨s, _, rfl⟩ := he
    rfl

/-- Witness of `parseProperties_order`: the example resource of section 6. -/
theorem parseProperties_order_witness :
    (∀ kv ∈ acceptedLines exampleText, writesPrototype kv = false) ∧
    parseProperties exampleText = .ok exampleConfig ∧
    exampleConfig.subdomains.map (fun e => e.subdomain)
      = ownKeyOrder (firstSeen (subdomainIds (acceptedLines exampleText))) ∧
    ownKeyOrder ["home".toList, "404".toList] = ["404".toList, "home".toList] :=
  ⟨by decide, rfl, (parseProperties_order exampleText exampleConfig (by decide) rfl).1,
    by decide⟩

theorem takeWhile_of_not_mem (b : Str) (hb : '=' ∉ b) :
    b.takeWhile (fun c => c != '=') = b := by
  rw [List.takeWhile_eq_self_iff]
  intro c hc
  have : c ≠ '=' := fun e => hb (e ▸ hc)
  simpa using this

theorem takeWhile_append_sep (b c : Str) (hb : '=' ∉ b) :
    (b ++ '=' :: c).takeWhile (fun c => c != '=') = b := by
  induction b with
  | nil => simp [List.takeWhile_cons]
  | cons x xs ih =>
    have h1 : ¬ x = '=' := fun e => hb (by simp [e])
    have h2 : '=' ∉ xs := fun e => hb (by simp [e])
    simp [List.takeWhile_cons, h1, ih h2]

theorem dropWhile_append_sep (b c : Str) (hb : '=' ∉ b) :
    (b ++ '=' :: c).dropWhile (fun c => c != '=') = '=' :: c := by
  induction b with
  | nil => simp [List.dropWhile_cons]
  | cons x xs ih =>
    have h1 : ¬ x = '=' := fun e => hb (by simp [e])
    have h2 : '=' ∉ xs := fun e => hb (by simp [e])
    simp [List.dropWhile_cons, h1, ih h2]

/-- The pieces of a line whose first `=` comes after `a`. -/
theorem pieces_append (a rest : Str) (ha : '=' ∉ a) :
    keyPiece (a ++ '=' :: rest) = a ∧
    valuePiece (a ++ '=' :: rest) = rest.takeWhile (fun c => c != '=') := by
  unfold keyPiece valuePiece
  rw [takeWhile_append_sep a rest ha, dropWhile_append_sep a rest ha]
  exact ⟨rfl, rfl⟩

/-- Counterexample to claim C3: the line `baseURL=https://example.com/?a=b`
yields the base URL `https://example.com/?a`; the text from the second
`=` on is lost. -/
theorem parseProperties_second_equals :
    parseProperties "baseURL=https://example.com/?a=b".toList
      = .ok ⟨some "https://example.com/?a".toList, none, []⟩ ∧
    "https://example.com/?a".toList ≠ "https://example.com/?a=b".toList := by
  decide

/-- Claim C3 as amended: for an accepted line the key is the trimmed text
before the first `=`, and the value stored is the trimmed text between the
first `=` and the second, or the end of the line when there is no second
`=`: the line acts as the assignment of that value to that key.  In a
line `a=b=c` the key is taken from `a` and the value from `b`, whatever
`c` is. -/
theorem keyValue_pieces (line k v : Str) (h : keyValue line = some (k, v)) :
    k = trim (keyPiece line) ∧ v = trim (valuePiece line) ∧
    (∀ acc, step acc line = assign acc (trim (keyPiece line)) (trim (valuePiece line))) ∧
    (∀ a b c : Str, '=' ∉ a → '=' ∉ b →
      keyPiece (a ++ '=' :: (b ++ '=' :: c)) = a ∧ valuePiece (a ++ '=' :: (b ++ '=' :: c)) = b ∧
      keyPiece (a ++ '=' :: b) = a ∧ valuePiece (a ++ '=' :: b) = b) := by
  rw [keyValue_eq] at h
  by_cases hp : keyPiece line = [] ∨ valuePiece line = []
  · rw [if_pos hp] at h
    exact absurd h (by simp)
  · rw [if_neg hp] at h
    simp only [Option.some.injEq, Prod.mk.injEq] at h
    refine ⟨h.1.symm, h.2.symm, ?_, ?_⟩
    · intro acc
      simp [step, keyValue_eq, hp]
    · intro a b c ha hb
      exact ⟨(pieces_append a (b ++ '=' :: c) ha).1,
        by rw [(pieces_append a (b ++ '=' :: c) ha).2, takeWhile_append_sep b c hb],
        (pieces_append a b ha).1,
        by rw [(pieces_append a b ha).2, takeWhile_of_not_mem b hb]⟩

/-- Witness of `keyValue_pieces`: the line of the example of claim C3. -/
theorem keyValue_pieces_witness :
    keyValue "baseURL=https://example.com/?a=b".toList
      = some (baseURLKey, "https://example.com/?a".toList) ∧
    valuePiece "baseURL=https://example.com/?a=b".toList = "https://example.com/?a".toList ∧
    "https://example.com/?a".toList
      = trim (valuePiece "baseURL=https://example.com/?a=b".toList) :=
  ⟨by decide, by decide,
    (keyValue_pieces "baseURL=https://example.com/?a=b".toList baseURLKey
      "https://example.com/?a".toList (by decide)).2.1⟩

/-- Counterexample to claim C4: the line ` =x`, whose key is empty after
trimming, is not skipped: it creates a subdomain with the empty name; and
the line `a.component=   `, whose value is empty after trimming, sets the
component of `a` to the empty string. -/
theorem parseProperties_blank_sides :
    keyValue " =x".toList = some ([], "x".toList) ∧
    parseProperties " =x".toList = .ok ⟨none, none, [⟨[], none, []⟩]⟩ ∧
    parseProperties "a.component=   ".toList = .ok ⟨none, none, [⟨"a".toList, some [], []⟩]⟩ := by
  decide

/-- Claim C4 as amended: a line is skipped exactly when the text before
its first `=` is empty, or the text between the first `=` and the second
(or the end of the line) is empty or there is no `=`, both taken before
trimming; a skipped line leaves the state of the loop as it was, and any
other line acts as the assignment of its trimmed value to its trimmed
key, also when trimming leaves one of them empty. -/
theorem step_skips_iff (acc : Acc) (line : Str) :
    (keyValue line = none ↔ keyPiece line = [] ∨ valuePiece line = []) ∧
    step acc line =
      if keyPiece line = [] ∨ valuePiece line = [] then .ok acc
      else assign acc (trim (keyPiece line)) (trim (valuePiece line)) := by
  by_cases hp : keyPiece line = [] ∨ valuePiece line = []
  · simp [step, keyValue_eq, hp]
  · simp [step, keyValue_eq, hp]

/-- Counterexample to claim C5: a key of five segments, `a.routes.r.f.g`,
adds a route record with the field `f`, and the key `a.routes` adds a
route record with the field `undefined`.  The key `constructor.component`
sets no component of an entry `constructor`: there is no such entry; and
the key `a.routes.valueOf.f` adds no record to `a`.  After the line
`__proto__.routes.r.f=1`, which assigns to `Object.prototype`, the entry
`a` comes with a record no key of `a` made; after `__proto__.component=x`
the key `component.x` creates no entry, and after `a.routes.__proto__.f=1`
the key `f.x` creates none: on these texts the result is not the grouping
of the accepted lines. -/
theorem parseProperties_other_shapes :
    parseProperties "a.routes.r.f.g=1".toList
      = .ok ⟨none, none, [⟨"a".toList, none, [.object [("f".toList, .str "1".toList)]]⟩]⟩ ∧
    parseProperties "a.routes=1".toList
      = .ok ⟨none, none, [⟨"a".toList, none, [.object [(undefinedKey, .str "1".toList)]]⟩]⟩ ∧
    parseProperties "constructor.component=x".toList = .ok ⟨none, none, []⟩ ∧
    parseProperties "a.routes.valueOf.f=1".toList = .ok ⟨none, none, [⟨"a".toList, none, []⟩]⟩ ∧
    parseProperties "__proto__.routes.r.f=1\na.component=c".toList
      = .ok ⟨none, none,
          [⟨"a".toList, some "c".toList, [.object [("f".toList, .str "1".toList)]]⟩]⟩ ∧
    parseProperties "__proto__.routes.r.f=1\na.component=c".toList
      ≠ .ok (groupConfig (acceptedLines "__proto__.routes.r.f=1\na.component=c".toList)) ∧
    parseProperties "__proto__.component=x\ncomponent.x=1".toList = .ok ⟨none, none, []⟩ ∧
    parseProperties "__proto__.component=x\ncomponent.x=1".toList
      ≠ .ok (groupConfig (acceptedLines "__proto__.component=x\ncomponent.x=1".toList)) ∧
    parseProperties "a.routes.__proto__.f=1\nf.x=2".toList
      = .ok ⟨none, none, [⟨"a".toList, none, []⟩]⟩ ∧
    parseProperties "a.routes.__proto__.f=1\nf.x=2".toList
      ≠ .ok (groupConfig (acceptedLines "a.routes.__proto__.f=1\nf.x=2".toList)) := by
  decide

/-- Counterexample to claim C8: on the text `a.routes.constructor.name=x`
the parser throws a TypeError: `_routes["constructor"]` is the inherited
function `Object`, whose property `name` is read-only.  It also throws
after a line that assigns a property of a prototype object, on lines that
assign no property of a method: `__proto__.component=x` makes
`tempSubs["component"]` a string, `__proto__.routes.r.f=1` followed by
`_routes.component=x` makes `_routes["component"]` a string, and
`a.routes.__proto__.b=x` makes `tempSubs["b"]` a string; and after
`a.routes.valueOf._routes=x` the dictionary `_routes` of `valueOf` is a
string. -/
theorem parseProperties_throws :
    parseProperties "a.routes.constructor.name=x".toList = .error .typeError ∧
    parseProperties "__proto__.component=x\ncomponent.routes.r.f=1".toList
      = .error .typeError ∧
    (acceptedLines "__proto__.component=x\ncomponent.routes.r.f=1".toList).any breaksMethod
      = false ∧
    parseProperties "__proto__.routes.r.f=1\n_routes.component=x\na.routes.component.f=1".toList
      = .error .typeError ∧
    (acceptedLines
        "__proto__.routes.r.f=1\n_routes.component=x\na.routes.component.f=1".toList).any
      breaksMethod = false ∧
    parseProperties "a.routes.__proto__.b=x\nb.component=y".toList = .error .typeError ∧
    (acceptedLines "a.routes.__proto__.b=x\nb.component=y".toList).any breaksMethod = false ∧
    parseProperties "a.routes.valueOf._routes=x\nvalueOf.routes.r.f=1".toList
      = .error .typeError ∧
    (acceptedLines "a.routes.valueOf._routes=x\nvalueOf.routes.r.f=1".toList).any breaksMethod
      = false := by
  decide

/-- Claim C8 as amended: on a text in which no accepted line assigns a
property of a prototype object (see `writesPrototype`) or the property
`_routes` of a method of `Object.prototype` (see `storesRoutes`), the
parser throws a TypeError when some accepted line assigns a property of
such a method that cannot be changed, or `Object.values` (see
`breaksMethod`), and otherwise it raises no error and returns a
configuration, the grouping of the accepted lines, whatever else the
lines are. -/
theorem parseProperties_returns (text : Str)
    (hw : ∀ kv ∈ acceptedLines text, writesPrototype kv = false ∧ storesRoutes kv = false) :
    ((∃ kv ∈ acceptedLines text, breaksMethod kv = true) →
      parseProperties text = .error .typeError) ∧
    ((∀ kv ∈ acceptedLines text, breaksMethod kv = false) →
      ∃ cfg, parseProperties text = .ok cfg ∧ cfg = groupConfig (acceptedLines text)) := by
  rw [parseProperties_cases text hw]
  constructor
  · intro hb
    rw [if_pos (List.any_eq_true.2 hb)]
  · intro hb
    have hn : ¬ (acceptedLines text).any breaksMethod = true := by
      rw [List.any_eq_true]
      rintro ⟨kv, hkv, h⟩
      rw [hb kv hkv] at h
      cases h
    rw [if_neg hn]
    exact ⟨_, rfl, rfl⟩

/-- Witness of `parseProperties_returns`: a text with lines without `=`,
with empty sides, with keys of one, three and five segments, with the
subdomain `constructor` and with the route id `valueOf`. -/
theorem parseProperties_returns_witness :
    (∀ kv ∈ acceptedLines
        "x\n=y\nz=\na=1\nb.c.d=2\ne.routes.r.f.g=3\nconstructor.component=x\na.routes.valueOf.foo=1".toList,
      writesPrototype kv = false ∧ storesRoutes kv = false) ∧
    (∀ kv ∈ acceptedLines
        "x\n=y\nz=\na=1\nb.c.d=2\ne.routes.r.f.g=3\nconstructor.component=x\na.routes.valueOf.foo=1".toList,
      breaksMethod kv = false) ∧
    ∃ cfg, parseProperties
        "x\n=y\nz=\na=1\nb.c.d=2\ne.routes.r.f.g=3\nconstructor.component=x\na.routes.valueOf.foo=1".toList
        = .ok cfg ∧
      cfg = groupConfig (acceptedLines
        "x\n=y\nz=\na=1\nb.c.d=2\ne.routes.r.f.g=3\nconstructor.component=x\na.routes.valueOf.foo=1".toList) :=
  ⟨by decide, by decide, (parseProperties_returns _ (by decide)).2 (by decide)⟩

theorem splitAux_of_not_mem (sep : Char) (a : Str) (h : sep ∉ a) :
    splitAux sep a = (a, []) := by
  induction a with
  | nil => rfl
  | cons c cs ih =>
    have h1 : ¬ c = sep := fun e => h (by simp [e])
    have h2 : sep ∉ cs := fun e => h (by simp [e])
    simp [splitAux, h1, ih h2]

theorem splitAux_append (sep : Char) (a b : Str) (h : sep ∉ a) :
    splitAux sep (a ++ sep :: b) = (a, (splitAux sep b).1 :: (splitAux sep b).2) := by
  induction a with
  | nil => simp [splitAux]
  | cons c cs ih =>
    have h1 : ¬ c = sep := fun e => h (by simp [e])
    have h2 : sep ∉ cs := fun e => h (by simp [e])
    simp [splitAux, h1, ih h2]

/-- The segments of a key of the shape `s.component`. -/
theorem shape_component (s v : Str) (hs : '.' ∉ s) :
    subdomainOf (s ++ '.' :: componentKey, v) = s ∧
    isComponentLine (s ++ '.' :: componentKey, v) = true ∧
    isRouteLine (s ++ '.' :: componentKey, v) = false := by
  have h : splitAux '.' (s ++ '.' :: componentKey) = (s, [componentKey]) := by
    rw [splitAux_append '.' s _ hs, splitAux_of_not_mem '.' componentKey (by decide)]
  refine ⟨?_, ?_, ?_⟩
  · simp [subdomainOf, h]
  · simp [isComponentLine, restOf, h]
  · simp only [isRouteLine, restOf, h, List.head?_cons]
    decide

/-- The segments of a key of the shape `s.routes.r.f`. -/
theorem shape_route (s r f v : Str) (hs : '.' ∉ s) (hr : '.' ∉ r) (hf : '.' ∉ f) :
    subdomainOf (s ++ '.' :: (routesKey ++ '.' :: (r ++ '.' :: f)), v) = s ∧
    isRouteLine (s ++ '.' :: (routesKey ++ '.' :: (r ++ '.' :: f)), v) = true ∧
    isComponentLine (s ++ '.' :: (routesKey ++ '.' :: (r ++ '.' :: f)), v) = false ∧
    routeIdOf (s ++ '.' :: (routesKey ++ '.' :: (r ++ '.' :: f)), v) = r ∧
    fieldOf (s ++ '.' :: (routesKey ++ '.' :: (r ++ '.' :: f)), v) = f := by
  have h : splitAux '.' (s ++ '.' :: (routesKey ++ '.' :: (r ++ '.' :: f)))
      = (s, [routesKey, r, f]) := by
    rw [splitAux_append '.' s _ hs, splitAux_append '.' routesKey _ (by decide),
      splitAux_append '.' r _ hr, splitAux_of_not_mem '.' f hf]
  refine ⟨?_, ?_, ?_, ?_, ?_⟩
  · simp [subdomainOf, h]
  · simp [isRouteLine, restOf, h]
  · simp [isComponentLine, restOf, h]
  · simp [routeIdOf, restOf, h]
  · simp [fieldOf, restOf, h]

/-- Claim C5 as amended: on a text in which no accepted line assigns a
property of a prototype object (see `writesPrototype`), when the parser
returns, its result is the two-level grouping `groupConfig` of the
accepted lines: `baseURL` and `container` by their last line; one
subdomain for each first segment that is not the name of a member of
`Object.prototype`; the component of `s` from the last line whose key is
exactly `s.component`; and for a key `s.routes.r.f` the field `f` of the
record of route id `r` of `s` (when `r` is not such a name and `f` is not
`__proto__`).  A key whose second segment is not `routes` and which is not
`s.component` only creates the entry of `s`. -/
theorem parseProperties_grouping (text : Str) (cfg : Config)
    (hw : ∀ kv ∈ acceptedLines text, writesPrototype kv = false)
    (h : parseProperties text = .ok cfg) :
    cfg = groupConfig (acceptedLines text) ∧
    (∀ s v : Str, '.' ∉ s →
      subdomainOf (s ++ '.' :: componentKey, v) = s ∧
      isComponentLine (s ++ '.' :: componentKey, v) = true ∧
      isRouteLine (s ++ '.' :: componentKey, v) = false) ∧
    (∀ s r f v : Str, '.' ∉ s → '.' ∉ r → '.' ∉ f →
      subdomainOf (s ++ '.' :: (routesKey ++ '.' :: (r ++ '.' :: f)), v) = s ∧
      isRouteLine (s ++ '.' :: (routesKey ++ '.' :: (r ++ '.' :: f)), v) = true ∧
      isComponentLine (s ++ '.' :: (routesKey ++ '.' :: (r ++ '.' :: f)), v) = false ∧
      routeIdOf (s ++ '.' :: (routesKey ++ '.' :: (r ++ '.' :: f)), v) = r ∧
      fieldOf (s ++ '.' :: (routesKey ++ '.' :: (r ++ '.' :: f)), v) = f) :=
  ⟨parseProperties_groups text cfg hw h, shape_component, shape_route⟩

/-- Witness of `parseProperties_grouping`: the example resource of
section 6, with base URL `https://example.com`, container `app-root` and
the one subdomain `@` with component `shell/Main`, whose record of `404`
has the route `404` and the component `views/NotFound`. -/
theorem parseProperties_grouping_witness :
    (∀ kv ∈ acceptedLines exampleText, writesPrototype kv = false) ∧
    parseProperties exampleText = .ok exampleConfig ∧
    exampleConfig = groupConfig (acceptedLines exampleText) ∧
    RouteValue.ofRecord notFoundRecord
      ∈ (exampleConfig.subdomains.map fun e => e.routes).flatten :=
  ⟨by decide, rfl, (parseProperties_grouping exampleText exampleConfig (by decide) rfl).1,
    by decide⟩

/-! ## Blank lines and comments -/

theorem dropWhile_append_singleton (p : Char → Bool) (x : Str) (w : Char) (hw : p w = true) :
    (x ++ [w]).dropWhile p = [] ∧ x.dropWhile p = [] ∨
    (x ++ [w]).dropWhile p = x.dropWhile p ++ [w] := by
  induction x with
  | nil => left; simp [List.dropWhile_cons, hw]
  | cons a x ih =>
    by_cases ha : p a = true
    · simpa [List.dropWhile_cons, ha] using ih
    · right; simp [List.dropWhile_cons, ha]

theorem trim_append_white (x : Str) (w : Char) (hw : isWhiteSpace w = true) :
    trim (x ++ [w]) = trim x := by
  unfold trim trimStart
  rcases dropWhile_append_singleton isWhiteSpace x w hw with ⟨h1, h2⟩ | h
  · rw [h1, h2]
  · rw [h, List.reverse_append]
    simp [List.dropWhile_cons, hw]

theorem keepLine_append_cr (x : Str) : keepLine (x ++ ['\r']) = keepLine x := by
  unfold keepLine
  rw [trim_append_white x '\r' (by decide)]

/-- The first line of a text that starts with a line `c` ended by a line
feed: `c` itself, or `c` without its final carriage return. -/
theorem splitLinesAux_line (c Y : Str) (hc : '\n' ∉ c) :
    ∃ line, splitLinesAux (c ++ '\n' :: Y) = (line, splitLines Y) ∧
      (line = c ∨ line ++ ['\r'] = c) := by
  induction c with
  | nil => exact ⟨[], by simp [splitLinesAux, splitLines], Or.inl rfl⟩
  | cons x xs ih =>
    have h1 : ¬ x = '\n' := fun e => hc (by simp [e])
    have h2 : '\n' ∉ xs := fun e => hc (by simp [e])
    obtain ⟨line, hl, hor⟩ := ih h2
    by_cases hr : x = '\r' ∧ (xs ++ '\n' :: Y).head? = some '\n'
    · have hxs : xs = [] := by
        cases xs with
        | nil => rfl
        | cons y ys =>
          have : y = '\n' := by simpa using hr.2
          exact absurd (by simp [this]) h2
      subst hxs
      refine ⟨[], ?_, Or.inr (by simp [hr.1])⟩
      simp [splitLinesAux, hr.1, splitLines]
    · refine ⟨x :: line, ?_, ?_⟩
      · rw [List.cons_append, splitLinesAux, if_neg h1, if_neg hr, hl]
      · rcases hor with h | h
        · exact Or.inl (by rw [h])
        · exact Or.inr (by rw [List.cons_append, h])

/-- The lines of a text up to a line feed do not depend on what follows it. -/
theorem splitLinesAux_before (X : Str) :
    ∃ g G, ∀ Z, splitLinesAux (X ++ '\n' :: Z) = (g, G ++ splitLines Z) := by
  induction X with
  | nil => exact ⟨[], [], fun Z => by simp [splitLinesAux, splitLines]⟩
  | cons x xs ih =>
    obtain ⟨g, G, h⟩ := ih
    by_cases h1 : x = '\n'
    · refine ⟨[], g :: G, fun Z => ?_⟩
      simp [splitLinesAux, h1, h Z]
    · by_cases hr : x = '\r' ∧ (xs ++ ['\n']).head? = some '\n'
      · refine ⟨g, G, fun Z => ?_⟩
        have hr2 : x = '\r' ∧ (xs ++ '\n' :: Z).head? = some '\n' := by
          refine ⟨hr.1, ?_⟩
          cases xs with
          | nil => rfl
          | cons y ys => simpa using hr.2
        rw [List.cons_append, splitLinesAux, if_neg h1, if_pos hr2, h Z]
      · refine ⟨x :: g, G, fun Z => ?_⟩
        have hr2 : ¬ (x = '\r' ∧ (xs ++ '\n' :: Z).head? = some '\n') := by
          intro e
          apply hr
          refine ⟨e.1, ?_⟩
          cases xs with
          | nil => rfl
          | cons y ys => simpa using e.2
        rw [List.cons_append, splitLinesAux, if_neg h1, if_neg hr2, h Z]

theorem keptLines_insert_first (c Y : Str) (hc : '\n' ∉ c)
    (hk : keepLine c = false ∧ keepLine (c ++ ['\r']) = false ∧
      ∀ c0, c0 ++ ['\r'] = c → keepLine c0 = false) :
    keptLines (c ++ '\n' :: Y) = keptLines Y := by
  obtain ⟨line, hl, hor⟩ := splitLinesAux_line c Y hc
  have hline : keepLine line = false := by
    rcases hor with h | h
    · rw [h]; exact hk.1
    · exact hk.2.2 line h
  unfold keptLines
  rw [splitLines, hl]
  simp [List.filter_cons, hline]

/-- The kept lines do not change when a line that the filter drops is
inserted at the start of a line. -/
theorem keptLines_insert (X c eol Y : Str) (hX : X = [] ∨ ∃ X0, X = X0 ++ ['\n'])
    (hc : '\n' ∉ c) (hk : keepLine c = false) (heol : eol = ['\n'] ∨ eol = ['\r', '\n']) :
    keptLines (X ++ c ++ eol ++ Y) = keptLines (X ++ Y) := by
  -- the inserted line with its carriage return, if any
  have key : ∀ c2 : Str, (c2 = c ∨ c2 = c ++ ['\r']) → ∀ Z,
      keptLines (c2 ++ '\n' :: Z) = keptLines Z := by
    intro c2 h2 Z
    apply keptLines_insert_first c2 Z
    · rcases h2 with h | h
      · rw [h]; exact hc
      · rw [h]
        intro hm
        rcases List.mem_append.1 hm with hm | hm
        · exact hc hm
        · simp at hm
    · rcases h2 with h | h
      · subst h
        refine ⟨hk, by rw [keepLine_append_cr]; exact hk, ?_⟩
        intro c0 h0
        rw [← keepLine_append_cr, h0]
        exact hk
      · subst h
        refine ⟨by rw [keepLine_append_cr]; exact hk,
          by rw [keepLine_append_cr, keepLine_append_cr]; exact hk, ?_⟩
        intro c0 h0
        have : c0 = c := List.append_cancel_right h0
        rw [this]
        exact hk
  have hform : ∃ c2, (c2 = c ∨ c2 = c ++ ['\r']) ∧ c ++ eol ++ Y = c2 ++ '\n' :: Y := by
    rcases heol with h | h
    · exact ⟨c, Or.inl rfl, by simp [h]⟩
    · exact ⟨c ++ ['\r'], Or.inr rfl, by simp [h]⟩
  obtain ⟨c2, hc2, hc3⟩ := hform
  rcases hX with h | ⟨X0, h⟩
  · subst h
    simp only [List.nil_append]
    rw [hc3]
    exact key c2 hc2 Y
  · subst h
    obtain ⟨g, G, hG⟩ := splitLinesAux_before X0
    have e1 : X0 ++ ['\n'] ++ c ++ eol ++ Y = X0 ++ '\n' :: (c2 ++ '\n' :: Y) := by
      rw [← hc3]
      simp
    have e2 : X0 ++ ['\n'] ++ Y = X0 ++ '\n' :: Y := by simp
    rw [e1, e2]
    have k2 := key c2 hc2 Y
    have a1 : ∀ Z, splitLines (X0 ++ '\n' :: Z) = g :: (G ++ splitLines Z) := by
      intro Z
      have := hG Z
      simp only [splitLines, this]
    unfold keptLines at k2 ⊢
    rw [a1, a1]
    simp only [List.filter_cons, List.filter_append, k2]

theorem splitLinesAux_of_not_mem (c : Str) (hc : '\n' ∉ c) : splitLinesAux c = (c, []) := by
  induction c with
  | nil => rfl
  | cons x xs ih =>
    have h1 : ¬ x = '\n' := fun e => hc (by simp [e])
    have h2 : '\n' ∉ xs := fun e => hc (by simp [e])
    have h3 : ¬ (x = '\r' ∧ xs.head? = some '\n') := by
      intro e
      cases xs with
      | nil => simp at e
      | cons y ys =>
        have : y = '\n' := by simpa using e.2
        exact h2 (by simp [this])
    rw [splitLinesAux, if_neg h1, if_neg h3, ih h2]

/-- A line appended after a line feed, to a text that does not end with a
carriage return. -/
theorem splitLinesAux_append_lf (X c : Str) (hc : '\n' ∉ c) (hX : X.getLast? ≠ some '\r') :
    splitLinesAux (X ++ '\n' :: c) = ((splitLinesAux X).1, (splitLinesAux X).2 ++ [c]) := by
  induction X with
  | nil => simp [splitLinesAux, splitLinesAux_of_not_mem c hc]
  | cons x xs ih =>
    have hxs2 : xs.getLast? ≠ some '\r' := by
      cases xs with
      | nil => simp
      | cons y ys => simpa [List.getLast?_cons_cons] using hX
    have hcond : (x = '\r' ∧ (xs ++ '\n' :: c).head? = some '\n')
        ↔ (x = '\r' ∧ xs.head? = some '\n') := by
      cases xs with
      | nil =>
        constructor
        · intro e
          rw [e.1] at hX
          exact absurd rfl hX
        · intro e
          simp at e
      | cons y ys => simp
    rw [List.cons_append, splitLinesAux, splitLinesAux]
    by_cases h1 : x = '\n'
    · rw [if_pos h1, if_pos h1, ih hxs2]
      simp
    · rw [if_neg h1, if_neg h1]
      by_cases h2 : x = '\r' ∧ xs.head? = some '\n'
      · rw [if_pos h2, if_pos (hcond.2 h2), ih hxs2]
      · rw [if_neg h2, if_neg (fun e => h2 (hcond.1 e)), ih hxs2]

/-- A line appended after a carriage return and a line feed. -/
theorem splitLinesAux_append_crlf (X c : Str) (hc : '\n' ∉ c) :
    splitLinesAux (X ++ '\r' :: '\n' :: c) = ((splitLinesAux X).1, (splitLinesAux X).2 ++ [c]) := by
  induction X with
  | nil => simp [splitLinesAux, splitLinesAux_of_not_mem c hc]
  | cons x xs ih =>
    have hcond : (x = '\r' ∧ (xs ++ '\r' :: '\n' :: c).head? = some '\n')
        ↔ (x = '\r' ∧ xs.head? = some '\n') := by
      cases xs with
      | nil => simp
      | cons y ys => simp
    rw [List.cons_append, splitLinesAux, splitLinesAux]
    by_cases h1 : x = '\n'
    · rw [if_pos h1, if_pos h1, ih]
      simp
    · rw [if_neg h1, if_neg h1]
      by_cases h2 : x = '\r' ∧ xs.head? = some '\n'
      · rw [if_pos h2, if_pos (hcond.2 h2), ih]
      · rw [if_neg h2, if_neg (fun e => h2 (hcond.1 e)), ih]

/-- The kept lines do not change when a line that the filter drops is
appended to the text. -/
theorem keptLines_append (X c eol : Str) (hc : '\n' ∉ c) (hk : keepLine c = false)
    (heol : eol = ['\r', '\n'] ∨ (eol = ['\n'] ∧ X.getLast? ≠ some '\r')) :
    keptLines (X ++ eol ++ c) = keptLines X := by
  have h : splitLinesAux (X ++ eol ++ c) = ((splitLinesAux X).1, (splitLinesAux X).2 ++ [c]) := by
    rcases heol with h | ⟨h, hX⟩
    · subst h
      simpa using splitLinesAux_append_crlf X c hc
    · subst h
      simpa using splitLinesAux_append_lf X c hc hX
  unfold keptLines splitLines
  rw [h]
  simp [List.filter_cons, List.filter_append, hk]

/-- Claim C7: the result of the parser does not change when a whole line
that is blank after trimming, or whose trimmed form starts with `#`, is
inserted with its line end (a line feed, or a carriage return and a line
feed) at the start of a line of the text, or is appended after the line
end to a text whose last line has none (a text that ends with a carriage
return is ended by a carriage return and a line feed); read from right to
left, when such a line is deleted. -/
theorem parseProperties_ignores (X c eol Y : Str) (hc : '\n' ∉ c)
    (hk : trim c = [] ∨ (trim c).head? = some '#')
    (heol : eol = ['\n'] ∨ eol = ['\r', '\n']) :
    ((X = [] ∨ ∃ X0, X = X0 ++ ['\n']) →
      parseProperties (X ++ c ++ eol ++ Y) = parseProperties (X ++ Y)) ∧
    ((eol = ['\r', '\n'] ∨ X.getLast? ≠ some '\r') →
      parseProperties (X ++ eol ++ c) = parseProperties X) := by
  have hk2 : keepLine c = false := by
    unfold keepLine
    rcases hk with h | h <;> simp [h]
  constructor
  · intro hX
    unfold parseProperties
    rw [keptLines_insert X c eol Y hX hc hk2 heol]
  · intro hX
    unfold parseProperties
    rw [keptLines_append X c eol hc hk2]
    rcases hX with h | h
    · exact Or.inl h
    · rcases heol with h2 | h2
      · exact Or.inr ⟨h2, h⟩
      · exact Or.inl h2

/-- Witness of `parseProperties_ignores`: a comment line and a blank line
inserted into lines of the example of section 6, and a comment appended. -/
theorem parseProperties_ignores_witness :
    parseProperties ("baseURL=https://example.com\n# mount point\r\ncontainer=app-root".toList)
      = parseProperties ("baseURL=https://example.com\ncontainer=app-root".toList) ∧
    parseProperties (" \t\n@.component=shell/Main".toList)
      = parseProperties ("@.component=shell/Main".toList) ∧
    parseProperties ("container=app-root\n# end".toList)
      = parseProperties ("container=app-root".toList) :=
  ⟨(parseProperties_ignores "baseURL=https://example.com\n".toList "# mount point".toList
      "\r\n".toList "container=app-root".toList (by decide) (Or.inr (by decide))
      (Or.inr (by decide))).1 (Or.inr ⟨"baseURL=https://example.com".toList, by decide⟩),
    (parseProperties_ignores [] " \t".toList "\n".toList "@.component=shell/Main".toList
      (by decide) (Or.inl (by decide)) (Or.inl (by decide))).1 (Or.inl rfl),
    (parseProperties_ignores "container=app-root".toList "# end".toList "\n".toList []
      (by decide) (Or.inr (by decide)) (Or.inl (by decide))).2 (Or.inr (by decide))⟩

/-! ## Last value wins -/

theorem shadowed_filter (p : KV → Bool) (hp : KeyOnly p) (L L2 : List KV) (h : Shadowed L L2) :
    Shadowed (L.filter p) (L2.filter p) := by
  rcases h with h | ⟨A, M, P, k, v1, v3, v2, h1, h2⟩
  · exact Or.inl (by rw [h])
  · subst h1 h2
    have e1 : p (k, v1) = p (k, v2) := hp _ _ rfl
    have e3 : p (k, v3) = p (k, v2) := hp _ _ rfl
    by_cases hk : p (k, v2) = true
    · right
      refine ⟨A.filter p, M.filter p, P.filter p, k, v1, v3, v2, ?_, ?_⟩
      · simp [List.filter_append, List.filter_cons, e1, hk]
      · simp [List.filter_append, List.filter_cons, e3, hk]
    · left
      simp [List.filter_append, List.filter_cons, e1, e3, hk]

theorem shadowed_map {β : Type} (f : KV → β) (hf : KeyOnly f) (L L2 : List KV)
    (h : Shadowed L L2) : L.map f = L2.map f := by
  rcases h with h | ⟨A, M, P, k, v1, v3, v2, h1, h2⟩
  · rw [h]
  · subst h1 h2
    have e1 : f (k, v1) = f (k, v3) := hf _ _ rfl
    simp [e1]

theorem shadowed_lastValue (L L2 : List KV) (h : Shadowed L L2) : lastValue L = lastValue L2 := by
  rcases h with h | ⟨A, M, P, k, v1, v3, v2, h1, h2⟩
  · rw [h]
  · subst h1 h2
    unfold lastValue
    have e : ∀ x : KV, (A ++ x :: (M ++ (k, v2) :: P)).getLast? = ((k, v2) :: P).getLast? := by
      intro x
      rw [← List.cons_append, ← List.append_assoc, List.getLast?_append_of_ne_nil]
      simp
    rw [e, e]

theorem shadowed_findSome {β : Type} (f : KV → Option β) (hf : KeyOnly f) (L L2 : List KV)
    (h : Shadowed L L2) : L.findSome? f = L2.findSome? f := by
  rcases h with h | ⟨A, M, P, k, v1, v3, v2, h1, h2⟩
  · rw [h]
  · subst h1 h2
    have e1 : f (k, v1) = f (k, v3) := hf _ _ rfl
    simp [List.findSome?_append, List.findSome?_cons, e1]

theorem keyOnly_comp {β : Type} (g : Str → β) : KeyOnly (fun kv => g kv.1) :=
  fun _ _ h => by simp only [h]

theorem keyOnly_subdomainOf : KeyOnly subdomainOf := keyOnly_comp fun k => (splitAux '.' k).1

theorem keyOnly_restOf : KeyOnly restOf := keyOnly_comp fun k => (splitAux '.' k).2

theorem keyOnly_routeIdOf : KeyOnly routeIdOf := fun a b h => by
  simp only [routeIdOf, keyOnly_restOf a b h]

theorem keyOnly_fieldOf : KeyOnly fieldOf := fun a b h => by
  simp only [fieldOf, keyOnly_restOf a b h]

theorem keyOnly_isComponentLine : KeyOnly isComponentLine := fun a b h => by
  simp only [isComponentLine, keyOnly_restOf a b h]

theorem keyOnly_isRouteLine : KeyOnly isRouteLine := fun a b h => by
  simp only [isRouteLine, keyOnly_restOf a b h]

theorem keyOnly_isTopLevel : KeyOnly isTopLevel := fun a b h => by
  simp only [isTopLevel, h]

theorem keyOnly_writesPrototype : KeyOnly writesPrototype := fun a b h => by
  simp only [writesPrototype, keyOnly_isTopLevel a b h, keyOnly_subdomainOf a b h,
    keyOnly_isComponentLine a b h, keyOnly_isRouteLine a b h, keyOnly_routeIdOf a b h,
    keyOnly_fieldOf a b h]

theorem keyOnly_breaksMethod : KeyOnly breaksMethod := fun a b h => by
  simp only [breaksMethod, keyOnly_isTopLevel a b h, keyOnly_isRouteLine a b h,
    keyOnly_routeIdOf a b h, keyOnly_fieldOf a b h]

theorem keyOnly_storesRoutes : KeyOnly storesRoutes := fun a b h => by
  simp only [storesRoutes, keyOnly_isTopLevel a b h, keyOnly_isRouteLine a b h,
    keyOnly_routeIdOf a b h, keyOnly_fieldOf a b h]

/-- A test of the key that fails on every line of a list fails on every
line of a list that differs in a value only. -/
theorem shadowed_all (p : KV → Bool) (hp : KeyOnly p) (L L2 : List KV) (h : Shadowed L L2)
    (hL : ∀ kv ∈ L, p kv = false) : ∀ kv ∈ L2, p kv = false := by
  rcases h with h | ⟨A, M, P, k, v1, v3, v2, h1, h2⟩
  · rw [← h]
    exact hL
  · subst h1 h2
    intro kv hkv
    simp only [List.mem_append, List.mem_cons] at hkv hL
    rcases hkv with hkv | rfl | hkv | rfl | hkv
    · exact hL kv (Or.inl hkv)
    · rw [hp (k, v3) (k, v1) rfl]
      exact hL (k, v1) (Or.inr (Or.inl rfl))
    · exact hL kv (Or.inr (Or.inr (Or.inl hkv)))
    · exact hL (k, v2) (Or.inr (Or.inr (Or.inr (Or.inl rfl))))
    · exact hL kv (Or.inr (Or.inr (Or.inr (Or.inr hkv))))

theorem shadowed_any (p : KV → Bool) (hp : KeyOnly p) (L L2 : List KV) (h : Shadowed L L2) :
    L.any p = L2.any p := by
  rcases h with h | ⟨A, M, P, k, v1, v3, v2, h1, h2⟩
  · rw [h]
  · subst h1 h2
    have e1 : p (k, v1) = p (k, v3) := hp _ _ rfl
    simp [List.any_append, List.any_cons, e1]

theorem groupRecord_congr (Q Q2 : List KV) (h : Shadowed Q Q2) :
    groupRecord Q = groupRecord Q2 := by
  unfold groupRecord
  have hk : ((Q.filter fun kv => fieldOf kv != protoKey).map fieldOf)
      = ((Q2.filter fun kv => fieldOf kv != protoKey).map fieldOf) :=
    shadowed_map _ keyOnly_fieldOf _ _
      (shadowed_filter _ (fun a b e => by simp only [keyOnly_fieldOf a b e]) _ _ h)
  rw [hk]
  apply List.map_congr_left
  intro f _
  rw [shadowed_lastValue _ _
    (shadowed_filter _ (fun a b e => by simp only [keyOnly_fieldOf a b e]) _ _ h)]

theorem routeIdsOf_congr (Q Q2 : List KV) (h : Shadowed Q Q2) : routeIdsOf Q = routeIdsOf Q2 := by
  unfold routeIdsOf
  rw [shadowed_map _ keyOnly_routeIdOf _ _
    (shadowed_filter _ (fun a b e => by simp only [keyOnly_routeIdOf a b e]) _ _ h)]

theorem linesOf_shadowed (s : Str) (L L2 : List KV) (h : Shadowed L L2) :
    Shadowed (linesOf s L) (linesOf s L2) :=
  shadowed_filter _
    (fun a b e => by simp only [keyOnly_isTopLevel a b e, keyOnly_subdomainOf a b e]) _ _ h

theorem routeLinesOf_shadowed (s : Str) (L L2 : List KV) (h : Shadowed L L2) :
    Shadowed (routeLinesOf s L) (routeLinesOf s L2) :=
  shadowed_filter _ keyOnly_isRouteLine _ _ (linesOf_shadowed s L L2 h)

theorem subdomainIds_congr (L L2 : List KV) (h : Shadowed L L2) :
    subdomainIds L = subdomainIds L2 := by
  unfold subdomainIds
  rw [shadowed_map _ keyOnly_subdomainOf _ _
    (shadowed_filter _
      (fun a b e => by simp only [keyOnly_isTopLevel a b e, keyOnly_subdomainOf a b e]) _ _ h)]

/-- The grouping does not see the value of a line that a later line with
the same key follows. -/
theorem groupConfig_congr (L L2 : List KV) (h : Shadowed L L2) :
    groupConfig L = groupConfig L2 := by
  unfold groupConfig
  rw [shadowed_lastValue _ _ (shadowed_filter (fun kv => kv.1 == baseURLKey)
      (fun a b e => by simp only [e]) _ _ h),
    shadowed_lastValue _ _ (shadowed_filter (fun kv => kv.1 == containerKey)
      (fun a b e => by simp only [e]) _ _ h),
    subdomainIds_congr L L2 h]
  simp only [Config.mk.injEq, true_and]
  apply List.map_congr_left
  intro s _
  rw [shadowed_lastValue _ _
      (shadowed_filter _ keyOnly_isComponentLine _ _ (linesOf_shadowed s L L2 h)),
    routeIdsOf_congr _ _ (routeLinesOf_shadowed s L L2 h)]
  simp only [Subdomain.mk.injEq, true_and]
  apply List.map_congr_left
  intro r _
  rw [groupRecord_congr _ _
    (shadowed_filter _ (fun a b e => by simp only [keyOnly_routeIdOf a b e]) _ _
      (routeLinesOf_shadowed s L L2 h))]

theorem acceptedOf_append (a b : List Str) : acceptedOf (a ++ b) = acceptedOf a ++ acceptedOf b := by
  simp [acceptedOf, List.filterMap_append]

theorem acceptedOf_cons (l : Str) (b : List Str) (kv : KV) (h : keyValue l = some kv) :
    acceptedOf (l :: b) = kv :: acceptedOf b := by
  simp [acceptedOf, List.filterMap_cons, h]

/-- Two texts that differ in the value of a line followed by an accepted
line with the same key have accepted lines that differ in that value only. -/
theorem acceptedOf_shadowed (a b post : List Str) (l1 l3 l2 : Str) (k v1 v3 v2 : Str)
    (h1 : keyValue l1 = some (k, v1)) (h3 : keyValue l3 = some (k, v3))
    (h2 : keyValue l2 = some (k, v2)) :
    Shadowed (acceptedOf (a ++ l1 :: (b ++ l2 :: post)))
      (acceptedOf (a ++ l3 :: (b ++ l2 :: post))) := by
  right
  refine ⟨acceptedOf a, acceptedOf b, acceptedOf post, k, v1, v3, v2, ?_, ?_⟩
  · rw [acceptedOf_append, acceptedOf_cons _ _ _ h1, acceptedOf_append,
      acceptedOf_cons _ _ _ h2]
  · rw [acceptedOf_append, acceptedOf_cons _ _ _ h3, acceptedOf_append,
      acceptedOf_cons _ _ _ h2]

/-- The result does not depend on the value of a line that is followed by
an accepted line with the same key, when no accepted line assigns a
property of a prototype object or the property `_routes` of a method. -/
theorem parseLines_shadowed (a b post : List Str) (l1 l3 l2 : Str) (k v1 v3 v2 : Str)
    (h1 : keyValue l1 = some (k, v1)) (h3 : keyValue l3 = some (k, v3))
    (h2 : keyValue l2 = some (k, v2))
    (hw : ∀ kv ∈ acceptedOf (a ++ l1 :: (b ++ l2 :: post)),
      writesPrototype kv = false ∧ storesRoutes kv = false) :
    parseLines (a ++ l1 :: (b ++ l2 :: post)) = parseLines (a ++ l3 :: (b ++ l2 :: post)) := by
  have hS := acceptedOf_shadowed a b post l1 l3 l2 k v1 v3 v2 h1 h3 h2
  have hw2 : ∀ kv ∈ acceptedOf (a ++ l3 :: (b ++ l2 :: post)),
      writesPrototype kv = false ∧ storesRoutes kv = false := fun kv hkv =>
    ⟨shadowed_all _ keyOnly_writesPrototype _ _ hS (fun q hq => (hw q hq).1) kv hkv,
      shadowed_all _ keyOnly_storesRoutes _ _ hS (fun q hq => (hw q hq).2) kv hkv⟩
  rw [parseLines_eq _ hw, parseLines_eq _ hw2, shadowed_any _ keyOnly_breaksMethod _ _ hS,
    groupConfig_congr _ _ hS]

/-- Two keys with the same segments are equal. -/
theorem splitAux_injective (sep : Char) (a b : Str) (h : splitAux sep a = splitAux sep b) :
    a = b := by
  induction a generalizing b with
  | nil =>
    cases b with
    | nil => rfl
    | cons d ds =>
      by_cases hd : d = sep
      · simp [splitAux, hd] at h
      · simp [splitAux, hd] at h
  | cons c cs ih =>
    cases b with
    | nil =>
      by_cases hc : c = sep
      · simp [splitAux, hc] at h
      · simp [splitAux, hc] at h
    | cons d ds =>
      by_cases hc : c = sep
      · by_cases hd : d = sep
        · simp only [splitAux, if_pos hc, if_pos hd, Prod.mk.injEq, List.cons.injEq,
            true_and] at h
          rw [hc, hd, ih ds (Prod.ext h.1 h.2)]
        · simp [splitAux, hc, hd] at h
      · by_cases hd : d = sep
        · simp [splitAux, hc, hd] at h
        · simp only [splitAux, if_neg hc, if_neg hd, Prod.mk.injEq, List.cons.injEq] at h
          rw [h.1.1, ih ds (Prod.ext h.1.2 h.2)]

/-- Two keys with the same first segment and the same other segments are
equal. -/
theorem key_eq_of_segments (p q : KV) (hs : subdomainOf p = subdomainOf q)
    (hr : restOf p = restOf q) : p.1 = q.1 :=
  splitAux_injective '.' p.1 q.1 (Prod.ext hs hr)

/-- The segments after the first of a route line with four segments. -/
theorem restOf_route (q : KV) (hr : isRouteLine q = true) (hl : (restOf q).length = 3) :
    restOf q = [routesKey, routeIdOf q, fieldOf q] := by
  unfold isRouteLine at hr
  unfold routeIdOf fieldOf
  generalize restOf q = rest at hr hl ⊢
  match rest, hl with
  | [x, y, z], _ =>
    have hx : x = routesKey := by simpa using hr
    simp [hx]

/-- Two accepted lines that assign the same property have the same key, when
their keys with the second segment `routes` have four segments. -/
theorem key_eq_of_assignedOf (p q : KV) (t : Assigned) (hp : assignedOf p = some t)
    (hq : assignedOf q = some t)
    (hp4 : isRouteLine p = true → (restOf p).length = 3)
    (hq4 : isRouteLine q = true → (restOf q).length = 3) : p.1 = q.1 := by
  unfold assignedOf at hp hq
  by_cases hpb : p.1 = baseURLKey
  · rw [if_pos hpb] at hp
    have ht : t = .baseURL := by simpa using hp.symm
    subst ht
    by_cases hqb : q.1 = baseURLKey
    · rw [hpb, hqb]
    · rw [if_neg hqb] at hq
      split_ifs at hq <;> simp at hq
  rw [if_neg hpb] at hp
  by_cases hpc : p.1 = containerKey
  · rw [if_pos hpc] at hp
    have ht : t = .container := by simpa using hp.symm
    subst ht
    by_cases hqc : q.1 = containerKey
    · rw [hpc, hqc]
    · split_ifs at hq <;> simp at hq
  rw [if_neg hpc] at hp
  by_cases hpi : subdomainOf p ∈ inheritedNames
  · rw [if_pos hpi] at hp
    cases hp
  rw [if_neg hpi] at hp
  by_cases hqb : q.1 = baseURLKey
  · rw [if_pos hqb] at hq
    have ht : t = .baseURL := by simpa using hq.symm
    subst ht
    split_ifs at hp <;> simp at hp
  rw [if_neg hqb] at hq
  by_cases hqc : q.1 = containerKey
  · rw [if_pos hqc] at hq
    have ht : t = .container := by simpa using hq.symm
    subst ht
    split_ifs at hp <;> simp at hp
  rw [if_neg hqc] at hq
  by_cases hqi : subdomainOf q ∈ inheritedNames
  · rw [if_pos hqi] at hq
    cases hq
  rw [if_neg hqi] at hq
  by_cases hpk : isComponentLine p = true
  · rw [if_pos hpk] at hp
    have ht : t = .component (subdomainOf p) := by simpa using hp.symm
    subst ht
    by_cases hqk : isComponentLine q = true
    · rw [if_pos hqk] at hq
      have hs : subdomainOf q = subdomainOf p := by simpa using hq
      have e1 : restOf p = [componentKey] := by simpa [isComponentLine] using hpk
      have e2 : restOf q = [componentKey] := by simpa [isComponentLine] using hqk
      exact key_eq_of_segments p q hs.symm (e1.trans e2.symm)
    · rw [if_neg hqk] at hq
      split_ifs at hq
      simp at hq
  rw [if_neg hpk] at hp
  by_cases hpf : isRouteLine p = true ∧ routeIdOf p ∉ inheritedNames ∧ fieldOf p ≠ protoKey
  · rw [if_pos hpf] at hp
    have ht : t = .field (subdomainOf p) (routeIdOf p) (fieldOf p) := by simpa using hp.symm
    subst ht
    by_cases hqk : isComponentLine q = true
    · rw [if_pos hqk] at hq
      simp at hq
    rw [if_neg hqk] at hq
    by_cases hqf : isRouteLine q = true ∧ routeIdOf q ∉ inheritedNames ∧ fieldOf q ≠ protoKey
    · rw [if_pos hqf] at hq
      have hs : subdomainOf q = subdomainOf p ∧ routeIdOf q = routeIdOf p
          ∧ fieldOf q = fieldOf p := by simpa using hq
      refine key_eq_of_segments p q hs.1.symm ?_
      rw [restOf_route p hpf.1 (hp4 hpf.1), restOf_route q hqf.1 (hq4 hqf.1), hs.2.1, hs.2.2]
    · rw [if_neg hqf] at hq
      cases hq
  · rw [if_neg hpf] at hp
    cases hp

theorem mem_ownKeyOrder (keys : List Str) (x : Str) : x ∈ ownKeyOrder keys ↔ x ∈ keys := by
  rw [ownKeyOrder_eq, List.mem_append, List.mem_insertionSort, List.mem_filter, List.mem_filter]
  cases h : arrayIndex? x <;> simp

theorem lastValue_filter_last (A P : List KV) (kv : KV) (p : KV → Bool) (hkv : p kv = true)
    (hP : ∀ q ∈ P, p q = false) : lastValue ((A ++ kv :: P).filter p) = some kv.2 := by
  have hnil : P.filter p = [] := by
    rw [List.filter_eq_nil_iff]
    intro q hq
    simp [hP q hq]
  rw [List.filter_append, List.filter_cons, if_pos hkv, hnil]
  exact lastValue_concat _ _

/-- What `assignedOf` says about a line whose target is a component. -/
theorem assignedOf_component (q : KV) (s : Str) (ht : isTopLevel q = false)
    (hs : subdomainOf q = s) (hi : s ∉ inheritedNames) (hc : isComponentLine q = true) :
    assignedOf q = some (.component s) := by
  have h1 : ¬ q.1 = baseURLKey ∧ ¬ q.1 = containerKey := by
    simpa [isTopLevel, not_or] using ht
  subst hs
  simp [assignedOf, h1.1, h1.2, hi, hc]

/-- What `assignedOf` says about a line whose target is a field. -/
theorem assignedOf_field (q : KV) (s r f : Str) (ht : isTopLevel q = false)
    (hs : subdomainOf q = s) (hi : s ∉ inheritedNames) (hr : isRouteLine q = true)
    (hr2 : routeIdOf q = r) (hri : r ∉ inheritedNames) (hf : fieldOf q = f) (hfp : f ≠ protoKey) :
    assignedOf q = some (.field s r f) := by
  have h1 : ¬ q.1 = baseURLKey ∧ ¬ q.1 = containerKey := by
    simpa [isTopLevel, not_or] using ht
  have hc := not_isComponentLine_of_isRouteLine q hr
  subst hs hr2 hf
  simp [assignedOf, h1.1, h1.2, hi, hc, hr, hri, hfp]

/-- The grouping holds, at the target of a line, the value of that line
when no later line has the same target. -/
theorem holds_groupConfig (A P : List KV) (kv : KV) (t : Assigned) (ht : assignedOf kv = some t)
    (hP : ∀ q ∈ P, assignedOf q ≠ some t) :
    Holds (groupConfig (A ++ kv :: P)) (A ++ kv :: P) t kv.2 := by
  have hmem : kv ∈ A ++ kv :: P := by simp
  unfold assignedOf at ht
  by_cases hb : kv.1 = baseURLKey
  · -- the line assigns `baseURL`
    rw [if_pos hb] at ht
    have ht2 : t = .baseURL := by simpa using ht.symm
    subst ht2
    apply lastValue_filter_last
    · simp [hb]
    · intro q hq
      by_contra hq2
      have hq3 : q.1 = baseURLKey := by simpa using hq2
      exact hP q hq (by simp [assignedOf, hq3])
  rw [if_neg hb] at ht
  by_cases hc : kv.1 = containerKey
  · -- the line assigns `container`
    rw [if_pos hc] at ht
    have ht2 : t = .container := by simpa using ht.symm
    subst ht2
    apply lastValue_filter_last
    · simp [hc]
    · intro q hq
      by_contra hq2
      have hq3 : q.1 = containerKey := by simpa using hq2
      have hq4 : ¬ containerKey = baseURLKey := fun e => baseURLKey_ne_containerKey e.symm
      exact hP q hq (by simp [assignedOf, hq3, hq4])
  rw [if_neg hc] at ht
  have htop : isTopLevel kv = false := by simp [isTopLevel, hb, hc]
  by_cases hi : subdomainOf kv ∈ inheritedNames
  · rw [if_pos hi] at ht
    exact absurd ht (by simp)
  rw [if_neg hi] at ht
  -- the entry of the subdomain
  have hsub : subdomainOf kv ∈ ownKeyOrder (firstSeen (subdomainIds (A ++ kv :: P))) := by
    rw [mem_ownKeyOrder, mem_firstSeen, subdomainIds, List.mem_map]
    refine ⟨kv, ?_, rfl⟩
    rw [List.mem_filter]
    exact ⟨hmem, by simp [htop, hi]⟩
  by_cases hcomp : isComponentLine kv = true
  · -- the line assigns the component of its subdomain
    rw [if_pos hcomp] at ht
    have ht2 : t = .component (subdomainOf kv) := by simpa using ht.symm
    subst ht2
    refine ⟨_, List.mem_map.2 ⟨subdomainOf kv, hsub, rfl⟩, rfl, ?_⟩
    simp only [linesOf, List.filter_filter]
    apply lastValue_filter_last
    · simp [hcomp, htop]
    · intro q hq
      by_contra hq2
      have hq3 : isComponentLine q = true ∧ isTopLevel q = false
          ∧ subdomainOf q = subdomainOf kv := by simpa using hq2
      exact hP q hq (assignedOf_component q _ hq3.2.1 hq3.2.2 hi hq3.1)
  rw [if_neg hcomp] at ht
  by_cases hfield : isRouteLine kv = true ∧ routeIdOf kv ∉ inheritedNames ∧ fieldOf kv ≠ protoKey
  · -- the line assigns a field of a route record
    rw [if_pos hfield] at ht
    have ht2 : t = .field (subdomainOf kv) (routeIdOf kv) (fieldOf kv) := by simpa using ht.symm
    subst ht2
    obtain ⟨hr, hri, hfp⟩ := hfield
    have hkv1 : kv ∈ routeLinesOf (subdomainOf kv) (A ++ kv :: P) := by
      simp only [routeLinesOf, linesOf, List.mem_filter]
      exact ⟨⟨hmem, by simp [htop]⟩, hr⟩
    have hrid : routeIdOf kv ∈ routeIdsOf (routeLinesOf (subdomainOf kv) (A ++ kv :: P)) := by
      rw [routeIdsOf, mem_firstSeen, List.mem_map]
      refine ⟨kv, ?_, rfl⟩
      rw [List.mem_filter]
      exact ⟨hkv1, by simp [hri]⟩
    have hfld : fieldOf kv ∈ firstSeen
        ((((routeLinesOf (subdomainOf kv) (A ++ kv :: P)).filter
          fun q => routeIdOf q == routeIdOf kv).filter
            fun q => fieldOf q != protoKey).map fieldOf) := by
      rw [mem_firstSeen, List.mem_map]
      refine ⟨kv, ?_, rfl⟩
      simp only [List.mem_filter]
      exact ⟨⟨hkv1, by simp⟩, by simp [hfp]⟩
    refine ⟨_, List.mem_map.2 ⟨subdomainOf kv, hsub, rfl⟩, rfl,
      groupRoutes (routeLinesOf (subdomainOf kv) (A ++ kv :: P)), ?_, ?_, ?_⟩
    · simp only [groupRoutes, List.map_map]
      exact List.map_id _
    · rw [groupRoutes, objectValues_map_keys, List.map_map]
      rfl
    · refine ⟨groupRecord ((routeLinesOf (subdomainOf kv) (A ++ kv :: P)).filter
          fun q => routeIdOf q == routeIdOf kv), ?_, ?_⟩
      · rw [groupRoutes, getOwn_map_keys, if_pos hrid]
      · rw [groupRecord, getOwn_map_keys, if_pos hfld]
        simp only [routeLinesOf, linesOf, List.filter_filter]
        rw [lastValue_filter_last]
        · rfl
        · simp [hr, htop]
        · intro q hq
          by_contra hq2
          have hq3 : fieldOf q = fieldOf kv ∧ routeIdOf q = routeIdOf kv ∧ isRouteLine q = true
              ∧ isTopLevel q = false ∧ subdomainOf q = subdomainOf kv := by simpa using hq2
          exact hP q hq (assignedOf_field q _ _ _ hq3.2.2.2.1 hq3.2.2.2.2 hi hq3.2.2.1 hq3.2.1 hri
            hq3.1 hfp)
  · rw [if_neg hfield] at ht
    exact absurd ht (by simp)

/-- Counterexample to claim C6: the key `a.routes.r.f` occurs on two
accepted lines, the last with the value `2`, and the field `f` of the
result holds `3`, the value of the later line with the key
`a.routes.r.f.g`.  The value of an earlier line has an effect when the
key assigns a property of a prototype object or the property `_routes` of
a method of `Object.prototype`: with `x` the parser throws a TypeError on
the second line, and with a blank value it returns.  And the result holds
no value for a key through a name inherited from `Object.prototype`, or
for the field `__proto__`. -/
theorem parseProperties_later_key :
    parseProperties "a.routes.r.f=1\na.routes.r.f=2\na.routes.r.f.g=3".toList
      = .ok ⟨none, none, [⟨"a".toList, none, [.object [("f".toList, .str "3".toList)]]⟩]⟩ ∧
    keyValue "a.routes.r.f=2".toList = some ("a.routes.r.f".toList, "2".toList) ∧
    keyValue "a.routes.r.f.g=3".toList = some ("a.routes.r.f.g".toList, "3".toList) ∧
    parseProperties "__proto__.component=x\ncomponent.routes.r.f=1\n__proto__.component=y".toList
      = .error .typeError ∧
    parseProperties "__proto__.component= \ncomponent.routes.r.f=1\n__proto__.component=y".toList
      = .ok ⟨none, none,
          [⟨componentKey, none, [.object [("f".toList, .str "1".toList)]]⟩]⟩ ∧
    parseProperties
        "__proto__.routes._routes.f=x\n_routes.routes.f.g=1\n__proto__.routes._routes.f=y".toList
      = .error .typeError ∧
    parseProperties
        "__proto__.routes._routes.f= \n_routes.routes.f.g=1\n__proto__.routes._routes.f=y".toList
      = .ok ⟨none, none, []⟩ ∧
    parseProperties "a.routes.__proto__.b=x\nb.component=y\na.routes.__proto__.b=z".toList
      = .error .typeError ∧
    parseProperties "a.routes.__proto__.b= \nb.component=y\na.routes.__proto__.b=z".toList
      = .ok ⟨none, none, [⟨"a".toList, none, []⟩, ⟨"b".toList, some "y".toList, []⟩]⟩ ∧
    parseProperties
        "a.routes.valueOf._routes=x\nvalueOf.routes.r.f=1\na.routes.valueOf._routes=z".toList
      = .error .typeError ∧
    parseProperties
        "a.routes.valueOf._routes= \nvalueOf.routes.r.f=1\na.routes.valueOf._routes=z".toList
      = .ok ⟨none, none, [⟨"a".toList, none, []⟩]⟩ ∧
    parseProperties "constructor.component=x\nconstructor.component=y".toList
      = .ok ⟨none, none, []⟩ ∧
    parseProperties "a.routes.valueOf.f=1\na.routes.valueOf.f=2".toList
      = .ok ⟨none, none, [⟨"a".toList, none, []⟩]⟩ ∧
    parseProperties "a.routes.r.__proto__=1\na.routes.r.__proto__=2".toList
      = .ok ⟨none, none, [⟨"a".toList, none, [.object []]⟩]⟩ := by
  decide

/-- Claim C6 as amended, on the lines the filter keeps
(`parseProperties text = parseLines (keptLines text)`), for a text in
which no accepted line assigns a property of a prototype object (see
`writesPrototype`) or the property `_routes` of a method of
`Object.prototype` (see `storesRoutes`).  When a key occurs on two
accepted lines, the value on the earlier line has no effect on the
result: any other value there gives the same result.  And when every
accepted key with the second segment `routes` has four segments and the
parser returns, the value the result holds for the key (`baseURL`,
`container`, the component of `s`, or the field `f` of the record `r` of
`s`) is the trimmed value of the last accepted line with that key. -/
theorem parseLines_last_wins (a b post : List Str) (l1 l3 l2 : Str) (k v1 v3 v2 : Str)
    (h1 : keyValue l1 = some (k, v1)) (h3 : keyValue l3 = some (k, v3))
    (h2 : keyValue l2 = some (k, v2))
    (hw : ∀ kv ∈ acceptedOf (a ++ l1 :: (b ++ l2 :: post)),
      writesPrototype kv = false ∧ storesRoutes kv = false) :
    parseLines (a ++ l1 :: (b ++ l2 :: post)) = parseLines (a ++ l3 :: (b ++ l2 :: post)) ∧
    (∀ t cfg, assignedOf (k, v2) = some t →
      (∀ kv ∈ acceptedOf (a ++ l1 :: (b ++ l2 :: post)),
        isRouteLine kv = true → (restOf kv).length = 3) →
      (∀ kv ∈ acceptedOf post, kv.1 ≠ k) →
      parseLines (a ++ l1 :: (b ++ l2 :: post)) = .ok cfg →
      Holds cfg (acceptedOf (a ++ l1 :: (b ++ l2 :: post))) t v2) ∧
    (∀ text, parseProperties text = parseLines (keptLines text)) := by
  refine ⟨parseLines_shadowed a b post l1 l3 l2 k v1 v3 v2 h1 h3 h2 hw, ?_, fun _ => rfl⟩
  intro t cfg ht h4 hpost hres
  have hL : acceptedOf (a ++ l1 :: (b ++ l2 :: post))
      = (acceptedOf a ++ (k, v1) :: acceptedOf b) ++ (k, v2) :: acceptedOf post := by
    rw [acceptedOf_append, acceptedOf_cons _ _ _ h1, acceptedOf_append,
      acceptedOf_cons _ _ _ h2]
    simp
  have hcfg := parseLines_groups _ cfg (fun kv hkv => (hw kv hkv).1) hres
  rw [hcfg, hL]
  apply holds_groupConfig _ _ (k, v2) t ht
  intro q hq hqt
  have hq2 : q ∈ acceptedOf (a ++ l1 :: (b ++ l2 :: post)) := by
    rw [hL]
    simp [hq]
  have hk2 : (k, v2) ∈ acceptedOf (a ++ l1 :: (b ++ l2 :: post)) := by
    rw [hL]
    simp
  exact hpost q hq (key_eq_of_assignedOf q (k, v2) t hqt ht (h4 q hq2) (h4 _ hk2))

/-- Witness of `parseLines_last_wins`: the key `a.routes.r.f` on two
lines, with another line between them and one after. -/
theorem parseLines_last_wins_witness :
    (∀ kv ∈ acceptedOf ["a.routes.r.f=1".toList, "x.component=c".toList,
        "a.routes.r.f=2".toList, "b=1".toList],
      writesPrototype kv = false ∧ storesRoutes kv = false) ∧
    parseLines ["a.routes.r.f=1".toList, "x.component=c".toList, "a.routes.r.f=2".toList,
        "b=1".toList]
      = parseLines ["a.routes.r.f=9".toList, "x.component=c".toList, "a.routes.r.f=2".toList,
        "b=1".toList] ∧
    Holds (groupConfig (acceptedOf ["a.routes.r.f=1".toList, "x.component=c".toList,
        "a.routes.r.f=2".toList, "b=1".toList]))
      (acceptedOf ["a.routes.r.f=1".toList, "x.component=c".toList, "a.routes.r.f=2".toList,
        "b=1".toList])
      (.field "a".toList "r".toList "f".toList) "2".toList := by
  have T := parseLines_last_wins [] ["x.component=c".toList] ["b=1".toList]
    "a.routes.r.f=1".toList "a.routes.r.f=9".toList "a.routes.r.f=2".toList
    "a.routes.r.f".toList "1".toList "9".toList "2".toList (by decide) (by decide) (by decide)
    (by decide)
  exact ⟨by decide, T.1, T.2.1 _ _ (by decide) (by decide) (by decide) (by decide)⟩

/-! ## The steps of `navigate` -/

/-- The body of `navigate` once the input is a URL and the host is split. -/
theorem navigate_of_url (host : Host) (depth : Nat) (r : Router) (w : World) (input : JsValue)
    (state : StateValue) (url : URL) (settings : Settings) (s path : Str)
    (hready : r.ready = true) (hnorm : normalizeInput host input state = .ok url)
    (hset : r.settings = some settings) (hsplit : domainSplit host settings url = some (s, path)) :
    navigate host depth r w input state =
      match findEntry settings s with
      | some entry =>
        mountAndPush host { r with subdomain := some s } (afterLocation r w s url) (some entry)
          path state
      | none =>
        match depth with
        | 0 => { error := some .nestingExhausted, router := { r with subdomain := some s },
                 world := afterLocation r w s url }
        | d + 1 =>
          match (navigate host d { r with subdomain := some s } (afterLocation r w s url)
              (.string "/404".toList) state).error with
          | some err =>
            { error := some err,
              router := (navigate host d { r with subdomain := some s } (afterLocation r w s url)
                (.string "/404".toList) state).router,
              world := (navigate host d { r with subdomain := some s } (afterLocation r w s url)
                (.string "/404".toList) state).world }
          | none =>
            mountAndPush host
              (navigate host d { r with subdomain := some s } (afterLocation r w s url)
                (.string "/404".toList) state).router
              (navigate host d { r with subdomain := some s } (afterLocation r w s url)
                (.string "/404".toList) state).world none path state := by
  rw [navigate]
  simp only [hready, hnorm, hset, hsplit, Bool.not_true, Bool.false_eq_true, if_false]
  unfold findEntry
  cases hfind : settings.subdomains.find? (fun x => x.subdomain == some s) with
  | some entry => rfl
  | none =>
    cases depth with
    | zero => rfl
    | succ d => rfl

/-- The view step leaves the router, the location and the history alone. -/
theorem mountView_frame (host : Host) (settings : Settings) (r : Router) (w : World) (e : Nat)
    (config : SubdomainEntry) (path : Str) :
    (mountView host settings r w e config path).router = r ∧
    (mountView host settings r w e config path).world.location = w.location ∧
    (mountView host settings r w e config path).world.history = w.history := by
  unfold mountView
  dsimp only
  repeat' split
  all_goals exact ⟨rfl, rfl, rfl⟩

/-- The method `#loadContainer` leaves the location, the history, the
ready flag and the active subdomain alone. -/
theorem loadContainer_frame (host : Host) (r : Router) (w : World)
    (config : Option SubdomainEntry) (path : Str) :
    (loadContainer host r w config path).world.location = w.location ∧
    (loadContainer host r w config path).world.history = w.history ∧
    (loadContainer host r w config path).router.ready = r.ready ∧
    (loadContainer host r w config path).router.subdomain = r.subdomain := by
  have h := mountView_frame host
  unfold loadContainer
  dsimp only
  repeat' split
  all_goals first
    | exact ⟨rfl, rfl, rfl, rfl⟩
    | exact ⟨by rw [(h _ _ _ _ _ _).2.1]; rfl, by rw [(h _ _ _ _ _ _).2.2]; rfl,
        by rw [(h _ _ _ _ _ _).1], by rw [(h _ _ _ _ _ _).1]⟩

/-- Without a subdomain entry `#loadContainer` fails: line 82 reads a
property of `undefined`. -/
theorem loadContainer_none (host : Host) (r : Router) (w : World) (path : Str) :
    (loadContainer host r w none path).error ≠ none := by
  unfold loadContainer
  dsimp only
  repeat' split
  all_goals simp

/-- Lines 61-63 leave the location alone. -/
theorem mountAndPush_location (host : Host) (r : Router) (w : World)
    (config : Option SubdomainEntry) (path : Str) (state : StateValue) :
    (mountAndPush host r w config path state).world.location = w.location := by
  have h := (loadContainer_frame host r w config path).1
  unfold mountAndPush
  dsimp only
  repeat' split
  all_goals exact h

/-- Lines 61-63 succeed exactly when the container is loaded and the state
is taken; the world is then the mounted one with the state pushed. -/
theorem mountAndPush_ok (host : Host) (r : Router) (w : World)
    (config : Option SubdomainEntry) (path : Str) (state : StateValue)
    (h : (mountAndPush host r w config path state).error = none) :
    (loadContainer host r w config path).error = none ∧
    host.pushStateAccepts state = true ∧
    (mountAndPush host r w config path state).world.children =
      (loadContainer host r w config path).world.children ∧
    (mountAndPush host r w config path state).world.history =
      w.history ++ [(state, "/".toList ++ path)] := by
  have hf := (loadContainer_frame host r w config path).2.1
  unfold mountAndPush at h ⊢
  dsimp only at h ⊢
  cases hm : (loadContainer host r w config path).error with
  | some err => rw [hm] at h; simp at h
  | none =>
    rw [hm] at h
    simp only [hm]
    by_cases hp : host.pushStateAccepts state = true
    · simp only [hp, if_true]
      rw [hf]
      exact ⟨trivial, trivial, by trivial, by trivial⟩
    · simp [hp] at h

/-- A failure of lines 61-63 pushes nothing. -/
theorem mountAndPush_error (host : Host) (r : Router) (w : World)
    (config : Option SubdomainEntry) (path : Str) (state : StateValue)
    (h : (mountAndPush host r w config path state).error ≠ none) :
    (mountAndPush host r w config path state).world.history = w.history ∧
    (mountAndPush host r w config path state).world.children =
      (loadContainer host r w config path).world.children := by
  have hf := (loadContainer_frame host r w config path).2.1
  unfold mountAndPush at h ⊢
  dsimp only at h ⊢
  cases hm : (loadContainer host r w config path).error with
  | some err => simp only [hm]; exact ⟨hf, by trivial⟩
  | none =>
    simp only [hm] at h ⊢
    by_cases hp : host.pushStateAccepts state = true
    · simp [hp] at h
    · have hp2 : host.pushStateAccepts state = false := by simpa using hp
      simp only [hp2]; exact ⟨hf, by trivial⟩

/-- Lines 61-63 without a subdomain entry fail. -/
theorem mountAndPush_none (host : Host) (r : Router) (w : World) (path : Str)
    (state : StateValue) : (mountAndPush host r w none path state).error ≠ none := by
  have h := loadContainer_none host r w path
  unfold mountAndPush
  dsimp only
  cases hm : (loadContainer host r w none path).error with
  | some err => simp
  | none => exact absurd hm h

/-- Either `navigate` fails before line 52 and changes nothing, or the
input is split into a subdomain and a path. -/
theorem navigate_cases (host : Host) (depth : Nat) (r : Router) (w : World) (input : JsValue)
    (state : StateValue) :
    ((navigate host depth r w input state).error ≠ none ∧
      (navigate host depth r w input state).router = r ∧
      (navigate host depth r w input state).world = w) ∨
    ∃ url settings s path, r.ready = true ∧ normalizeInput host input state = .ok url ∧
      r.settings = some settings ∧ domainSplit host settings url = some (s, path) := by
  cases hready : r.ready with
  | false => left; rw [navigate]; simp [hready]
  | true =>
    cases hnorm : normalizeInput host input state with
    | error err => left; rw [navigate]; simp [hready, hnorm]
    | ok url =>
      cases hset : r.settings with
      | none => left; rw [navigate]; simp [hready, hnorm, hset]
      | some settings =>
        cases hsplit : domainSplit host settings url with
        | none => left; rw [navigate]; simp [hready, hnorm, hset, hsplit]
        | some sp => exact Or.inr ⟨url, settings, sp.1, sp.2, rfl, rfl, rfl, hsplit⟩

/-- The world after line 52 has the location of before, with at most the
input URL assigned. -/
theorem afterLocation_location (r : Router) (w : World) (s : Str) (url : URL) :
    (afterLocation r w s url).location =
      w.location ++ (match r.subdomain with
        | some a => if a != [] && a != s then [url.href] else []
        | none => []) := by
  unfold afterLocation
  cases r.subdomain with
  | none => simp
  | some a =>
    by_cases h : (a != [] && a != s) = true
    · simp only [h, if_true]
    · simp only [h, if_false]; simp

/-- Line 52 leaves the document and the history alone. -/
theorem afterLocation_frame (r : Router) (w : World) (s : Str) (url : URL) :
    (afterLocation r w s url).children = w.children ∧
    (afterLocation r w s url).history = w.history := by
  unfold afterLocation
  cases r.subdomain with
  | none => exact ⟨rfl, rfl⟩
  | some a =>
    dsimp only
    split <;> exact ⟨rfl, rfl⟩

/-- The method `navigate` only adds to the values assigned to `location`. -/
theorem location_only_extends (host : Host) (depth : Nat) :
    ∀ (r : Router) (w : World) (input : JsValue) (state : StateValue),
      ∃ more, (navigate host depth r w input state).world.location = w.location ++ more := by
  induction depth with
  | zero =>
    intro r w input state
    rcases navigate_cases host 0 r w input state with h | ⟨url, settings, s, path, h1, h2, h3, h4⟩
    · exact ⟨[], by rw [h.2.2]; simp⟩
    · rw [navigate_of_url host 0 r w input state url settings s path h1 h2 h3 h4]
      cases findEntry settings s with
      | some entry =>
        simp only []
        rw [mountAndPush_location, afterLocation_location]
        exact ⟨_, rfl⟩
      | none =>
        simp only []
        rw [afterLocation_location]
        exact ⟨_, rfl⟩
  | succ d ih =>
    intro r w input state
    rcases navigate_cases host (d + 1) r w input state with
      h | ⟨url, settings, s, path, h1, h2, h3, h4⟩
    · exact ⟨[], by rw [h.2.2]; simp⟩
    · rw [navigate_of_url host (d + 1) r w input state url settings s path h1 h2 h3 h4]
      cases findEntry settings s with
      | some entry =>
        simp only []
        rw [mountAndPush_location, afterLocation_location]
        exact ⟨_, rfl⟩
      | none =>
        simp only []
        obtain ⟨more, hmore⟩ := ih { r with subdomain := some s } (afterLocation r w s url)
          (.string "/404".toList) state
        cases hn : (navigate host d { r with subdomain := some s } (afterLocation r w s url)
            (.string "/404".toList) state).error with
        | some err =>
          simp only []
          rw [hmore, afterLocation_location, List.append_assoc]
          exact ⟨_, rfl⟩
        | none =>
          simp only []
          rw [mountAndPush_location, hmore, afterLocation_location, List.append_assoc]
          exact ⟨_, rfl⟩

/-! ## Navigation: the input (C11) -/

/-- Counterexample to claim C11: the absolute URL `HTTPS://example.com/a`,
which `new URL` takes, makes `navigate` fail at line 49, since line 47
tests `startsWith("http")` on the text as written; and the input `/a/b`
is not resolved against the origin: the text given to `new URL` is
`https://example.com//a/b` (on this host `new URL` takes no other text
with that path), and it is this URL that is assigned to `location`. -/
theorem navigate_upper_case_scheme :
    demoHost.newURL "HTTPS://example.com/a".toList = some upperURL ∧
    (navigate demoHost 0 demoRouter World.empty (.string "HTTPS://example.com/a".toList)
      (.object 0)).error = some .invalidInput ∧
    demoHost.newURL "https://example.com/a/b".toList = none ∧
    (navigate demoHost 0 shopRouter World.empty (.string "/a/b".toList) (.object 0)).error
      = none ∧
    (navigate demoHost 0 shopRouter World.empty (.string "/a/b".toList)
      (.object 0)).world.location = ["https://example.com//a/b".toList] := by
  refine ⟨by decide, by decide, by decide, by decide, by decide⟩

/-- Claim C11, amended: on a ready router, a string that starts with `/`
stands for the URL `new URL` makes of `location.protocol`, `//`,
`location.hostname`, `/` and the string; a string that does not but
starts with the letters `http` stands for the URL `new URL` makes of it;
when `new URL` throws, and for every other string, `navigate` fails and
leaves the router (so the active subdomain) and the world (container,
location, history) as they were; with a state that is an object, a
string of neither form fails with the error of line 49. -/
theorem navigate_string_input (host : Host) (depth : Nat) (r : Router) (w : World) (s : Str)
    (state : StateValue) (hready : getReady r = true) :
    (startsWith s "/".toList = true →
      ∀ u, host.newURL (host.protocol ++ "//".toList ++ host.hostname ++ "/".toList ++ s)
          = some u →
        navigate host depth r w (.string s) state = navigate host depth r w (.url u) state) ∧
    (startsWith s "/".toList = false → startsWith s "http".toList = true →
      ∀ u, host.newURL s = some u →
        navigate host depth r w (.string s) state = navigate host depth r w (.url u) state) ∧
    ((startsWith s "/".toList = true ∧
        host.newURL (host.protocol ++ "//".toList ++ host.hostname ++ "/".toList ++ s) = none) ∨
      (startsWith s "/".toList = false ∧ startsWith s "http".toList = true ∧
        host.newURL s = none) ∨
      (startsWith s "/".toList = false ∧ startsWith s "http".toList = false) →
      (navigate host depth r w (.string s) state).error ≠ none ∧
      (navigate host depth r w (.string s) state).router = r ∧
      (navigate host depth r w (.string s) state).world = w) ∧
    (state.typeofObject = true → startsWith s "/".toList = false →
      startsWith s "http".toList = false →
      (navigate host depth r w (.string s) state).error = some .invalidInput) := by
  have hready2 : r.ready = true := hready
  have hfail : ∀ (input : JsValue) err, normalizeInput host input state = .error err →
      navigate host depth r w input state = { error := some err, router := r, world := w } := by
    intro input err herr
    rw [navigate, herr]
    simp [hready2]
  cases hstate : state.typeofObject with
  | false =>
    have hbad : ∀ input : JsValue, normalizeInput host input state = .error .invalidArguments := by
      intro input
      simp [normalizeInput, hstate]
    refine ⟨?_, ?_, ?_, ?_⟩
    · intro _ u _
      rw [hfail _ _ (hbad _), hfail _ _ (hbad _)]
    · intro _ _ u _
      rw [hfail _ _ (hbad _), hfail _ _ (hbad _)]
    · intro _
      rw [hfail _ _ (hbad _)]
      exact ⟨by simp, rfl, rfl⟩
    · intro h
      exact absurd h (by simp)
  | true =>
    have hs : ∀ u, normalizeInput host (.url u) state = .ok u := by
      intro u
      simp [normalizeInput, JsValue.typeofString, JsValue.instanceofURL, hstate]
    have hn : normalizeInput host (.string s) state =
        if startsWith s "/".toList then
          match host.newURL
              (host.protocol ++ "//".toList ++ host.hostname ++ "/".toList ++ s) with
          | some u => .ok u
          | none => .error .typeError
        else if startsWith s "http".toList then
          match host.newURL s with
          | some u => .ok u
          | none => .error .typeError
        else .error .invalidInput := by
      simp [normalizeInput, JsValue.typeofString, JsValue.instanceofURL, hstate]
    have hcong : ∀ u, normalizeInput host (.string s) state = .ok u →
        navigate host depth r w (.string s) state = navigate host depth r w (.url u) state := by
      intro u hu
      rw [navigate, navigate, hu, hs u]
    refine ⟨?_, ?_, ?_, ?_⟩
    · intro h1 u hu
      apply hcong
      rw [hn]; simp only [h1, if_true, hu]
    · intro h1 h2 u hu
      apply hcong
      rw [hn]; simp only [h1, h2, if_true, hu]; rfl
    · rintro (⟨h1, hu⟩ | ⟨h1, h2, hu⟩ | ⟨h1, h2⟩)
      · rw [hfail _ .typeError (by rw [hn]; simp only [h1, if_true, hu])]
        exact ⟨by simp, rfl, rfl⟩
      · rw [hfail _ .typeError (by rw [hn]; simp only [h1, h2, if_true, hu]; rfl)]
        exact ⟨by simp, rfl, rfl⟩
      · rw [hfail _ .invalidInput (by rw [hn]; simp only [h1, h2]; rfl)]
        exact ⟨by simp, rfl, rfl⟩
    · intro _ h1 h2
      rw [hfail _ .invalidInput (by rw [hn]; simp only [h1, h2]; rfl)]

/-- Witness of `navigate_string_input`: the ready router of the example
and the inputs `/a/b` and `HTTPS://example.com/a`. -/
theorem navigate_string_input_witness :
    getReady demoRouter = true ∧
    navigate demoHost 0 demoRouter World.empty (.string "/a/b".toList) (.object 0)
      = navigate demoHost 0 demoRouter World.empty (.url pathURL) (.object 0) ∧
    (navigate demoHost 0 demoRouter World.empty (.string "HTTPS://example.com/a".toList)
      (.object 0)).world = World.empty ∧
    (navigate demoHost 0 demoRouter World.empty (.string "HTTPS://example.com/a".toList)
      (.object 0)).error = some .invalidInput :=
  ⟨rfl,
    (navigate_string_input demoHost 0 demoRouter World.empty "/a/b".toList (.object 0)
      rfl).1 (by decide) pathURL (by decide),
    ((navigate_string_input demoHost 0 demoRouter World.empty "HTTPS://example.com/a".toList
      (.object 0) rfl).2.2.1 (Or.inr (Or.inr ⟨by decide, by decide⟩))).2.2,
    (navigate_string_input demoHost 0 demoRouter World.empty "HTTPS://example.com/a".toList
      (.object 0) rfl).2.2.2 rfl (by decide) (by decide)⟩

/-! ## Navigation: the assignment to `location` (C12) -/

/-- Counterexample to claim C12: while the subdomain `shop` is active the
input `/a/b`, whose subdomain is `@`, is assigned to `location` and then
routed in the application all the same: the container is cleared and
mounted and the state is pushed (line 52 has no `return`).  Conversely,
with no subdomain active, the input `https://shop.example.com/a/b`,
whose subdomain has no entry, makes the nested call for `/404` assign
`location`: it finds the subdomain `shop` active. -/
theorem navigate_hard_navigation_mounts :
    getSubdomain shopRouter = some "shop".toList ∧
    domainSplit demoHost demoSettings pathURL = some ("@".toList, "a/b".toList) ∧
    (navigate demoHost 0 shopRouter World.empty (.url pathURL) (.object 0)).world.location
      = [pathURL.href] ∧
    (navigate demoHost 0 shopRouter World.empty (.url pathURL) (.object 0)).world.children 0
      = [.mk "main".toList [.mk "notfound".toList []]] ∧
    (navigate demoHost 0 shopRouter World.empty (.url pathURL) (.object 0)).world.history
      = [(.object 0, "/a/b".toList)] ∧
    getSubdomain demoRouter = none ∧
    (navigate demoHost 1 demoRouter World.empty (.url shopURL) (.object 0)).world.location
      = ["https://example.com//404".toList] := by
  refine ⟨rfl, by decide, by decide, rfl, by decide, rfl, by decide⟩

/-- Claim C12, amended: on a ready router whose active subdomain is a
non-empty `a`, an input whose computed subdomain `s` differs from `a` has
its URL assigned to `location`, before any other assignment, and it is
the only assignment when `s` has a subdomain entry.  Conversely, when no
subdomain was active (or the active one is the empty string) or it is
`s`, and `s` has a subdomain entry, `location` is not assigned. -/
theorem navigate_location (host : Host) (depth : Nat) (r : Router) (w : World)
    (input : JsValue) (state : StateValue) (url : URL) (settings : Settings) (s path : Str)
    (hready : r.ready = true) (hnorm : normalizeInput host input state = .ok url)
    (hset : r.settings = some settings)
    (hsplit : domainSplit host settings url = some (s, path)) :
    (∀ a, getSubdomain r = some a → a ≠ [] → a ≠ s →
      ∃ more, (navigate host depth r w input state).world.location
          = w.location ++ url.href :: more ∧
        (findEntry settings s ≠ none → more = [])) ∧
    ((getSubdomain r = none ∨ getSubdomain r = some [] ∨ getSubdomain r = some s) →
      findEntry settings s ≠ none →
      (navigate host depth r w input state).world.location = w.location) := by
  have hnav := navigate_of_url host depth r w input state url settings s path hready hnorm
    hset hsplit
  constructor
  · intro a ha hne hns
    have ha2 : r.subdomain = some a := ha
    have hloc : (afterLocation r w s url).location = w.location ++ [url.href] := by
      rw [afterLocation_location, ha2]
      simp [hne, hns]
    rw [hnav]
    cases hfind : findEntry settings s with
    | some entry =>
      simp only []
      rw [mountAndPush_location, hloc]
      exact ⟨[], by simp, fun _ => rfl⟩
    | none =>
      cases depth with
      | zero =>
        simp only []
        rw [hloc]
        exact ⟨[], by simp, fun h => absurd rfl h⟩
      | succ d =>
        simp only []
        obtain ⟨more, hmore⟩ := location_only_extends host d { r with subdomain := some s }
          (afterLocation r w s url) (.string "/404".toList) state
        cases hn : (navigate host d { r with subdomain := some s } (afterLocation r w s url)
            (.string "/404".toList) state).error with
        | some err =>
          simp only []
          rw [hmore, hloc]
          exact ⟨more, by simp, fun h => absurd rfl h⟩
        | none =>
          simp only []
          rw [mountAndPush_location, hmore, hloc]
          exact ⟨more, by simp, fun h => absurd rfl h⟩
  · intro ha hfind
    have hloc : (afterLocation r w s url).location = w.location := by
      rw [afterLocation_location]
      rcases ha with ha | ha | ha
      · have ha2 : r.subdomain = none := ha
        rw [ha2]; simp
      · have ha2 : r.subdomain = some [] := ha
        rw [ha2]; simp
      · have ha2 : r.subdomain = some s := ha
        rw [ha2]; simp
    rw [hnav]
    cases hf : findEntry settings s with
    | none => exact absurd hf hfind
    | some entry =>
      simp only []
      rw [mountAndPush_location, hloc]

/-- Witness of `navigate_location`: the input `/a/b` on the router of the
example while the subdomain `shop` is active. -/
theorem navigate_location_witness :
    shopRouter.ready = true ∧
    normalizeInput demoHost (.string "/a/b".toList) (.object 0) = .ok pathURL ∧
    shopRouter.settings = some demoSettings ∧
    domainSplit demoHost demoSettings pathURL = some ("@".toList, "a/b".toList) ∧
    getSubdomain shopRouter = some "shop".toList ∧
    ∃ more, (navigate demoHost 0 shopRouter World.empty (.string "/a/b".toList)
        (.object 0)).world.location = World.empty.location ++ pathURL.href :: more ∧
      (findEntry demoSettings "@".toList ≠ none → more = []) :=
  ⟨rfl, by decide, rfl, by decide, rfl,
    (navigate_location demoHost 0 shopRouter World.empty (.string "/a/b".toList) (.object 0)
      pathURL demoSettings "@".toList "a/b".toList rfl (by decide) rfl (by decide)).1
      "shop".toList rfl (by decide) (by decide)⟩

/-! ## Navigation: the fallback `/404` (C13) -/

/-- When the subdomain of `/404` has no entry, the call for `/404` uses up
whatever nesting the host allows. -/
theorem navigate_fallback_exhausts (host : Host) (settings : Settings) (state : StateValue)
    (u : URL) (s404 p404 : Str)
    (hnorm : normalizeInput host (.string "/404".toList) state = .ok u)
    (hsplit : domainSplit host settings u = some (s404, p404))
    (hnone : findEntry settings s404 = none) (depth : Nat) :
    ∀ (r : Router) (w : World), r.ready = true → r.settings = some settings →
      (navigate host depth r w (.string "/404".toList) state).error
        = some .nestingExhausted := by
  induction depth with
  | zero =>
    intro r w hready hset
    rw [navigate_of_url host 0 r w _ state u settings s404 p404 hready hnorm hset hsplit, hnone]
  | succ d ih =>
    intro r w hready hset
    rw [navigate_of_url host (d + 1) r w _ state u settings s404 p404 hready hnorm hset hsplit,
      hnone]
    simp only []
    rw [ih { r with subdomain := some s404 } (afterLocation r w s404 u) hready hset]

/-- When neither the subdomain of the input nor that of `/404` has an
entry, `navigate` uses up whatever nesting the host allows. -/
theorem navigate_no_entry_exhausts (host : Host) (settings : Settings) (state : StateValue)
    (u : URL) (s404 p404 : Str)
    (hnorm : normalizeInput host (.string "/404".toList) state = .ok u)
    (hsplit : domainSplit host settings u = some (s404, p404))
    (hnone : findEntry settings s404 = none) (depth : Nat) (r : Router) (w : World)
    (input : JsValue) (url : URL) (s path : Str) (hready : r.ready = true)
    (hset : r.settings = some settings) (hin : normalizeInput host input state = .ok url)
    (hs : domainSplit host settings url = some (s, path)) (hentry : findEntry settings s = none) :
    (navigate host depth r w input state).error = some .nestingExhausted := by
  rw [navigate_of_url host depth r w input state url settings s path hready hin hset hs, hentry]
  cases depth with
  | zero => rfl
  | succ d =>
    simp only []
    rw [navigate_fallback_exhausts host settings state u s404 p404 hnorm hsplit hnone d
      { r with subdomain := some s } (afterLocation r w s url) hready hset]

/-- Claim C13 fails: on a ready router whose settings have no subdomain
entry, `navigate("/a/b")` calls `navigate("/404")`, which calls
`navigate("/404")`, and so on: whatever nesting of calls the host allows,
the calls use it up, so the recursion of lines 56-59 has no end of its
own and no terminal error of the router is ever raised. -/
theorem navigate_fallback_unbounded :
    ∀ depth : Nat,
      (navigate demoHost depth emptyRouter World.empty (.string "/a/b".toList)
        (.object 0)).error = some .nestingExhausted := by
  intro depth
  exact navigate_no_entry_exhausts demoHost _ (.object 0) fallbackURL "@".toList "404".toList
    (by decide) (by decide) (by decide) depth emptyRouter World.empty _ pathURL "@".toList
    "a/b".toList rfl rfl (by decide) (by decide) (by decide)

/-! ## Navigation: the view (C14) -/

/-- The view step with a route selected and a view that renders. -/
theorem mountView_selected (host : Host) (settings : Settings) (r : Router) (w : World)
    (e : Nat) (entry : SubdomainEntry) (path : Str) (view : Route) (m : Str) (shell : Node)
    (hview : selectRoute entry.routes path = some view)
    (hrender : Renders host settings view.component m)
    (hw : w.children e = [shell]) :
    (mountView host settings r w e entry path).error = none ∧
    (mountView host settings r w e entry path).world.children e
      = [shell.appendChild (.mk m [])] := by
  unfold selectRoute at hview
  unfold mountView
  simp only [hview]
  rcases hrender with ⟨t, ht⟩ | ⟨p, hp, himp⟩
  · simp [ht, hw, appendToLastChild, World.setChildren]
  · simp [hp, himp, hw, appendToLastChild, World.setChildren]

/-- What `selectRoute` selects: a route equal to the path with no such
route before it, or, when no route equals the path, a route `404` with no
such route before it. -/
theorem selectRoute_some (routes : List Route) (path : Str) (view : Route)
    (h : selectRoute routes path = some view) :
    (view.route = some path ∧
      ∃ pre post, routes = pre ++ view :: post ∧ ∀ x ∈ pre, x.route ≠ some path) ∨
    (view.route = some "404".toList ∧ (∀ x ∈ routes, x.route ≠ some path) ∧
      ∃ pre post, routes = pre ++ view :: post ∧ ∀ x ∈ pre, x.route ≠ some "404".toList) := by
  unfold selectRoute at h
  cases h1 : routes.find? (fun x => x.route == some path) with
  | some v =>
    rw [h1] at h
    simp only [Option.some.injEq] at h
    subst h
    rw [List.find?_eq_some] at h1
    obtain ⟨hp, pre, post, hr, hpre⟩ := h1
    left
    refine ⟨by simpa using hp, pre, post, hr, ?_⟩
    intro x hx
    simpa using hpre x hx
  | none =>
    rw [h1] at h
    simp only [] at h
    rw [List.find?_eq_some] at h
    obtain ⟨hp, pre, post, hr, hpre⟩ := h
    right
    refine ⟨by simpa using hp, ?_, pre, post, hr, ?_⟩
    · intro x hx
      have := List.find?_eq_none.1 h1 x hx
      simpa using this
    · intro x hx
      simpa using hpre x hx

/-- The method `#loadContainer` for a shell given as a module path, when
the container resolves, the shell module renders, a route is selected
and its view renders. -/
theorem loadContainer_module_shell (host : Host) (r : Router) (w : World)
    (settings : Settings) (entry : SubdomainEntry) (shellPath : Str) (e : Nat)
    (shell m path : Str) (view : Route)
    (hset : r.settings = some settings)
    (hshell : entry.component = .string shellPath)
    (hcont : ResolvesTo host settings e)
    (himport : host.importModule (modulePath settings (.string shellPath))
      = some (.node shell))
    (hview : selectRoute entry.routes path = some view)
    (hrender : Renders host settings view.component m) :
    (loadContainer host r w (some entry) path).error = none ∧
    (loadContainer host r w (some entry) path).world.children e
      = [.mk shell [.mk m []]] := by
  have hmount : ∀ (settings2 : Settings) (r2 : Router), settings2.baseURL = settings.baseURL →
      (mountView host settings2 r2 ((w.setChildren e [spinner]).setChildren e [.mk shell []]) e
        entry path).error = none ∧
      (mountView host settings2 r2 ((w.setChildren e [spinner]).setChildren e [.mk shell []]) e
        entry path).world.children e = [.mk shell [.mk m []]] := by
    intro settings2 r2 hb
    have hr2 : Renders host settings2 view.component m := by
      unfold Renders modulePath at hrender ⊢
      rw [hb]
      exact hrender
    exact mountView_selected host settings2 r2 _ e entry path view m (.mk shell []) hview hr2
      (by simp [World.setChildren])
  unfold loadContainer
  rw [hset]
  rcases hcont with hc | ⟨id, hc, hq⟩
  · have himp2 : host.importModule (modulePath settings (.string shellPath))
        = some (.node shell) := himport
    simp only [hc, hshell, himp2]
    exact hmount settings _ rfl
  · have himp2 : host.importModule
        (modulePath { settings with container := .element e } (.string shellPath))
        = some (.node shell) := himport
    simp only [hc, hq, hshell, himp2]
    exact hmount _ _ rfl

/-- Claim C14: on a ready router, for an input whose subdomain has an
entry with the shell given as a module path (the container resolving, the
shell module rendering and the state being taken by `pushState`), when
`selectRoute` selects a route for the path and its view renders the node
`m`, navigation succeeds and the container holds the shell with `m`
mounted in it; and the route selected is the first route whose `route`
equals the path, or, when no route equals the path, the first route
whose `route` is `404`. -/
theorem navigate_mounts_selected_view (host : Host) (depth : Nat) (r : Router) (w : World)
    (input : JsValue) (state : StateValue) (url : URL) (settings : Settings) (s path : Str)
    (entry : SubdomainEntry) (shellPath : Str) (e : Nat) (shell m : Str) (view : Route)
    (hready : getReady r = true) (hnorm : normalizeInput host input state = .ok url)
    (hset : r.settings = some settings)
    (hsplit : domainSplit host settings url = some (s, path))
    (hentry : findEntry settings s = some entry)
    (hshell : entry.component = .string shellPath)
    (hcont : ResolvesTo host settings e)
    (himport : host.importModule (modulePath settings (.string shellPath))
      = some (.node shell))
    (hview : selectRoute entry.routes path = some view)
    (hrender : Renders host settings view.component m)
    (hpush : host.pushStateAccepts state = true) :
    (navigate host depth r w input state).error = none ∧
    (navigate host depth r w input state).world.children e = [.mk shell [.mk m []]] ∧
    ((view.route = some path ∧
        ∃ pre post, entry.routes = pre ++ view :: post ∧ ∀ x ∈ pre, x.route ≠ some path) ∨
      (view.route = some "404".toList ∧ (∀ x ∈ entry.routes, x.route ≠ some path) ∧
        ∃ pre post, entry.routes = pre ++ view :: post ∧
          ∀ x ∈ pre, x.route ≠ some "404".toList)) := by
  have hl := loadContainer_module_shell host { r with subdomain := some s }
    (afterLocation r w s url) settings entry shellPath e shell m path view hset hshell hcont
    himport hview hrender
  refine ⟨?_, ?_, selectRoute_some entry.routes path view hview⟩
  · rw [navigate_of_url host depth r w input state url settings s path hready hnorm hset hsplit,
      hentry]
    simp only []
    unfold mountAndPush
    simp only [hl.1, hpush, if_true]
  · rw [navigate_of_url host depth r w input state url settings s path hready hnorm hset hsplit,
      hentry]
    simp only []
    unfold mountAndPush
    simp only [hl.1, hpush, if_true]
    exact hl.2

/-- Witness of `navigate_mounts_selected_view`: on the router of the
example the path `a/b` equals no route, and the view of the route `404`
is mounted in the shell. -/
theorem navigate_mounts_selected_view_witness :
    getReady demoRouter = true ∧
    normalizeInput demoHost (.string "/a/b".toList) (.object 1) = .ok pathURL ∧
    domainSplit demoHost demoSettings pathURL = some ("@".toList, "a/b".toList) ∧
    findEntry demoSettings "@".toList = some demoEntry ∧
    selectRoute demoEntry.routes "a/b".toList = some notFoundRoute ∧
    (navigate demoHost 0 demoRouter World.empty (.string "/a/b".toList) (.object 1)).error
      = none ∧
    (navigate demoHost 0 demoRouter World.empty (.string "/a/b".toList)
      (.object 1)).world.children 0 = [.mk "main".toList [.mk "notfound".toList []]] :=
  ⟨rfl, by decide, by decide, by decide, by decide,
    (navigate_mounts_selected_view demoHost 0 demoRouter World.empty (.string "/a/b".toList)
      (.object 1) pathURL demoSettings "@".toList "a/b".toList demoEntry "shell/Main".toList 0
      "main".toList "notfound".toList notFoundRoute rfl (by decide) rfl (by decide) (by decide)
      rfl (Or.inr ⟨"app-root".toList, by decide, by decide⟩) (by decide) (by decide)
      (Or.inr ⟨"views/NotFound".toList, rfl, by decide⟩) rfl).1,
    (navigate_mounts_selected_view demoHost 0 demoRouter World.empty (.string "/a/b".toList)
      (.object 1) pathURL demoSettings "@".toList "a/b".toList demoEntry "shell/Main".toList 0
      "main".toList "notfound".toList notFoundRoute rfl (by decide) rfl (by decide) (by decide)
      rfl (Or.inr ⟨"app-root".toList, by decide, by decide⟩) (by decide) (by decide)
      (Or.inr ⟨"views/NotFound".toList, rfl, by decide⟩) rfl).2.1⟩

/-! ## Navigation on the states a router reaches (C15, C16) -/

/-- What a view step without error has done: a route was selected, its
view rendered a node, and the node was appended to the shell. -/
theorem mountView_success (host : Host) (settings : Settings) (r : Router) (w : World)
    (e : Nat) (entry : SubdomainEntry) (path : Str) (shell : Node)
    (hw : w.children e = [shell])
    (hok : (mountView host settings r w e entry path).error = none) :
    ∃ view m, selectRoute entry.routes path = some view ∧
      ((∃ t, view.component = .object (.node m) t) ∨
        host.importModule (modulePath settings view.component) = some (.node m)) ∧
      (mountView host settings r w e entry path).world.children e
        = [shell.appendChild (.mk m [])] := by
  cases hsel : selectRoute entry.routes path with
  | none =>
    exfalso
    unfold selectRoute at hsel
    unfold mountView at hok
    simp only [hsel] at hok
    exact Option.noConfusion hok
  | some view =>
    have hsel2 := hsel
    unfold selectRoute at hsel2
    unfold mountView at hok ⊢
    simp only [hsel2] at hok ⊢
    cases hc : view.component with
    | undefined => simp [hc] at hok
    | string p =>
      simp only [hc] at hok ⊢
      cases hi : host.importModule (modulePath settings (.string p)) with
      | none => simp [hi] at hok
      | some rd =>
        cases rd with
        | notCallable => simp [hi] at hok
        | throws => simp [hi] at hok
        | node m =>
          refine ⟨view, m, rfl, Or.inr (by rw [hc]; exact hi), ?_⟩
          simp [hi, hw, appendToLastChild, World.setChildren]
    | object rd t =>
      cases rd with
      | node m =>
        refine ⟨view, m, rfl, Or.inl ⟨t, hc⟩, ?_⟩
        simp [hc, hw, appendToLastChild, World.setChildren]
      | throws => simp [hc] at hok
      | notCallable =>
        simp only [hc] at hok ⊢
        cases hi : host.importModule (modulePath settings (.object .notCallable t)) with
        | none => simp [hi] at hok
        | some rd =>
          cases rd with
          | notCallable => simp [hi] at hok
          | throws => simp [hi] at hok
          | node m =>
            refine ⟨view, m, rfl, Or.inr (by rw [hc]; exact hi), ?_⟩
            simp [hi, hw, appendToLastChild, World.setChildren]

/-- When no route equals the path and none is `404`, nothing is selected. -/
theorem selectRoute_none (routes : List Route) (path : Str)
    (h1 : ∀ x ∈ routes, x.route ≠ some path)
    (h2 : ∀ x ∈ routes, x.route ≠ some "404".toList) : selectRoute routes path = none := by
  unfold selectRoute
  have e1 : routes.find? (fun x => x.route == some path) = none := by
    rw [List.find?_eq_none]
    intro x hx
    simpa using h1 x hx
  have e2 : routes.find? (fun x => x.route == some "404".toList) = none := by
    rw [List.find?_eq_none]
    intro x hx
    have := h2 x hx
    simpa using this
  rw [e1]
  exact e2

/-- What `#loadContainer` without error has done for a shell given as a
module path: the container resolved, the shell module rendered, a route
was selected and its view rendered, and the container holds the shell
with the view appended. -/
theorem loadContainer_module_success (host : Host) (r : Router) (w : World)
    (entry : SubdomainEntry) (p path : Str) (settings : Settings)
    (hset : r.settings = some settings) (hshell : entry.component = .string p)
    (hok : (loadContainer host r w (some entry) path).error = none) :
    ∃ e shell view m, ResolvesTo host settings e ∧
      host.importModule (modulePath settings (.string p)) = some (.node shell) ∧
      selectRoute entry.routes path = some view ∧
      ((∃ t, view.component = .object (.node m) t) ∨
        host.importModule (modulePath settings view.component) = some (.node m)) ∧
      (loadContainer host r w (some entry) path).world.children e
        = [.mk shell [.mk m []]] := by
  have key : ∀ (e : Nat) (settings2 : Settings) (r2 : Router),
      ResolvesTo host settings e → settings2.baseURL = settings.baseURL →
      ((match host.importModule (modulePath settings2 (.string p)) with
        | none => ({ error := some .rejected, router := r2,
                     world := w.setChildren e [spinner] } : NavResult)
        | some .notCallable =>
          { error := some .typeError, router := r2,
            world := (w.setChildren e [spinner]).setChildren e [] }
        | some .throws =>
          { error := some .rejected, router := r2,
            world := (w.setChildren e [spinner]).setChildren e [] }
        | some (.node n) =>
          mountView host settings2 r2 ((w.setChildren e [spinner]).setChildren e [.mk n []]) e
            entry path).error = none) →
      ∃ shell view m,
        host.importModule (modulePath settings (.string p)) = some (.node shell) ∧
        selectRoute entry.routes path = some view ∧
        ((∃ t, view.component = .object (.node m) t) ∨
          host.importModule (modulePath settings view.component) = some (.node m)) ∧
        (match host.importModule (modulePath settings2 (.string p)) with
        | none => ({ error := some .rejected, router := r2,
                     world := w.setChildren e [spinner] } : NavResult)
        | some .notCallable =>
          { error := some .typeError, router := r2,
            world := (w.setChildren e [spinner]).setChildren e [] }
        | some .throws =>
          { error := some .rejected, router := r2,
            world := (w.setChildren e [spinner]).setChildren e [] }
        | some (.node n) =>
          mountView host settings2 r2 ((w.setChildren e [spinner]).setChildren e [.mk n []]) e
            entry path).world.children e = [.mk shell [.mk m []]] := by
    intro e settings2 r2 _ hb h
    have hmp : ∀ c, modulePath settings2 c = modulePath settings c := by
      intro c
      unfold modulePath
      rw [hb]
    rw [hmp] at h ⊢
    cases hi : host.importModule (modulePath settings (.string p)) with
    | none => rw [hi] at h; exact Option.noConfusion h
    | some rd =>
      cases rd with
      | notCallable => rw [hi] at h; exact Option.noConfusion h
      | throws => rw [hi] at h; exact Option.noConfusion h
      | node shell =>
        rw [hi] at h
        simp only [] at h ⊢
        obtain ⟨view, m, hsel, hrender, hch⟩ := mountView_success host settings2 r2 _ e entry
          path (.mk shell []) (by simp [World.setChildren]) h
        rw [hmp] at hrender
        exact ⟨shell, view, m, rfl, hsel, hrender, hch⟩
  unfold loadContainer at hok ⊢
  rw [hset] at hok ⊢
  cases hc : settings.container with
  | missing => simp [hc] at hok
  | element e =>
    simp only [hc, hshell] at hok ⊢
    obtain ⟨shell, view, m, h⟩ := key e settings _ (Or.inl hc) rfl hok
    exact ⟨e, shell, view, m, Or.inl hc, h⟩
  | string id =>
    cases hq : host.querySelector ("#".toList ++ id) with
    | invalid => simp only [hc, hq] at hok; simp at hok
    | null => simp only [hc, hq] at hok; simp at hok
    | element e =>
      simp only [hc, hq, hshell] at hok ⊢
      obtain ⟨shell, view, m, h⟩ := key e _ _ (Or.inr ⟨id, hc, hq⟩) rfl hok
      exact ⟨e, shell, view, m, Or.inr ⟨id, hc, hq⟩, h⟩

/-- The method `#loadContainer` leaves the subdomains of the settings
alone. -/
theorem loadContainer_subdomains (host : Host) (r : Router) (w : World)
    (config : Option SubdomainEntry) (path : Str) :
    (loadContainer host r w config path).router.settings.map Settings.subdomains
      = r.settings.map Settings.subdomains := by
  have h := mountView_frame host
  unfold loadContainer
  dsimp only
  repeat' split
  all_goals first
    | rfl
    | simp_all

/-- Lines 61-63 leave the subdomains of the settings alone. -/
theorem mountAndPush_subdomains (host : Host) (r : Router) (w : World)
    (config : Option SubdomainEntry) (path : Str) (state : StateValue) :
    (mountAndPush host r w config path state).router.settings.map Settings.subdomains
      = r.settings.map Settings.subdomains := by
  have h := loadContainer_subdomains host r w config path
  unfold mountAndPush
  dsimp only
  repeat' split
  all_goals exact h

/-- The method `navigate` leaves the subdomains of the settings alone. -/
theorem navigate_subdomains (host : Host) (depth : Nat) :
    ∀ (r : Router) (w : World) (input : JsValue) (state : StateValue),
      (navigate host depth r w input state).router.settings.map Settings.subdomains
        = r.settings.map Settings.subdomains := by
  induction depth with
  | zero =>
    intro r w input state
    rcases navigate_cases host 0 r w input state with h | ⟨url, st, s, path, h1, h2, h3, h4⟩
    · rw [h.2.1]
    · rw [navigate_of_url host 0 r w input state url st s path h1 h2 h3 h4]
      cases findEntry st s with
      | some entry => simp only []; rw [mountAndPush_subdomains]
      | none => rfl
  | succ d ih =>
    intro r w input state
    rcases navigate_cases host (d + 1) r w input state with
      h | ⟨url, st, s, path, h1, h2, h3, h4⟩
    · rw [h.2.1]
    · rw [navigate_of_url host (d + 1) r w input state url st s path h1 h2 h3 h4]
      cases findEntry st s with
      | some entry => simp only []; rw [mountAndPush_subdomains]
      | none =>
        simp only []
        have hn := ih { r with subdomain := some s } (afterLocation r w s url)
          (.string "/404".toList) state
        cases (navigate host d { r with subdomain := some s } (afterLocation r w s url)
            (.string "/404".toList) state).error with
        | some err => simp only []; rw [hn]
        | none => simp only []; rw [mountAndPush_subdomains, hn]

/-- A component read from what the parser leaves is a string or is
missing: the parser assigns no object to `component`. -/
theorem componentOfValue_read (rl : Realm) (hI : rl.routesOnly) (own : Option Str) :
    componentOfValue (readData rl (own.map .str) componentKey) = .undefined ∨
    ∃ p, componentOfValue (readData rl (own.map .str) componentKey) = .string p := by
  cases own with
  | some s => exact Or.inr ⟨s, rfl⟩
  | none =>
    simp only [Option.map_none', readData]
    cases h : getOwn rl.objectPrototype componentKey with
    | none => exact Or.inl rfl
    | some v =>
      cases v with
      | str p => exact Or.inr ⟨p, rfl⟩
      | obj d => exact absurd (hI componentKey d h) componentKey_ne_routesField

/-- The page the parser leaves has objects on `Object.prototype` under
`_routes` only. -/
theorem parseState_routesOnly (text : Str) (c : Config) (rl : Realm)
    (h : parseState text = .ok (c, rl)) : rl.routesOnly := by
  unfold parseState at h
  cases hr : runLines Acc.init (keptLines text) with
  | error x =>
    rw [hr] at h
    cases h
  | ok acc =>
    rw [hr] at h
    simp only [] at h
    cases hf : finish acc with
    | error x =>
      rw [hf] at h
      cases h
    | ok c2 =>
      rw [hf] at h
      simp only [Except.ok.injEq, Prod.mk.injEq] at h
      rw [← h.2]
      refine runLines_routesOnly _ Acc.init acc ?_ hr
      intro k p hk
      cases hk

/-- The settings made of what the parser returns have module paths as
shells. -/
theorem toSettingsIn_pathShells (rl : Realm) (hI : rl.routesOnly) (c : Config) :
    (c.toSettingsIn rl).pathShells := by
  intro e he
  simp only [Config.toSettingsIn, List.mem_map] at he
  obtain ⟨s, _, rfl⟩ := he
  exact componentOfValue_read rl hI s.component

/-- The settings `#loadConfig` returns have module paths as shells. -/
theorem loadConfig_pathShells (host : Host) (config : JsValue) (fetched : List Str)
    (st : Settings) (h : loadConfig host config = (fetched, .ok st)) : st.pathShells := by
  unfold loadConfig at h
  have hno : (config.typeofObject && (config.not).instanceofURL) = false := by
    rw [Bool.and_eq_false_iff]
    exact Or.inr rfl
  rw [hno] at h
  simp only [Bool.false_eq_true, if_false] at h
  split at h
  · cases hf : host.fetch (fetchTarget config) with
    | none =>
      rw [hf] at h
      cases h
    | some rs =>
      rw [hf] at h
      simp only [] at h
      split at h
      · cases h
      · cases hp : parseState rs.text with
        | error x =>
          rw [hp] at h
          cases x
          cases h
        | ok cr =>
          obtain ⟨c, rl⟩ := cr
          rw [hp] at h
          simp only [Prod.mk.injEq, Except.ok.injEq] at h
          rw [← h.2]
          exact toSettingsIn_pathShells rl (parseState_routesOnly _ c rl hp) c
  · cases h

/-- On every state a router reaches the shells of the settings are module
paths: the settings come from `parseProperties`. -/
theorem reachable_pathShells (r : Router) (h : Reachable r) :
    ∀ st, r.settings = some st → st.pathShells := by
  induction h with
  | fresh =>
    intro st hst
    cases hst
  | init host r config _ ih =>
    intro st hst
    unfold init at hst
    rcases hc : loadConfig host config with ⟨fetched, settings | e⟩
    · rw [hc] at hst
      exact ih st hst
    · rw [hc] at hst
      simp only [Option.some.injEq] at hst
      rw [← hst]
      exact loadConfig_pathShells host config fetched e hc
  | navigate host depth r w input state _ ih =>
    intro st hst
    have hn := navigate_subdomains host depth r w input state
    rw [hst] at hn
    cases hr : r.settings with
    | none =>
      rw [hr] at hn
      cases hn
    | some st0 =>
      rw [hr] at hn
      simp only [Option.map_some', Option.some.injEq] at hn
      intro e he
      rw [hn] at he
      exact ih st0 hr e he

/-- For an entry without a shell component `#loadContainer` fails: line 82
reads a property of `undefined`. -/
theorem loadContainer_undefined (host : Host) (r : Router) (w : World)
    (entry : SubdomainEntry) (path : Str) (hc : entry.component = .undefined) :
    (loadContainer host r w (some entry) path).error ≠ none := by
  unfold loadContainer
  dsimp only
  rw [hc]
  repeat' split
  all_goals simp_all

/-- Claim C15: on every state a router can reach, for a ready router and
the entry of the subdomain of the input, whatever its shell component is:
when no route equals the requested path and the entry has no route `404`,
`navigate` fails with an error and pushes nothing to the history.  (The
settings of such a state come from `parseProperties`, so the shell is a
module path or is missing; line 99 lets no configuration object in.) -/
theorem navigate_missing_fallback (host : Host) (depth : Nat) (r : Router) (w : World)
    (input : JsValue) (state : StateValue) (url : URL) (settings : Settings) (s path : Str)
    (entry : SubdomainEntry)
    (hreach : Reachable r) (hready : getReady r = true)
    (hnorm : normalizeInput host input state = .ok url)
    (hset : r.settings = some settings)
    (hsplit : domainSplit host settings url = some (s, path))
    (hentry : findEntry settings s = some entry)
    (h1 : ∀ x ∈ entry.routes, x.route ≠ some path)
    (h2 : ∀ x ∈ entry.routes, x.route ≠ some "404".toList) :
    (navigate host depth r w input state).error ≠ none ∧
    (navigate host depth r w input state).world.history = w.history := by
  have hmem : entry ∈ settings.subdomains := List.mem_of_find?_eq_some hentry
  rw [navigate_of_url host depth r w input state url settings s path hready hnorm hset hsplit,
    hentry]
  simp only []
  have hne : (mountAndPush host { r with subdomain := some s } (afterLocation r w s url)
      (some entry) path state).error ≠ none := by
    intro h
    have hl := (mountAndPush_ok host _ _ _ path state h).1
    rcases reachable_pathShells r hreach settings hset entry hmem with hu | ⟨p, hshell⟩
    · exact loadContainer_undefined host _ _ entry path hu hl
    · obtain ⟨e, shell, view, m, _, _, hsel, _⟩ := loadContainer_module_success host
        { r with subdomain := some s } (afterLocation r w s url) entry p path settings hset
        hshell hl
      rw [selectRoute_none entry.routes path h1 h2] at hsel
      exact Option.noConfusion hsel
  refine ⟨hne, ?_⟩
  rw [(mountAndPush_error host _ _ _ path state hne).1]
  exact (afterLocation_frame r w s url).2

/-- Witness of `navigate_missing_fallback`: the router after `init` with a
resource whose one subdomain has the route `home` only, and the call
`navigate("/a/b")`. -/
theorem navigate_missing_fallback_witness :
    (initFresh bareHost (.string "https://example.com/bare.properties".toList)).router
      = { subdomain := none, settings := some bareSettings, ready := true } ∧
    selectRoute bareEntry.routes "a/b".toList = none ∧
    (navigate bareHost 0
      (initFresh bareHost (.string "https://example.com/bare.properties".toList)).router
      World.empty (.string "/a/b".toList) (.object 0)).error ≠ none ∧
    (navigate bareHost 0
      (initFresh bareHost (.string "https://example.com/bare.properties".toList)).router
      World.empty (.string "/a/b".toList) (.object 0)).world.history = [] :=
  ⟨rfl, by decide,
    navigate_missing_fallback bareHost 0
      (initFresh bareHost (.string "https://example.com/bare.properties".toList)).router
      World.empty (.string "/a/b".toList) (.object 0) pathURL bareSettings "@".toList
      "a/b".toList bareEntry (Reachable.init _ _ _ Reachable.fresh) rfl (by decide) rfl
      (by decide) (by decide) (by decide) (by decide)⟩

/-- Claim C16: on every state a router can reach, after a `navigate`
without error on a ready router the container holds the rendered root of
the shell alone (the loading indicator is gone), with the rendered root of
the view of the selected route as its last and only child.  (The settings
of such a state come from `parseProperties`, so the shell is a module
path; line 99 lets no configuration object in.) -/
theorem navigate_mounts_shell_and_view (host : Host) (depth : Nat) (r : Router) (w : World)
    (input : JsValue) (state : StateValue) (url : URL) (settings : Settings) (s path : Str)
    (entry : SubdomainEntry)
    (hreach : Reachable r) (hready : getReady r = true)
    (hnorm : normalizeInput host input state = .ok url)
    (hset : r.settings = some settings)
    (hsplit : domainSplit host settings url = some (s, path))
    (hentry : findEntry settings s = some entry)
    (hok : (navigate host depth r w input state).error = none) :
    ∃ e p shell view m, entry.component = .string p ∧ ResolvesTo host settings e ∧
      host.importModule (modulePath settings (.string p)) = some (.node shell) ∧
      selectRoute entry.routes path = some view ∧
      ((∃ t, view.component = .object (.node m) t) ∨
        host.importModule (modulePath settings view.component) = some (.node m)) ∧
      (navigate host depth r w input state).world.children e
        = [.mk shell [.mk m []]] := by
  have hmem : entry ∈ settings.subdomains := List.mem_of_find?_eq_some hentry
  rw [navigate_of_url host depth r w input state url settings s path hready hnorm hset hsplit,
    hentry] at hok ⊢
  simp only [] at hok ⊢
  have hm := mountAndPush_ok host _ _ _ path state hok
  rcases reachable_pathShells r hreach settings hset entry hmem with hu | ⟨p, hshell⟩
  · exact absurd hm.1 (loadContainer_undefined host _ _ entry path hu)
  · obtain ⟨e, shell, view, m, hres, himp, hsel, hrender, hch⟩ :=
      loadContainer_module_success host { r with subdomain := some s }
        (afterLocation r w s url) entry p path settings hset hshell hm.1
    exact ⟨e, p, shell, view, m, hshell, hres, himp, hsel, hrender,
      by rw [hm.2.2.1]; exact hch⟩

/-- Witness of `navigate_mounts_shell_and_view`: the router after `init`
with the example of section 6, and the call `navigate("/a/b")`, which
mounts the shell `main` with the view of the route `404`. -/
theorem navigate_mounts_shell_and_view_witness :
    (initFresh demoHost (.string "https://example.com/router.properties".toList)).router
      = demoRouter ∧
    (navigate demoHost 0 demoRouter World.empty (.string "/a/b".toList)
      (.object 0)).error = none ∧
    (navigate demoHost 0 demoRouter World.empty (.string "/a/b".toList)
      (.object 0)).world.children 0 = [.mk "main".toList [.mk "notfound".toList []]] ∧
    ∃ e p shell view m, demoEntry.component = .string p ∧ ResolvesTo demoHost demoSettings e ∧
      demoHost.importModule (modulePath demoSettings (.string p)) = some (.node shell) ∧
      selectRoute demoEntry.routes "a/b".toList = some view ∧
      ((∃ t, view.component = .object (.node m) t) ∨
        demoHost.importModule (modulePath demoSettings view.component) = some (.node m)) ∧
      (navigate demoHost 0 demoRouter World.empty (.string "/a/b".toList)
        (.object 0)).world.children e = [.mk shell [.mk m []]] :=
  ⟨rfl, by decide, rfl,
    navigate_mounts_shell_and_view demoHost 0 demoRouter World.empty (.string "/a/b".toList)
      (.object 0) pathURL demoSettings "@".toList "a/b".toList demoEntry
      (Reachable.init demoHost Router.fresh
        (.string "https://example.com/router.properties".toList) Reachable.fresh)
      rfl (by decide) rfl (by decide) (by decide) (by decide)⟩

/-! ## Navigation: the history (C17) -/

/-- Claim C17: on a ready router, for an input whose subdomain has an
entry, a `navigate` that succeeds has pushed the state once, with the
path `/` followed by the computed path, onto the history of before, and
it has done so after `#loadContainer` finished without error: the
document is as `#loadContainer` left it; a `navigate` that fails has
pushed nothing. -/
theorem navigate_pushes_once (host : Host) (depth : Nat) (r : Router) (w : World)
    (input : JsValue) (state : StateValue) (url : URL) (settings : Settings) (s path : Str)
    (entry : SubdomainEntry)
    (hready : getReady r = true) (hnorm : normalizeInput host input state = .ok url)
    (hset : r.settings = some settings)
    (hsplit : domainSplit host settings url = some (s, path))
    (hentry : findEntry settings s = some entry) :
    ((navigate host depth r w input state).error = none →
      (navigate host depth r w input state).world.history
        = w.history ++ [(state, "/".toList ++ path)] ∧
      (loadContainer host { r with subdomain := some s } (afterLocation r w s url) (some entry)
        path).error = none ∧
      (navigate host depth r w input state).world.children
        = (loadContainer host { r with subdomain := some s } (afterLocation r w s url)
            (some entry) path).world.children) ∧
    ((navigate host depth r w input state).error ≠ none →
      (navigate host depth r w input state).world.history = w.history) := by
  rw [navigate_of_url host depth r w input state url settings s path hready hnorm hset hsplit,
    hentry]
  simp only []
  constructor
  · intro h
    have hm := mountAndPush_ok host _ _ _ path state h
    rw [(afterLocation_frame r w s url).2] at hm
    exact ⟨hm.2.2.2, hm.1, hm.2.2.1⟩
  · intro h
    have hm := mountAndPush_error host _ _ _ path state h
    rw [(afterLocation_frame r w s url).2] at hm
    exact hm.1

/-- Witness of `navigate_pushes_once`: `navigate("/a/b", state)` on the
router of the example pushes the state with the path `/a/b`. -/
theorem navigate_pushes_once_witness :
    getReady demoRouter = true ∧
    normalizeInput demoHost (.string "/a/b".toList) (.object 1) = .ok pathURL ∧
    domainSplit demoHost demoSettings pathURL = some ("@".toList, "a/b".toList) ∧
    findEntry demoSettings "@".toList = some demoEntry ∧
    (navigate demoHost 0 demoRouter World.empty (.string "/a/b".toList) (.object 1)).error
      = none ∧
    (navigate demoHost 0 demoRouter World.empty (.string "/a/b".toList)
      (.object 1)).world.history = World.empty.history ++ [(.object 1, "/".toList ++ "a/b".toList)] :=
  ⟨rfl, by decide, by decide, by decide, by decide,
    ((navigate_pushes_once demoHost 0 demoRouter World.empty (.string "/a/b".toList)
      (.object 1) pathURL demoSettings "@".toList "a/b".toList demoEntry rfl (by decide) rfl
      (by decide) (by decide)).1 (by decide)).1⟩

/-! ## Navigation: a container that is not in the document (C18) -/

/-- When the container is an id that `querySelector` does not find,
`#loadContainer` fails and leaves the document alone. -/
theorem loadContainer_container_missing (host : Host) (r : Router) (w : World)
    (config : Option SubdomainEntry) (path : Str) (settings : Settings) (id : Str)
    (hset : r.settings = some settings) (hc : settings.container = .string id)
    (hq : ∀ e, host.querySelector ("#".toList ++ id) ≠ .element e) :
    (loadContainer host r w config path).error ≠ none ∧
    (loadContainer host r w config path).world = w ∧
    (host.querySelector ("#".toList ++ id) = .null →
      (loadContainer host r w config path).error = some .containerNotFound) := by
  unfold loadContainer
  rw [hset]
  simp only [hc]
  cases hq2 : host.querySelector ("#".toList ++ id) with
  | invalid => simp
  | null => simp
  | element e => exact absurd hq2 (hq e)

/-- Lines 61-63 when the container is not found. -/
theorem mountAndPush_container_missing (host : Host) (r : Router) (w : World)
    (config : Option SubdomainEntry) (path : Str) (state : StateValue) (settings : Settings)
    (id : Str) (hset : r.settings = some settings) (hc : settings.container = .string id)
    (hq : ∀ e, host.querySelector ("#".toList ++ id) ≠ .element e) :
    (mountAndPush host r w config path state).error ≠ none ∧
    (mountAndPush host r w config path state).world = w ∧
    (host.querySelector ("#".toList ++ id) = .null →
      (mountAndPush host r w config path state).error = some .containerNotFound) := by
  have h := loadContainer_container_missing host r w config path settings id hset hc hq
  unfold mountAndPush
  dsimp only
  cases hm : (loadContainer host r w config path).error with
  | none => exact absurd hm h.1
  | some err =>
    simp only []
    refine ⟨by simp, h.2.1, ?_⟩
    intro hn
    rw [← hm]
    exact h.2.2 hn

/-- With a container that is not found, `navigate` fails and leaves the
document and the history alone, whatever the nesting. -/
theorem missing_container_frame (host : Host) (settings : Settings) (id : Str)
    (hc : settings.container = .string id)
    (hq : ∀ e, host.querySelector ("#".toList ++ id) ≠ .element e) (depth : Nat) :
    ∀ (r : Router) (w : World) (input : JsValue) (state : StateValue),
      r.settings = some settings →
      (navigate host depth r w input state).error ≠ none ∧
      (navigate host depth r w input state).world.children = w.children ∧
      (navigate host depth r w input state).world.history = w.history := by
  induction depth with
  | zero =>
    intro r w input state hset
    rcases navigate_cases host 0 r w input state with h | ⟨url, st, s, path, h1, h2, h3, h4⟩
    · exact ⟨h.1, by rw [h.2.2], by rw [h.2.2]⟩
    · have hst : st = settings := by rw [hset] at h3; exact (Option.some.inj h3).symm
      subst hst
      rw [navigate_of_url host 0 r w input state url st s path h1 h2 h3 h4]
      have hf := afterLocation_frame r w s url
      cases findEntry st s with
      | some entry =>
        simp only []
        have hm := mountAndPush_container_missing host { r with subdomain := some s }
          (afterLocation r w s url) (some entry) path state st id hset hc hq
        exact ⟨hm.1, by rw [hm.2.1]; exact hf.1, by rw [hm.2.1]; exact hf.2⟩
      | none =>
        simp only []
        exact ⟨by simp, hf.1, hf.2⟩
  | succ d ih =>
    intro r w input state hset
    rcases navigate_cases host (d + 1) r w input state with
      h | ⟨url, st, s, path, h1, h2, h3, h4⟩
    · exact ⟨h.1, by rw [h.2.2], by rw [h.2.2]⟩
    · have hst : st = settings := by rw [hset] at h3; exact (Option.some.inj h3).symm
      subst hst
      rw [navigate_of_url host (d + 1) r w input state url st s path h1 h2 h3 h4]
      have hf := afterLocation_frame r w s url
      cases findEntry st s with
      | some entry =>
        simp only []
        have hm := mountAndPush_container_missing host { r with subdomain := some s }
          (afterLocation r w s url) (some entry) path state st id hset hc hq
        exact ⟨hm.1, by rw [hm.2.1]; exact hf.1, by rw [hm.2.1]; exact hf.2⟩
      | none =>
        simp only []
        have hn := ih { r with subdomain := some s } (afterLocation r w s url)
          (.string "/404".toList) state hset
        cases hne : (navigate host d { r with subdomain := some s } (afterLocation r w s url)
            (.string "/404".toList) state).error with
        | none => exact absurd hne hn.1
        | some err =>
          simp only []
          exact ⟨by simp, by rw [hn.2.1]; exact hf.1, by rw [hn.2.2]; exact hf.2⟩

/-- Claim C18: on a ready router whose container is an id that
`querySelector` does not find, `navigate` fails, leaves the children of
every element of the document as they were and pushes nothing; and when
the input is split into a subdomain that has an entry, the error is that
of line 78. -/
theorem navigate_container_missing (host : Host) (depth : Nat) (r : Router) (w : World)
    (input : JsValue) (state : StateValue) (settings : Settings) (id : Str)
    (hready : getReady r = true) (hset : r.settings = some settings)
    (hc : settings.container = .string id)
    (hq : host.querySelector ("#".toList ++ id) = .null) :
    (navigate host depth r w input state).error ≠ none ∧
    (navigate host depth r w input state).world.children = w.children ∧
    (navigate host depth r w input state).world.history = w.history ∧
    (∀ url s path entry, normalizeInput host input state = .ok url →
      domainSplit host settings url = some (s, path) → findEntry settings s = some entry →
      (navigate host depth r w input state).error = some .containerNotFound) := by
  have hq2 : ∀ e, host.querySelector ("#".toList ++ id) ≠ .element e := by
    intro e he
    rw [hq] at he
    exact Query.noConfusion he
  have h := missing_container_frame host settings id hc hq2 depth r w input state hset
  refine ⟨h.1, h.2.1, h.2.2, ?_⟩
  intro url s path entry hnorm hsplit hentry
  rw [navigate_of_url host depth r w input state url settings s path hready hnorm hset hsplit,
    hentry]
  simp only []
  exact (mountAndPush_container_missing host { r with subdomain := some s }
    (afterLocation r w s url) (some entry) path state settings id hset hc hq2).2.2 hq

/-- Witness of `navigate_container_missing`: the settings of the example
in a document without the element `app-root`. -/
theorem navigate_container_missing_witness :
    getReady demoRouter = true ∧ demoSettings.container = .string "app-root".toList ∧
    exampleHost.querySelector ("#".toList ++ "app-root".toList) = .null ∧
    (navigate exampleHost 2 demoRouter World.empty (.url plainURL) (.object 0)).error
      = some .containerNotFound ∧
    (navigate exampleHost 2 demoRouter World.empty (.url plainURL) (.object 0)).world.history
      = World.empty.history :=
  ⟨rfl, by decide, by decide,
    (navigate_container_missing exampleHost 2 demoRouter World.empty (.url plainURL) (.object 0)
      demoSettings "app-root".toList rfl rfl (by decide) (by decide)).2.2.2 plainURL
      "@".toList "a".toList demoEntry (by decide) (by decide) (by decide),
    (navigate_container_missing exampleHost 2 demoRouter World.empty (.url plainURL) (.object 0)
      demoSettings "app-root".toList rfl rfl (by decide) (by decide)).2.2.1⟩

/-! ## The ready flag and `init` (C19) -/

/-- Lines 61-63 leave the ready flag alone. -/
theorem mountAndPush_ready (host : Host) (r : Router) (w : World)
    (config : Option SubdomainEntry) (path : Str) (state : StateValue) :
    (mountAndPush host r w config path state).router.ready = r.ready := by
  have h := (loadContainer_frame host r w config path).2.2.1
  unfold mountAndPush
  dsimp only
  repeat' split
  all_goals exact h

/-- The method `navigate` leaves the ready flag alone. -/
theorem navigate_ready (host : Host) (depth : Nat) :
    ∀ (r : Router) (w : World) (input : JsValue) (state : StateValue),
      (navigate host depth r w input state).router.ready = r.ready := by
  induction depth with
  | zero =>
    intro r w input state
    rcases navigate_cases host 0 r w input state with h | ⟨url, st, s, path, h1, h2, h3, h4⟩
    · rw [h.2.1]
    · rw [navigate_of_url host 0 r w input state url st s path h1 h2 h3 h4]
      cases findEntry st s with
      | some entry => simp only []; rw [mountAndPush_ready]
      | none => rfl
  | succ d ih =>
    intro r w input state
    rcases navigate_cases host (d + 1) r w input state with
      h | ⟨url, st, s, path, h1, h2, h3, h4⟩
    · rw [h.2.1]
    · rw [navigate_of_url host (d + 1) r w input state url st s path h1 h2 h3 h4]
      cases findEntry st s with
      | some entry => simp only []; rw [mountAndPush_ready]
      | none =>
        simp only []
        have hn := ih { r with subdomain := some s } (afterLocation r w s url)
          (.string "/404".toList) state
        cases (navigate host d { r with subdomain := some s } (afterLocation r w s url)
            (.string "/404".toList) state).error with
        | some err => simp only []; rw [hn]
        | none => simp only []; rw [mountAndPush_ready, hn]

/-- What `#loadConfig` does with a string or a URL. -/
theorem loadConfig_fetch (host : Host) (config : JsValue)
    (hcfg : config.typeofString = true ∨ config.instanceofURL = true) :
    loadConfig host config =
      match host.fetch (fetchTarget config) with
      | none => ([fetchTarget config], .error .rejected)
      | some rs =>
        if !rs.ok then ([fetchTarget config], .error .fetchNotOk)
        else
          match parseState rs.text with
          | .ok (c, rl) => ([fetchTarget config], .ok (c.toSettingsIn rl))
          | .error .typeError => ([fetchTarget config], .error .typeError) := by
  cases config with
  | string s => simp [loadConfig, JsValue.typeofObject, JsValue.typeofString]
  | url u =>
    simp [loadConfig, JsValue.typeofObject, JsValue.typeofString, JsValue.instanceofURL,
      JsValue.not]
  | undefined => simp [JsValue.typeofString, JsValue.instanceofURL] at hcfg
  | null => simp [JsValue.typeofString, JsValue.instanceofURL] at hcfg
  | boolean b => simp [JsValue.typeofString, JsValue.instanceofURL] at hcfg
  | number n => simp [JsValue.typeofString, JsValue.instanceofURL] at hcfg
  | object o => simp [JsValue.typeofString, JsValue.instanceofURL] at hcfg

/-- The parser returns `c` exactly when `parseState` gives `c` with the
page the loop leaves. -/
theorem parseState_ok (text : Str) (c : Config) :
    parseProperties text = .ok c ↔ ∃ rl, parseState text = .ok (c, rl) := by
  unfold parseProperties parseLines parseState
  cases runLines Acc.init (keptLines text) with
  | error x => simp
  | ok acc =>
    simp only []
    cases finish acc with
    | error x => simp
    | ok c2 => simp

/-- The parser throws exactly when `parseState` does. -/
theorem parseState_error (text : Str) (f : Fault) :
    parseProperties text = .error f ↔ parseState text = .error f := by
  unfold parseProperties parseLines parseState
  cases runLines Acc.init (keptLines text) with
  | error x => simp
  | ok acc =>
    simp only []
    cases finish acc with
    | error x => simp
    | ok c2 => simp

/-- The page the parser leaves when no accepted line assigns a property of
a prototype object: nothing is assigned on `Object.prototype`, and the
configuration is the grouping of the accepted lines. -/
theorem parseState_pristine (text : Str) (c : Config) (rl : Realm)
    (hw : ∀ kv ∈ acceptedLines text, writesPrototype kv = false)
    (h : parseState text = .ok (c, rl)) :
    c = groupConfig (acceptedLines text) ∧ rl.objectPrototype = [] := by
  have hc := parseLines_groups (keptLines text) c hw ((parseState_ok text c).2 ⟨rl, h⟩)
  refine ⟨hc, ?_⟩
  unfold parseState at h
  cases hr : runLines Acc.init (keptLines text) with
  | error x =>
    rw [hr] at h
    cases h
  | ok acc =>
    rw [hr] at h
    simp only [] at h
    have hG : Acc.init.Groups [] := by
      rw [← groupAcc_nil]
      exact ⟨rfl, rfl, rfl, rfl⟩
    have h2 := runLines_groups (keptLines text) Acc.init acc [] hG hw hr
    cases hf : finish acc with
    | error x =>
      rw [hf] at h
      cases h
    | ok c2 =>
      rw [hf] at h
      simp only [Except.ok.injEq, Prod.mk.injEq] at h
      rw [← h.2]
      exact h2.2.2.2

/-- The grouping of the accepted lines is read the same in every page
where nothing is assigned on `Object.prototype`. -/
theorem toSettingsIn_pristine (rl : Realm) (hP : rl.objectPrototype = []) (L : List KV) :
    (groupConfig L).toSettingsIn rl = (groupConfig L).toSettings := by
  have hread : ∀ (own : Option Value) (k : Str),
      readData rl own k = readData Realm.initial own k := by
    intro own k
    cases own with
    | some v => rfl
    | none => simp only [readData, hP, Realm.initial]
  have hroute : ∀ (rec : RouteRecord) (k : Str),
      RouteValue.read rl (RouteValue.ofRecord rec) k
        = RouteValue.read Realm.initial (RouteValue.ofRecord rec) k := by
    intro rec k
    simp only [RouteValue.read, RouteValue.ofRecord, hread]
  unfold Config.toSettings Config.toSettingsIn
  simp only [hread, groupConfig, List.map_map, Function.comp_def, hroute]

/-- What `#loadConfig` does with a value that is no string and no URL. -/
theorem loadConfig_other (host : Host) (config : JsValue)
    (h1 : config.typeofString = false) (h2 : config.instanceofURL = false) :
    loadConfig host config = ([], .error .invalidConfig) := by
  cases config with
  | string s => simp [JsValue.typeofString] at h1
  | url u => simp [JsValue.instanceofURL] at h2
  | undefined => rfl
  | null => rfl
  | boolean b => rfl
  | number n => rfl
  | object o => rfl

/-- Counterexample to claim C19: the response for `bad.properties` is ok,
but `parseProperties` throws on its text, so `init` fails, stores nothing
and the router is not ready. -/
theorem init_ok_response_rejected :
    demoHost.fetch "https://example.com/bad.properties".toList
      = some ⟨true, "a.routes.constructor.name=x".toList⟩ ∧
    parseProperties "a.routes.constructor.name=x".toList = .error .typeError ∧
    (init demoHost Router.fresh (.string "https://example.com/bad.properties".toList)).error
      = some .typeError ∧
    (init demoHost Router.fresh (.string "https://example.com/bad.properties".toList)).router
      = Router.fresh ∧
    getReady (init demoHost Router.fresh
      (.string "https://example.com/bad.properties".toList)).router = false := by
  refine ⟨by decide, by decide, by decide, by decide, by decide⟩

/-- Claim C19, amended: `getReady` is false on a fresh router and becomes
true only by an `init` without error (`navigate` leaves the flag alone).
For a config that is a string or a URL, `init` fetches it and, if the
response is ok and `parseProperties` returns on its text, stores what it
returns as the settings and sets ready: the settings are that
configuration as it is read in the page the parser leaves, and, when no
accepted line assigns a property of a prototype object, as it is read in
any page.  If the response is not ok, or `parseProperties` throws on its
text, or the config is neither a string nor a URL (a number, say), `init`
fails and leaves the router, so the ready flag and the settings stored,
unchanged. -/
theorem init_spec (host : Host) (r : Router) (config : JsValue)
    (hcfg : config.typeofString = true ∨ config.instanceofURL = true) :
    getReady Router.fresh = false ∧
    (init host r config).fetched = [fetchTarget config] ∧
    (∀ rs c, host.fetch (fetchTarget config) = some rs → rs.ok = true →
      parseProperties rs.text = .ok c →
      (init host r config).error = none ∧
      (∃ rl, parseState rs.text = .ok (c, rl) ∧
        (init host r config).router.settings = some (c.toSettingsIn rl)) ∧
      ((∀ kv ∈ acceptedLines rs.text, writesPrototype kv = false) →
        (init host r config).router.settings = some c.toSettings) ∧
      getReady (init host r config).router = true) ∧
    (∀ rs, host.fetch (fetchTarget config) = some rs →
      (rs.ok = false ∨ ∃ f, parseProperties rs.text = .error f) →
      (init host r config).error ≠ none ∧ (init host r config).router = r) ∧
    (∀ other : JsValue, other.typeofString = false → other.instanceofURL = false →
      (init host r other).error = some .invalidConfig ∧ (init host r other).router = r ∧
      (init host r other).fetched = []) ∧
    (∀ other : JsValue, getReady (init host r other).router = true →
      getReady r = true ∨ (init host r other).error = none) ∧
    (∀ depth w input state,
      getReady (navigate host depth r w input state).router = getReady r) := by
  have hl := loadConfig_fetch host config hcfg
  refine ⟨rfl, ?_, ?_, ?_, ?_, ?_, ?_⟩
  · unfold init
    rw [hl]
    cases host.fetch (fetchTarget config) with
    | none => rfl
    | some rs =>
      cases hok : rs.ok with
      | false => simp [hok]
      | true =>
        rcases hp : parseState rs.text with f | cr
        · cases f
          simp [hok, hp]
        · obtain ⟨c, rl⟩ := cr
          simp [hok, hp]
  · intro rs c hf hok hp
    obtain ⟨rl, hrl⟩ := (parseState_ok rs.text c).1 hp
    have hs : (init host r config).router.settings = some (c.toSettingsIn rl) := by
      unfold init
      rw [hl, hf]
      simp [hok, hrl]
    refine ⟨?_, ⟨rl, hrl, hs⟩, ?_, ?_⟩
    · unfold init
      rw [hl, hf]
      simp [hok, hrl]
    · intro hw
      obtain ⟨hc, hP⟩ := parseState_pristine rs.text c rl hw hrl
      rw [hs, hc, toSettingsIn_pristine rl hP]
    · unfold init
      rw [hl, hf]
      simp [hok, hrl, getReady]
  · intro rs hf hbad
    have herr : (init host r config).error ≠ none := by
      unfold init
      rw [hl, hf]
      rcases hbad with hok | ⟨f, hp⟩
      · simp [hok]
      · cases hok : rs.ok with
        | false => simp [hok]
        | true =>
          have hp2 := (parseState_error rs.text f).1 hp
          cases f
          simp [hok, hp2]
    exact ⟨herr, init_error_router host r config herr⟩
  · intro other h1 h2
    unfold init
    rw [loadConfig_other host other h1 h2]
    exact ⟨rfl, rfl, rfl⟩
  · intro other hr
    by_cases he : (init host r other).error = none
    · exact Or.inr he
    · rw [init_error_router host r other he] at hr
      exact Or.inl hr
  · intro depth w input state
    exact navigate_ready host depth r w input state

/-- Witness of `init_spec`: `init` of a fresh router with the address of
the example of section 6. -/
theorem init_spec_witness :
    (JsValue.string "https://example.com/router.properties".toList).typeofString = true ∧
    demoHost.fetch "https://example.com/router.properties".toList = some ⟨true, exampleText⟩ ∧
    parseProperties exampleText = .ok exampleConfig ∧
    (∀ kv ∈ acceptedLines exampleText, writesPrototype kv = false) ∧
    (init demoHost Router.fresh
      (.string "https://example.com/router.properties".toList)).error = none ∧
    (init demoHost Router.fresh
      (.string "https://example.com/router.properties".toList)).router.settings
      = some exampleConfig.toSettings ∧
    getReady (init demoHost Router.fresh
      (.string "https://example.com/router.properties".toList)).router = true :=
  ⟨rfl, rfl, rfl, by decide,
    ((init_spec demoHost Router.fresh (.string "https://example.com/router.properties".toList)
      (Or.inl rfl)).2.2.1 ⟨true, exampleText⟩ exampleConfig rfl rfl rfl).1,
    ((init_spec demoHost Router.fresh (.string "https://example.com/router.properties".toList)
      (Or.inl rfl)).2.2.1 ⟨true, exampleText⟩ exampleConfig rfl rfl rfl).2.2.1 (by decide),
    ((init_spec demoHost Router.fresh (.string "https://example.com/router.properties".toList)
      (Or.inl rfl)).2.2.1 ⟨true, exampleText⟩ exampleConfig rfl rfl rfl).2.2.2⟩

/-! ## BienUtils.importer (C20) -/

/-- The keys of `Directories`, in the order of `Object.keys`. -/
theorem objectKeys_Directories :
    objectKeys Directories
      = ["create".toList, "fill".toList, "handle".toList, "helper".toList,
         "validate".toList] := by
  decide

/-- The key `importer` finds is a key of `Directories` that is a prefix of
the name, and no key before it is one. -/
theorem keyFound_some (m k : Str) (h : keyFound Directories m = some k) :
    startsWith m k = true ∧
    ∃ pre post, objectKeys Directories = pre ++ k :: post ∧
      ∀ x ∈ pre, startsWith m x = false := by
  unfold keyFound at h
  rw [List.find?_eq_some] at h
  obtain ⟨hp, pre, post, hk, hpre⟩ := h
  refine ⟨hp, pre, post, hk, ?_⟩
  intro x hx
  simpa using hpre x hx

/-- A key `importer` finds has a directory and is not the empty string. -/
theorem keyFound_directory (m k : Str) (h : keyFound Directories m = some k) :
    k ≠ [] ∧ ∃ dir, getOwn Directories k = some dir := by
  have hmem : k ∈ objectKeys Directories := by
    unfold keyFound at h
    exact List.mem_of_find?_eq_some h
  rw [objectKeys_Directories] at hmem
  simp only [List.mem_cons, List.mem_singleton, List.not_mem_nil, or_false] at hmem
  rcases hmem with rfl | rfl | rfl | rfl | rfl
  · exact ⟨by decide, _, rfl⟩
  · exact ⟨by decide, _, rfl⟩
  · exact ⟨by decide, _, rfl⟩
  · exact ⟨by decide, _, rfl⟩
  · exact ⟨by decide, _, rfl⟩

/-- Claim C20: after `init`, `importer` fails without importing anything
when its argument is not a string or no key of `Directories` (`create`,
`fill`, `handle`, `helper`, `validate`) is a prefix of it; whenever some
key is a prefix of the name `m`, the search of line 211 succeeds: with
`k` the first key that is a prefix of `m`, `importer` imports the one
path made of the origin, `/modules/`, the directory of `k`, `/`, `m` and
`.js`, and it resolves to the default export of the module, or fails with
the wrapped error when the import fails.  For every name listed in
`Version.content` under a category, the path imported is in the
directory of that category: `handleTel` is imported from `handlers`. -/
theorem importer_spec {α : Type} (importModule : Str → Option α) (module : JsValue) :
    objectKeys Directories
      = ["create".toList, "fill".toList, "handle".toList, "helper".toList,
         "validate".toList] ∧
    (module.typeofString = false →
      (importer BienUtils.loaded importModule module).imported = [] ∧
      (importer BienUtils.loaded importModule module).outcome = .error .notAString) ∧
    (∀ m, module = .string m → (∀ k ∈ objectKeys Directories, startsWith m k = false) →
      (importer BienUtils.loaded importModule module).imported = [] ∧
      (importer BienUtils.loaded importModule module).outcome = .error .noKey) ∧
    (∀ m, module = .string m → (∃ k ∈ objectKeys Directories, startsWith m k = true) →
      ∃ k pre post dir, objectKeys Directories = pre ++ k :: post ∧
        startsWith m k = true ∧ (∀ x ∈ pre, startsWith m x = false) ∧
        getOwn Directories k = some dir ∧
        (importer BienUtils.loaded importModule module).imported
          = [BienUtils.loaded.origin ++ "/modules/".toList ++ dir ++ "/".toList ++ m
              ++ ".js".toList] ∧
        (importer BienUtils.loaded importModule module).outcome
          = match importModule (BienUtils.loaded.origin ++ "/modules/".toList ++ dir
              ++ "/".toList ++ m ++ ".js".toList) with
            | some d => .ok d
            | none => .error .importFailed) ∧
    (∀ entry ∈ versionContent, ∀ n ∈ entry.2,
      (importer BienUtils.loaded (fun p => some p) (.string n)).imported
        = ["http://localhost:8081/modules/".toList ++ entry.1 ++ "/".toList ++ n
            ++ ".js".toList]) ∧
    (importer BienUtils.loaded (fun p => some p) (.string "handleTel".toList)).imported
      = ["http://localhost:8081/modules/handlers/handleTel.js".toList] ∧
    (importer BienUtils.loaded (fun p => some p) (.string "handleFoo".toList)).imported
      = ["http://localhost:8081/modules/handlers/handleFoo.js".toList] := by
  refine ⟨objectKeys_Directories, ?_, ?_, ?_, by decide, by decide, by decide⟩
  · intro h
    cases module with
    | string s => simp [JsValue.typeofString] at h
    | undefined => exact ⟨rfl, rfl⟩
    | null => exact ⟨rfl, rfl⟩
    | boolean b => exact ⟨rfl, rfl⟩
    | number n => exact ⟨rfl, rfl⟩
    | url u => exact ⟨rfl, rfl⟩
    | object o => exact ⟨rfl, rfl⟩
  · intro m hm hno
    subst hm
    have hk : keyFound Directories m = none := by
      unfold keyFound
      rw [List.find?_eq_none]
      intro x hx
      simp [hno x hx]
    simp only [importer, BienUtils.loaded, hk]
    exact ⟨trivial, trivial⟩
  · intro m hm hex
    subst hm
    cases hk : keyFound Directories m with
    | none =>
      exfalso
      obtain ⟨k, hkm, hpre⟩ := hex
      unfold keyFound at hk
      rw [List.find?_eq_none] at hk
      exact hk k hkm hpre
    | some k =>
      obtain ⟨hne, dir, hdir⟩ := keyFound_directory m k hk
      obtain ⟨hp, pre, post, hkeys, hpre⟩ := keyFound_some m k hk
      refine ⟨k, pre, post, dir, hkeys, hp, hpre, hdir, ?_⟩
      simp only [importer, BienUtils.loaded, hk, hne, if_false, importPath, hdir,
        Option.getD_some]
      cases importModule ("http://localhost:8081".toList ++ "/modules/".toList ++ dir
          ++ "/".toList ++ m ++ ".js".toList) with
      | some d => exact ⟨rfl, rfl⟩
      | none => exact ⟨rfl, rfl⟩

/-! ## helperSentinel: the validation of the arguments (C21) -/

/-- The test `!typeof input === "string"` of line 86 is false for every
input: `!typeof input` is the boolean `false`. -/
theorem typeof_test_false (input : JsValue) :
    strictEqString (JsValue.string (typeOf input)).not "string".toList = false := by
  simp [strictEqString, JsValue.not]

/-- Claim C21 fails: `helperSentinel(5, "any", "HTML")`, and likewise with
the input `null` or an object, does not fail with the validation error
but sends the request with that input.  Line 86 reads `!typeof input ===
"string"`, which is `(!typeof input) === "string"` and never true; so the
validation error is raised, and no request sent, exactly when the
profile or the encoding is not one of the three texts, whatever the input. -/
theorem helperSentinel_input_unchecked :
    (helperSentinel cleanService (.number 5) (.string "any".toList)
      (.string "HTML".toList)).requests
      = [⟨.number 5, .string "any".toList, .string "HTML".toList⟩] ∧
    (helperSentinel cleanService (.number 5) (.string "any".toList)
      (.string "HTML".toList)).outcome = .ok (some ⟨"clean".toList, false⟩) ∧
    (helperSentinel cleanService .null (.string "alnum".toList)
      (.string "ASCII".toList)).requests
      = [⟨.null, .string "alnum".toList, .string "ASCII".toList⟩] ∧
    (helperSentinel cleanService (.object demoSettings) (.string "numeric+dot".toList)
      (.string "UNICODE".toList)).outcome ≠ .error .validation ∧
    (∀ (service : SentinelRequest → SentinelReply) (input profile encoding : JsValue),
      ((helperSentinel service input profile encoding).outcome = .error .validation ↔
        ¬ ((profile = .string "alnum".toList ∨ profile = .string "numeric+dot".toList ∨
            profile = .string "any".toList) ∧
          (encoding = .string "HTML".toList ∨ encoding = .string "UNICODE".toList ∨
            encoding = .string "ASCII".toList))) ∧
      ((helperSentinel service input profile encoding).requests = [] ↔
        ¬ ((profile = .string "alnum".toList ∨ profile = .string "numeric+dot".toList ∨
            profile = .string "any".toList) ∧
          (encoding = .string "HTML".toList ∨ encoding = .string "UNICODE".toList ∨
            encoding = .string "ASCII".toList)))) := by
  refine ⟨by decide, by decide, by decide, by decide, ?_⟩
  intro service input profile encoding
  have hp : (strictEqString profile "alnum".toList ||
      strictEqString profile "numeric+dot".toList ||
      strictEqString profile "any".toList) = true ↔
      (profile = .string "alnum".toList ∨ profile = .string "numeric+dot".toList ∨
        profile = .string "any".toList) := by
    simp only [strictEqString, Bool.or_eq_true, decide_eq_true_eq, or_assoc]
  have he : (strictEqString encoding "HTML".toList ||
      strictEqString encoding "UNICODE".toList ||
      strictEqString encoding "ASCII".toList) = true ↔
      (encoding = .string "HTML".toList ∨ encoding = .string "UNICODE".toList ∨
        encoding = .string "ASCII".toList) := by
    simp only [strictEqString, Bool.or_eq_true, decide_eq_true_eq, or_assoc]
  unfold helperSentinel
  rw [typeof_test_false]
  cases hgp : (strictEqString profile "alnum".toList ||
      strictEqString profile "numeric+dot".toList || strictEqString profile "any".toList)
  · have hn : ¬ (profile = .string "alnum".toList ∨ profile = .string "numeric+dot".toList ∨
        profile = .string "any".toList) := by
      intro h
      rw [hp.2 h] at hgp
      exact Bool.noConfusion hgp
    simp only [Bool.false_or, Bool.not_false, Bool.true_or, if_true]
    exact ⟨⟨fun _ h => hn h.1, fun _ => trivial⟩, ⟨fun _ h => hn h.1, fun _ => trivial⟩⟩
  · cases hge : (strictEqString encoding "HTML".toList ||
        strictEqString encoding "UNICODE".toList || strictEqString encoding "ASCII".toList)
    · have hn : ¬ (encoding = .string "HTML".toList ∨ encoding = .string "UNICODE".toList ∨
          encoding = .string "ASCII".toList) := by
        intro h
        rw [he.2 h] at hge
        exact Bool.noConfusion hge
      simp only [Bool.false_or, Bool.not_false, Bool.not_true, if_true]
      exact ⟨⟨fun _ h => hn h.2, fun _ => trivial⟩, ⟨fun _ h => hn h.2, fun _ => trivial⟩⟩
    · have hP := And.intro (hp.1 hgp) (he.1 hge)
      simp only [Bool.false_or, Bool.not_true, Bool.false_eq_true, if_false]
      cases service ⟨input, profile, encoding⟩
      all_goals
        refine ⟨⟨fun h => ?_, fun h => absurd hP h⟩, ⟨fun h => ?_, fun h => absurd hP h⟩⟩
      all_goals simp at h

/-! ## The validators (C22) -/

/-- The step of lines 29-33 leaves the value alone. -/
theorem markHostility_value (target : InputElement) (rs : Option Sentinel) :
    (markHostility target rs).value = target.value := by
  unfold markHostility
  cases rs with
  | none => rfl
  | some rs =>
    obtain ⟨v, h⟩ := rs
    cases h <;> rfl

/-- What `helperSentinel` does with a string and valid profile and
encoding: one request, and what the service answers. -/
theorem helperSentinel_valid (service : SentinelRequest → SentinelReply) (v profile : Str)
    (hp : profile = "any".toList ∨ profile = "numeric+dot".toList) (rs : Option Sentinel)
    (h : service ⟨.string v, .string profile, .string "HTML".toList⟩ = .json rs) :
    helperSentinel service (.string v) (.string profile) (.string "HTML".toList)
      = ⟨[⟨.string v, .string profile, .string "HTML".toList⟩], .ok rs⟩ := by
  unfold helperSentinel
  rw [typeof_test_false, h]
  rcases hp with rfl | rfl <;> rfl

/-- Claim C22 fails: on a blur event, or a keydown event with the key
`Enter`, with the service answering `{ value: "clean", hostility: false }`,
`validateString` and `validateNumber` send the request and leave the
value of the input as it was: neither writes `e.target.value`, for any
event and any answer.  The rest of the claim holds: `data-value` is set
to `hostil` when the answer is hostile and left alone otherwise, and a
keydown event with another key sends nothing and changes nothing. -/
theorem validators_keep_value :
    validateString cleanService
        ⟨"blur".toList, none, ⟨"<b>".toList, [], none⟩⟩
      = ⟨[⟨.string "<b>".toList, .string "any".toList, .string "HTML".toList⟩], false,
          ⟨"<b>".toList, [], none⟩⟩ ∧
    validateNumber cleanService
        ⟨"keydown".toList, some "Enter".toList, ⟨"1x".toList, [], none⟩⟩
      = ⟨[⟨.string "1x".toList, .string "numeric+dot".toList, .string "HTML".toList⟩], false,
          ⟨"1x".toList, [], none⟩⟩ ∧
    (∀ (service : SentinelRequest → SentinelReply) (e : Event),
      (validateString service e).target.value = e.target.value ∧
      (validateNumber service e).target.value = e.target.value) ∧
    (∀ (service : SentinelRequest → SentinelReply) (e : Event) (rs : Sentinel),
      ¬ (e.type = "keydown".toList ∧ e.key ≠ some "Enter".toList) → e.target.value ≠ [] →
      (service ⟨.string e.target.value, .string "any".toList, .string "HTML".toList⟩
          = .json (some rs) →
        (validateString service e).target.dataValue
          = if rs.hostility then some "hostil".toList else e.target.dataValue) ∧
      (service ⟨.string e.target.value, .string "numeric+dot".toList, .string "HTML".toList⟩
          = .json (some rs) →
        (validateNumber service e).target.dataValue
          = if rs.hostility then some "hostil".toList else e.target.dataValue)) ∧
    (∀ (service : SentinelRequest → SentinelReply) (e : Event),
      e.type = "keydown".toList → e.key ≠ some "Enter".toList →
      validateString service e = ⟨[], false, e.target⟩ ∧
      validateNumber service e = ⟨[], false, e.target⟩) := by
  refine ⟨by decide, by decide, ?_, ?_, ?_⟩
  · intro service e
    constructor
    · unfold validateString
      split
      · rfl
      · split
        · rfl
        · split
          · rfl
          · exact markHostility_value _ _
    · unfold validateNumber
      split
      · rfl
      · split
        · rfl
        · exact markHostility_value _ _
  · intro service e rs hk hv
    constructor
    · intro hs
      unfold validateString
      rw [if_neg hk, if_neg hv,
        helperSentinel_valid service e.target.value "any".toList (Or.inl rfl) (some rs) hs]
      obtain ⟨v, h⟩ := rs
      cases h <;> rfl
    · intro hs
      unfold validateNumber
      rw [if_neg hk,
        helperSentinel_valid service e.target.value "numeric+dot".toList (Or.inr rfl) (some rs)
          hs]
      obtain ⟨v, h⟩ := rs
      cases h <;> rfl
  · intro service e ht hk
    constructor
    · unfold validateString
      rw [if_pos ⟨ht, hk⟩]
    · unfold validateNumber
      rw [if_pos ⟨ht, hk⟩]

/-! ## handleString (C23) -/

theorem replaceRegex_of_no_match (c : Char) (cs : Str) (h : regexMatch (c :: cs) = 0) :
    replaceRegex 0 (c :: cs) = c :: replaceRegex 0 cs := by
  rw [replaceRegex, h]

theorem replaceRegex_of_match (c : Char) (cs : Str) (n : Nat)
    (h : regexMatch (c :: cs) = n + 1) : replaceRegex 0 (c :: cs) = replaceRegex n cs := by
  rw [replaceRegex, h]

/-- The replacement only leaves characters out. -/
theorem replaceRegex_sublist (s : Str) : ∀ n, (replaceRegex n s).Sublist s := by
  induction s with
  | nil => intro n; cases n <;> exact List.Sublist.slnil
  | cons c cs ih =>
    intro n
    cases n with
    | succ n => exact (ih n).cons c
    | zero =>
      cases h : regexMatch (c :: cs) with
      | zero => rw [replaceRegex_of_no_match c cs h]; exact (ih 0).cons₂ c
      | succ m => rw [replaceRegex_of_match c cs m h]; exact (ih m).cons c

/-- Where the pattern does not match, there is no semicolon, no quote and
no control character. -/
theorem regexMatch_eq_zero (c : Char) (cs : Str) (h : regexMatch (c :: cs) = 0) :
    startsWithCI (c :: cs) ";".toList = false ∧ isQuote c = false ∧ isControl c = false := by
  unfold regexMatch at h
  by_cases h1 : startsWithCI (c :: cs) "--".toList = true
  · rw [if_pos h1] at h; exact absurd h (by decide)
  rw [if_neg h1] at h
  by_cases h2 : startsWithCI (c :: cs) ";".toList = true
  · rw [if_pos h2] at h; exact absurd h (by decide)
  rw [if_neg h2] at h
  by_cases h3 : keywordAt (c :: cs) "or".toList = true
  · rw [if_pos h3] at h; exact absurd h (by decide)
  rw [if_neg h3] at h
  by_cases h4 : keywordAt (c :: cs) "and".toList = true
  · rw [if_pos h4] at h; exact absurd h (by decide)
  rw [if_neg h4] at h
  by_cases h5 : startsWithCI (c :: cs) "<script>".toList = true
  · rw [if_pos h5] at h; exact absurd h (by decide)
  rw [if_neg h5] at h
  by_cases h6 : startsWithCI (c :: cs) "</script>".toList = true
  · rw [if_pos h6] at h; exact absurd h (by decide)
  rw [if_neg h6] at h
  by_cases h7 : startsWithCI (c :: cs) "onerror=".toList = true
  · rw [if_pos h7] at h; exact absurd h (by decide)
  rw [if_neg h7] at h
  by_cases h8 : startsWithCI (c :: cs) "onclick=".toList = true
  · rw [if_pos h8] at h; exact absurd h (by decide)
  rw [if_neg h8] at h
  by_cases h9 : isQuote c = true
  · simp only [h9, if_true] at h; exact absurd h (by decide)
  by_cases h10 : isControl c = true
  · simp only [h9, h10, if_true, if_false] at h; exact absurd h (by decide)
  exact ⟨by simpa using h2, by simpa using h9, by simpa using h10⟩

/-- At a semicolon, a quote or a control character the pattern matches. -/
theorem regexMatch_single (c : Char) (cs : Str)
    (h : c = ';' ∨ isQuote c = true ∨ isControl c = true) : regexMatch (c :: cs) ≠ 0 := by
  intro h0
  obtain ⟨h2, h9, h10⟩ := regexMatch_eq_zero c cs h0
  rcases h with h | h | h
  · subst h
    have : startsWithCI (';' :: cs) ";".toList = true := rfl
    rw [this] at h2
    exact Bool.noConfusion h2
  · rw [h9] at h; exact Bool.noConfusion h
  · rw [h10] at h; exact Bool.noConfusion h

/-- The replacement leaves no semicolon, no quote and no control character. -/
theorem replaceRegex_no_single (s : Str) :
    ∀ n, ∀ c ∈ replaceRegex n s, c ≠ ';' ∧ isQuote c = false ∧ isControl c = false := by
  induction s with
  | nil => intro n c hc; cases n <;> simp [replaceRegex] at hc
  | cons d ds ih =>
    intro n c hc
    cases n with
    | succ n => exact ih n c hc
    | zero =>
      cases h : regexMatch (d :: ds) with
      | succ m =>
        rw [replaceRegex_of_match d ds m h] at hc
        exact ih m c hc
      | zero =>
        rw [replaceRegex_of_no_match d ds h, List.mem_cons] at hc
        rcases hc with rfl | hc
        · refine ⟨?_, ?_, ?_⟩
          · intro hd
            exact regexMatch_single c ds (Or.inl hd) h
          · cases hq : isQuote c with
            | false => rfl
            | true => exact absurd h (regexMatch_single c ds (Or.inr (Or.inl hq)))
          · cases hq : isControl c with
            | false => rfl
            | true => exact absurd h (regexMatch_single c ds (Or.inr (Or.inr hq)))
        · exact ih 0 c hc

/-- Claim C23 fails: what `handleString` leaves of `-;-` is `--`, which
a second run removes; of `<scr;ipt>` it leaves `<script>`, of `on"click=`
it leaves `onclick=`, and of ` O OR R ` the keyword ` OR `.  The matches
are left out in one scan from the left, and what remains is not scanned
again.  What does hold for every value: the handler only leaves
characters out, and it leaves no semicolon, no quote and no control
character. -/
theorem handleString_leaves_suspicious :
    (handleString (inputEvent "-;-".toList)).value = "--".toList ∧
    (handleString (inputEvent "--".toList)).value = [] ∧
    (handleString (inputEvent "<scr;ipt>".toList)).value = "<script>".toList ∧
    (handleString (inputEvent "on\"click=".toList)).value = "onclick=".toList ∧
    (handleString (inputEvent " O OR R ".toList)).value = " OR ".toList ∧
    (∀ e : Event, (handleString e).value.Sublist e.target.value ∧
      ∀ c ∈ (handleString e).value, c ≠ ';' ∧ isQuote c = false ∧ isControl c = false) := by
  refine ⟨by decide, by decide, by decide, by decide, by decide, ?_⟩
  intro e
  exact ⟨replaceRegex_sublist _ 0, replaceRegex_no_single _ 0⟩

/-! ## handleDecimal (C24) -/

/-- Claim C24 fails: what `handleDecimal` leaves of `1.2.3x` is `1.2.3`,
with two dots, and `..` is left as it is: the class `[^0-9.]` lets every
dot through and nothing counts them.  What does hold for every value:
the handler leaves exactly the digits and dots of the value, in their
order. -/
theorem handleDecimal_keeps_dots :
    (handleDecimal (inputEvent "1.2.3x".toList)).value = "1.2.3".toList ∧
    (handleDecimal (inputEvent "1.2.3x".toList)).value.count '.' = 2 ∧
    (handleDecimal (inputEvent "..".toList)).value = "..".toList ∧
    (∀ e : Event,
      (handleDecimal e).value = e.target.value.filter (fun c => decimalChars.contains c)) := by
  refine ⟨by decide, by decide, by decide, ?_⟩
  intro e
  unfold handleDecimal
  by_cases h : e.target.value.filter (fun c => decimalChars.contains c) ≠ e.target.value
  · simp only [h, if_true, ne_eq, not_false_eq_true]
  · simp only [h, if_false]
    exact (not_not.1 h).symm

/-! ## handleTel (C25) -/

/-- The characters `handleTel` lets through, one by one. -/
theorem mem_telChars (c : Char) (hc : c ∈ telChars) :
    c = '0' ∨ c = '1' ∨ c = '2' ∨ c = '3' ∨ c = '4' ∨ c = '5' ∨ c = '6' ∨ c = '7' ∨
      c = '8' ∨ c = '9' ∨ c = '(' ∨ c = ')' ∨ c = '+' ∨ c = '-' := by
  simpa [telChars] using hc

/-- In a string of characters that `handleTel` lets through, only the
alternative `--` of the pattern can match. -/
theorem regexMatch_tel (c : Char) (cs : Str) (hall : ∀ x ∈ c :: cs, x ∈ telChars) :
    regexMatch (c :: cs) = 0 ∨
      (regexMatch (c :: cs) = 2 ∧ c = '-' ∧ ∃ t, cs = '-' :: t) := by
  have hlow : ∀ (p : Char) (ps : Str), startsWithCI (c :: cs) (p :: ps) = true →
      c.toLower = p := by
    intro p ps h
    simp only [startsWithCI, List.length_cons, List.take_succ_cons, List.map_cons, beq_iff_eq,
      List.cons.injEq] at h
    exact h.1
  have hkw : ∀ w, keywordAt (c :: cs) w = true → isWhiteSpace c = true := by
    intro w h
    simp only [keywordAt, Bool.and_eq_true] at h
    exact h.1.1
  have hmem := mem_telChars c (hall c (List.mem_cons_self _ _))
  have hne : ∀ p : Char, p = ';' ∨ p = '<' ∨ p = 'o' → c.toLower ≠ p := by
    intro p hp
    rcases hmem with h | h | h | h | h | h | h | h | h | h | h | h | h | h <;>
      rcases hp with hp | hp | hp <;> subst h <;> subst hp <;> decide
  have hws : isWhiteSpace c = false := by
    rcases hmem with h | h | h | h | h | h | h | h | h | h | h | h | h | h <;> subst h <;> rfl
  have hq : isQuote c = false ∧ isControl c = false := by
    rcases hmem with h | h | h | h | h | h | h | h | h | h | h | h | h | h <;> subst h <;>
      exact ⟨rfl, rfl⟩
  have hdash : ∀ x ∈ telChars, x.toLower = '-' → x = '-' := by
    intro x hx hl
    rcases mem_telChars x hx with h | h | h | h | h | h | h | h | h | h | h | h | h | h <;>
      subst h <;> first | rfl | exact absurd hl (by decide)
  unfold regexMatch
  by_cases h1 : startsWithCI (c :: cs) "--".toList = true
  · right
    rw [if_pos h1]
    refine ⟨rfl, ?_⟩
    cases cs with
    | nil => exact absurd h1 (by simp [startsWithCI])
    | cons d t =>
      simp only [startsWithCI, String.toList, List.length_cons, List.take_succ_cons,
        List.map_cons, beq_iff_eq, List.cons.injEq] at h1
      have hc2 : c = '-' := hdash c (hall c (List.mem_cons_self _ _)) h1.1
      have hd2 : d = '-' :=
        hdash d (hall d (List.mem_cons_of_mem _ (List.mem_cons_self _ _))) h1.2.1
      exact ⟨hc2, t, by rw [hd2]⟩
  · left
    rw [if_neg h1]
    have h2 : ¬ startsWithCI (c :: cs) ";".toList = true :=
      fun h => hne ';' (Or.inl rfl) (hlow _ _ h)
    have h3 : ¬ keywordAt (c :: cs) "or".toList = true := fun h => by
      rw [hkw _ h] at hws; exact Bool.noConfusion hws
    have h4 : ¬ keywordAt (c :: cs) "and".toList = true := fun h => by
      rw [hkw _ h] at hws; exact Bool.noConfusion hws
    have h5 : ¬ startsWithCI (c :: cs) "<script>".toList = true :=
      fun h => hne '<' (Or.inr (Or.inl rfl)) (hlow _ _ h)
    have h6 : ¬ startsWithCI (c :: cs) "</script>".toList = true :=
      fun h => hne '<' (Or.inr (Or.inl rfl)) (hlow _ _ h)
    have h7 : ¬ startsWithCI (c :: cs) "onerror=".toList = true :=
      fun h => hne 'o' (Or.inr (Or.inr rfl)) (hlow _ _ h)
    have h8 : ¬ startsWithCI (c :: cs) "onclick=".toList = true :=
      fun h => hne 'o' (Or.inr (Or.inr rfl)) (hlow _ _ h)
    rw [if_neg h2, if_neg h3, if_neg h4, if_neg h5, if_neg h6, if_neg h7, if_neg h8]
    simp only [hq.1, hq.2, Bool.false_eq_true, if_false]

/-- A digit, a parenthesis or `+` is let through by `handleTel`. -/
theorem phoneChars_subset (c : Char) :
    (phoneChars.contains c && telChars.contains c) = phoneChars.contains c := by
  cases h : phoneChars.contains c with
  | false => rfl
  | true =>
    have hm : c = '0' ∨ c = '1' ∨ c = '2' ∨ c = '3' ∨ c = '4' ∨ c = '5' ∨ c = '6' ∨ c = '7' ∨
        c = '8' ∨ c = '9' ∨ c = '(' ∨ c = ')' ∨ c = '+' := by
      simpa [phoneChars] using h
    rcases hm with h | h | h | h | h | h | h | h | h | h | h | h | h <;> subst h <;> rfl

/-- In a string of characters that `handleTel` lets through, the
replacement of `handleString` leaves every digit, parenthesis and `+`. -/
theorem replaceRegex_tel (n : Nat) :
    ∀ s : Str, s.length ≤ n → (∀ x ∈ s, x ∈ telChars) →
      (replaceRegex 0 s).filter (fun c => phoneChars.contains c)
        = s.filter (fun c => phoneChars.contains c) := by
  induction n with
  | zero =>
    intro s hl _
    have : s = [] := List.length_eq_zero.1 (Nat.le_zero.1 hl)
    subst this
    rfl
  | succ n ih =>
    intro s hl hall
    cases s with
    | nil => rfl
    | cons c cs =>
      have hcs : ∀ x ∈ cs, x ∈ telChars := fun x hx => hall x (List.mem_cons_of_mem _ hx)
      have hlen : cs.length ≤ n := by
        simp only [List.length_cons] at hl
        omega
      rcases regexMatch_tel c cs hall with h0 | ⟨h2, hc, t, ht⟩
      · rw [replaceRegex_of_no_match c cs h0, List.filter_cons, List.filter_cons,
          ih cs hlen hcs]
      · subst hc
        subst ht
        rw [replaceRegex_of_match '-' ('-' :: t) 1 h2]
        have hstep : replaceRegex 1 ('-' :: t) = replaceRegex 0 t := rfl
        have hdash : phoneChars.contains '-' = false := by decide
        rw [hstep, List.filter_cons, List.filter_cons, hdash]
        simp only [Bool.false_eq_true, if_false]
        apply ih t
        · simp only [List.length_cons] at hlen
          omega
        · exact fun x hx => hcs x (List.mem_cons_of_mem _ hx)

/-- For every value: what `handleTel` leaves holds only digits, the
parentheses, `+` and `-`; every digit, parenthesis and `+` of the value
is kept, in the original order. -/
theorem handleTel_general (e : Event) :
    (∀ c ∈ (handleTel e).value, c ∈ telChars) ∧
    (handleTel e).value.filter (fun c => phoneChars.contains c)
      = e.target.value.filter (fun c => phoneChars.contains c) ∧
    (handleTel e).value.Sublist e.target.value := by
  have hsub : (handleTel e).value.Sublist
      (e.target.value.filter (fun c => telChars.contains c)) := replaceRegex_sublist _ 0
  have hall : ∀ x ∈ e.target.value.filter (fun c => telChars.contains c), x ∈ telChars := by
    intro x hx
    have := (List.mem_filter.1 hx).2
    simpa using this
  refine ⟨fun c hc => hall c (hsub.subset hc), ?_, hsub.trans (List.filter_sublist _)⟩
  have h := replaceRegex_tel _ (e.target.value.filter (fun c => telChars.contains c))
    (le_refl _) hall
  have h2 : (handleTel e).value
      = replaceRegex 0 (e.target.value.filter (fun c => telChars.contains c)) := rfl
  rw [h2, h, List.filter_filter]
  exact List.filter_congr (fun c _ => phoneChars_subset c)

/-- Claim C25 fails: what `handleTel` leaves of `1-2` is `1-2`: the class
`[^0-9()+-]` of line 38 lets the hyphen through, which is none of the
digits, parentheses and `+` that the claim and the documentation name,
and `handleString` only removes two hyphens in a row.  The rest of the
claim holds for every value: what is left holds nothing but digits,
parentheses, `+` and hyphens, and every digit, parenthesis and `+` of
the value is kept, in the original order. -/
theorem handleTel_keeps_hyphen :
    (handleTel (inputEvent "1-2".toList)).value = "1-2".toList ∧
    '-' ∈ (handleTel (inputEvent "1-2".toList)).value ∧
    '-' ∉ phoneChars ∧
    (handleTel (inputEvent "+54 (11) 4-5--6---7".toList)).value = "+54(11)4-56-7".toList ∧
    (∀ e : Event,
      (∀ c ∈ (handleTel e).value, c ∈ telChars) ∧
      (handleTel e).value.filter (fun c => phoneChars.contains c)
        = e.target.value.filter (fun c => phoneChars.contains c)) := by
  refine ⟨by decide, by decide, by decide, by decide, ?_⟩
  intro e
  exact ⟨(handleTel_general e).1, (handleTel_general e).2.1⟩

/-! ## handleEmailString (C26) -/

theorem contains_char_iff (l : Str) (a : Char) : l.contains a = true ↔ a ∈ l := by
  simp

theorem takeWhile_emailChar (l r : Str) (hl : ∀ c ∈ l, emailChar c = true) :
    (l ++ '@' :: r).takeWhile emailChar = l ∧ (l ++ '@' :: r).dropWhile emailChar = '@' :: r := by
  induction l with
  | nil =>
    have h : emailChar '@' = false := by decide
    simp [List.takeWhile_cons, List.dropWhile_cons, h]
  | cons x xs ih =>
    have h1 : emailChar x = true := hl x (List.mem_cons_self _ _)
    have h2 := ih (fun c hc => hl c (List.mem_cons_of_mem _ hc))
    simp only [List.cons_append, List.takeWhile_cons, List.dropWhile_cons, h1, if_true]
    exact ⟨by rw [h2.1], h2.2⟩

/-- The test of `emailRegex` holds exactly for the values of the form
`local@domain.tld`. -/
theorem emailRegexTest_iff (v : Str) : emailRegexTest v = true ↔ EmailForm v := by
  constructor
  · intro h
    unfold emailRegexTest at h
    have hv : v.takeWhile emailChar ++ v.dropWhile emailChar = v :=
      List.takeWhile_append_dropWhile emailChar v
    cases hd : v.dropWhile emailChar with
    | nil => rw [hd] at h; exact Bool.noConfusion h
    | cons x d =>
      rw [hd] at h hv
      by_cases hx : x = '@'
      · subst hx
        simp only [Bool.and_eq_true, bne_iff_ne, ne_eq, List.all_eq_true,
          contains_char_iff] at h
        obtain ⟨⟨hl, hall⟩, hdot⟩ := h
        have hne : d.drop 1 ≠ [] := by
          intro he
          rw [he] at hdot
          simp at hdot
        cases d with
        | nil => simp at hne
        | cons y rest =>
          simp only [List.drop_succ_cons, List.drop_zero] at hdot hne
          obtain ⟨a, b2, hab⟩ := List.append_of_mem hdot
          obtain ⟨z, hz⟩ : ∃ z, rest.dropLast ++ [z] = rest :=
            ⟨rest.getLast hne, List.dropLast_append_getLast hne⟩
          have hrest : rest = a ++ '.' :: (b2 ++ [z]) := by
            rw [hab] at hz
            rw [← hz]
            simp
          refine ⟨v.takeWhile emailChar, y :: a, b2 ++ [z], ?_, hl, by simp,
            by simp, ?_, ?_, ?_⟩
          · have h3 := hv.symm
            rw [hrest] at h3
            simpa using h3
          · intro c hc
            exact List.mem_takeWhile_imp hc
          · intro c hc
            apply hall
            rw [hrest]
            simp only [List.mem_cons, List.mem_append] at hc ⊢
            tauto
          · intro c hc
            apply hall
            rw [hrest]
            simp only [List.mem_cons, List.mem_append, List.mem_singleton] at hc ⊢
            tauto
      · exfalso
        have : (match x :: d with
            | '@' :: d =>
              v.takeWhile emailChar != [] && d.all emailChar && (d.drop 1).dropLast.contains '.'
            | _ => false) = false := by
          split
          · rename_i heq
            exact absurd (List.cons.inj heq).1 hx
          · rfl
        exact Bool.noConfusion (this.symm.trans h)
  · rintro ⟨l, d, t, rfl, hl, hd, ht, hal, had, hat⟩
    unfold emailRegexTest
    obtain ⟨h1, h2⟩ := takeWhile_emailChar l (d ++ '.' :: t) hal
    rw [h2]
    simp only [h1, Bool.and_eq_true, bne_iff_ne, ne_eq, List.all_eq_true,
      contains_char_iff]
    refine ⟨⟨hl, ?_⟩, ?_⟩
    · intro c hc
      simp only [List.mem_append, List.mem_cons] at hc
      rcases hc with hc | rfl | hc
      · exact had c hc
      · decide
      · exact hat c hc
    · cases d with
      | nil => exact absurd rfl hd
      | cons y d2 =>
        have ht2 : d2 ++ '.' :: t = (d2 ++ '.' :: t.dropLast) ++ [t.getLast ht] := by
          rw [List.append_assoc, List.cons_append, List.dropLast_append_getLast ht]
        simp only [List.cons_append, List.drop_succ_cons, List.drop_zero]
        rw [ht2, List.dropLast_concat]
        simp

/-- After `handleEmailString` the class `invalid-value` tells whether the
value was not of the form before `handleString` cleaned it. -/
theorem handleEmailString_class (e : Event) :
    "invalid-value".toList ∈ (handleEmailString e).classList ↔
      emailRegexTest e.target.value = false := by
  have hcl : (handleEmailString e).classList =
      if !emailRegexTest e.target.value then
        classListAdd e.target.classList "invalid-value".toList
      else classListRemove e.target.classList "invalid-value".toList := rfl
  rw [hcl]
  cases h : emailRegexTest e.target.value with
  | false =>
    simp only [Bool.not_false, if_true, classListAdd]
    split
    · rename_i hm; exact ⟨fun _ => trivial, fun _ => hm⟩
    · exact ⟨fun _ => trivial, fun _ => by simp⟩
  | true =>
    simp only [Bool.not_true, Bool.false_eq_true, if_false, classListRemove, List.mem_filter]
    constructor
    · intro hh; simp at hh
    · intro hh; exact Bool.noConfusion hh

/-- Claim C26 fails: on the value `"@b.co` the test of line 20 passes (the
quote is the local part), the class is not set, and `handleString` then
removes the quote: the input holds `@b.co`, which is not of the form,
without the class.  On a value with a tab inside, `a<TAB>b@c.de`, the
test fails, the class is added, and the cleaning leaves `ab@c.de`, of the
form, with the class.  The class tells about the value before the
cleaning of line 25, not about the value the input now holds. -/
theorem handleEmailString_stale_class :
    handleEmailString (inputEvent "\"@b.co".toList) = ⟨"@b.co".toList, [], none⟩ ∧
    ¬ EmailForm "@b.co".toList ∧
    handleEmailString (inputEvent "a\tb@c.de".toList)
      = ⟨"ab@c.de".toList, ["invalid-value".toList], none⟩ ∧
    EmailForm "ab@c.de".toList ∧
    (∀ e : Event, "invalid-value".toList ∈ (handleEmailString e).classList ↔
      ¬ EmailForm e.target.value) := by
  refine ⟨by decide, ?_, by decide, ?_, ?_⟩
  · intro h
    have h2 := (emailRegexTest_iff _).2 h
    exact absurd h2 (by decide)
  · exact (emailRegexTest_iff _).1 (by decide)
  · intro e
    rw [handleEmailString_class, ← emailRegexTest_iff]
    cases emailRegexTest e.target.value <;> simp

/-! ## Navigation: after the fallback (C27) -/

/-- Claim C27 fails: on the router of the example the subdomain `shop`
has no entry; the nested `navigate("/404")` succeeds, mounting the view
`404` and pushing `/404`; the outer call then goes on to line 61 with
`subdomainConfig` undefined: `#loadContainer` clears the container, puts
the spinner in it and throws a TypeError at `config.component`.  So the
outer call fails and leaves the spinner where the fallback had mounted.
In general, when the subdomain has no entry and the nested call succeeds,
the outer call fails. -/
theorem navigate_fails_after_fallback :
    findEntry demoSettings "shop".toList = none ∧
    (navigate demoHost 0 { demoRouter with subdomain := some "shop".toList } World.empty
      (.string "/404".toList) (.object 0)).error = none ∧
    (navigate demoHost 0 { demoRouter with subdomain := some "shop".toList } World.empty
      (.string "/404".toList) (.object 0)).world.children 0
      = [.mk "main".toList [.mk "notfound".toList []]] ∧
    (navigate demoHost 1 demoRouter World.empty (.url shopURL) (.object 0)).error
      = some .typeError ∧
    (navigate demoHost 1 demoRouter World.empty (.url shopURL) (.object 0)).world.children 0
      = [spinner] ∧
    (navigate demoHost 1 demoRouter World.empty (.url shopURL) (.object 0)).world.history
      = [(.object 0, "/404".toList)] ∧
    (∀ (host : Host) (d : Nat) (r : Router) (w : World) (input : JsValue) (state : StateValue)
      (url : URL) (settings : Settings) (s path : Str),
      getReady r = true → normalizeInput host input state = .ok url →
      r.settings = some settings → domainSplit host settings url = some (s, path) →
      findEntry settings s = none →
      (navigate host d { r with subdomain := some s } (afterLocation r w s url)
        (.string "/404".toList) state).error = none →
      (navigate host (d + 1) r w input state).error ≠ none) := by
  refine ⟨by decide, by decide, rfl, by decide, rfl, by decide, ?_⟩
  intro host d r w input state url settings s path hready hnorm hset hsplit hentry hnested
  rw [navigate_of_url host (d + 1) r w input state url settings s path hready hnorm hset hsplit,
    hentry]
  simp only [hnested]
  exact mountAndPush_none host _ _ path state

/-! ## The configuration the parser returns (C28) -/

/-- The order of `Object.keys` is a rearrangement of the keys. -/
theorem ownKeyOrder_perm (keys : List Str) : (ownKeyOrder keys).Perm keys := by
  rw [ownKeyOrder_eq]
  refine List.Perm.trans (List.Perm.append_right _ (List.perm_insertionSort _ _)) ?_
  have h := List.filter_append_perm (fun k : Str => (arrayIndex? k).isSome) keys
  have e : (keys.filter fun k => (arrayIndex? k).isNone)
      = keys.filter (fun k => !(arrayIndex? k).isSome) := by
    apply List.filter_congr
    intro k _
    cases arrayIndex? k <;> rfl
  rw [e]
  exact h

theorem ownKeyOrder_nodup (keys : List Str) (h : keys.Nodup) : (ownKeyOrder keys).Nodup :=
  (ownKeyOrder_perm keys).nodup_iff.2 h

/-- Lines 132-135 leave no entry with a property `_routes` of its own. -/
theorem finishEntry_routes (rl : Realm) (sub : TempSub) : (finishEntry rl sub)._routes = none := by
  unfold finishEntry
  cases h : sub._routes with
  | some d => rfl
  | none =>
    simp only []
    repeat' split
    all_goals first
      | exact h
      | rfl

/-! ## The state of the loop when no line seeds `Object.prototype` -/

theorem keys_setOwn {β : Type} (o : Props β) (k : Str) (v : β) :
    (setOwn o k v).map Prod.fst
      = if k ∈ o.map Prod.fst then o.map Prod.fst else o.map Prod.fst ++ [k] := by
  induction o with
  | nil => simp [setOwn]
  | cons p o ih =>
    obtain ⟨k2, v2⟩ := p
    by_cases h : k2 = k
    · subst h
      simp only [setOwn, if_true, List.map_cons, List.mem_cons, true_or]
    · have h2 : ¬ k = k2 := fun e => h e.symm
      simp only [setOwn, if_neg h, List.map_cons, ih, List.mem_cons, h2, false_or]
      split
      · rfl
      · rfl

theorem nodup_setOwn {β : Type} (o : Props β) (k : Str) (v : β)
    (h : (o.map Prod.fst).Nodup) : ((setOwn o k v).map Prod.fst).Nodup := by
  rw [keys_setOwn]
  split
  · exact h
  · rename_i hk
    rw [List.nodup_append]
    refine ⟨h, List.nodup_singleton k, ?_⟩
    intro a ha hb
    rw [List.mem_singleton] at hb
    exact hk (hb ▸ ha)

theorem mem_keys_setOwn {β : Type} (o : Props β) (k : Str) (v : β) (r : Str) :
    r ∈ (setOwn o k v).map Prod.fst ↔ r = k ∨ r ∈ o.map Prod.fst := by
  rw [keys_setOwn]
  split
  · rename_i hk
    constructor
    · exact Or.inr
    · rintro (rfl | h)
      · exact hk
      · exact h
  · simp only [List.mem_append, List.mem_singleton]
    tauto

theorem getOwn_isSome_iff {β : Type} (o : Props β) (k : Str) :
    (getOwn o k).isSome = true ↔ k ∈ o.map Prod.fst := by
  induction o with
  | nil => simp [getOwn]
  | cons p o ih =>
    obtain ⟨k2, v2⟩ := p
    by_cases h : k2 = k
    · subst h
      simp only [getOwn, if_true, Option.isSome_some, List.map_cons, List.mem_cons, true_or]
    · have h2 : ¬ k = k2 := fun e => h e.symm
      simp only [getOwn, if_neg h, ih, List.map_cons, List.mem_cons, h2, false_or]

theorem getOwn_of_mem {β : Type} (o : Props β) (k : Str) (v : β)
    (hn : (o.map Prod.fst).Nodup) (h : (k, v) ∈ o) : getOwn o k = some v := by
  induction o with
  | nil => cases h
  | cons p o ih =>
    obtain ⟨k2, v2⟩ := p
    simp only [List.map_cons, List.nodup_cons] at hn
    rcases List.mem_cons.1 h with e | h2
    · cases e
      simp [getOwn]
    · have hk : ¬ k2 = k := by
        intro e
        apply hn.1
        rw [e]
        exact List.mem_map.2 ⟨(k, v), h2, rfl⟩
      simp only [getOwn, if_neg hk]
      exact ih hn.2 h2

theorem ownEntries_perm {β : Type} (o : Props β) : (ownEntries o).Perm o := by
  unfold ownEntries
  refine List.Perm.trans (List.Perm.append_right _ (List.perm_insertionSort _ _)) ?_
  have h := List.filter_append_perm (fun p : Str × β => (arrayIndex? p.1).isSome) o
  have e : (o.filter fun p => (arrayIndex? p.1).isNone)
      = o.filter (fun p => !(arrayIndex? p.1).isSome) := by
    apply List.filter_congr
    intro p _
    cases arrayIndex? p.1 <;> rfl
  rw [e]
  exact h

theorem routeLinesOf_concat (k : Str) (L : List KV) (kv : KV) :
    ∀ q ∈ routeLinesOf k L, q ∈ routeLinesOf k (L ++ [kv]) := by
  intro q hq
  simp only [routeLinesOf, linesOf, List.filter_append, List.mem_append, List.mem_filter] at hq ⊢
  exact Or.inl hq

theorem mem_routeLinesOf_last (L : List KV) (kv : KV) (ht : isTopLevel kv = false)
    (hr : isRouteLine kv = true) : kv ∈ routeLinesOf (subdomainOf kv) (L ++ [kv]) := by
  simp only [routeLinesOf, linesOf, List.mem_filter, List.mem_append, List.mem_singleton]
  refine ⟨⟨Or.inr trivial, ?_⟩, hr⟩
  simp [ht]

theorem sound_entry_concat (L : List KV) (kv : KV) (k : Str) (e : TempSub)
    (h : TempSub.Sound L k e) : TempSub.Sound (L ++ [kv]) k e := by
  obtain ⟨h1, h2, h3⟩ := h
  refine ⟨h1, h2, fun d hd => ⟨(h3 d hd).1, fun r hr => ?_⟩⟩
  obtain ⟨q, hq, hqr⟩ := (h3 d hd).2 r hr
  exact ⟨q, routeLinesOf_concat k L kv q hq, hqr⟩

theorem sound_concat (acc : Acc) (L : List KV) (kv : KV) (h : acc.Sound L) :
    acc.Sound (L ++ [kv]) :=
  ⟨h.1, h.2.1, fun k e hk => sound_entry_concat L kv k e (h.2.2 k e hk)⟩

theorem sound_frame (acc acc2 : Acc) (L : List KV) (h : acc.Sound L)
    (hT : acc2.tempSubs = acc.tempSubs)
    (hP : acc2.realm.objectPrototype = acc.realm.objectPrototype) : acc2.Sound L := by
  refine ⟨?_, ?_, ?_⟩
  · intro k v hk
    rw [hP] at hk
    exact h.1 k v hk
  · rw [hT]
    exact h.2.1
  · rw [hT]
    exact h.2.2

theorem sound_mapEntry (acc : Acc) (L : List KV) (s : Str) (f : TempSub → TempSub)
    (h : acc.Sound L)
    (hf : ∀ e, getOwn acc.tempSubs s = some e → TempSub.Sound L s e → TempSub.Sound L s (f e)) :
    (acc.mapEntry s f).Sound L := by
  unfold Acc.mapEntry
  cases hs : getOwn acc.tempSubs s with
  | none => exact h
  | some sub =>
    refine ⟨h.1, nodup_setOwn _ _ _ h.2.1, ?_⟩
    intro k e hk
    simp only [] at hk
    by_cases hks : s = k
    · subst hks
      rw [getOwn_setOwn] at hk
      cases hk
      exact hf sub hs (h.2.2 s sub hs)
    · rw [getOwn_setOwn_ne _ _ _ _ hks] at hk
      exact h.2.2 k e hk

theorem sound_create (acc : Acc) (L : List KV) (s : Str) (h : acc.Sound L) :
    Acc.Sound { acc with tempSubs := setOwn acc.tempSubs s ⟨s, [], none, none⟩ } L := by
  refine ⟨h.1, nodup_setOwn _ _ _ h.2.1, ?_⟩
  intro k e hk
  simp only [] at hk
  by_cases hks : s = k
  · subst hks
    rw [getOwn_setOwn] at hk
    cases hk
    exact ⟨rfl, rfl, fun d hd => by cases hd⟩
  · rw [getOwn_setOwn_ne _ _ _ _ hks] at hk
    exact h.2.2 k e hk

theorem unseeded_setOwn (p : Props Value) (k : Str) (s : Str)
    (h : ∀ k v, getOwn p k = some v → (∃ s, v = .str s) ∧ k ∉ seedKeys) (hk : k ∉ seedKeys) :
    ∀ k2 v, getOwn (setOwn p k (.str s)) k2 = some v → (∃ s, v = .str s) ∧ k2 ∉ seedKeys := by
  intro k2 v hv
  by_cases e : k = k2
  · subst e
    rw [getOwn_setOwn] at hv
    cases hv
    exact ⟨⟨s, rfl⟩, hk⟩
  · rw [getOwn_setOwn_ne _ _ _ _ e] at hv
    exact h k2 v hv

theorem restAt_unseeded (rl : Realm) (h : rl.unseeded) (rest : List Str) (i : Nat) (key : Str)
    (hk : key ∈ seedKeys) : restAt rl rest i key = rest.get? i := by
  unfold restAt
  cases rest.get? i with
  | some s => rfl
  | none =>
    simp only []
    cases hg : getOwn rl.objectPrototype key with
    | none => rfl
    | some v => exact absurd hk (h key v hg).2

theorem fromObjectPrototype_own {α : Type} (rl : Realm) (proto : Target α) (k : Str) (a : α)
    (hf : fromObjectPrototype rl proto k = .own a) : proto = .own a := by
  unfold fromObjectPrototype at hf
  split at hf
  · exact hf
  · split at hf
    · cases hf
    · cases hf
    · split at hf
      · cases hf
      · cases hf

theorem fromObjectPrototype_prototype {α : Type} (rl : Realm) (h : rl.unseeded)
    (proto : Target α) (k : Str) (path : List Str)
    (hf : fromObjectPrototype rl proto k = .place .objectPrototype path) :
    k = protoKey ∧ proto = .place .objectPrototype path := by
  unfold fromObjectPrototype at hf
  split at hf
  · rename_i hk
    exact ⟨hk, hf⟩
  · split at hf
    · cases hf
    · rename_i p hp
      obtain ⟨⟨s, hs⟩, _⟩ := h k _ hp
      cases hs
    · split at hf
      · cases hf
      · cases hf

theorem objectAt_prototype (rl : Realm) (h : rl.unseeded) (path : List Str) (props : Props Value)
    (ho : objectAt rl.objectPrototype path = some props) :
    path = [] ∧ props = rl.objectPrototype := by
  cases path with
  | nil =>
    simp only [objectAt, Option.some.injEq] at ho
    exact ⟨rfl, ho.symm⟩
  | cons q path =>
    unfold objectAt at ho
    split at ho
    · rename_i inner hq
      obtain ⟨⟨s, hs⟩, _⟩ := h q _ hq
      cases hs
    · cases ho

theorem readStored_prototype {α : Type} (rl : Realm) (h : rl.unseeded) (b : Builtin)
    (p : List Str) (k : Str) (path : List Str)
    (hr : (readStored rl b p k : Target α) = .place .objectPrototype path) :
    k = protoKey ∧ path = [] := by
  unfold readStored at hr
  split at hr
  · cases hr
  · rename_i inner hv
    simp only [Target.place.injEq] at hr
    obtain ⟨hb, _⟩ := hr
    subst hb
    exfalso
    cases ho : objectAt (rl.props .objectPrototype) p with
    | none =>
      rw [ho, Option.none_bind] at hv
      cases hv
    | some props =>
      have hp := objectAt_prototype rl h p props ho
      rw [ho, hp.2] at hv
      simp only [Option.some_bind] at hv
      obtain ⟨⟨s, hs⟩, _⟩ := h k _ hv
      cases hs
  · have := fromObjectPrototype_prototype rl h _ k path hr
    refine ⟨this.1, ?_⟩
    have h2 := this.2
    simp only [Target.place.injEq] at h2
    exact h2.2.symm

theorem readStored_own {α : Type} (rl : Realm) (b : Builtin) (p : List Str) (k : Str) (a : α) :
    (readStored rl b p k : Target α) ≠ .own a := by
  intro hr
  unfold readStored at hr
  split at hr
  · cases hr
  · cases hr
  · have := fromObjectPrototype_own rl _ k a hr
    cases this

theorem readString_own {α : Type} (rl : Realm) (s k : Str) (a : α) :
    (readString rl s k : Target α) ≠ .own a := by
  intro hr
  unfold readString at hr
  split at hr
  · cases hr
  · split at hr
    · cases hr
    · split at hr
      · cases hr
      · cases hr
      · split at hr
        · cases hr
        · have := fromObjectPrototype_own rl _ k a hr
          cases this

theorem readString_prototype {α : Type} (rl : Realm) (h : rl.unseeded) (s k : Str)
    (path : List Str) : (readString rl s k : Target α) ≠ .place .objectPrototype path := by
  intro hr
  unfold readString at hr
  split at hr
  · cases hr
  · split at hr
    · cases hr
    · split at hr
      · cases hr
      · cases hr
      · split at hr
        · cases hr
        · have := (fromObjectPrototype_prototype rl h _ k path hr).2
          cases this

/-- A read that yields an object of the parser started from one. -/
theorem readFrom_own {α β : Type} (rl : Realm) (t : Target α) (k : Str)
    (own : α → Option (Target β)) (a : β) (h : readFrom rl t k own = .ok (.own a)) :
    ∃ a0, t = .own a0 ∧ own a0 = some (.own a) := by
  unfold readFrom at h
  split at h
  · cases h
  · simp only [Except.ok.injEq] at h
    exact absurd h (readString_own rl _ k a)
  · simp only [Except.ok.injEq] at h
    have := fromObjectPrototype_own rl _ k a h
    cases this
  · rename_i a0
    simp only [Except.ok.injEq] at h
    cases ho : own a0 with
    | none =>
      rw [ho] at h
      have := fromObjectPrototype_own rl _ k a h
      cases this
    | some t2 =>
      rw [ho] at h
      simp only [Option.getD_some] at h
      exact ⟨a0, rfl, by rw [ho, h]⟩
  · simp only [Except.ok.injEq] at h
    exact absurd h (readStored_own rl _ _ k a)

/-- A read that yields `Object.prototype` went through `__proto__`. -/
theorem readFrom_prototype {α β : Type} (rl : Realm) (hu : rl.unseeded) (t : Target α) (k : Str)
    (own : α → Option (Target β)) (path : List Str)
    (hown : ∀ a0 t2, own a0 = some t2 → ∃ a, t2 = .own a)
    (h : readFrom rl t k own = .ok (.place .objectPrototype path)) :
    k = protoKey ∧ path = [] := by
  have hfo : ∀ p : List Str,
      (fromObjectPrototype rl (.place .objectPrototype []) k : Target β)
        = .place .objectPrototype p → k = protoKey ∧ p = [] := by
    intro p hp
    have := fromObjectPrototype_prototype rl hu _ k p hp
    refine ⟨this.1, ?_⟩
    have h2 := this.2
    simp only [Target.place.injEq] at h2
    exact h2.2.symm
  unfold readFrom at h
  split at h
  · cases h
  · simp only [Except.ok.injEq] at h
    exact absurd h (readString_prototype rl hu _ k path)
  · simp only [Except.ok.injEq] at h
    exact hfo path h
  · rename_i a0
    simp only [Except.ok.injEq] at h
    cases ho : own a0 with
    | none =>
      rw [ho] at h
      exact hfo path h
    | some t2 =>
      rw [ho] at h
      simp only [Option.getD_some] at h
      obtain ⟨a, ha⟩ := hown a0 t2 ho
      rw [ha] at h
      cases h
  · simp only [Except.ok.injEq] at h
    exact readStored_prototype rl hu _ _ k path h

theorem readSub_own (acc : Acc) (s a : Str) (h : readSub acc s = .own a) :
    a = s ∧ ∃ e, getOwn acc.tempSubs s = some e := by
  unfold readSub at h
  cases hg : getOwn acc.tempSubs s with
  | some e =>
    rw [hg] at h
    simp only [Target.own.injEq] at h
    exact ⟨h.symm, e, rfl⟩
  | none =>
    rw [hg] at h
    have := fromObjectPrototype_own acc.realm _ s a h
    cases this

theorem readSub_prototype (acc : Acc) (hu : acc.realm.unseeded) (s : Str) (path : List Str)
    (h : readSub acc s = .place .objectPrototype path) : s = protoKey ∧ path = [] := by
  unfold readSub at h
  cases hg : getOwn acc.tempSubs s with
  | some e =>
    rw [hg] at h
    cases h
  | none =>
    rw [hg] at h
    have := fromObjectPrototype_prototype acc.realm hu _ s path h
    refine ⟨this.1, ?_⟩
    have h2 := this.2
    simp only [Target.place.injEq] at h2
    exact h2.2.symm

theorem readRoutes_own (acc : Acc) (s a : Str) (h : readRoutes acc s = .ok (.own a)) :
    a = s ∧ ∃ e d, getOwn acc.tempSubs s = some e ∧ e._routes = some d := by
  unfold readRoutes at h
  obtain ⟨a0, ht, ho⟩ := readFrom_own _ _ _ _ a h
  have hs := (readSub_own acc s a0 ht).1
  subst hs
  cases hg : getOwn acc.tempSubs a0 with
  | none => simp [hg] at ho
  | some e =>
    cases hd : e._routes with
    | none => simp [hg, hd] at ho
    | some d =>
      simp only [hg, hd, Option.some_bind, Option.map_some', Option.some.injEq,
        Target.own.injEq] at ho
      exact ⟨ho.symm, e, d, rfl, hd⟩

theorem readRoutes_prototype (acc : Acc) (hu : acc.realm.unseeded) (s : Str) (path : List Str) :
    readRoutes acc s ≠ .ok (.place .objectPrototype path) := by
  intro h
  unfold readRoutes at h
  have := readFrom_prototype _ hu _ _ _ path ?_ h
  · exact absurd this.1 (by decide)
  · intro a0 t2 ht2
    cases hx : ((getOwn acc.tempSubs a0).bind fun sub => sub._routes) with
    | none => simp [hx] at ht2
    | some d =>
      simp only [hx, Option.map_some', Option.some.injEq] at ht2
      exact ⟨a0, ht2.symm⟩

theorem readRoute_own (acc : Acc) (s r : Str) (a : Str × Str)
    (h : readRoute acc s r = .ok (.own a)) :
    a = (s, r) ∧ ∃ e d record, getOwn acc.tempSubs s = some e ∧ e._routes = some d ∧
      getOwn d r = some record := by
  unfold readRoute at h
  cases hr : readRoutes acc s with
  | error x =>
    rw [hr] at h
    cases h
  | ok routes =>
    rw [hr] at h
    simp only [] at h
    obtain ⟨a0, ht, ho⟩ := readFrom_own _ _ _ _ a h
    rw [ht] at hr
    obtain ⟨hs, e, d, he, hd⟩ := readRoutes_own acc s a0 hr
    subst hs
    simp only [he, hd, Option.some_bind] at ho
    cases hg : getOwn d r with
    | none => simp [hg] at ho
    | some record =>
      simp only [hg, Option.map_some', Option.some.injEq, Target.own.injEq] at ho
      exact ⟨ho.symm, e, d, record, he, hd, hg⟩

theorem readRoute_prototype (acc : Acc) (hu : acc.realm.unseeded) (s r : Str)
    (path : List Str) (h : readRoute acc s r = .ok (.place .objectPrototype path)) :
    r = protoKey ∧ path = [] := by
  unfold readRoute at h
  cases hr : readRoutes acc s with
  | error x =>
    rw [hr] at h
    cases h
  | ok routes =>
    rw [hr] at h
    simp only [] at h
    refine readFrom_prototype _ hu _ _ _ path ?_ h
    intro a0 t2 ht2
    cases hx : (((getOwn acc.tempSubs a0).bind fun sub => sub._routes).bind fun d =>
        getOwn d r) with
    | none => simp [hx] at ht2
    | some d =>
      simp only [hx, Option.map_some', Option.some.injEq] at ht2
      exact ⟨(a0, r), ht2.symm⟩

/-- An assignment keeps the state sound when the objects of the parser it
changes stay sound and what it puts on `Object.prototype` is a string under
a name outside `seedKeys`. -/
theorem assignTo_sound {α : Type} (acc acc2 : Acc) (L : List KV) (t : Target α) (k : Str)
    (v : Value) (own : α → Acc) (hS : acc.Sound L)
    (hown : ∀ a, t = .own a → (own a).Sound L)
    (hP : k ≠ protoKey → ∀ path, t = .place .objectPrototype path →
      path = [] ∧ k ∉ seedKeys ∧ ∃ s, v = .str s)
    (h : assignTo acc t k v own = .ok acc2) : acc2.Sound L := by
  by_cases hk : k = protoKey
  · cases t <;> simp only [assignTo, if_pos hk] at h <;> cases h <;> exact hS
  · cases t with
    | undefined => cases h
    | str s =>
      simp only [assignTo, if_neg hk] at h
      cases h
    | primitive p =>
      simp only [assignTo, if_neg hk] at h
      cases h
    | own a =>
      simp only [assignTo, if_neg hk, Except.ok.injEq] at h
      rw [← h]
      exact hown a rfl
    | place b path =>
      simp only [assignTo, if_neg hk] at h
      cases hA : assignStored acc.realm b path k v with
      | error x =>
        rw [hA] at h
        cases h
      | ok rl2 =>
        rw [hA] at h
        simp only [Except.ok.injEq] at h
        rw [← h]
        unfold assignStored at hA
        split at hA
        · cases hA
        · simp only [Except.ok.injEq] at hA
          by_cases hb : b = .objectPrototype
          · subst hb
            obtain ⟨hp, hks, s, hs⟩ := hP hk path rfl
            subst hp
            subst hs
            rw [← hA]
            exact ⟨unseeded_setOwn _ k s hS.1 hks, hS.2.1, hS.2.2⟩
          · refine sound_frame acc _ L hS rfl ?_
            rw [← hA]
            exact setProps_objectPrototype _ b _ hb

theorem setComponent_sound (acc acc2 : Acc) (L : List KV) (s v : Str) (hS : acc.Sound L)
    (h : setComponent acc s v = .ok acc2) : acc2.Sound L := by
  unfold setComponent at h
  refine assignTo_sound acc acc2 L _ _ _ _ hS ?_ ?_ h
  · intro a _
    apply sound_mapEntry acc L a _ hS
    intro e _ he
    exact ⟨he.1, he.2.1, he.2.2⟩
  · intro _ path hp
    exact ⟨(readSub_prototype acc hS.1 s path hp).2, by decide, v, rfl⟩

theorem createRoutes_sound (acc acc2 : Acc) (L : List KV) (s : Str) (hS : acc.Sound L)
    (hs : s ≠ protoKey) (h : createRoutes acc s = .ok acc2) : acc2.Sound L := by
  unfold createRoutes at h
  refine assignTo_sound acc acc2 L _ _ _ _ hS ?_ ?_ h
  · intro a _
    apply sound_mapEntry acc L a _ hS
    intro e _ he
    refine ⟨he.1, he.2.1, ?_⟩
    intro d hd
    simp only [Option.some.injEq] at hd
    subst hd
    exact ⟨List.nodup_nil, fun r hr => by cases hr⟩
  · intro _ path hp
    exact absurd (readSub_prototype acc hS.1 s path hp).1 hs

theorem createRoute_sound (acc acc2 : Acc) (L : List KV) (s r : Str) (hS : acc.Sound L)
    (hr : ∃ kv ∈ routeLinesOf s L, routeIdOf kv = r)
    (h : createRoute acc s r = .ok acc2) : acc2.Sound L := by
  unfold createRoute at h
  cases h1 : readRoutes acc s with
  | error x =>
    rw [h1] at h
    cases h
  | ok routes =>
    rw [h1] at h
    simp only [] at h
    refine assignTo_sound acc acc2 L _ _ _ _ hS ?_ ?_ h
    · intro a ha
      rw [ha] at h1
      have hs := (readRoutes_own acc s a h1).1
      subst hs
      apply sound_mapEntry acc L a _ hS
      intro e _ he
      refine ⟨he.1, he.2.1, ?_⟩
      intro d hd
      cases he2 : e._routes with
      | none => simp [he2] at hd
      | some d0 =>
        simp only [he2, Option.map_some', Option.some.injEq] at hd
        subst hd
        refine ⟨nodup_setOwn _ _ _ (he.2.2 d0 he2).1, ?_⟩
        intro r2 hr2
        rcases (mem_keys_setOwn d0 r [] r2).1 hr2 with e1 | e1
        · rw [e1]
          exact hr
        · exact (he.2.2 d0 he2).2 r2 e1
    · intro _ path hp
      rw [hp] at h1
      exact absurd h1 (readRoutes_prototype acc hS.1 s path)

theorem setField_sound (acc acc2 : Acc) (L : List KV) (s r f v : Str) (hS : acc.Sound L)
    (hf : r = protoKey → f ∉ seedKeys)
    (h : setField acc s r f v = .ok acc2) : acc2.Sound L := by
  unfold setField at h
  cases h1 : readRoute acc s r with
  | error x =>
    rw [h1] at h
    cases h
  | ok route =>
    rw [h1] at h
    simp only [] at h
    refine assignTo_sound acc acc2 L _ _ _ _ hS ?_ ?_ h
    · intro a ha
      rw [ha] at h1
      have hs := (readRoute_own acc s r a h1).1
      subst hs
      apply sound_mapEntry acc L s _ hS
      intro e _ he
      refine ⟨he.1, he.2.1, ?_⟩
      intro d hd
      cases he2 : e._routes with
      | none => simp [he2] at hd
      | some d0 =>
        simp only [he2, Option.map_some', Option.some.injEq] at hd
        subst hd
        cases hg : getOwn d0 r with
        | none =>
          simp only []
          exact he.2.2 d0 he2
        | some record =>
          simp only []
          have hmem : r ∈ d0.map Prod.fst := by
            rw [← getOwn_isSome_iff, hg]
            rfl
          have hkeys : (setOwn d0 r (setOwn record f v)).map Prod.fst = d0.map Prod.fst := by
            rw [keys_setOwn, if_pos hmem]
          rw [hkeys]
          exact he.2.2 d0 he2
    · intro _ path hp
      rw [hp] at h1
      obtain ⟨hr, hpath⟩ := readRoute_prototype acc hS.1 s r path h1
      exact ⟨hpath, hf hr, v, rfl⟩

/-- Lines 123-127 keep the state sound, for a route line that does not
seed `Object.prototype`. -/
theorem assignRoute_sound (acc acc2 : Acc) (L : List KV) (kv : KV) (hS : acc.Sound L)
    (hkv : kv ∈ routeLinesOf (subdomainOf kv) L)
    (hs : subdomainOf kv ≠ protoKey)
    (hf : routeIdOf kv = protoKey → fieldOf kv ∉ seedKeys)
    (h : assignRoute acc (subdomainOf kv) (restOf kv) kv.2 = .ok acc2) : acc2.Sound L := by
  unfold assignRoute at h
  dsimp only at h
  have hrid : (restAt acc.realm (restOf kv) 1 "1".toList).getD undefinedKey = routeIdOf kv := by
    rw [restAt_unseeded acc.realm hS.1 _ _ _ (by decide)]
    rfl
  rw [hrid] at h
  cases h1 : readRoutes acc (subdomainOf kv) with
  | error x =>
    rw [h1] at h
    cases h
  | ok t2 =>
    rw [h1] at h
    dsimp only at h
    cases h2 : (if t2.truthy = true then Except.ok acc
        else createRoutes acc (subdomainOf kv)) with
    | error x =>
      rw [h2] at h
      cases h
    | ok acc1 =>
      rw [h2] at h
      dsimp only at h
      have hS1 : acc1.Sound L := by
        by_cases htr : t2.truthy = true
        · rw [if_pos htr] at h2
          cases h2
          exact hS
        · rw [if_neg htr] at h2
          exact createRoutes_sound acc acc1 L _ hS hs h2
      cases h3 : readRoute acc1 (subdomainOf kv) (routeIdOf kv) with
      | error x =>
        rw [h3] at h
        cases h
      | ok t3 =>
        rw [h3] at h
        dsimp only at h
        cases h4 : (if t3.truthy = true then Except.ok acc1
            else createRoute acc1 (subdomainOf kv) (routeIdOf kv)) with
        | error x =>
          rw [h4] at h
          cases h
        | ok acc3 =>
          rw [h4] at h
          dsimp only at h
          have hS3 : acc3.Sound L := by
            by_cases htr : t3.truthy = true
            · rw [if_pos htr] at h4
              cases h4
              exact hS1
            · rw [if_neg htr] at h4
              exact createRoute_sound acc1 acc3 L _ _ hS1 ⟨kv, hkv, rfl⟩ h4
          have hfld : (restAt acc3.realm (restOf kv) 2 "2".toList).getD undefinedKey
              = fieldOf kv := by
            rw [restAt_unseeded acc3.realm hS3.1 _ _ _ (by decide)]
            rfl
          rw [hfld] at h
          exact setField_sound acc3 acc2 L _ _ _ _ hS3 hf h

/-- Lines 119-128 keep the state sound, for a line that does not seed
`Object.prototype`. -/
theorem assignKey_sound (acc acc2 : Acc) (L : List KV) (kv : KV) (hS : acc.Sound L)
    (ht : isTopLevel kv = false) (hw : seedsRoutes kv = false)
    (h : assignKey acc kv.1 kv.2 = .ok acc2) : acc2.Sound (L ++ [kv]) := by
  have hS0 := sound_concat acc L kv hS
  unfold assignKey at h
  dsimp only at h
  have hsd : (splitAux '.' kv.1).1 = subdomainOf kv := rfl
  have hrs : (splitAux '.' kv.1).2 = restOf kv := rfl
  rw [hsd, hrs] at h
  generalize hacc1 : (if (readSub acc (subdomainOf kv)).truthy = true then acc
    else (⟨acc.baseURL, acc.container, setOwn acc.tempSubs (subdomainOf kv)
      ⟨subdomainOf kv, [], none, none⟩, acc.realm⟩ : Acc)) = acc1 at h
  have hS1 : acc1.Sound (L ++ [kv]) := by
    rw [← hacc1]
    split
    · exact hS0
    · exact sound_create acc (L ++ [kv]) (subdomainOf kv) hS0
  cases h1 : (if restAt acc1.realm (restOf kv) 0 "0".toList = some componentKey
      ∧ (restOf kv).length = 1
      then setComponent acc1 (subdomainOf kv) kv.2 else Except.ok acc1) with
  | error x =>
    rw [h1] at h
    cases h
  | ok acc3 =>
    rw [h1] at h
    dsimp only at h
    have hS3 : acc3.Sound (L ++ [kv]) := by
      split at h1
      · exact setComponent_sound acc1 acc3 _ _ _ hS1 h1
      · cases h1
        exact hS1
    rw [restAt_unseeded acc3.realm hS3.1 _ _ _ (by decide)] at h
    by_cases hr : isRouteLine kv = true
    · rw [if_pos ((isRouteLine_iff kv).1 hr)] at h
      have hw2 : (subdomainOf kv == protoKey ||
          (routeIdOf kv == protoKey && seedKeys.contains (fieldOf kv))) = false := by
        simpa [seedsRoutes, ht, hr] using hw
      rw [Bool.or_eq_false_iff] at hw2
      refine assignRoute_sound acc3 acc2 (L ++ [kv]) kv hS3
        (mem_routeLinesOf_last L kv ht hr) ?_ ?_ h
      · simpa using hw2.1
      · intro hrp
        have h3 := hw2.2
        rw [hrp] at h3
        simpa using h3
    · have hn : ¬ (restOf kv).get? 0 = some routesKey := fun e => hr ((isRouteLine_iff kv).2 e)
      rw [if_neg hn] at h
      cases h
      exact hS3

/-- An accepted line that does not seed `Object.prototype` keeps the state
sound. -/
theorem assign_sound (acc acc2 : Acc) (L : List KV) (kv : KV) (hS : acc.Sound L)
    (hw : seedsRoutes kv = false) (h : assign acc kv.1 kv.2 = .ok acc2) :
    acc2.Sound (L ++ [kv]) := by
  unfold assign at h
  split at h
  · cases h
  · by_cases hkb : kv.1 = baseURLKey
    · rw [if_pos hkb] at h
      cases h
      exact sound_frame acc _ _ (sound_concat acc L kv hS) rfl rfl
    · rw [if_neg hkb] at h
      by_cases hkc : kv.1 = containerKey
      · rw [if_pos hkc] at h
        cases h
        exact sound_frame acc _ _ (sound_concat acc L kv hS) rfl rfl
      · rw [if_neg hkc] at h
        have ht : isTopLevel kv = false := by simp [isTopLevel, hkb, hkc]
        exact assignKey_sound acc acc2 L kv hS ht hw h

/-- The loop keeps the state sound when no accepted line seeds
`Object.prototype`. -/
theorem runLines_sound (lines : List Str) (acc acc2 : Acc) (L : List KV) (hS : acc.Sound L)
    (hw : ∀ kv ∈ acceptedOf lines, seedsRoutes kv = false)
    (h : runLines acc lines = .ok acc2) : acc2.Sound (L ++ acceptedOf lines) := by
  induction lines generalizing acc L with
  | nil =>
    simp only [runLines, Except.ok.injEq] at h
    subst h
    simpa [acceptedOf] using hS
  | cons line lines ih =>
    unfold runLines at h
    split at h
    · cases h
    · unfold step at h
      cases hk : keyValue line with
      | none =>
        rw [hk] at h
        simp only [] at h
        have e : acceptedOf (line :: lines) = acceptedOf lines := by
          simp [acceptedOf, List.filterMap_cons, hk]
        rw [e] at hw ⊢
        exact ih acc L hS hw h
      | some kv =>
        rw [hk] at h
        simp only [] at h
        have e : acceptedOf (line :: lines) = kv :: acceptedOf lines := by
          simp [acceptedOf, List.filterMap_cons, hk]
        rw [e] at hw ⊢
        cases ha : assign acc kv.1 kv.2 with
        | error x =>
          rw [ha] at h
          cases h
        | ok acc1 =>
          rw [ha] at h
          simp only [] at h
          have h1 := assign_sound acc acc1 L kv hS (hw kv (by simp)) ha
          have h2 := ih acc1 (L ++ [kv]) h1 (fun q hq => hw q (by simp [hq])) h
          simpa using h2

theorem sound_init : Acc.init.Sound [] :=
  ⟨fun _ _ h => Option.noConfusion h, List.nodup_nil, fun _ _ h => Option.noConfusion h⟩

/-- Lines 132-135 on an entry of a sound state: the routes are the values
of a dictionary with distinct keys, each the route id of a route line of
the subdomain. -/
theorem finishEntry_sound (rl : Realm) (hu : rl.unseeded) (L : List KV) (k : Str) (e : TempSub)
    (he : TempSub.Sound L k e) :
    (finishEntry rl e).subdomain = k ∧
    ∃ records : Props RouteRecord, (records.map Prod.fst).Nodup ∧
      (∀ r ∈ records.map Prod.fst, ∃ kv ∈ routeLinesOf k L, routeIdOf kv = r) ∧
      (finishEntry rl e).routes = (objectValues records).map RouteValue.ofRecord := by
  obtain ⟨h1, h2, h3⟩ := he
  unfold finishEntry
  cases hd : e._routes with
  | some d => exact ⟨h1, d, (h3 d hd).1, (h3 d hd).2, rfl⟩
  | none =>
    simp only []
    cases hg : getOwn rl.objectPrototype routesField with
    | none => exact ⟨h1, [], List.nodup_nil, fun r hr => absurd hr (List.not_mem_nil r), h2⟩
    | some v => exact absurd (by decide) (hu routesField v hg).2

/-- An element of `Object.values(o)` is the value of a key of `o`. -/
theorem mem_objectValues {β : Type} (o : Props β) (hn : (o.map Prod.fst).Nodup) (v : β)
    (h : v ∈ objectValues o) : ∃ k, getOwn o k = some v := by
  unfold objectValues at h
  rw [List.mem_map] at h
  obtain ⟨p, hp, rfl⟩ := h
  exact ⟨p.1, getOwn_of_mem o p.1 p.2 hn ((ownEntries_perm o).mem_iff.1 hp)⟩

/-- Counterexample to claim C28: after a line that assigns `_routes` on
`Object.prototype`, or one of the indices `0`, `1`, `2` that `rest[i]`
reads there for a key with too few segments, the routes of an entry are
not those of its route lines.  After `__proto__.routes.r.f=1` the entry
`a`, for which no route line was seen, comes with the record `{f: "1"}`;
after `a.routes.__proto__._routes=xy` the entry `b` comes with the routes
`"x"`, `"y"`; after `a.routes.__proto__.0=routes` the key `__proto__`
acts as a route line and the entry `b` comes with a record; after
`a.routes.__proto__.2=_routes` the key `b.routes.__proto__` assigns
`_routes` and the entry `c` comes with the routes `"x"`, `"y"`; and with
`a.routes.__proto__.1` assigned twice the two lines `b.routes`, which
have one route id, make two records. -/
theorem parseProperties_stray_routes :
    parseProperties "__proto__.routes.r.f=1\na.component=c".toList
      = .ok ⟨none, none,
          [⟨"a".toList, some "c".toList, [.object [("f".toList, .str "1".toList)]]⟩]⟩ ∧
    routeLinesOf "a".toList (acceptedLines "__proto__.routes.r.f=1\na.component=c".toList)
      = [] ∧
    parseProperties "a.routes.__proto__._routes=xy\nb.component=c".toList
      = .ok ⟨none, none, [⟨"a".toList, none, []⟩,
          ⟨"b".toList, some "c".toList, [.text "x".toList, .text "y".toList]⟩]⟩ ∧
    routeLinesOf "b".toList
      (acceptedLines "a.routes.__proto__._routes=xy\nb.component=c".toList) = [] ∧
    parseProperties "a.routes.__proto__.0=routes\n__proto__=1\nb.component=c".toList
      = .ok ⟨none, none, [⟨"a".toList, none, []⟩,
          ⟨"b".toList, some "c".toList, [.object [(undefinedKey, .str "1".toList)]]⟩]⟩ ∧
    routeLinesOf "b".toList
      (acceptedLines "a.routes.__proto__.0=routes\n__proto__=1\nb.component=c".toList) = [] ∧
    parseProperties "a.routes.__proto__.2=_routes\nb.routes.__proto__=xy\nc.component=z".toList
      = .ok ⟨none, none, [⟨"a".toList, none, []⟩, ⟨"b".toList, none, []⟩,
          ⟨"c".toList, some "z".toList, [.text "x".toList, .text "y".toList]⟩]⟩ ∧
    routeLinesOf "c".toList (acceptedLines
      "a.routes.__proto__.2=_routes\nb.routes.__proto__=xy\nc.component=z".toList) = [] ∧
    parseProperties
        "a.routes.__proto__.1=r1\nb.routes=v\na.routes.__proto__.1=r2\nb.routes=w".toList
      = .ok ⟨none, none, [⟨"a".toList, none, []⟩,
          ⟨"b".toList, none, [.object [(undefinedKey, .str "v".toList)],
            .object [(undefinedKey, .str "w".toList)]]⟩]⟩ ∧
    (routeLinesOf "b".toList (acceptedLines
      "a.routes.__proto__.1=r1\nb.routes=v\na.routes.__proto__.1=r2\nb.routes=w".toList)).map
        routeIdOf = [undefinedKey, undefinedKey] := by
  decide

/-- Claim C28 as amended: on a text in which no accepted line assigns
`_routes` or one of the indices `0`, `1`, `2` on `Object.prototype` (see
`seedsRoutes`), the configuration `parseProperties` returns is well
formed.  The subdomain keys of its entries are pairwise distinct; the
routes of an entry for which no route line was seen are the empty
sequence; the entries are those that lines 131-137 push, none of which
has a property `_routes` of its own; and the routes of an entry are the
values of a dictionary of records with pairwise distinct keys, each key
the route id of a route line of that subdomain, so that there are no more
records than route ids. -/
theorem parseProperties_well_formed (text : Str) (cfg : Config)
    (hw : ∀ kv ∈ acceptedLines text, seedsRoutes kv = false)
    (h : parseProperties text = .ok cfg) :
    (cfg.subdomains.map fun e => e.subdomain).Nodup ∧
    (∀ e ∈ cfg.subdomains,
      routeLinesOf e.subdomain (acceptedLines text) = [] → e.routes = []) ∧
    (∃ acc, runLines Acc.init (keptLines text) = .ok acc ∧
      cfg.subdomains = (finishedEntries acc).map Subdomain.ofEntry ∧
      ∀ t ∈ finishedEntries acc, t._routes = none) ∧
    (∀ e ∈ cfg.subdomains, ∃ records : Props RouteRecord, (records.map Prod.fst).Nodup ∧
      (∀ r ∈ records.map Prod.fst,
        ∃ kv ∈ routeLinesOf e.subdomain (acceptedLines text), routeIdOf kv = r) ∧
      e.routes = (objectValues records).map RouteValue.ofRecord) ∧
    (∀ e ∈ cfg.subdomains,
      e.routes.length ≤
        (firstSeen ((routeLinesOf e.subdomain (acceptedLines text)).map routeIdOf)).length) := by
  have hrun : ∃ acc, runLines Acc.init (keptLines text) = .ok acc ∧ finish acc = .ok cfg := by
    unfold parseProperties parseLines at h
    cases hr : runLines Acc.init (keptLines text) with
    | error f => rw [hr] at h; exact Except.noConfusion h
    | ok acc =>
      rw [hr] at h
      exact ⟨acc, rfl, h⟩
  obtain ⟨acc, hacc, hfin⟩ := hrun
  have hS : acc.Sound (acceptedLines text) := by
    have := runLines_sound (keptLines text) Acc.init acc [] sound_init hw hacc
    simpa [acceptedLines] using this
  have hsubs : cfg.subdomains = (finishedEntries acc).map Subdomain.ofEntry := by
    unfold finish at hfin
    split at hfin
    · cases hfin
    · simp only [Except.ok.injEq] at hfin
      rw [← hfin]
  -- every entry of the result comes from a sound entry of `tempSubs`
  have hentry : ∀ e ∈ cfg.subdomains, ∃ k sub, TempSub.Sound (acceptedLines text) k sub ∧
      e = Subdomain.ofEntry (finishEntry acc.realm sub) := by
    intro e he
    rw [hsubs] at he
    unfold finishedEntries at he
    simp only [List.mem_map] at he
    obtain ⟨t, ⟨sub, hsub, rfl⟩, rfl⟩ := he
    obtain ⟨k, hk⟩ := mem_objectValues acc.tempSubs hS.2.1 sub hsub
    exact ⟨k, sub, hS.2.2 k sub hk, rfl⟩
  have hrecords : ∀ e ∈ cfg.subdomains, ∃ records : Props RouteRecord,
      (records.map Prod.fst).Nodup ∧
      (∀ r ∈ records.map Prod.fst,
        ∃ kv ∈ routeLinesOf e.subdomain (acceptedLines text), routeIdOf kv = r) ∧
      e.routes = (objectValues records).map RouteValue.ofRecord := by
    intro e he
    obtain ⟨k, sub, hsound, rfl⟩ := hentry e he
    obtain ⟨hk, records, h1, h2, h3⟩ := finishEntry_sound acc.realm hS.1 _ k sub hsound
    refine ⟨records, h1, ?_, h3⟩
    simp only [Subdomain.ofEntry, hk]
    exact h2
  refine ⟨?_, ?_, ⟨acc, hacc, hsubs, ?_⟩, hrecords, ?_⟩
  · rw [hsubs]
    unfold finishedEntries objectValues
    rw [List.map_map, List.map_map, List.map_map]
    have key : ∀ f : Str × TempSub → Str, (∀ p ∈ ownEntries acc.tempSubs, f p = p.1) →
        ((ownEntries acc.tempSubs).map f).Nodup := by
      intro f hf
      rw [List.map_congr_left hf]
      exact ((ownEntries_perm acc.tempSubs).map Prod.fst).nodup_iff.2 hS.2.1
    apply key
    intro p hp
    have hp2 : getOwn acc.tempSubs p.1 = some p.2 :=
      getOwn_of_mem _ p.1 p.2 hS.2.1 ((ownEntries_perm acc.tempSubs).mem_iff.1 hp)
    exact (finishEntry_sound acc.realm hS.1 _ p.1 p.2 (hS.2.2 p.1 p.2 hp2)).1
  · intro e he hno
    obtain ⟨records, _, h2, h3⟩ := hrecords e he
    have hnil : records = [] := by
      cases records with
      | nil => rfl
      | cons p ps =>
        obtain ⟨kv, hkv, _⟩ := h2 p.1 (by simp)
        rw [hno] at hkv
        cases hkv
    rw [h3, hnil]
    rfl
  · intro t ht
    unfold finishedEntries at ht
    rw [List.mem_map] at ht
    obtain ⟨sub, _, rfl⟩ := ht
    exact finishEntry_routes _ sub
  · intro e he
    obtain ⟨records, h1, h2, h3⟩ := hrecords e he
    have hlen : e.routes.length = (records.map Prod.fst).length := by
      rw [h3, List.length_map, List.length_map]
      unfold objectValues
      rw [List.length_map]
      exact (ownEntries_perm records).length_eq
    rw [hlen]
    apply (h1.subperm ?_).length_le
    intro r hr
    obtain ⟨kv, hkv, hkr⟩ := h2 r hr
    rw [mem_firstSeen, List.mem_map]
    exact ⟨kv, hkv, hkr⟩

/-- Witness of `parseProperties_well_formed`: the example resource of
section 6. -/
theorem parseProperties_well_formed_witness :
    (∀ kv ∈ acceptedLines exampleText, seedsRoutes kv = false) ∧
    parseProperties exampleText = .ok exampleConfig ∧
    (exampleConfig.subdomains.map fun e => e.subdomain).Nodup ∧
    (∃ acc, runLines Acc.init (keptLines exampleText) = .ok acc ∧
      exampleConfig.subdomains = (finishedEntries acc).map Subdomain.ofEntry ∧
      ∀ t ∈ finishedEntries acc, t._routes = none) :=
  ⟨by decide, rfl, (parseProperties_well_formed exampleText exampleConfig (by decide) rfl).1,
    (parseProperties_well_formed exampleText exampleConfig (by decide) rfl).2.2.1⟩

end SubdomainRouter
